import Mathlib

/-!
# MiniPNG: a verification development for `fgw_headers/minipng.cpp`

The codec of `minipng.cpp` (8-bit paletted, non-interlaced PNG) is embedded
function by function.  Conventions of the embedding:

* an `unsigned char` is a `Byte` (`Fin 256`); `toByte` is the implicit
  conversion to `unsigned char` (truncation to the low eight bits);
* a `MiniPNG_UInt32` is a `Nat`; the source only ever masks, shifts right and
  xors such values, and the places where 32-bit wrap-around can happen
  (`curChunk << 1`, `height_ - 1`, the `int` row counter) carry an explicit
  `% 2 ^ 32`;
* a `std::istream` is the list of bytes not yet read; a `std::ostream` is the
  list of bytes written so far together with its `good` flag;
* a thrown `MiniPNG::error` is a value of the enumeration `error`, one
  constructor per `throw` site, `error.message` giving the source text;
* a pointer to `const unsigned char` is the list of bytes from the pointee on;
* the zlib library (`zlib.h`, not part of the repository) is a parameter
  `ZLib`.
-/

namespace MiniPNG

/-! ## Bytes, errors and streams -/

/-- An `unsigned char`. -/
abbrev Byte := Fin 256

/-- Conversion of an integer value to `unsigned char`. -/
def toByte (n : Nat) : Byte := ⟨n % 256, Nat.mod_lt n (by decide)⟩

/-- The `throw error("...")` sites of `minipng.cpp`, one constructor each.
The last constructor is not a `throw`: it stands for the call through the
uninitialised `curFilter_` pointer in `ReadIDATChunk` (undefined behaviour in
the source), at which the model stops. -/
inductive error where
  | badStreamReadByte
  | badStreamWriteByte
  | deflateInitFailed
  | inflateInitFailed
  | deflateFailedCompress
  | deflateFailedCompressFinish
  | inflateFailedDecompress
  | badCRC
  | writerZeroWidth
  | writerZeroHeight
  | missingRequiredChunk
  | incompleteImageData
  | unexpectedSignature
  | chunkAfterIEND
  | duplicateChunk
  | outOfOrderChunk
  | chunkBeforeIHDR
  | zeroWidth
  | zeroHeight
  | unsupportedBitDepth
  | unsupportedColorType
  | unsupportedCompressionType
  | unsupportedFilterType
  | unsupportedInterlaceType
  | badPLTELength
  | tooManyPixels
  | nonAncilliaryChunk
  | uninitialisedFilter
  deriving DecidableEq, Repr

/-- The message carried by each thrown `error`. -/
def error.message : error → String
  | .badStreamReadByte => "Bad stream in ReadByte."
  | .badStreamWriteByte => "Bad stream in WriteByte."
  | .deflateInitFailed => "deflateInit failed in BufferdZLibStream::CompressInit."
  | .inflateInitFailed => "inflateInit failed in BufferedZLibStream::DecompressInit."
  | .deflateFailedCompress => "deflate failed in BufferedZLibStream::Compress."
  | .deflateFailedCompressFinish => "deflate failed in BufferedZLibStream::CompressFinish."
  | .inflateFailedDecompress => "inflate failed in BufferedZLibStream::Decompress."
  | .badCRC => "PNGChunkReader::end found bad CRC."
  | .writerZeroWidth => "PNGWriter found illegal (zero) width value."
  | .writerZeroHeight => "PNGWriter found illegal (zero) height value."
  | .missingRequiredChunk => "PNGReader: missing required chunk."
  | .incompleteImageData => "PNGReader: incomplete image data."
  | .unexpectedSignature => "Unexpected signature value in PNGReader::CheckSignature."
  | .chunkAfterIEND => "PngChunk::ReadChunk found chunk after IEND chunk."
  | .duplicateChunk => "PNGReader::ProcessChunksRead found duplicate chunk."
  | .outOfOrderChunk => "PNGReader::ProcessChunksRead found out-of-order chunk."
  | .chunkBeforeIHDR => "PNGReader::ProcessChunksRead found a chunk before the IHDR chunk."
  | .zeroWidth => "PNGReader::ReadIHDRChunk got 0 width."
  | .zeroHeight => "PNGReader::ReadIHDRChunk got 0 height."
  | .unsupportedBitDepth => "ReadIHDRChunk detected unsupported bit depth."
  | .unsupportedColorType => "ReadIHDRChunk detected unsupported color type."
  | .unsupportedCompressionType => "ReadIHDRChunk detected unsupported compression type."
  | .unsupportedFilterType => "ReadIHDRChunk detected unsupported filter type."
  | .unsupportedInterlaceType => "ReadIHDRChunk detected unsupported interlace type."
  | .badPLTELength => "PNGReader::ReadPLTEChunk detected bad PLTE chunk length."
  | .tooManyPixels => "PNGWriter::ReadIDATChunk found too many pixels."
  | .nonAncilliaryChunk => "PNGReader::ReadUnknownChunk detected non-ancilliary chunk."
  | .uninitialisedFilter => "(undefined behaviour: curFilter_ used before it was set)"

/-- A `std::istream` opened on an in-memory byte sequence: the bytes not yet
read. -/
abbrev IStream := List Byte

/-- A `std::ostream` collecting its output in memory: the bytes written so
far and the state tested by `if (!stm)`. -/
structure OStream where
  bytes : List Byte
  good : Bool
  deriving DecidableEq, Repr

/-- This 8 byte signature appears at the start of every PNG file. -/
def PngSignature : List Byte := [137, 80, 78, 71, 13, 10, 26, 10]

def IHDRChunkLength : Nat := 13
def IENDChunkLength : Nat := 0

def BitDepth : Byte := 8
def ColorType : Byte := 3
def CompressionType : Byte := 0
def FilterType : Byte := 0
def InterlaceType : Byte := 0

/-- `ReadByte`: one byte off the stream, or the bad-stream error at end of
input. -/
def ReadByte : IStream → Except error (Byte × IStream)
  | [] => .error .badStreamReadByte
  | c :: stm => .ok (c, stm)

/-- `WriteByte`: fails on a stream that is not good, otherwise appends the
byte. -/
def WriteByte (stm : OStream) (byte : Byte) : Except error OStream :=
  if !stm.good then .error .badStreamWriteByte
  else .ok { stm with bytes := stm.bytes ++ [byte] }

/-- `ReadUInt32`: four bytes, most significant first. -/
def ReadUInt32 (stm : IStream) : Except error (Nat × IStream) :=
  match ReadByte stm with
  | .error e => .error e
  | .ok (b0, stm) =>
    match ReadByte stm with
    | .error e => .error e
    | .ok (b1, stm) =>
      match ReadByte stm with
      | .error e => .error e
      | .ok (b2, stm) =>
        match ReadByte stm with
        | .error e => .error e
        | .ok (b3, stm) =>
          .ok ((b0.val <<< 24) ||| (b1.val <<< 16) ||| (b2.val <<< 8) ||| b3.val, stm)

/-- `WriteUInt32`: the four bytes of `ui`, most significant first. -/
def WriteUInt32 (stm : OStream) (ui : Nat) : Except error OStream :=
  match WriteByte stm (toByte ((ui &&& 0xFF000000) >>> 24)) with
  | .error e => .error e
  | .ok stm =>
    match WriteByte stm (toByte ((ui &&& 0x00FF0000) >>> 16)) with
    | .error e => .error e
    | .ok stm =>
      match WriteByte stm (toByte ((ui &&& 0x0000FF00) >>> 8)) with
      | .error e => .error e
      | .ok stm => WriteByte stm (toByte (ui &&& 0x000000FF))

/-- `WriteBuffer`: the bytes of the buffer, one `WriteByte` each. -/
def WriteBuffer (stm : OStream) : List Byte → Except error OStream
  | [] => .ok stm
  | b :: buf =>
    match WriteByte stm b with
    | .error e => .error e
    | .ok stm => WriteBuffer stm buf

/-- `ReadBuffer`: `len` bytes, one `ReadByte` each. -/
def ReadBuffer (stm : IStream) : Nat → Except error (List Byte × IStream)
  | 0 => .ok ([], stm)
  | len + 1 =>
    match ReadByte stm with
    | .error e => .error e
    | .ok (b, stm) =>
      match ReadBuffer stm len with
      | .error e => .error e
      | .ok (buf, stm) => .ok (b :: buf, stm)

/-! ## PNGChunkType -/

/-- Abstraction of a 4 byte PNG chunk type code. -/
structure PNGChunkType where
  value_ : Nat
  deriving DecidableEq, Repr

def PNGChunkType.GetValue (t : PNGChunkType) : Nat := t.value_

/-- `PNGChunkType(const char*)`: the type as a 4 character string. -/
def PNGChunkType.ofChars (t0 t1 t2 t3 : Char) : PNGChunkType :=
  ⟨(t0.toNat <<< 24) ||| (t1.toNat <<< 16) ||| (t2.toNat <<< 8) ||| t3.toNat⟩

def IHDRChunkType : PNGChunkType := PNGChunkType.ofChars 'I' 'H' 'D' 'R'
def PLTEChunkType : PNGChunkType := PNGChunkType.ofChars 'P' 'L' 'T' 'E'
def IDATChunkType : PNGChunkType := PNGChunkType.ofChars 'I' 'D' 'A' 'T'
def IENDChunkType : PNGChunkType := PNGChunkType.ofChars 'I' 'E' 'N' 'D'

/-! ## CRCCalculator -/

/-- One pass of the inner loop of the table initialisation in the
`CRCCalculator` constructor. -/
def CRCCalculator.tableStep (c : Nat) : Nat :=
  if c &&& 1 ≠ 0 then 0xEDB88320 ^^^ (c >>> 1) else c >>> 1

/-- The loop `for (k = 0; k < 8; ++k)` of the table initialisation, run `k`
times. -/
def CRCCalculator.tableLoop : Nat → Nat → Nat
  | 0, c => c
  | k + 1, c => CRCCalculator.tableLoop k (CRCCalculator.tableStep c)

def CRCCalculator.TableEntryCount : Nat := 256

/-- The static lookup table `table_`, as the constructor fills it. -/
def CRCCalculator.table_ : List Nat :=
  (List.range CRCCalculator.TableEntryCount).map (fun n => CRCCalculator.tableLoop 8 n)

/-- The state of a `CRCCalculator`: its running CRC. -/
structure CRCCalculator where
  runningCRC_ : Nat
  deriving DecidableEq, Repr

namespace CRCCalculator

/-- The constructor: the running CRC starts at all ones. -/
def new : CRCCalculator := ⟨0xFFFFFFFF⟩

/-- The body of the `while (buf != lim)` loop of `Append`. -/
def step (c : Nat) (b : Byte) : Nat :=
  table_.getD ((c ^^^ b.val) &&& 0xFF) 0 ^^^ (c >>> 8)

/-- `Append(buf, len)`: append a buffer section to the CRC. -/
def Append (crc : CRCCalculator) (buf : List Byte) : CRCCalculator :=
  ⟨buf.foldl step crc.runningCRC_⟩

/-- `Append(MiniPNG_UInt32)`: the 4 bytes of `val` in network byte order. -/
def AppendUInt32 (crc : CRCCalculator) (val : Nat) : CRCCalculator :=
  crc.Append [toByte ((val &&& 0xFF000000) >>> 24), toByte ((val &&& 0x00FF0000) >>> 16),
    toByte ((val &&& 0x0000FF00) >>> 8), toByte (val &&& 0x000000FF)]

/-- `Append(unsigned char)`: a single byte. -/
def AppendByte (crc : CRCCalculator) (val : Byte) : CRCCalculator :=
  crc.Append [val]

/-- `GetCRC`: the current cyclic redundancy check. -/
def GetCRC (crc : CRCCalculator) : Nat := crc.runningCRC_ ^^^ 0xFFFFFFFF

end CRCCalculator

/-! ### The reference CRC-32

The bit-by-bit reflected CRC-32, written from its usual description: the
register starts at `0xFFFFFFFF`; each byte is xored into its low end and the
register is then shifted right eight times, the polynomial `0xEDB88320`
being xored in whenever the bit shifted out is set; the result is the
register xored with `0xFFFFFFFF`. -/

/-- One bit of the reflected CRC-32 division. -/
def crc32Bit (c : Nat) : Nat :=
  if c % 2 = 1 then (c / 2) ^^^ 0xEDB88320 else c / 2

/-- One byte of the bit-by-bit CRC-32. -/
def crc32Byte (c : Nat) (b : Byte) : Nat := crc32Bit^[8] (c ^^^ b.val)

/-- The CRC-32 register after the bytes `bs`. -/
def crc32Register (bs : List Byte) : Nat := bs.foldl crc32Byte 0xFFFFFFFF

/-- The standard CRC-32 of a byte sequence, computed bit by bit. -/
def crc32 (bs : List Byte) : Nat := crc32Register bs ^^^ 0xFFFFFFFF

/-- The four bytes of a 32-bit value, most significant first. -/
def bigEndian32 (v : Nat) : List Byte :=
  [toByte (v / 2 ^ 24), toByte (v / 2 ^ 16), toByte (v / 2 ^ 8), toByte v]

/-- A chunk as it stands in a PNG stream: the payload length, the type code,
the payload and the CRC-32 of type code and payload, integers most
significant byte first. -/
def sealedChunk (type : Nat) (payload : List Byte) : List Byte :=
  bigEndian32 payload.length ++ bigEndian32 type ++ payload ++
    bigEndian32 (crc32 (bigEndian32 type ++ payload))

/-! ## PNGChunkWriter and PNGChunkReader -/

/-- The members of a `PNGChunkWriter`; `stm_` is the stream it writes to. -/
structure PNGChunkWriter where
  stm_ : OStream
  length_ : Nat
  crcCalc_ : CRCCalculator
  deriving DecidableEq, Repr

namespace PNGChunkWriter

/-- The constructor. -/
def new (stm : OStream) (length : Nat) (chunkType : PNGChunkType) :
    Except error PNGChunkWriter :=
  match WriteUInt32 stm length with
  | .error e => .error e
  | .ok stm =>
    match WriteUInt32 stm chunkType.GetValue with
    | .error e => .error e
    | .ok stm => .ok ⟨stm, length, CRCCalculator.new.AppendUInt32 chunkType.GetValue⟩

/-- The member `operator<<(unsigned char)`. -/
def putByte (w : PNGChunkWriter) (byte : Byte) : Except error PNGChunkWriter :=
  match WriteByte w.stm_ byte with
  | .error e => .error e
  | .ok stm => .ok { w with stm_ := stm, crcCalc_ := w.crcCalc_.AppendByte byte }

/-- The member `operator<<(MiniPNG_UInt32)`. -/
def putUInt32 (w : PNGChunkWriter) (ui : Nat) : Except error PNGChunkWriter :=
  match WriteUInt32 w.stm_ ui with
  | .error e => .error e
  | .ok stm => .ok { w with stm_ := stm, crcCalc_ := w.crcCalc_.AppendUInt32 ui }

/-- The member `Write(buf, len)`. -/
def Write (w : PNGChunkWriter) (buf : List Byte) (len : Nat) : Except error PNGChunkWriter :=
  match WriteBuffer w.stm_ (buf.take len) with
  | .error e => .error e
  | .ok stm => .ok { w with stm_ := stm, crcCalc_ := w.crcCalc_.Append (buf.take len) }

/-- The member `End()`: writes the CRC; the stream is handed back. -/
def End (w : PNGChunkWriter) : Except error OStream :=
  WriteUInt32 w.stm_ w.crcCalc_.GetCRC

end PNGChunkWriter

/-- The members of a `PNGChunkReader`; `stm_` is the stream it reads from. -/
structure PNGChunkReader where
  stm_ : IStream
  length_ : Nat
  type_ : PNGChunkType
  crcCalc_ : CRCCalculator
  deriving DecidableEq, Repr

namespace PNGChunkReader

/-- The constructor. -/
def new (stm : IStream) : Except error PNGChunkReader :=
  match ReadUInt32 stm with
  | .error e => .error e
  | .ok (length, stm) =>
    match ReadUInt32 stm with
    | .error e => .error e
    | .ok (type, stm) => .ok ⟨stm, length, ⟨type⟩, CRCCalculator.new.AppendUInt32 type⟩

def GetLength (r : PNGChunkReader) : Nat := r.length_

def GetType (r : PNGChunkReader) : PNGChunkType := r.type_

def IsAncilliary (r : PNGChunkReader) : Bool :=
  0x20000000 == (r.type_.GetValue &&& 0x20000000)

/-- The member `operator>>(unsigned char&)`. -/
def getByte (r : PNGChunkReader) : Except error (Byte × PNGChunkReader) :=
  match ReadByte r.stm_ with
  | .error e => .error e
  | .ok (byte, stm) => .ok (byte, { r with stm_ := stm, crcCalc_ := r.crcCalc_.AppendByte byte })

/-- The member `operator>>(MiniPNG_UInt32&)`. -/
def getUInt32 (r : PNGChunkReader) : Except error (Nat × PNGChunkReader) :=
  match ReadUInt32 r.stm_ with
  | .error e => .error e
  | .ok (ui, stm) => .ok (ui, { r with stm_ := stm, crcCalc_ := r.crcCalc_.AppendUInt32 ui })

/-- The member `Read(buf, len)`. -/
def Read (r : PNGChunkReader) (len : Nat) : Except error (List Byte × PNGChunkReader) :=
  match ReadBuffer r.stm_ len with
  | .error e => .error e
  | .ok (buf, stm) => .ok (buf, { r with stm_ := stm, crcCalc_ := r.crcCalc_.Append buf })

/-- The member `End()`: reads the stored CRC and compares; the stream is
handed back. -/
def End (r : PNGChunkReader) : Except error IStream :=
  match ReadUInt32 r.stm_ with
  | .error e => .error e
  | .ok (fileCrc, stm) =>
    if fileCrc ≠ r.crcCalc_.GetCRC then .error .badCRC else .ok stm

end PNGChunkReader

/-- One payload item of a chunk, as written by one call of `operator<<` or
`Write` and read back by one call of `operator>>` or `Read`. -/
inductive ChunkItem where
  | byte (b : Byte)
  | uint32 (ui : Nat)
  | buffer (buf : List Byte)
  deriving DecidableEq, Repr

/-- The payload bytes an item stands for. -/
def ChunkItem.bytes : ChunkItem → List Byte
  | .byte b => [b]
  | .uint32 ui => bigEndian32 ui
  | .buffer buf => buf

/-- The payload bytes of a sequence of items. -/
def ChunkItem.payload : List ChunkItem → List Byte
  | [] => []
  | i :: is => i.bytes ++ ChunkItem.payload is

/-- An item is representable when its 32-bit value fits 32 bits. -/
def ChunkItem.Fits : ChunkItem → Prop
  | .uint32 ui => ui < 2 ^ 32
  | _ => True

/-- The 32-bit value of four bytes, most significant first. -/
def uint32OfBytes (b0 b1 b2 b3 : Byte) : Nat :=
  b0.val * 2 ^ 24 + b1.val * 2 ^ 16 + b2.val * 2 ^ 8 + b3.val

/-- The kind of call that reads an item back. -/
inductive ChunkItemKind where
  | byte
  | uint32
  | buffer (len : Nat)
  deriving DecidableEq, Repr

/-- The number of payload bytes a call of the kind takes off the stream. -/
def ChunkItemKind.size : ChunkItemKind → Nat
  | .byte => 1
  | .uint32 => 4
  | .buffer len => len

/-- The number of payload bytes a sequence of calls takes off the stream. -/
def ChunkItemKind.totalSize : List ChunkItemKind → Nat
  | [] => 0
  | k :: ks => k.size + ChunkItemKind.totalSize ks

def ChunkItem.kind : ChunkItem → ChunkItemKind
  | .byte _ => .byte
  | .uint32 _ => .uint32
  | .buffer buf => .buffer buf.length

/-- Any mix of `operator<<` and `Write` calls on a chunk writer, in order. -/
def PNGChunkWriter.putItems (w : PNGChunkWriter) : List ChunkItem → Except error PNGChunkWriter
  | [] => .ok w
  | .byte b :: is =>
    match w.putByte b with
    | .error e => .error e
    | .ok w => w.putItems is
  | .uint32 ui :: is =>
    match w.putUInt32 ui with
    | .error e => .error e
    | .ok w => w.putItems is
  | .buffer buf :: is =>
    match w.Write buf buf.length with
    | .error e => .error e
    | .ok w => w.putItems is

/-- A whole chunk through the writer: constructor, the items, `End`. -/
def PNGChunkWriter.writeChunk (stm : OStream) (length : Nat) (chunkType : PNGChunkType)
    (items : List ChunkItem) : Except error OStream :=
  match PNGChunkWriter.new stm length chunkType with
  | .error e => .error e
  | .ok w =>
    match w.putItems items with
    | .error e => .error e
    | .ok w => w.End

/-- Any mix of `operator>>` and `Read` calls on a chunk reader, in order. -/
def PNGChunkReader.getItems (r : PNGChunkReader) :
    List ChunkItemKind → Except error (List ChunkItem × PNGChunkReader)
  | [] => .ok ([], r)
  | .byte :: ks =>
    match r.getByte with
    | .error e => .error e
    | .ok (b, r) =>
      match r.getItems ks with
      | .error e => .error e
      | .ok (is, r) => .ok (.byte b :: is, r)
  | .uint32 :: ks =>
    match r.getUInt32 with
    | .error e => .error e
    | .ok (ui, r) =>
      match r.getItems ks with
      | .error e => .error e
      | .ok (is, r) => .ok (.uint32 ui :: is, r)
  | .buffer len :: ks =>
    match r.Read len with
    | .error e => .error e
    | .ok (buf, r) =>
      match r.getItems ks with
      | .error e => .error e
      | .ok (is, r) => .ok (.buffer buf :: is, r)

/-! ## The zlib parameter, Compressor and Decompressor -/

/-- The zlib library, which the repository links against but does not
contain.  `BufferedZLibStream` drives it through loops that hand it the
whole source buffer and enlarge the destination buffer on demand; the
parameter gives the net effect of each such loop.

* `deflateInit`, `inflateInit`: the stream state when the call returns
  `Z_OK`, `none` otherwise;
* `deflate s src`: the calls `deflate(&zStm_, Z_NO_FLUSH)` made by
  `Compress(src, len)` until `avail_in` is 0: `none` when one of them returns
  a status other than `Z_OK`, otherwise the new state and the bytes emitted;
* `deflateFinish s`: the calls `deflate(&zStm_, Z_FINISH)` made by
  `CompressFinish` until `Z_STREAM_END`: `none` on any status other than
  `Z_OK` and `Z_STREAM_END`;
* `inflate s src`: the calls `inflate(&zStm_, Z_NO_FLUSH)` made by
  `Decompress(src, len)` until `avail_in` is 0 or `Z_STREAM_END`: `none` on
  any other status. -/
structure ZLib where
  DeflateState : Type
  InflateState : Type
  deflateInit : Option DeflateState
  inflateInit : Option InflateState
  deflate : DeflateState → List Byte → Option (DeflateState × List Byte)
  deflateFinish : DeflateState → Option (DeflateState × List Byte)
  inflate : InflateState → List Byte → Option (InflateState × List Byte)

/-- A `Compressor`: a `BufferedZLibStream` in compress mode.  `dst` is the
content of `dstBuffer_` below `writeOffset_`. -/
structure Compressor (z : ZLib) where
  dst : List Byte
  zStm_ : z.DeflateState

namespace Compressor

variable {z : ZLib}

/-- The constructor, which calls `CompressInit`. -/
def new (z : ZLib) : Except error (Compressor z) :=
  match z.deflateInit with
  | none => .error .deflateInitFailed
  | some s => .ok ⟨[], s⟩

/-- `Compress(srcBuffer, len)`. -/
def Compress (c : Compressor z) (srcBuffer : List Byte) (len : Nat) :
    Except error (Compressor z) :=
  match z.deflate c.zStm_ (srcBuffer.take len) with
  | none => .error .deflateFailedCompress
  | some (s, out) => .ok ⟨c.dst ++ out, s⟩

/-- `Compress(unsigned char)`: compress a single character. -/
def CompressByte (c : Compressor z) (src : Byte) : Except error (Compressor z) :=
  c.Compress [src] 1

/-- `Finish()`. -/
def Finish (c : Compressor z) : Except error (Compressor z) :=
  match z.deflateFinish c.zStm_ with
  | none => .error .deflateFailedCompressFinish
  | some (s, out) => .ok ⟨c.dst ++ out, s⟩

def GetDstLength (c : Compressor z) : Nat := c.dst.length

def GetDstPtr (c : Compressor z) : List Byte := c.dst

def ClearDst (c : Compressor z) : Compressor z := { c with dst := [] }

end Compressor

/-- A `Decompressor`: a `BufferedZLibStream` in decompress mode. -/
structure Decompressor (z : ZLib) where
  dst : List Byte
  zStm_ : z.InflateState

namespace Decompressor

variable {z : ZLib}

/-- The constructor, which calls `DecompressInit`. -/
def new (z : ZLib) : Except error (Decompressor z) :=
  match z.inflateInit with
  | none => .error .inflateInitFailed
  | some s => .ok ⟨[], s⟩

/-- `Decompress(srcBuffer, len)`. -/
def Decompress (d : Decompressor z) (srcBuffer : List Byte) (len : Nat) :
    Except error (Decompressor z) :=
  match z.inflate d.zStm_ (srcBuffer.take len) with
  | none => .error .inflateFailedDecompress
  | some (s, out) => .ok ⟨d.dst ++ out, s⟩

def GetDstLength (d : Decompressor z) : Nat := d.dst.length

def GetDstPtr (d : Decompressor z) : List Byte := d.dst

def ClearDst (d : Decompressor z) : Decompressor z := { d with dst := [] }

end Decompressor

/-! ## Filters -/

/-- Dereferencing a pointer into a scanline buffer. -/
def deref (p : List Byte) : Byte := p.headD 0

/-- Filter Type 1: Sub. -/
structure SubFilter where
  leftRaw_ : Byte
  deriving DecidableEq, Repr

def SubFilter.BeginScanline (_ : SubFilter) (_ : Option (List Byte)) : SubFilter :=
  { leftRaw_ := 0 }

def SubFilter.Unfilter (f : SubFilter) (filtered : Byte) : Byte × SubFilter :=
  let raw := toByte ((filtered.val + f.leftRaw_.val) &&& 0xFF)
  (raw, { leftRaw_ := raw })

/-- Filter Type 2: Up.  `aboveRaw_` is `none` for the NULL pointer. -/
structure UpFilter where
  aboveRaw_ : Option (List Byte)
  deriving DecidableEq, Repr

def UpFilter.BeginScanline (_ : UpFilter) (prior : Option (List Byte)) : UpFilter :=
  { aboveRaw_ := prior }

def UpFilter.Unfilter (f : UpFilter) (filtered : Byte) : Byte × UpFilter :=
  match f.aboveRaw_ with
  | some above => (toByte ((filtered.val + (deref above).val) &&& 0xFF),
      { aboveRaw_ := some above.tail })
  | none => (filtered, f)

/-- Filter Type 3: Average. -/
structure AverageFilter where
  aboveRaw_ : Option (List Byte)
  leftRaw_ : Byte
  deriving DecidableEq, Repr

def AverageFilter.BeginScanline (_ : AverageFilter) (prior : Option (List Byte)) :
    AverageFilter :=
  { aboveRaw_ := prior, leftRaw_ := 0 }

def AverageFilter.Unfilter (f : AverageFilter) (filtered : Byte) : Byte × AverageFilter :=
  let prior : Byte := match f.aboveRaw_ with
    | some above => deref above
    | none => 0
  let aboveRaw := f.aboveRaw_.map List.tail
  let raw := toByte (0xFF &&& (filtered.val + ((f.leftRaw_.val + prior.val) >>> 1)))
  (raw, { aboveRaw_ := aboveRaw, leftRaw_ := raw })

/-- Filter Type 4: Paeth. -/
structure PaethFilter where
  aboveRaw_ : Option (List Byte)
  aboveLeftRaw_ : Option (List Byte)
  leftRaw_ : Byte
  deriving DecidableEq, Repr

/-- `PaethPredictor`, on `int`. -/
def PaethFilter.PaethPredictor (left above aboveLeft : Int) : Int :=
  let initialEstimate := left + above - aboveLeft
  let leftDistance := |initialEstimate - left|
  let aboveDistance := |initialEstimate - above|
  let aboveLeftDistance := |initialEstimate - aboveLeft|
  if leftDistance ≤ aboveDistance ∧ leftDistance ≤ aboveLeftDistance then left
  else if aboveDistance ≤ aboveLeftDistance then above
  else aboveLeft

def PaethFilter.BeginScanline (_ : PaethFilter) (prior : Option (List Byte)) : PaethFilter :=
  { leftRaw_ := 0, aboveRaw_ := prior, aboveLeftRaw_ := none }

def PaethFilter.Unfilter (f : PaethFilter) (filtered : Byte) : Byte × PaethFilter :=
  let aboveLeft : Byte := match f.aboveLeftRaw_ with
    | some p => deref p
    | none => 0
  let above : Byte := match f.aboveRaw_ with
    | some p => deref p
    | none => 0
  let aboveLeftRaw := match f.aboveRaw_ with
    | some p => some p
    | none => f.aboveLeftRaw_
  let aboveRaw := f.aboveRaw_.map List.tail
  let raw := toByte (((filtered.val : Int) +
    PaethFilter.PaethPredictor f.leftRaw_.val above.val aboveLeft.val) % 256).toNat
  (raw, { aboveRaw_ := aboveRaw, aboveLeftRaw_ := aboveLeftRaw, leftRaw_ := raw })

/-- The filter objects of a `PNGReader` that `curFilter_` can point to. -/
inductive FilterKind where
  | passThru
  | sub
  | up
  | average
  | paeth
  deriving DecidableEq, Repr

/-- Filter identification codes. -/
def PassThruFilterCode : Nat := 0
def SubFilterCode : Nat := 1
def UpFilterCode : Nat := 2
def AverageFilterCode : Nat := 3
def PaethFilterCode : Nat := 4

/-! ## Images -/

/-- Basic image information: width and height, in pixels. -/
structure ImageInfo where
  width_ : Nat
  height_ : Nat
  deriving DecidableEq, Repr

def ImageInfo.GetWidth (i : ImageInfo) : Nat := i.width_
def ImageInfo.GetHeight (i : ImageInfo) : Nat := i.height_

structure PaletteEntry where
  red : Byte
  green : Byte
  blue : Byte
  deriving DecidableEq, Repr

/-- A call the decoder makes on the `WritableImage` it loads into.
`SetScanline` carries the bytes of the buffer its pointer argument points
to. -/
inductive WritableImageCall where
  | BeginWrite
  | SetImageInfo (info : ImageInfo)
  | SetPaletteEntry (index : Nat) (entry : PaletteEntry)
  | SetScanline (y : Nat) (src : List Byte)
  | EndWrite (success : Bool)
  deriving DecidableEq, Repr

/-- The image an encoder saves: what its `ReadableImage` answers.
`GetScanline y` is the memory its returned pointer points to. -/
structure ReadableImage where
  GetImageInfo : ImageInfo
  GetPaletteEntry : Nat → PaletteEntry
  GetScanline : Nat → List Byte

/-- A call the encoder makes on the `ReadableImage` it saves. -/
inductive ReadableImageCall where
  | BeginRead
  | GetImageInfo
  | GetPaletteEntry (index : Nat)
  | GetScanline (y : Nat)
  | EndRead (success : Bool)
  deriving DecidableEq, Repr

/-! ## PNGWriter -/

/-- The members of a `PNGWriter`.  `calls_` records the calls made on
`image_` so far. -/
structure PNGWriter where
  stm_ : OStream
  image_ : ReadableImage
  calls_ : List ReadableImageCall
  width_ : Nat
  height_ : Nat

/-- What a save leaves behind: the output stream, the calls made on the
image, and the error thrown, if any. -/
structure SaveOutcome where
  stm : OStream
  image : List ReadableImageCall
  thrown : Option error
  deriving DecidableEq, Repr

namespace PNGWriter

/-- An exception leaving a member function: the error and the writer as it
was when the error was thrown. -/
abbrev Result := Except (error × PNGWriter) PNGWriter

def WriteSignature (w : PNGWriter) : Result :=
  match WriteBuffer w.stm_ PngSignature with
  | .error e => .error (e, w)
  | .ok stm => .ok { w with stm_ := stm }

def WriteIHDRChunk (w : PNGWriter) : Result :=
  match PNGChunkWriter.writeChunk w.stm_ IHDRChunkLength IHDRChunkType
      [.uint32 w.width_, .uint32 w.height_, .byte BitDepth, .byte ColorType,
        .byte CompressionType, .byte FilterType, .byte InterlaceType] with
  | .error e => .error (e, w)
  | .ok stm => .ok { w with stm_ := stm }

/-- The loop of `WritePLTEChunk`: `n` more entries, starting at index `i`. -/
def WritePLTEChunk.loop : Nat → Nat → PNGChunkWriter → PNGWriter →
    Except (error × PNGWriter) (PNGChunkWriter × PNGWriter)
  | 0, _, writer, w => .ok (writer, w)
  | n + 1, i, writer, w =>
    let entry := w.image_.GetPaletteEntry i
    let w := { w with calls_ := w.calls_ ++ [.GetPaletteEntry i] }
    match writer.putItems [.byte entry.red, .byte entry.green, .byte entry.blue] with
    | .error e => .error (e, w)
    | .ok writer => WritePLTEChunk.loop n (i + 1) writer w

def WritePLTEChunk (w : PNGWriter) : Result :=
  let chunkLength := 3 * 256
  match PNGChunkWriter.new w.stm_ chunkLength PLTEChunkType with
  | .error e => .error (e, w)
  | .ok writer =>
    match WritePLTEChunk.loop 256 0 writer w with
    | .error t => .error t
    | .ok (writer, w) =>
      match writer.End with
      | .error e => .error (e, w)
      | .ok stm => .ok { w with stm_ := stm }

/-- The loop of `WriteIDATChunks`: `n` more scanlines, starting at row `y`. -/
def WriteIDATChunks.loop {z : ZLib} : Nat → Nat → Compressor z → PNGWriter → Result
  | 0, _, _, w => .ok w
  | n + 1, y, compressor, w =>
    let curPixel := w.image_.GetScanline y
    let w := { w with calls_ := w.calls_ ++ [.GetScanline y] }
    match compressor.CompressByte 0 with
    | .error e => .error (e, w)
    | .ok compressor =>
      match compressor.Compress curPixel w.width_ with
      | .error e => .error (e, w)
      | .ok compressor =>
        match (if y = w.height_ - 1 then compressor.Finish else .ok compressor) with
        | .error e => .error (e, w)
        | .ok compressor =>
          if compressor.GetDstLength ≠ 0 then
            match PNGChunkWriter.new w.stm_ compressor.GetDstLength IDATChunkType with
            | .error e => .error (e, w)
            | .ok writer =>
              match writer.Write compressor.GetDstPtr compressor.GetDstLength with
              | .error e => .error (e, w)
              | .ok writer =>
                match writer.End with
                | .error e => .error (e, w)
                | .ok stm =>
                  WriteIDATChunks.loop n (y + 1) compressor.ClearDst { w with stm_ := stm }
          else WriteIDATChunks.loop n (y + 1) compressor w

def WriteIDATChunks (z : ZLib) (w : PNGWriter) : Result :=
  match Compressor.new z with
  | .error e => .error (e, w)
  | .ok compressor => WriteIDATChunks.loop w.height_ 0 compressor w

def WriteIENDChunk (w : PNGWriter) : Result :=
  match PNGChunkWriter.writeChunk w.stm_ IENDChunkLength IENDChunkType [] with
  | .error e => .error (e, w)
  | .ok stm => .ok { w with stm_ := stm }

/-- The body of `operator()` between the construction of the sentry and
`EndSuccessfulRead`. -/
def body (z : ZLib) (w : PNGWriter) : Result :=
  let info := w.image_.GetImageInfo
  let w := { w with calls_ := w.calls_ ++ [.GetImageInfo],
                    width_ := info.GetWidth, height_ := info.GetHeight }
  if w.width_ = 0 then .error (.writerZeroWidth, w)
  else if w.height_ = 0 then .error (.writerZeroHeight, w)
  else
    match w.WriteSignature with
    | .error t => .error t
    | .ok w =>
      match w.WriteIHDRChunk with
      | .error t => .error t
      | .ok w =>
        match w.WritePLTEChunk with
        | .error t => .error t
        | .ok w =>
          match w.WriteIDATChunks z with
          | .error t => .error t
          | .ok w => w.WriteIENDChunk

/-- The member `operator()(stm, image)`: the sentry calls `BeginRead` on
entry and `EndRead` on the way out. -/
def run (z : ZLib) (stm : OStream) (image : ReadableImage) : SaveOutcome :=
  match body z ⟨stm, image, [.BeginRead], 0, 0⟩ with
  | .error (e, w) => ⟨w.stm_, w.calls_ ++ [.EndRead false], some e⟩
  | .ok w => ⟨w.stm_, w.calls_ ++ [.EndRead true], none⟩

end PNGWriter

/-- Save a PNG image to a stream. -/
def SavePNG (z : ZLib) (image : ReadableImage) (stm : OStream) : SaveOutcome :=
  PNGWriter.run z stm image

/-! ## PNGReader -/

/-- Bitfield for required chunks. -/
def IHDRChunk : Nat := 1
def PLTEChunk : Nat := 2
def IDATChunk : Nat := 4
def IENDChunk : Nat := 8
def AllRequiredChunks : Nat := 0xF

/-- The members of a `PNGReader`.  `image_` records the calls made on the
image so far.  `curRaw_` and `endRaw_` are positions in `rawScanline_`;
`curY_` is the `int` row counter in two's complement (`-1` is `2 ^ 32 - 1`);
`curFilter_` is `none` until the pointer is first assigned. -/
structure PNGReader (z : ZLib) where
  stm_ : IStream
  image_ : List WritableImageCall
  chunksRead_ : Nat
  width_ : Nat
  height_ : Nat
  rawPriorScanline_ : List Byte
  rawScanline_ : List Byte
  curRaw_ : Nat
  endRaw_ : Nat
  curY_ : Nat
  imageDone_ : Bool
  decompressor_ : Decompressor z
  compBuffer_ : List Byte
  subFilter_ : SubFilter
  upFilter_ : UpFilter
  averageFilter_ : AverageFilter
  paethFilter_ : PaethFilter
  curFilter_ : Option FilterKind

/-- An exception leaving the reader: the error and the calls made on the
image before it was thrown. -/
structure Thrown where
  what : error
  image_ : List WritableImageCall
  deriving DecidableEq, Repr

/-- What a load leaves behind: the calls made on the image and the error
thrown, if any. -/
structure LoadOutcome where
  image : List WritableImageCall
  thrown : Option error
  deriving DecidableEq, Repr

/-- The member `resize` of a `std::vector<unsigned char>`. -/
def resize (v : List Byte) (n : Nat) : List Byte :=
  v.take n ++ List.replicate (n - v.length) 0

namespace PNGReader

variable {z : ZLib}

def CheckSignature.loop : List Byte → IStream → Except error IStream
  | [], stm => .ok stm
  | s :: sig, stm =>
    match ReadByte stm with
    | .error e => .error e
    | .ok (byte, stm) =>
      if byte ≠ s then .error .unexpectedSignature else CheckSignature.loop sig stm

def CheckSignature (r : PNGReader z) : Except Thrown (PNGReader z) :=
  match CheckSignature.loop PngSignature r.stm_ with
  | .error e => .error ⟨e, r.image_⟩
  | .ok stm => .ok { r with stm_ := stm }

def ProcessChunksRead (r : PNGReader z) (curChunk : Nat) : Except Thrown (PNGReader z) :=
  if curChunk ≠ IDATChunk ∧ r.chunksRead_ &&& curChunk ≠ 0 then
    .error ⟨.duplicateChunk, r.image_⟩
  else if (curChunk <<< 1) % 2 ^ 32 ≤ r.chunksRead_ then
    .error ⟨.outOfOrderChunk, r.image_⟩
  else
    let r := { r with chunksRead_ := r.chunksRead_ ||| curChunk }
    if r.chunksRead_ &&& IHDRChunk = 0 then .error ⟨.chunkBeforeIHDR, r.image_⟩
    else .ok r

/-- The checks of `ReadIHDRChunk` on the five one-byte fields, and the
calls that follow them. -/
def ReadIHDRChunk.finish (reader : PNGChunkReader) (r : PNGReader z)
    (bitDepth colorType compressionType filterType interlaceType : Byte) :
    Except Thrown (PNGChunkReader × PNGReader z) :=
  if bitDepth ≠ BitDepth then .error ⟨.unsupportedBitDepth, r.image_⟩
  else if colorType ≠ ColorType then .error ⟨.unsupportedColorType, r.image_⟩
  else if compressionType ≠ CompressionType then
    .error ⟨.unsupportedCompressionType, r.image_⟩
  else if filterType ≠ FilterType then .error ⟨.unsupportedFilterType, r.image_⟩
  else if interlaceType ≠ InterlaceType then .error ⟨.unsupportedInterlaceType, r.image_⟩
  else
    .ok (reader, { r with
      image_ := r.image_ ++ [.SetImageInfo ⟨r.width_, r.height_⟩],
      rawScanline_ := resize r.rawScanline_ r.width_,
      rawPriorScanline_ := resize r.rawPriorScanline_ r.width_,
      curRaw_ := 0, endRaw_ := 0 })

def ReadIHDRChunk (reader : PNGChunkReader) (r : PNGReader z) :
    Except Thrown (PNGChunkReader × PNGReader z) :=
  match reader.getUInt32 with
  | .error e => .error ⟨e, r.image_⟩
  | .ok (width, reader) =>
  match reader.getUInt32 with
  | .error e => .error ⟨e, r.image_⟩
  | .ok (height, reader) =>
  if width = 0 then .error ⟨.zeroWidth, r.image_⟩
  else if height = 0 then .error ⟨.zeroHeight, r.image_⟩
  else
  match reader.getByte with
  | .error e => .error ⟨e, r.image_⟩
  | .ok (bitDepth, reader) =>
  match reader.getByte with
  | .error e => .error ⟨e, r.image_⟩
  | .ok (colorType, reader) =>
  match reader.getByte with
  | .error e => .error ⟨e, r.image_⟩
  | .ok (compressionType, reader) =>
  match reader.getByte with
  | .error e => .error ⟨e, r.image_⟩
  | .ok (filterType, reader) =>
  match reader.getByte with
  | .error e => .error ⟨e, r.image_⟩
  | .ok (interlaceType, reader) =>
    ReadIHDRChunk.finish reader { r with width_ := width, height_ := height }
      bitDepth colorType compressionType filterType interlaceType

/-- The loop of `ReadPLTEChunk`: `n` more entries, starting at index `i`. -/
def ReadPLTEChunk.loop : Nat → Nat → PNGChunkReader → PNGReader z →
    Except Thrown (PNGChunkReader × PNGReader z)
  | 0, _, reader, r => .ok (reader, r)
  | n + 1, i, reader, r =>
    match reader.getByte with
    | .error e => .error ⟨e, r.image_⟩
    | .ok (red, reader) =>
    match reader.getByte with
    | .error e => .error ⟨e, r.image_⟩
    | .ok (green, reader) =>
    match reader.getByte with
    | .error e => .error ⟨e, r.image_⟩
    | .ok (blue, reader) =>
      ReadPLTEChunk.loop n (i + 1) reader
        { r with image_ := r.image_ ++ [.SetPaletteEntry i ⟨red, green, blue⟩] }

def ReadPLTEChunk (reader : PNGChunkReader) (r : PNGReader z) :
    Except Thrown (PNGChunkReader × PNGReader z) :=
  let entryCount := reader.GetLength / 3
  if reader.GetLength % 3 ≠ 0 then .error ⟨.badPLTELength, r.image_⟩
  else ReadPLTEChunk.loop entryCount 0 reader r

/-- The call `curFilter_->BeginScanline(prior)`. -/
def curFilterBeginScanline (r : PNGReader z) (prior : Option (List Byte)) :
    Except Thrown (PNGReader z) :=
  match r.curFilter_ with
  | none => .error ⟨.uninitialisedFilter, r.image_⟩
  | some .passThru => .ok r
  | some .sub => .ok { r with subFilter_ := r.subFilter_.BeginScanline prior }
  | some .up => .ok { r with upFilter_ := r.upFilter_.BeginScanline prior }
  | some .average => .ok { r with averageFilter_ := r.averageFilter_.BeginScanline prior }
  | some .paeth => .ok { r with paethFilter_ := r.paethFilter_.BeginScanline prior }

/-- The call `curFilter_->Unfilter(filtered)`. -/
def curFilterUnfilter (r : PNGReader z) (filtered : Byte) :
    Except Thrown (Byte × PNGReader z) :=
  match r.curFilter_ with
  | none => .error ⟨.uninitialisedFilter, r.image_⟩
  | some .passThru => .ok (filtered, r)
  | some .sub =>
    let (raw, f) := r.subFilter_.Unfilter filtered
    .ok (raw, { r with subFilter_ := f })
  | some .up =>
    let (raw, f) := r.upFilter_.Unfilter filtered
    .ok (raw, { r with upFilter_ := f })
  | some .average =>
    let (raw, f) := r.averageFilter_.Unfilter filtered
    .ok (raw, { r with averageFilter_ := f })
  | some .paeth =>
    let (raw, f) := r.paethFilter_.Unfilter filtered
    .ok (raw, { r with paethFilter_ := f })

/-- The `switch (*cur)` on the filter byte: an unlisted value leaves
`curFilter_` as it is. -/
def selectFilter (curFilter : Option FilterKind) (cur : Byte) : Option FilterKind :=
  if cur.val = PassThruFilterCode then some .passThru
  else if cur.val = SubFilterCode then some .sub
  else if cur.val = UpFilterCode then some .up
  else if cur.val = AverageFilterCode then some .average
  else if cur.val = PaethFilterCode then some .paeth
  else curFilter

/-- The start of a scanline in `ReadIDATChunk`, after the overrun check:
swap the buffers, select the filter from the filter byte `cur`, hand the
prior scanline to the image and begin the scanline. -/
def beginScanline (r : PNGReader z) (cur : Byte) : Except Thrown (PNGReader z) :=
  let r : PNGReader z := { r with
    rawScanline_ := r.rawPriorScanline_, rawPriorScanline_ := r.rawScanline_ }
  let r : PNGReader z := { r with
    curRaw_ := 0, endRaw_ := r.rawScanline_.length,
    curFilter_ := selectFilter r.curFilter_ cur }
  if r.curY_ ≠ 0 then
    let prior := r.rawPriorScanline_
    curFilterBeginScanline
      { r with image_ := r.image_ ++ [.SetScanline ((r.curY_ + 2 ^ 32 - 1) % 2 ^ 32) prior] }
      (some prior)
  else curFilterBeginScanline r none

/-- The body of the loop `while (cur != end)` of `ReadIDATChunk`, for the
decompressed byte `cur`. -/
def unfilterByte (r : PNGReader z) (cur : Byte) : Except Thrown (PNGReader z) :=
  if r.curRaw_ = r.endRaw_ then
    let r : PNGReader z := { r with curY_ := (r.curY_ + 1) % 2 ^ 32 }
    if r.curY_ = r.height_ % 2 ^ 32 then .error ⟨.tooManyPixels, r.image_⟩
    else r.beginScanline cur
  else
    match r.curFilterUnfilter cur with
    | .error t => .error t
    | .ok (raw, r) =>
      .ok { r with rawScanline_ := r.rawScanline_.set r.curRaw_ raw, curRaw_ := r.curRaw_ + 1 }

/-- The loop `while (cur != end)` of `ReadIDATChunk` over the decompressed
bytes. -/
def unfilterLoop (r : PNGReader z) : List Byte → Except Thrown (PNGReader z)
  | [] => .ok r
  | cur :: rest =>
    match r.unfilterByte cur with
    | .error t => .error t
    | .ok r => unfilterLoop r rest

/-- The end of `ReadIDATChunk`, after the loop: write the final scanline
if it is complete. -/
def finalScanline (r : PNGReader z) : PNGReader z :=
  if r.curRaw_ = r.endRaw_ ∧ r.curY_ = (r.height_ + 2 ^ 32 - 1) % 2 ^ 32 then
    { r with image_ := r.image_ ++ [.SetScanline r.curY_ r.rawScanline_], imageDone_ := true }
  else r

def ReadIDATChunk (reader : PNGChunkReader) (r : PNGReader z) :
    Except Thrown (PNGChunkReader × PNGReader z) :=
  let compLength := reader.GetLength
  match reader.Read compLength with
  | .error e => .error ⟨e, r.image_⟩
  | .ok (compBuffer, reader) =>
    match r.decompressor_.Decompress compBuffer compLength with
    | .error e => .error ⟨e, r.image_⟩
    | .ok decompressor =>
      match unfilterLoop { r with compBuffer_ := compBuffer, decompressor_ := decompressor }
          (decompressor.GetDstPtr.take decompressor.GetDstLength) with
      | .error t => .error t
      | .ok r =>
        .ok (reader, { r.finalScanline with decompressor_ := r.decompressor_.ClearDst })

def ReadIENDChunk (reader : PNGChunkReader) (r : PNGReader z) :
    Except Thrown (PNGChunkReader × PNGReader z) :=
  .ok (reader, r)

/-- The loop `while (length--)` of `ReadUnknownChunk`. -/
def ReadUnknownChunk.loop : Nat → PNGChunkReader → Except error PNGChunkReader
  | 0, reader => .ok reader
  | length + 1, reader =>
    match reader.getByte with
    | .error e => .error e
    | .ok (_, reader) => ReadUnknownChunk.loop length reader

def ReadUnknownChunk (reader : PNGChunkReader) (r : PNGReader z) :
    Except Thrown (PNGChunkReader × PNGReader z) :=
  if !reader.IsAncilliary then .error ⟨.nonAncilliaryChunk, r.image_⟩
  else
    match ReadUnknownChunk.loop reader.GetLength reader with
    | .error e => .error ⟨e, r.image_⟩
    | .ok reader => .ok (reader, r)

/-- A required chunk in `ReadChunk`: `ProcessChunksRead(curChunk)`, then the
handler of the chunk type. -/
def requiredChunk (r : PNGReader z) (curChunk : Nat)
    (handler : PNGReader z → Except Thrown (PNGChunkReader × PNGReader z)) :
    Except Thrown (PNGChunkReader × PNGReader z) :=
  match r.ProcessChunksRead curChunk with
  | .error t => .error t
  | .ok r => handler r

/-- The `if` chain of `ReadChunk` on the chunk type. -/
def handleChunk (reader : PNGChunkReader) (r : PNGReader z) :
    Except Thrown (PNGChunkReader × PNGReader z) :=
  if reader.GetType = IHDRChunkType then r.requiredChunk IHDRChunk (ReadIHDRChunk reader)
  else if reader.GetType = PLTEChunkType then r.requiredChunk PLTEChunk (ReadPLTEChunk reader)
  else if reader.GetType = IDATChunkType then r.requiredChunk IDATChunk (ReadIDATChunk reader)
  else if reader.GetType = IENDChunkType then r.requiredChunk IENDChunk (ReadIENDChunk reader)
  else ReadUnknownChunk reader r

def ReadChunk (r : PNGReader z) : Except Thrown (PNGReader z) :=
  match PNGChunkReader.new r.stm_ with
  | .error e => .error ⟨e, r.image_⟩
  | .ok reader =>
    if r.chunksRead_ &&& IENDChunk ≠ 0 then .error ⟨.chunkAfterIEND, r.image_⟩
    else
      match handleChunk reader r with
      | .error t => .error t
      | .ok (reader, r) =>
        match reader.End with
        | .error e => .error ⟨e, r.image_⟩
        | .ok stm => .ok { r with stm_ := stm }

/-- The loop `while (EOF != stm_->peek()) ReadChunk();`, run for at most
`n` chunks. -/
def ReadChunks : Nat → PNGReader z → Except Thrown (PNGReader z)
  | 0, r => .ok r
  | n + 1, r =>
    if r.stm_ = [] then .ok r
    else
      match r.ReadChunk with
      | .error t => .error t
      | .ok r => ReadChunks n r

/-- The body of `operator()` between the construction of the sentry and
`EndSuccessfulWrite`.  Every chunk takes at least one byte off the stream,
so the length of the stream bounds the number of chunks. -/
def body (r : PNGReader z) : Except Thrown (PNGReader z) :=
  match r.CheckSignature with
  | .error t => .error t
  | .ok r =>
    match ReadChunks r.stm_.length r with
    | .error t => .error t
    | .ok r =>
      if r.chunksRead_ ≠ AllRequiredChunks then .error ⟨.missingRequiredChunk, r.image_⟩
      else if !r.imageDone_ then .error ⟨.incompleteImageData, r.image_⟩
      else .ok r

/-- A default-constructed `PNGReader` on which `operator()(stm, image)` has
set `stm_`, `chunksRead_`, `curY_` and `imageDone_` and whose sentry has
called `BeginWrite`. -/
def init (decompressor : Decompressor z) (stm : IStream) : PNGReader z :=
  { stm_ := stm, image_ := [.BeginWrite], chunksRead_ := 0, width_ := 0, height_ := 0,
    rawPriorScanline_ := [], rawScanline_ := [], curRaw_ := 0, endRaw_ := 0,
    curY_ := 2 ^ 32 - 1, imageDone_ := false, decompressor_ := decompressor,
    compBuffer_ := [], subFilter_ := ⟨0⟩, upFilter_ := ⟨none⟩,
    averageFilter_ := ⟨none, 0⟩, paethFilter_ := ⟨none, none, 0⟩, curFilter_ := none }

/-- The member `operator()(stm, image)`: the sentry calls `BeginWrite` on
entry and `EndWrite` on the way out. -/
def run (decompressor : Decompressor z) (stm : IStream) : LoadOutcome :=
  match body (init decompressor stm) with
  | .error t => ⟨t.image_ ++ [.EndWrite false], some t.what⟩
  | .ok r => ⟨r.image_ ++ [.EndWrite true], none⟩

end PNGReader

/-- Load a PNG image from a stream.  The `PNGReader` object, and with it its
`Decompressor`, is constructed before `operator()` is entered. -/
def LoadPNG (z : ZLib) (stm : IStream) : LoadOutcome :=
  match Decompressor.new z with
  | .error e => ⟨[], some e⟩
  | .ok decompressor => PNGReader.run decompressor stm

/-! ## A concrete zlib stand-in

For evaluating the model on concrete images: a "compressor" that keeps its
input until `deflateFinish` and then emits it unchanged, and a "decompressor"
that passes its input through. -/

def ZLib.stored : ZLib where
  DeflateState := List Byte
  InflateState := Unit
  deflateInit := some []
  inflateInit := some ()
  deflate := fun s src => some (s ++ src, [])
  deflateFinish := fun s => some ([], s)
  inflate := fun _ src => some ((), src)

/-! ## Auxiliary definitions for the statements

Streams, payloads and codec runs the theorems speak about. -/

/-- The concatenation of sealed chunks, given as pairs of type code and
payload. -/
def sealedChunks : List (Nat × List Byte) → List Byte
  | [] => []
  | c :: cs => sealedChunk c.1 c.2 ++ sealedChunks cs

/-- The payload of the header chunk for a width and a height. -/
def IHDRPayload (width height : Nat) : List Byte :=
  bigEndian32 width ++ bigEndian32 height ++
    [BitDepth, ColorType, CompressionType, FilterType, InterlaceType]

/-- The payload of a palette chunk with the `n` entries `i`, `i + 1`, ... of
a palette: red, green, blue of each. -/
def PLTEPayload (palette : Nat → PaletteEntry) : Nat → Nat → List Byte
  | 0, _ => []
  | n + 1, i =>
    (palette i).red :: (palette i).green :: (palette i).blue :: PLTEPayload palette n (i + 1)

/-- The uncompressed image data of the `n` scanlines `y`, `y + 1`, ... of an
image: per scanline the filter-type byte 0 and then the raw bytes, each as
one block. -/
def rawBlocks (image : ReadableImage) (width : Nat) : Nat → Nat → List (List Byte)
  | 0, _ => []
  | n + 1, y => [0] :: (image.GetScanline y).take width :: rawBlocks image width n (y + 1)

/-- Feeding blocks to the compressor, one `deflate` run each, and finishing
after the last: all the bytes emitted, in order. -/
def ZLib.compressAll (z : ZLib) : z.DeflateState → List (List Byte) → Option (List Byte)
  | s, [] => (z.deflateFinish s).map Prod.snd
  | s, b :: bs =>
    match z.deflate s b with
    | none => none
    | some (s, out) => (ZLib.compressAll z s bs).map (fun rest => out ++ rest)

/-- Feeding chunks of compressed data to the decompressor, one `inflate` run
each: the bytes emitted for each chunk. -/
def ZLib.decompressAll (z : ZLib) : z.InflateState → List (List Byte) →
    Option (List (List Byte))
  | _, [] => some []
  | s, c :: cs =>
    match z.inflate s c with
    | none => none
    | some (s, out) => (ZLib.decompressAll z s cs).map (fun rest => out :: rest)

/-- The decompressor inverts the compressor on the given blocks: both
initialise, compressing the blocks succeeds and emits fewer than `2 ^ 32`
bytes, and however the compressed bytes are cut into chunks, decompressing
the chunks in order succeeds and emits, in all, the bytes of the blocks. -/
def ZLib.Inverts (z : ZLib) (blocks : List (List Byte)) : Prop :=
  ∃ s d comp, z.deflateInit = some s ∧ z.inflateInit = some d ∧
    z.compressAll s blocks = some comp ∧ comp.length < 2 ^ 32 ∧
    ∀ chunks : List (List Byte), chunks.flatten = comp →
      ∃ outs, z.decompressAll d chunks = some outs ∧ outs.flatten = blocks.flatten

/-- The payloads of the image-data chunks `WriteIDATChunks` writes for the
`n` scanlines `y`, `y + 1`, ...: what the compressor holds at the end of
each pass of the loop, when that is not empty. -/
def IDATPayloads {z : ZLib} (image : ReadableImage) (width height : Nat) :
    Nat → Nat → Compressor z → Option (List (List Byte))
  | 0, _, _ => some []
  | n + 1, y, compressor =>
    match compressor.CompressByte 0 with
    | .error _ => none
    | .ok compressor =>
      match compressor.Compress (image.GetScanline y) width with
      | .error _ => none
      | .ok compressor =>
        match (if y = height - 1 then compressor.Finish else .ok compressor) with
        | .error _ => none
        | .ok compressor =>
          if compressor.GetDstLength ≠ 0 then
            (IDATPayloads image width height n (y + 1) compressor.ClearDst).map
              (fun rest => compressor.GetDstPtr.take compressor.GetDstLength :: rest)
          else IDATPayloads image width height n (y + 1) compressor

/-- The calls `GetPaletteEntry(i)`, `GetPaletteEntry(i + 1)`, ..., `n` of
them. -/
def paletteReads : Nat → Nat → List ReadableImageCall
  | 0, _ => []
  | n + 1, i => .GetPaletteEntry i :: paletteReads n (i + 1)

/-- The calls `GetScanline(y)`, `GetScanline(y + 1)`, ..., `n` of them. -/
def scanlineReads : Nat → Nat → List ReadableImageCall
  | 0, _ => []
  | n + 1, y => .GetScanline y :: scanlineReads n (y + 1)

/-- The calls `SetPaletteEntry(i, ...)`, `SetPaletteEntry(i + 1, ...)`, ...
made for a palette payload, three bytes per entry. -/
def paletteWrites : Nat → List Byte → List WritableImageCall
  | i, red :: green :: blue :: rest =>
    .SetPaletteEntry i ⟨red, green, blue⟩ :: paletteWrites (i + 1) rest
  | _, _ => []

/-- The byte sequence with bit `i` flipped: bit `i % 8` (counted from the
least significant) of byte `i / 8`. -/
def flipBit : List Byte → Nat → List Byte
  | [], _ => []
  | b :: bs, i => if i < 8 then toByte (b.val ^^^ (1 <<< i)) :: bs else b :: flipBit bs (i - 8)

/-- A stream whose first chunk is an unknown ancillary chunk (`tEXt`, empty),
followed by header, palette, image data and end chunk of a 1 x 1 image. -/
def ancillaryFirstStream : List Byte :=
  PngSignature ++ sealedChunk 0x74455874 [] ++
    sealedChunk IHDRChunkType.GetValue [0, 0, 0, 1, 0, 0, 0, 1, 8, 3, 0, 0, 0] ++
    sealedChunk PLTEChunkType.GetValue [] ++ sealedChunk IDATChunkType.GetValue [0, 7] ++
    sealedChunk IENDChunkType.GetValue []

/-- A stream with header, palette and image data of a 1 x 1 image, followed
by a second palette chunk. -/
def paletteAfterDataStream : List Byte :=
  PngSignature ++ sealedChunk IHDRChunkType.GetValue [0, 0, 0, 1, 0, 0, 0, 1, 8, 3, 0, 0, 0] ++
    sealedChunk PLTEChunkType.GetValue [] ++ sealedChunk IDATChunkType.GetValue [0, 7] ++
    sealedChunk PLTEChunkType.GetValue [] ++ sealedChunk IENDChunkType.GetValue []

/-- The chunks of an encoded image, as pairs of type code and payload: the
header chunk, the palette chunk, one image-data chunk per payload in `ps`
and the end chunk. -/
def encoderChunks (image : ReadableImage) (ps : List (List Byte)) : List (Nat × List Byte) :=
  (IHDRChunkType.GetValue,
      IHDRPayload image.GetImageInfo.GetWidth image.GetImageInfo.GetHeight) ::
    (PLTEChunkType.GetValue, PLTEPayload image.GetPaletteEntry 256 0) ::
    (ps.map (fun p => (IDATChunkType.GetValue, p)) ++ [(IENDChunkType.GetValue, [])])

/-- A chunk as it stands in a stream, with an arbitrary value in its CRC
field. -/
def framedChunk (type : Nat) (payload : List Byte) (crc : Nat) : List Byte :=
  bigEndian32 payload.length ++ bigEndian32 type ++ payload ++ bigEndian32 crc

/-- The errors `ReadIHDRChunk` and the CRC check can raise on a header chunk
with thirteen payload bytes. -/
def headerErrors : List error :=
  [.zeroWidth, .zeroHeight, .unsupportedBitDepth, .unsupportedColorType,
    .unsupportedCompressionType, .unsupportedFilterType, .unsupportedInterlaceType, .badCRC]

/-- The errors `ReadIDATChunk` can raise on a chunk that is all there: the
decompressor's, the overrun of the scanline loop, and the stop of the model
at the uninitialised `curFilter_`. -/
def imageDataErrors : List error :=
  [.inflateFailedDecompress, .tooManyPixels, .uninitialisedFilter]

/-- The errors decode can end with when one bit of a chunk's type code or
payload has been flipped in an encoded stream. -/
def flipErrors : List error :=
  [.inflateInitFailed, .nonAncilliaryChunk, .badCRC] ++ headerErrors ++ imageDataErrors

/-- The members of the reader that the scanline loop does not touch. -/
def SameOutside {z : ZLib} (r r2 : PNGReader z) : Prop :=
  r2.stm_ = r.stm_ ∧ r2.chunksRead_ = r.chunksRead_ ∧ r2.width_ = r.width_ ∧
    r2.height_ = r.height_ ∧ r2.decompressor_ = r.decompressor_ ∧
    r2.compBuffer_ = r.compBuffer_ ∧ r2.imageDone_ = r.imageDone_

/-- The 2 x 2 image with scanlines `[0, 1]` and `[1, 0]`, palette entry 1
white and every other palette entry black. -/
def checkerImage : ReadableImage where
  GetImageInfo := ⟨2, 2⟩
  GetPaletteEntry := fun i => if i = 1 then ⟨255, 255, 255⟩ else ⟨0, 0, 0⟩
  GetScanline := fun y => if y = 0 then [0, 1] else [1, 0]

/-- The calls `SetScanline(0, ...)`, ..., `SetScanline(n - 1, ...)` with the
given rows. -/
def scanlineWrites (rows : Nat → List Byte) (n : Nat) : List WritableImageCall :=
  (List.range n).map (fun y => .SetScanline y (rows y))

/-- The uncompressed image data of the `n` rows `y`, `y + 1`, ...: per row
the filter-type byte 0 and then the bytes of the row. -/
def filteredRows (rows : Nat → List Byte) : Nat → Nat → List Byte
  | 0, _ => []
  | n + 1, y => 0 :: rows y ++ filteredRows rows n (y + 1)

/-- The image data still to come when `k` rows have been begun and `x` bytes
of the last of them have been read. -/
def remainingData (rows : Nat → List Byte) (h k x : Nat) : List Byte :=
  (if k = 0 then [] else (rows (k - 1)).drop x) ++ filteredRows rows (h - k) k

/-- The state of the scanline loop of `ReadIDATChunk` on unfiltered image
data of rows of `w` bytes, when `k` rows have been begun and `x` bytes of the
last of them have been stored: the rows before it have been handed to the
image, after the calls `base`. -/
structure Scan {z : ZLib} (rows : Nat → List Byte) (w h : Nat)
    (base : List WritableImageCall) (k x : Nat) (r : PNGReader z) : Prop where
  height : r.height_ = h
  prior : r.rawPriorScanline_.length = w
  cur : r.rawScanline_.length = w
  image : r.image_ = base ++ scanlineWrites rows (k - 1)
  curRaw : r.curRaw_ = x
  start : k = 0 → x = 0 ∧ r.endRaw_ = 0 ∧ r.curY_ = 2 ^ 32 - 1
  row : k ≠ 0 → x ≤ w ∧ r.endRaw_ = w ∧ r.curY_ = k - 1 ∧
    r.curFilter_ = some .passThru ∧ r.rawScanline_.take x = (rows (k - 1)).take x

/-- The state of the reader once the image data is complete: all `h` rows
have been handed to the image, the last of them `c` more times. -/
structure ScanDone {z : ZLib} (rows : Nat → List Byte) (h : Nat)
    (base : List WritableImageCall) (c : Nat) (r : PNGReader z) : Prop where
  height : r.height_ = h
  curRaw : r.curRaw_ = r.endRaw_
  curY : r.curY_ = h - 1
  cur : r.rawScanline_ = rows (h - 1)
  done : r.imageDone_ = true
  image : r.image_ = base ++ scanlineWrites rows h ++
    List.replicate c (.SetScanline (h - 1) (rows (h - 1)))

/-- `k` calls of `ReadChunk` in a row, all of which return: the state after
`k` passes of the loop `while (EOF != stm_->peek()) ReadChunk();`. -/
def chunkSteps {z : ZLib} : Nat → PNGReader z → Except Thrown (PNGReader z)
  | 0, r => .ok r
  | k + 1, r =>
    match r.ReadChunk with
    | .error t => .error t
    | .ok r => chunkSteps k r

/-- The reader as `operator()` has it when `CheckSignature` has returned:
the stream is at the first chunk. -/
def afterSignature {z : ZLib} (decompressor : Decompressor z) (rest : IStream) :
    PNGReader z :=
  { PNGReader.init decompressor (PngSignature ++ rest) with stm_ := rest }

/-- The header, palette, image-data and end chunk of a 1 x 1 image whose
pixel has palette index 7, the image data unfiltered and stored. -/
def onePixelChunks : List Byte :=
  sealedChunk IHDRChunkType.GetValue [0, 0, 0, 1, 0, 0, 0, 1, 8, 3, 0, 0, 0] ++
    (sealedChunk PLTEChunkType.GetValue [] ++
      (sealedChunk IDATChunkType.GetValue [0, 7] ++ sealedChunk IENDChunkType.GetValue []))

/-- The state of the reader after the four chunks of `onePixelChunks`, read
with the stored stand-in for zlib, when `rest` follows them in the stream. -/
def onePixelRead (rest : IStream) : PNGReader ZLib.stored :=
  { stm_ := rest, image_ := [.BeginWrite, .SetImageInfo ⟨1, 1⟩, .SetScanline 0 [7]],
    chunksRead_ := 15, width_ := 1, height_ := 1, rawPriorScanline_ := [0],
    rawScanline_ := [7], curRaw_ := 1, endRaw_ := 1, curY_ := 0, imageDone_ := true,
    decompressor_ := ⟨[], ()⟩, compBuffer_ := [0, 7], subFilter_ := ⟨0⟩,
    upFilter_ := ⟨none⟩, averageFilter_ := ⟨none, 0⟩, paethFilter_ := ⟨none, none, 0⟩,
    curFilter_ := some .passThru }

/-- A stream with header and palette of a 1 x 1 image whose image data comes
in two image-data chunks with an unknown ancillary chunk (`tEXt`, empty)
between them, followed by the end chunk. -/
def ancillaryBetweenDataStream : List Byte :=
  PngSignature ++ sealedChunk IHDRChunkType.GetValue [0, 0, 0, 1, 0, 0, 0, 1, 8, 3, 0, 0, 0] ++
    sealedChunk PLTEChunkType.GetValue [] ++ sealedChunk IDATChunkType.GetValue [0] ++
    sealedChunk 0x74455874 [] ++ sealedChunk IDATChunkType.GetValue [7] ++
    sealedChunk IENDChunkType.GetValue []

/-- The errors decode can end with when a chunk that is neither image data
nor ancillary follows an image-data chunk and is itself followed by more of
the stream. -/
def interleavedErrors : List error :=
  [.chunkAfterIEND, .duplicateChunk, .outOfOrderChunk, .chunkBeforeIHDR, .nonAncilliaryChunk,
    .badCRC, .badStreamReadByte]

/-- The chunks of a stream with header and palette of a 1 x 1 image whose
image data comes in two image-data chunks with a second palette chunk between
them, followed by the end chunk. -/
def paletteBetweenDataChunks : List Byte :=
  sealedChunk IHDRChunkType.GetValue [0, 0, 0, 1, 0, 0, 0, 1, 8, 3, 0, 0, 0] ++
    (sealedChunk PLTEChunkType.GetValue [] ++
      (sealedChunk IDATChunkType.GetValue [0] ++
        (sealedChunk PLTEChunkType.GetValue [] ++
          (sealedChunk IDATChunkType.GetValue [7] ++ sealedChunk IENDChunkType.GetValue []))))

/-- The state of the reader after header and palette of a 1 x 1 image and an
image-data chunk that holds the filter-type byte of the row, read with the
stored stand-in for zlib, when `rest` follows them in the stream. -/
def rowBegunRead (rest : IStream) : PNGReader ZLib.stored :=
  { stm_ := rest, image_ := [.BeginWrite, .SetImageInfo ⟨1, 1⟩],
    chunksRead_ := 7, width_ := 1, height_ := 1, rawPriorScanline_ := [0],
    rawScanline_ := [0], curRaw_ := 0, endRaw_ := 1, curY_ := 0, imageDone_ := false,
    decompressor_ := ⟨[], ()⟩, compBuffer_ := [0], subFilter_ := ⟨0⟩,
    upFilter_ := ⟨none⟩, averageFilter_ := ⟨none, 0⟩, paethFilter_ := ⟨none, none, 0⟩,
    curFilter_ := some .passThru }

/-- The errors `ReadChunk` can raise on a header chunk before `ReadIHDRChunk`
is entered. -/
def headerOrderErrors : List error :=
  [.chunkAfterIEND, .duplicateChunk, .outOfOrderChunk]

/-- The errors of the checks of `ReadIHDRChunk`. -/
def headerCheckErrors : List error :=
  [.zeroWidth, .zeroHeight, .unsupportedBitDepth, .unsupportedColorType,
    .unsupportedCompressionType, .unsupportedFilterType, .unsupportedInterlaceType]

/-- The errors `ReadChunk` can raise on a palette chunk before
`ReadPLTEChunk` is entered. -/
def paletteOrderErrors : List error :=
  [.chunkAfterIEND, .duplicateChunk, .outOfOrderChunk, .chunkBeforeIHDR]

/-- The state of the reader after the header chunk of a 1 x 1 image, read
with the stored stand-in for zlib, when `rest` follows it in the stream. -/
def headerRead (rest : IStream) : PNGReader ZLib.stored :=
  { stm_ := rest, image_ := [.BeginWrite, .SetImageInfo ⟨1, 1⟩],
    chunksRead_ := 1, width_ := 1, height_ := 1, rawPriorScanline_ := [0],
    rawScanline_ := [0], curRaw_ := 0, endRaw_ := 0, curY_ := 2 ^ 32 - 1, imageDone_ := false,
    decompressor_ := ⟨[], ()⟩, compBuffer_ := [], subFilter_ := ⟨0⟩,
    upFilter_ := ⟨none⟩, averageFilter_ := ⟨none, 0⟩, paethFilter_ := ⟨none, none, 0⟩,
    curFilter_ := none }

/-! ## The filters as objects of one class

The class `Filter` with its five implementations, and the forward filters of
the PNG specification, for the statement that unfiltering inverts
filtering. -/

/-- Filter Type 0: None. -/
structure PassThruFilter where
  deriving DecidableEq, Repr

def PassThruFilter.BeginScanline (f : PassThruFilter) (_ : Option (List Byte)) :
    PassThruFilter := f

def PassThruFilter.Unfilter (f : PassThruFilter) (filtered : Byte) : Byte × PassThruFilter :=
  (filtered, f)

/-- An object of the abstract class `Filter`: one of its five
implementations. -/
inductive Filter where
  | passThru (f : PassThruFilter)
  | sub (f : SubFilter)
  | up (f : UpFilter)
  | average (f : AverageFilter)
  | paeth (f : PaethFilter)
  deriving DecidableEq, Repr

/-- The filter type an object implements. -/
def Filter.kind : Filter → FilterKind
  | .passThru _ => .passThru
  | .sub _ => .sub
  | .up _ => .up
  | .average _ => .average
  | .paeth _ => .paeth

/-- The virtual function `BeginScanline(prior)`; `none` is the NULL
pointer. -/
def Filter.BeginScanline : Filter → Option (List Byte) → Filter
  | .passThru f, prior => .passThru (f.BeginScanline prior)
  | .sub f, prior => .sub (f.BeginScanline prior)
  | .up f, prior => .up (f.BeginScanline prior)
  | .average f, prior => .average (f.BeginScanline prior)
  | .paeth f, prior => .paeth (f.BeginScanline prior)

/-- The virtual function `Unfilter(filtered)`. -/
def Filter.Unfilter : Filter → Byte → Byte × Filter
  | .passThru f, filtered => ((f.Unfilter filtered).1, .passThru (f.Unfilter filtered).2)
  | .sub f, filtered => ((f.Unfilter filtered).1, .sub (f.Unfilter filtered).2)
  | .up f, filtered => ((f.Unfilter filtered).1, .up (f.Unfilter filtered).2)
  | .average f, filtered => ((f.Unfilter filtered).1, .average (f.Unfilter filtered).2)
  | .paeth f, filtered => ((f.Unfilter filtered).1, .paeth (f.Unfilter filtered).2)

/-- `Unfilter` called on each byte of a filtered scanline, left to right:
the bytes returned. -/
def Filter.unfilterBytes : Filter → List Byte → List Byte
  | _, [] => []
  | f, filtered :: rest => (f.Unfilter filtered).1 :: Filter.unfilterBytes (f.Unfilter filtered).2 rest

/-- The Paeth predictor of the PNG specification. -/
def pngPaethPredictor (a b c : Int) : Int :=
  let p := a + b - c
  let pa := |p - a|
  let pb := |p - b|
  let pc := |p - c|
  if pa ≤ pb ∧ pa ≤ pc then a else if pb ≤ pc then b else c

/-- The predictor of each filter type of the PNG specification, from the
byte to the left, the byte above and the byte above and to the left. -/
def pngPredictor : FilterKind → Int → Int → Int → Int
  | .passThru, _, _, _ => 0
  | .sub, left, _, _ => left
  | .up, _, above, _ => above
  | .average, left, above, _ => (left + above) / 2
  | .paeth, left, above, aboveLeft => pngPaethPredictor left above aboveLeft

/-- Byte `x` of a scanline filtered with the forward filter of the PNG
specification: `(raw[x] - predictor(raw[x-1], prior[x], prior[x-1])) mod 256`,
a neighbour that is not there taken as 0. -/
def pngFilterByte (kind : FilterKind) (prior : Option (List Byte)) (raw : List Byte)
    (x : Nat) : Byte :=
  let left : Int := if x = 0 then 0 else ((raw.getD (x - 1) 0).val : Int)
  let above : Int := (((prior.getD []).getD x 0).val : Int)
  let aboveLeft : Int := if x = 0 then 0 else (((prior.getD []).getD (x - 1) 0).val : Int)
  toByte ((((raw.getD x 0).val : Int) - pngPredictor kind left above aboveLeft) % 256).toNat

/-- A scanline filtered with the forward filter of the PNG specification. -/
def pngFilterScanline (kind : FilterKind) (prior : Option (List Byte)) (raw : List Byte) :
    List Byte :=
  (List.range raw.length).map (pngFilterByte kind prior raw)

/-- The filter object of a filter type as it is when the first `x` bytes of
the scanline `raw` have been unfiltered after `BeginScanline(prior)`: the
byte to the left and the pointers into the prior scanline. -/
def Filter.stateAt (kind : FilterKind) (prior : Option (List Byte)) (raw : List Byte)
    (x : Nat) : Filter :=
  let left : Byte := if x = 0 then 0 else raw.getD (x - 1) 0
  match kind with
  | .passThru => .passThru ⟨⟩
  | .sub => .sub ⟨left⟩
  | .up => .up ⟨prior.map (List.drop x)⟩
  | .average => .average ⟨prior.map (List.drop x), left⟩
  | .paeth => .paeth ⟨prior.map (List.drop x),
      if x = 0 then none else prior.map (List.drop (x - 1)), left⟩

/-- The members of the reader that a call of a filter object through
`curFilter_` does not touch. -/
def SameScan {z : ZLib} (r r2 : PNGReader z) : Prop :=
  r2.height_ = r.height_ ∧ r2.rawPriorScanline_ = r.rawPriorScanline_ ∧
    r2.rawScanline_ = r.rawScanline_ ∧ r2.curRaw_ = r.curRaw_ ∧ r2.endRaw_ = r.endRaw_ ∧
    r2.curY_ = r.curY_ ∧ r2.imageDone_ = r.imageDone_ ∧ r2.curFilter_ = r.curFilter_ ∧
    r2.image_ = r.image_

/-- The number of decompressed bytes the scanline loop of `ReadIDATChunk`
can still take before it overruns the image, when `k` rows have been begun
and `x` bytes of the last of them have been stored: per row one filter-type
byte and `w` bytes. -/
def capacity (w h k x : Nat) : Nat :=
  if k = 0 then h * (w + 1) else (h - k) * (w + 1) + (w - x)

/-- The state of the scanline loop of `ReadIDATChunk` on an image of `h`
rows of `w` bytes, as far as it counts bytes, when `k` rows have been begun
and `x` bytes of the last of them have been stored, before the image data is
found complete. -/
structure Count {z : ZLib} (w h k x : Nat) (r : PNGReader z) : Prop where
  height : r.height_ = h
  prior : r.rawPriorScanline_.length = w
  cur : r.rawScanline_.length = w
  curRaw : r.curRaw_ = x
  done : r.imageDone_ = false
  start : k = 0 → x = 0 ∧ r.endRaw_ = 0 ∧ r.curY_ = 2 ^ 32 - 1
  row : k ≠ 0 → x ≤ w ∧ r.endRaw_ = w ∧ r.curY_ = k - 1 ∧ r.curFilter_ ≠ none

/-- The state of the scanline loop once the image data has been found
complete at the end of an image-data chunk. -/
structure CountDone {z : ZLib} (h : Nat) (r : PNGReader z) : Prop where
  height : r.height_ = h
  curRaw : r.curRaw_ = r.endRaw_
  curY : r.curY_ = h - 1
  done : r.imageDone_ = true

/-- Byte `x` of a scanline as the Paeth filter of the PNG specification
reconstructs it from the filtered byte, the raw byte to its left and the
prior scanline: `(filtered + PaethPredictor(left, prior[x], prior[x-1])) mod
256`, with `prior[-1] = 0` and `prior[x] = 0` where there is no prior
scanline. -/
def paethRawByte (prior : Option (List Byte)) (x : Nat) (filtered left : Byte) : Byte :=
  toByte (((filtered.val : Int) +
    PaethFilter.PaethPredictor left.val ((prior.getD []).getD x 0).val
      (if x = 0 then 0 else (((prior.getD []).getD (x - 1) 0).val : Int))) % 256).toNat

/-- The Paeth filter object when `x` bytes of a scanline have been
unfiltered after `BeginScanline(prior)`, the last of them `left`: the cursors
stand at `prior[x]` and `prior[x-1]`. -/
def PaethFilter.cursorsAt (prior : Option (List Byte)) (x : Nat) (left : Byte) : PaethFilter :=
  ⟨prior.map (List.drop x), if x = 0 then none else prior.map (List.drop (x - 1)), left⟩

/-- A call on the image other than the two notifications of the sentry. -/
def WritableImageCall.isData : WritableImageCall → Bool
  | .BeginWrite => false
  | .EndWrite _ => false
  | _ => true

/-- The calls `b` are the calls `a` followed by calls other than the
notifications of the sentry. -/
def CallsGrow (a b : List WritableImageCall) : Prop :=
  ∃ mid, b = a ++ mid ∧ ∀ c ∈ mid, c.isData = true

/-- A call on the image being saved other than the two notifications of the
sentry. -/
def ReadableImageCall.isData : ReadableImageCall → Bool
  | .BeginRead => false
  | .EndRead _ => false
  | _ => true

/-- The calls `b` on the image being saved are the calls `a` followed by
calls other than the notifications of the sentry. -/
def ReadsGrow (a b : List ReadableImageCall) : Prop :=
  ∃ mid, b = a ++ mid ∧ ∀ c ∈ mid, c.isData = true

/-- A zlib whose `inflateInit` does not return `Z_OK` (as when memory is
short); otherwise the stored stand-in. -/
def ZLib.noInflate : ZLib :=
  { ZLib.stored with inflateInit := none }

/-! ## A stand-in for zlib with an end-of-stream marker

A real zlib stream ends with a trailer (the Adler-32 checksum) that
`inflate` consumes without emitting a byte.  The stand-in below has that
shape in the simplest way: every data byte is preceded by the marker byte 1,
and the marker byte 0 ends the stream. -/

/-- Where the decompressor of the marked stand-in is in its input. -/
inductive MarkedState where
  | atMarker
  | atData
  | atEnd
  deriving DecidableEq, Repr

/-- The run of `inflate` calls of the marked stand-in on one buffer: the bytes
after a marker 1 are emitted, the marker 0 is the end of the stream
(`Z_STREAM_END`), where `Decompress` leaves its loop. -/
def markedInflate : MarkedState → List Byte → MarkedState × List Byte
  | s, [] => (s, [])
  | .atMarker, m :: src =>
    if m = 0 then (.atEnd, []) else markedInflate .atData src
  | .atData, b :: src => ((markedInflate .atMarker src).1, b :: (markedInflate .atMarker src).2)
  | .atEnd, _ :: _ => (.atEnd, [])

/-- The marked stand-in for zlib. -/
def ZLib.marked : ZLib where
  DeflateState := Unit
  InflateState := MarkedState
  deflateInit := some ()
  inflateInit := some .atMarker
  deflate := fun _ src => some ((), src.flatMap (fun b => [1, b]))
  deflateFinish := fun _ => some ((), [0])
  inflate := fun s src => some (markedInflate s src)

/-- A stream with header, a palette of one entry and the image data of a
1 x 1 image (pixel 0), followed by the end chunk. -/
def onePaletteEntryStream : List Byte :=
  PngSignature ++ sealedChunk IHDRChunkType.GetValue [0, 0, 0, 1, 0, 0, 0, 1, 8, 3, 0, 0, 0] ++
    sealedChunk PLTEChunkType.GetValue [10, 20, 30] ++
    sealedChunk IDATChunkType.GetValue [0, 0] ++ sealedChunk IENDChunkType.GetValue []

/-- A stream of a 1 x 1 image for the marked stand-in whose compressed data
`1 0 1 0 0` (filter-type byte 0, pixel 0, end marker) is cut into two
image-data chunks before the end marker. -/
def trailerChunkStream : List Byte :=
  PngSignature ++ sealedChunk IHDRChunkType.GetValue [0, 0, 0, 1, 0, 0, 0, 1, 8, 3, 0, 0, 0] ++
    sealedChunk PLTEChunkType.GetValue [10, 20, 30] ++
    sealedChunk IDATChunkType.GetValue [1, 0, 1, 0] ++ sealedChunk IDATChunkType.GetValue [0] ++
    sealedChunk IENDChunkType.GetValue []

/-- A stream of a 1 x 1 image for the stored stand-in whose image data is
followed by an image-data chunk of length 0. -/
def emptyDataChunkStream : List Byte :=
  PngSignature ++ sealedChunk IHDRChunkType.GetValue [0, 0, 0, 1, 0, 0, 0, 1, 8, 3, 0, 0, 0] ++
    sealedChunk PLTEChunkType.GetValue [10, 20, 30] ++
    sealedChunk IDATChunkType.GetValue [0, 0] ++ sealedChunk IDATChunkType.GetValue [] ++
    sealedChunk IENDChunkType.GetValue []

/-- What the compressor emits during each pass of the loop of
`WriteIDATChunks`, for the `n` scanlines `y`, `y + 1`, ... of an image of
`height` scanlines: per scanline the output of one `deflate` run on the
filter-type byte 0, of one on the first `width` bytes of the scanline and, for
scanline `height - 1` only, of the finishing run. -/
def ZLib.scanlineOutputs (z : ZLib) (image : ReadableImage) (width height : Nat) :
    Nat → Nat → z.DeflateState → Option (List (List Byte))
  | 0, _, _ => some []
  | n + 1, y, s =>
    match z.deflate s [0] with
    | none => none
    | some (s, o1) =>
      match z.deflate s ((image.GetScanline y).take width) with
      | none => none
      | some (s, o2) =>
        match (if y = height - 1 then z.deflateFinish s else some (s, [])) with
        | none => none
        | some (s, o3) =>
          (ZLib.scanlineOutputs z image width height n (y + 1) s).map
            (fun rest => (o1 ++ o2 ++ o3) :: rest)

/-- A stand-in for zlib that writes down how it is called: a `deflate` run on
a block emits 1, the length of the block and the block; the finishing run
emits 2. -/
def ZLib.journal : ZLib where
  DeflateState := Unit
  InflateState := Unit
  deflateInit := some ()
  inflateInit := some ()
  deflate := fun _ src => some ((), 1 :: toByte src.length :: src)
  deflateFinish := fun _ => some ((), [2])
  inflate := fun _ src => some ((), src)

/-- The part of `ReadIDATChunk` that works on the decompressed bytes of one
image-data chunk: the scanline loop over the bytes, then the test for the
final scanline. -/
def PNGReader.scanBlock {z : ZLib} (r : PNGReader z) (block : List Byte) :
    Except Thrown (PNGReader z) :=
  match r.unfilterLoop block with
  | .error t => .error t
  | .ok r => .ok r.finalScanline

/-- The scanline state machine of `ReadIDATChunk` run over the decompressed
bytes of a sequence of image-data chunks, one block per chunk. -/
def PNGReader.scanBlocks {z : ZLib} : PNGReader z → List (List Byte) →
    Except Thrown (PNGReader z)
  | r, [] => .ok r
  | r, block :: blocks =>
    match r.scanBlock block with
    | .error t => .error t
    | .ok r => PNGReader.scanBlocks r blocks

/-- The condition under which the end of `ReadIDATChunk` writes the final
scanline: the scanline buffer is full and the row is the last one. -/
def PNGReader.lastScanlineFull {z : ZLib} (r : PNGReader z) : Prop :=
  r.curRaw_ = r.endRaw_ ∧ r.curY_ = (r.height_ + 2 ^ 32 - 1) % 2 ^ 32

/-- Scanline `y` of an image that stores what `SetScanline` hands it, after
the given calls: the bytes of the last call `SetScanline(y, ...)`, if there
was one. -/
def storedScanline (calls : List WritableImageCall) (y : Nat) : Option (List Byte) :=
  calls.foldl (fun stored c =>
    match c with
    | .SetScanline y2 src => if y2 = y then some src else stored
    | _ => stored) none

/-- The reader `r` with the members that the scanline loop neither reads nor
writes taken from `o`. -/
def PNGReader.withOutside {z : ZLib} (r o : PNGReader z) : PNGReader z :=
  { r with
    stm_ := o.stm_, chunksRead_ := o.chunksRead_, width_ := o.width_,
    decompressor_ := o.decompressor_, compBuffer_ := o.compBuffer_ }

/-- A default-constructed filter object of each type. -/
def Filter.ofKind : FilterKind → Filter
  | .passThru => .passThru ⟨⟩
  | .sub => .sub ⟨0⟩
  | .up => .up ⟨none⟩
  | .average => .average ⟨none, 0⟩
  | .paeth => .paeth ⟨none, none, 0⟩

/-- The filter object `curFilter_` points to, with the state it has in the
reader. -/
def PNGReader.curFilterObject {z : ZLib} (r : PNGReader z) : Option Filter :=
  match r.curFilter_ with
  | none => none
  | some .passThru => some (.passThru ⟨⟩)
  | some .sub => some (.sub r.subFilter_)
  | some .up => some (.up r.upFilter_)
  | some .average => some (.average r.averageFilter_)
  | some .paeth => some (.paeth r.paethFilter_)

/-- The filter type in force after the `switch` on a filter-type byte, when
`previous` was in force before: an unlisted byte leaves it as it is. -/
def filterOfCode (previous : FilterKind) (code : Byte) : FilterKind :=
  (PNGReader.selectFilter (some previous) code).getD previous

/-- The filter type of each row of an image whose rows start with the
filter-type bytes `codes 0`, `codes 1`, ... (for row 0 the byte is taken to be
one of 0..4). -/
def rowFilter (codes : Nat → Byte) : Nat → FilterKind
  | 0 => filterOfCode .passThru (codes 0)
  | y + 1 => filterOfCode (rowFilter codes y) (codes (y + 1))

/-- The uncompressed image data of the `n` rows `y`, `y + 1`, ...: per row
the filter-type byte and then the filtered bytes of the row. -/
def encodedRows (codes : Nat → Byte) (filtered : Nat → List Byte) : Nat → Nat → List Byte
  | 0, _ => []
  | n + 1, y => codes y :: filtered y ++ encodedRows codes filtered n (y + 1)

/-- The raw rows of an image given by filter-type bytes and filtered rows:
row 0 is unfiltered without a prior scanline, every further row with the raw
row before it as the prior scanline. -/
def rawRows (codes : Nat → Byte) (filtered : Nat → List Byte) : Nat → List Byte
  | 0 => ((Filter.ofKind (rowFilter codes 0)).BeginScanline none).unfilterBytes (filtered 0)
  | y + 1 =>
    ((Filter.ofKind (rowFilter codes (y + 1))).BeginScanline
      (some (rawRows codes filtered y))).unfilterBytes (filtered (y + 1))

/-- The state of the scanline loop of `ReadIDATChunk` between rows, when `k`
rows of the image have been read in full: the rows before the last have been
handed to the image, after the calls `base`, and the last is in the scanline
buffer. -/
structure RowsRead {z : ZLib} (codes : Nat → Byte) (filtered : Nat → List Byte) (w h : Nat)
    (base : List WritableImageCall) (k : Nat) (r : PNGReader z) : Prop where
  height : r.height_ = h
  prior : r.rawPriorScanline_.length = w
  cur : r.rawScanline_.length = w
  image : r.image_ = base ++ scanlineWrites (rawRows codes filtered) (k - 1)
  curRaw : r.curRaw_ = r.endRaw_
  start : k = 0 → r.curY_ = 2 ^ 32 - 1
  row : k ≠ 0 → r.endRaw_ = w ∧ r.curY_ = k - 1 ∧
    r.curFilter_ = some (rowFilter codes (k - 1)) ∧
    r.rawScanline_ = rawRows codes filtered (k - 1)

/-- The reader as the chunk loop has it after the header chunk of a `w` x `h`
image and a palette chunk with the given payload, as far as the scanline loop
is concerned: the stream is left out. -/
def imageDataStart {z : ZLib} (decompressor : Decompressor z) (w h : Nat)
    (palette : List Byte) : PNGReader z :=
  { PNGReader.init decompressor [] with
    chunksRead_ := 3, width_ := w, height_ := h,
    image_ := [.BeginWrite, .SetImageInfo ⟨w, h⟩] ++ paletteWrites 0 palette,
    rawScanline_ := resize [] w, rawPriorScanline_ := resize [] w }

/-- A stream of the shape the encoder writes: signature, header chunk of a
`w` x `h` image, a palette chunk, image-data chunks with the payloads `ps`
and the end chunk, all sealed. -/
def framedImage (w h : Nat) (palette : List Byte) (ps : List (List Byte)) : List Byte :=
  PngSignature ++ sealedChunks ((IHDRChunkType.GetValue, IHDRPayload w h) ::
    (PLTEChunkType.GetValue, palette) ::
    (ps.map (fun p => (IDATChunkType.GetValue, p)) ++ [(IENDChunkType.GetValue, [])]))

/-- The header, palette and image-data chunk of `onePixelChunks`, without
the end chunk. -/
def onePixelData : List Byte :=
  sealedChunk IHDRChunkType.GetValue [0, 0, 0, 1, 0, 0, 0, 1, 8, 3, 0, 0, 0] ++
    (sealedChunk PLTEChunkType.GetValue [] ++ sealedChunk IDATChunkType.GetValue [0, 7])

/-! ## BufferedZLibStream, one call of zlib at a time

The members of `BufferedZLibStream` with their loops, for the claims about
the output buffer.  `Compressor` and `Decompressor` above give the net effect
of these loops. -/

/-- The flush modes the source passes to `deflate` and `inflate`. -/
inductive ZFlush where
  | Z_NO_FLUSH
  | Z_FINISH
  deriving DecidableEq, Repr

/-- Return codes of `deflate` and `inflate`.  The source tells `Z_OK` and
`Z_STREAM_END` from the rest. -/
inductive ZStatus where
  | Z_OK
  | Z_STREAM_END
  | Z_BUF_ERROR
  | Z_DATA_ERROR
  | Z_STREAM_ERROR
  deriving DecidableEq, Repr

/-- What one call of `deflate` or `inflate` does: the return code, the new
internal state, the number of input bytes taken and the bytes written at
`next_out`. -/
structure ZCall (σ : Type) where
  status : ZStatus
  state : σ
  taken : Nat
  written : List Byte

/-- The functions `deflate` and `inflate` of zlib, one call at a time: from
the internal state, the flush mode, the `avail_in` bytes at `next_in` and
`avail_out`. -/
structure ZCodec where
  State : Type
  deflate : State → ZFlush → List Byte → Nat → ZCall State
  inflate : State → ZFlush → List Byte → Nat → ZCall State

/-- The members of a `z_stream` the source reads or writes.  `next_in` is
the source buffer from the pointer on, `next_out` the offset of the pointer
into `dstBuffer_`. -/
structure z_stream (σ : Type) where
  next_in : List Byte
  avail_in : Nat
  next_out : Nat
  avail_out : Nat
  total_out : Nat
  state : σ

/-- The members of a `BufferedZLibStream`.  `availOutLog` is not a member of
the class: it records `avail_out` at each call of `deflate` or `inflate`,
oldest first. -/
structure BufferedZLibStream (c : ZCodec) where
  dstBuffer_ : List Byte
  writeOffset_ : Nat
  zStm_ : z_stream c.State
  availOutLog : List Nat

/-- How a member function with a loop ends: it returns, it throws (the
object is left as it is at the throw), or the loop is still running when the
given number of passes is used up. -/
inductive Run (α : Type) where
  | returned (a : α)
  | thrown (e : error) (a : α)
  | running (a : α)

/-- The object a run ends on. -/
def Run.object {α : Type} : Run α → α
  | .returned a => a
  | .thrown _ a => a
  | .running a => a

/-- The bytes `bytes` stored at offset `offset` of a buffer.  Bytes that
would fall behind the end of the buffer are left out. -/
def writeAt (buffer : List Byte) (offset : Nat) (bytes : List Byte) : List Byte :=
  buffer.take offset ++ (bytes ++ buffer.drop (offset + bytes.length)).take (buffer.length - offset)

namespace BufferedZLibStream

variable {c : ZCodec}

def InitialBufferSize : Nat := 1024

/-- The constructor, and `CompressInit` or `DecompressInit` returning with
the internal state `state`. -/
def new (c : ZCodec) (state : c.State) : BufferedZLibStream c :=
  { dstBuffer_ := List.replicate InitialBufferSize 0, writeOffset_ := 0,
    zStm_ := ⟨[], 0, 0, 0, 0, state⟩, availOutLog := [] }

def GetDstLength (s : BufferedZLibStream c) : Nat := s.writeOffset_

def GetDstPtr (s : BufferedZLibStream c) : List Byte := s.dstBuffer_

def ClearDst (s : BufferedZLibStream c) : BufferedZLibStream c := { s with writeOffset_ := 0 }

/-- `GrowDstBuffer`; `oldLength` and `oldLength * 2` are of type `unsigned`,
`avail_out` of type `uInt`. -/
def GrowDstBuffer (s : BufferedZLibStream c) : BufferedZLibStream c :=
  let oldLength := s.dstBuffer_.length % 2 ^ 32
  { s with
    dstBuffer_ := resize s.dstBuffer_ ((oldLength * 2) % 2 ^ 32),
    zStm_ := { s.zStm_ with
      avail_out := (s.zStm_.avail_out + oldLength) % 2 ^ 32,
      next_out := s.writeOffset_ } }

/-- `PrepareStream(srcBuffer, len)`. -/
def PrepareStream (s : BufferedZLibStream c) (srcBuffer : List Byte) (len : Nat) :
    BufferedZLibStream c :=
  { s with
    zStm_ := { s.zStm_ with
      next_in := srcBuffer,
      avail_in := len % 2 ^ 32,
      next_out := s.writeOffset_,
      avail_out := (s.dstBuffer_.length + 2 ^ 32 - s.writeOffset_) % 2 ^ 32 } }

/-- One call of `deflate` or `inflate` on `zStm_`, and the statement
`writeOffset_ += zStm_.total_out - oldTotalOut;` that follows it.  zlib takes
at most `avail_in` bytes and writes at most `avail_out` bytes. -/
def call (f : c.State → ZFlush → List Byte → Nat → ZCall c.State) (flush : ZFlush)
    (s : BufferedZLibStream c) : ZStatus × BufferedZLibStream c :=
  let oldTotalOut := s.zStm_.total_out
  let r := f s.zStm_.state flush (s.zStm_.next_in.take s.zStm_.avail_in) s.zStm_.avail_out
  let taken := min r.taken s.zStm_.avail_in
  let written := r.written.take s.zStm_.avail_out
  let zStm : z_stream c.State :=
    { next_in := s.zStm_.next_in.drop taken,
      avail_in := s.zStm_.avail_in - taken,
      next_out := s.zStm_.next_out + written.length,
      avail_out := s.zStm_.avail_out - written.length,
      total_out := s.zStm_.total_out + written.length,
      state := r.state }
  (r.status,
    { dstBuffer_ := writeAt s.dstBuffer_ s.zStm_.next_out written,
      writeOffset_ := (s.writeOffset_ + (zStm.total_out - oldTotalOut)) % 2 ^ 32,
      zStm_ := zStm,
      availOutLog := s.availOutLog ++ [s.zStm_.avail_out] })

/-- The body of the loops of `Compress` and `Decompress` up to the test of
the return code: grow the buffer when no output space is left, then call
zlib. -/
def feed (f : c.State → ZFlush → List Byte → Nat → ZCall c.State)
    (s : BufferedZLibStream c) : ZStatus × BufferedZLibStream c :=
  call f .Z_NO_FLUSH (if s.zStm_.avail_out = 0 then s.GrowDstBuffer else s)

/-- The loop of `Compress`, for at most `n` passes. -/
def Compress.loop : Nat → BufferedZLibStream c → Run (BufferedZLibStream c)
  | 0, s => if s.zStm_.avail_in ≠ 0 then .running s else .returned s
  | n + 1, s =>
    if s.zStm_.avail_in ≠ 0 then
      match feed c.deflate s with
      | (err, s) =>
        if err ≠ .Z_OK then .thrown .deflateFailedCompress s
        else Compress.loop n s
    else .returned s

/-- `Compress(src, len)`. -/
def Compress (s : BufferedZLibStream c) (src : List Byte) (len : Nat) (n : Nat) :
    Run (BufferedZLibStream c) :=
  Compress.loop n (s.PrepareStream src len)

/-- The loop of `CompressFinish`, for at most `n` passes. -/
def CompressFinish.loop : Nat → BufferedZLibStream c → Run (BufferedZLibStream c)
  | 0, s => .running s
  | n + 1, s =>
    match call c.deflate .Z_FINISH s with
    | (err, s) =>
      if err = .Z_STREAM_END then .returned s
      else if err = .Z_OK then CompressFinish.loop n s.GrowDstBuffer
      else .thrown .deflateFailedCompressFinish s

/-- `CompressFinish()`. -/
def CompressFinish (s : BufferedZLibStream c) (n : Nat) : Run (BufferedZLibStream c) :=
  CompressFinish.loop n (s.PrepareStream [] 0)

/-- The loop of `Decompress`, for at most `n` passes. -/
def Decompress.loop : Nat → BufferedZLibStream c → Run (BufferedZLibStream c)
  | 0, s => if s.zStm_.avail_in ≠ 0 then .running s else .returned s
  | n + 1, s =>
    if s.zStm_.avail_in ≠ 0 then
      match feed c.inflate s with
      | (err, s) =>
        if err = .Z_STREAM_END then .returned s
        else if err ≠ .Z_OK then .thrown .inflateFailedDecompress s
        else Decompress.loop n s
    else .returned s

/-- `Decompress(src, len)`. -/
def Decompress (s : BufferedZLibStream c) (src : List Byte) (len : Nat) (n : Nat) :
    Run (BufferedZLibStream c) :=
  Decompress.loop n (s.PrepareStream src len)

/-- The invariant of the output buffer: the bytes written and the space
left make up the buffer. -/
def Fits (s : BufferedZLibStream c) : Prop :=
  s.writeOffset_ + s.zStm_.avail_out = s.dstBuffer_.length

/-- The output buffer is full with input left: the buffer has `size` bytes,
all of them written, and `avail_in` is not 0. -/
def Full (size : Nat) (s : BufferedZLibStream c) : Prop :=
  s.zStm_.avail_in ≠ 0 ∧ s.zStm_.avail_out = 0 ∧ s.writeOffset_ = size ∧
    s.dstBuffer_.length = size

end BufferedZLibStream

/-- A stand-in for zlib that stores: a call copies as much of the input as
the output space holds.  As `deflate` and `inflate` of zlib do, a call
returns `Z_BUF_ERROR` when it can make no progress because `avail_out` is 0;
with `Z_FINISH` it returns `Z_STREAM_END` once all input is written. -/
def ZCodec.copy : ZCodec where
  State := Unit
  deflate := fun _ flush src availOut =>
    if availOut = 0 then ⟨.Z_BUF_ERROR, (), 0, []⟩
    else if flush = .Z_FINISH ∧ src.length ≤ availOut then
      ⟨.Z_STREAM_END, (), src.length, src⟩
    else ⟨.Z_OK, (), min src.length availOut, src.take availOut⟩
  inflate := fun _ _ src availOut =>
    if availOut = 0 then ⟨.Z_BUF_ERROR, (), 0, []⟩
    else ⟨.Z_OK, (), min src.length availOut, src.take availOut⟩

/-- A stand-in for the inflation of a stream that expands without end: a
call of `inflate` fills the output space with zero bytes and takes no
input. -/
def ZCodec.zeros : ZCodec where
  State := Unit
  deflate := fun _ _ _ _ => ⟨.Z_STREAM_ERROR, (), 0, []⟩
  inflate := fun _ _ _ availOut =>
    if availOut = 0 then ⟨.Z_BUF_ERROR, (), 0, []⟩
    else ⟨.Z_OK, (), 0, List.replicate availOut 0⟩

/-- A fresh stream after `Compress` on 1024 bytes with the storing stand-in
for zlib: the output fills the initial buffer exactly. -/
def filledStream : BufferedZLibStream ZCodec.copy :=
  ((BufferedZLibStream.new ZCodec.copy ()).Compress (List.replicate 1024 7) 1024 1).object

/-! # Theorems -/

/-! ## Facts about the CRC -/

theorem xor_xor_xor_cancel (x y p : Nat) : (x ^^^ p) ^^^ (y ^^^ p) = x ^^^ y := by
  apply Nat.eq_of_testBit_eq
  intro i
  simp only [Nat.testBit_xor]
  cases x.testBit i <;> cases y.testBit i <;> cases p.testBit i <;> rfl

theorem tableStep_eq_crc32Bit (c : Nat) : CRCCalculator.tableStep c = crc32Bit c := by
  unfold CRCCalculator.tableStep crc32Bit
  rw [Nat.and_one_is_mod, Nat.shiftRight_eq_div_pow, pow_one]
  rcases Nat.mod_two_eq_zero_or_one c with h | h
  · simp [h]
  · simp [h, Nat.xor_comm]

theorem tableLoop_eq_iterate (k c : Nat) : CRCCalculator.tableLoop k c = crc32Bit^[k] c := by
  induction k generalizing c with
  | zero => rfl
  | succ k ih => rw [CRCCalculator.tableLoop, ih, tableStep_eq_crc32Bit, Function.iterate_succ_apply]

/-- The bit step is linear over xor. -/
theorem crc32Bit_xor (a b : Nat) : crc32Bit (a ^^^ b) = crc32Bit a ^^^ crc32Bit b := by
  unfold crc32Bit
  rw [Nat.xor_mod_two_eq, Nat.xor_div_two]
  rcases Nat.mod_two_eq_zero_or_one a with ha | ha <;>
    rcases Nat.mod_two_eq_zero_or_one b with hb | hb
  · have : (a + b) % 2 = 0 := by omega
    simp [ha, hb, this]
  · have : (a + b) % 2 = 1 := by omega
    simp [ha, hb, this, Nat.xor_assoc]
  · have : (a + b) % 2 = 1 := by omega
    simp only [ha, hb, this, if_true]
    simp only [Nat.xor_assoc, Nat.xor_comm (b / 2)]
    simp
  · have : (a + b) % 2 = 0 := by omega
    simp only [ha, hb, this, if_true]
    simp [xor_xor_xor_cancel]

theorem crc32Bit_iterate_xor (k a b : Nat) :
    crc32Bit^[k] (a ^^^ b) = crc32Bit^[k] a ^^^ crc32Bit^[k] b := by
  induction k generalizing a b with
  | zero => rfl
  | succ k ih => simp only [Function.iterate_succ_apply, crc32Bit_xor, ih]

/-- Shifting the register `k` times treats the bits above the low `k` as a
plain shift: only the low `k` bits select polynomial terms. -/
theorem crc32Bit_iterate_split (k x : Nat) :
    crc32Bit^[k] x = crc32Bit^[k] (x % 2 ^ k) ^^^ (x / 2 ^ k) := by
  induction k generalizing x with
  | zero => simp [Nat.mod_one]
  | succ k ih =>
    simp only [Function.iterate_succ_apply]
    have hx : crc32Bit x = (x / 2) ^^^ (if x % 2 = 1 then 0xEDB88320 else 0) := by
      unfold crc32Bit; split <;> simp
    have hm : crc32Bit (x % 2 ^ (k + 1)) =
        ((x / 2) % 2 ^ k) ^^^ (if x % 2 = 1 then 0xEDB88320 else 0) := by
      unfold crc32Bit
      have h1 : x % 2 ^ (k + 1) % 2 = x % 2 := by
        rw [pow_succ]; exact Nat.mod_mul_left_mod x (2 ^ k) 2
      have h2 : x % 2 ^ (k + 1) / 2 = (x / 2) % 2 ^ k := by
        rw [pow_succ, Nat.mul_comm, Nat.mod_mul_right_div_self]
      rw [h1, h2]; split <;> simp
    rw [hx, hm, crc32Bit_iterate_xor, crc32Bit_iterate_xor, ih (x / 2)]
    have h3 : x / 2 / 2 ^ k = x / 2 ^ (k + 1) := by
      rw [Nat.div_div_eq_div_mul, pow_succ, Nat.mul_comm]
    rw [h3]
    generalize crc32Bit^[k] (x / 2 % 2 ^ k) = A
    generalize crc32Bit^[k] (if x % 2 = 1 then 0xEDB88320 else 0) = B
    generalize x / 2 ^ (k + 1) = C
    rw [Nat.xor_assoc, Nat.xor_assoc, Nat.xor_comm C B]

theorem table_getD (i : Nat) (h : i < 256) :
    CRCCalculator.table_.getD i 0 = crc32Bit^[8] i := by
  have hl : i < CRCCalculator.table_.length := by
    simp [CRCCalculator.table_, CRCCalculator.TableEntryCount, h]
  rw [List.getD_eq_getElem _ _ hl]
  simp [CRCCalculator.table_, tableLoop_eq_iterate]

/-- The table-driven byte step is the bit-by-bit byte step. -/
theorem step_eq_crc32Byte (c : Nat) (b : Byte) : CRCCalculator.step c b = crc32Byte c b := by
  unfold CRCCalculator.step crc32Byte
  have hmask : (c ^^^ b.val) &&& 0xFF = (c ^^^ b.val) % 2 ^ 8 :=
    Nat.and_pow_two_sub_one_eq_mod _ 8
  have hlt : (c ^^^ b.val) % 2 ^ 8 < 256 := Nat.mod_lt _ (by decide)
  rw [hmask, table_getD _ hlt, crc32Bit_iterate_split 8 (c ^^^ b.val)]
  congr 1
  rw [Nat.shiftRight_eq_div_pow]
  have hb : b.val / 2 ^ 8 = 0 := Nat.div_eq_of_lt b.isLt
  have : (c ^^^ b.val) / 2 ^ 8 = (c / 2 ^ 8) ^^^ (b.val / 2 ^ 8) := by
    rw [← Nat.shiftRight_eq_div_pow, ← Nat.shiftRight_eq_div_pow, ← Nat.shiftRight_eq_div_pow]
    apply Nat.eq_of_testBit_eq
    intro i
    simp [Nat.testBit_shiftRight, Nat.testBit_xor]
  rw [this, hb, Nat.xor_zero]

theorem foldl_step_eq (bs : List Byte) (c : Nat) :
    bs.foldl CRCCalculator.step c = bs.foldl crc32Byte c := by
  induction bs generalizing c with
  | nil => rfl
  | cons b bs ih => simp only [List.foldl_cons, step_eq_crc32Byte, ih]

theorem Append_runningCRC (crc : CRCCalculator) (bs : List Byte) :
    (crc.Append bs).runningCRC_ = bs.foldl crc32Byte crc.runningCRC_ :=
  foldl_step_eq bs crc.runningCRC_

theorem new_Append_GetCRC (bs : List Byte) :
    (CRCCalculator.new.Append bs).GetCRC = crc32 bs := by
  unfold CRCCalculator.GetCRC crc32 crc32Register
  rw [Append_runningCRC]; rfl


theorem crc32Bit_lt (c : Nat) (h : c < 2 ^ 32) : crc32Bit c < 2 ^ 32 := by
  unfold crc32Bit
  have h2 : c / 2 < 2 ^ 32 := by omega
  split
  · exact Nat.xor_lt_two_pow h2 (by decide)
  · exact h2

theorem crc32Bit_testBit_31 (c : Nat) (h : c < 2 ^ 32) :
    (crc32Bit c).testBit 31 = decide (c % 2 = 1) := by
  unfold crc32Bit
  have h2 : c / 2 < 2 ^ 31 := by omega
  have hf : (c / 2).testBit 31 = false := Nat.testBit_lt_two_pow h2
  split
  · next h1 =>
    rw [Nat.testBit_xor, hf]
    simp [h1]
    decide
  · next h1 => simp [hf, h1]

theorem crc32Bit_inj (a b : Nat) (ha : a < 2 ^ 32) (hb : b < 2 ^ 32)
    (h : crc32Bit a = crc32Bit b) : a = b := by
  have hp : decide (a % 2 = 1) = decide (b % 2 = 1) := by
    rw [← crc32Bit_testBit_31 a ha, ← crc32Bit_testBit_31 b hb, h]
  have hp2 : a % 2 = b % 2 := by
    rcases Nat.mod_two_eq_zero_or_one a with h1 | h1 <;>
      rcases Nat.mod_two_eq_zero_or_one b with h2 | h2 <;> simp [h1, h2] at hp ⊢
  have hd : a / 2 = b / 2 := by
    unfold crc32Bit at h
    rw [hp2] at h
    split at h
    · exact Nat.xor_left_injective h
    · exact h
  omega

theorem crc32Bit_iterate_lt (k c : Nat) (h : c < 2 ^ 32) : crc32Bit^[k] c < 2 ^ 32 := by
  induction k generalizing c with
  | zero => exact h
  | succ k ih => rw [Function.iterate_succ_apply]; exact ih _ (crc32Bit_lt c h)

theorem crc32Bit_iterate_inj (k a b : Nat) (ha : a < 2 ^ 32) (hb : b < 2 ^ 32)
    (h : crc32Bit^[k] a = crc32Bit^[k] b) : a = b := by
  induction k generalizing a b with
  | zero => exact h
  | succ k ih =>
    rw [Function.iterate_succ_apply, Function.iterate_succ_apply] at h
    exact crc32Bit_inj a b ha hb (ih _ _ (crc32Bit_lt a ha) (crc32Bit_lt b hb) h)

theorem xor_byte_lt (c : Nat) (b : Byte) (h : c < 2 ^ 32) : c ^^^ b.val < 2 ^ 32 :=
  Nat.xor_lt_two_pow h (lt_trans b.isLt (by decide))

theorem crc32Byte_lt (c : Nat) (b : Byte) (h : c < 2 ^ 32) : crc32Byte c b < 2 ^ 32 :=
  crc32Bit_iterate_lt 8 _ (xor_byte_lt c b h)

/-- For a fixed byte the byte step is injective on 32-bit registers. -/
theorem crc32Byte_inj_left (a c : Nat) (b : Byte) (ha : a < 2 ^ 32) (hc : c < 2 ^ 32)
    (h : crc32Byte a b = crc32Byte c b) : a = c :=
  Nat.xor_left_injective
    (crc32Bit_iterate_inj 8 _ _ (xor_byte_lt a b ha) (xor_byte_lt c b hc) h)

/-- For a fixed 32-bit register the byte step is injective in the byte. -/
theorem crc32Byte_inj_right (c : Nat) (b d : Byte) (hc : c < 2 ^ 32)
    (h : crc32Byte c b = crc32Byte c d) : b = d :=
  Fin.ext (Nat.xor_right_injective
    (crc32Bit_iterate_inj 8 _ _ (xor_byte_lt c b hc) (xor_byte_lt c d hc) h))

theorem foldl_crc32Byte_lt (bs : List Byte) (c : Nat) (h : c < 2 ^ 32) :
    bs.foldl crc32Byte c < 2 ^ 32 := by
  induction bs generalizing c with
  | nil => exact h
  | cons b bs ih => exact ih _ (crc32Byte_lt c b h)

theorem foldl_crc32Byte_inj (bs : List Byte) (a c : Nat) (ha : a < 2 ^ 32) (hc : c < 2 ^ 32)
    (h : bs.foldl crc32Byte a = bs.foldl crc32Byte c) : a = c := by
  induction bs generalizing a c with
  | nil => exact h
  | cons b bs ih =>
    exact crc32Byte_inj_left a c b ha hc (ih _ _ (crc32Byte_lt a b ha) (crc32Byte_lt c b hc) h)

theorem crc32Register_lt (bs : List Byte) : crc32Register bs < 2 ^ 32 :=
  foldl_crc32Byte_lt bs _ (by decide)

theorem crc32_lt (bs : List Byte) : crc32 bs < 2 ^ 32 :=
  Nat.xor_lt_two_pow (crc32Register_lt bs) (by decide)

/-- Two byte sequences that differ in exactly one byte have different
CRC-32 values. -/
theorem crc32_ne_of_one_byte (pre suf : List Byte) (b d : Byte) (h : b ≠ d) :
    crc32 (pre ++ b :: suf) ≠ crc32 (pre ++ d :: suf) := by
  intro he
  unfold crc32 at he
  have h1 := Nat.xor_left_injective he
  unfold crc32Register at h1
  rw [List.foldl_append, List.foldl_append, List.foldl_cons, List.foldl_cons] at h1
  have hp : pre.foldl crc32Byte 0xFFFFFFFF < 2 ^ 32 := foldl_crc32Byte_lt pre _ (by decide)
  have h2 := foldl_crc32Byte_inj suf _ _ (crc32Byte_lt _ b hp) (crc32Byte_lt _ d hp) h1
  exact h (crc32Byte_inj_right _ b d hp h2)

/-! ## Facts about the stream primitives -/

theorem WriteByte_good (stm : OStream) (b : Byte) (h : stm.good = true) :
    WriteByte stm b = .ok ⟨stm.bytes ++ [b], true⟩ := by
  cases stm with
  | mk bytes good =>
    simp only at h
    subst h
    simp [WriteByte]

theorem toByte_mask24 (ui : Nat) : toByte ((ui &&& 0xFF000000) >>> 24) = toByte (ui / 2 ^ 24) := by
  apply Fin.ext
  show ((ui &&& 0xFF000000) >>> 24) % 256 = (ui / 2 ^ 24) % 256
  apply Nat.eq_of_testBit_eq
  intro i
  have h256 : (256 : Nat) = 2 ^ 8 := by norm_num
  rw [h256, Nat.testBit_mod_two_pow, Nat.testBit_mod_two_pow, Nat.testBit_shiftRight,
    Nat.testBit_and, ← Nat.shiftRight_eq_div_pow, Nat.testBit_shiftRight]
  by_cases hi : i < 8
  · have : Nat.testBit 0xFF000000 (24 + i) = true := by
      interval_cases i <;> decide
    simp [hi, this]
  · simp [hi]

theorem toByte_mask16 (ui : Nat) : toByte ((ui &&& 0x00FF0000) >>> 16) = toByte (ui / 2 ^ 16) := by
  apply Fin.ext
  show ((ui &&& 0x00FF0000) >>> 16) % 256 = (ui / 2 ^ 16) % 256
  apply Nat.eq_of_testBit_eq
  intro i
  have h256 : (256 : Nat) = 2 ^ 8 := by norm_num
  rw [h256, Nat.testBit_mod_two_pow, Nat.testBit_mod_two_pow, Nat.testBit_shiftRight,
    Nat.testBit_and, ← Nat.shiftRight_eq_div_pow, Nat.testBit_shiftRight]
  by_cases hi : i < 8
  · have : Nat.testBit 0x00FF0000 (16 + i) = true := by
      interval_cases i <;> decide
    simp [hi, this]
  · simp [hi]

theorem toByte_mask8 (ui : Nat) : toByte ((ui &&& 0x0000FF00) >>> 8) = toByte (ui / 2 ^ 8) := by
  apply Fin.ext
  show ((ui &&& 0x0000FF00) >>> 8) % 256 = (ui / 2 ^ 8) % 256
  apply Nat.eq_of_testBit_eq
  intro i
  have h256 : (256 : Nat) = 2 ^ 8 := by norm_num
  rw [h256, Nat.testBit_mod_two_pow, Nat.testBit_mod_two_pow, Nat.testBit_shiftRight,
    Nat.testBit_and, ← Nat.shiftRight_eq_div_pow, Nat.testBit_shiftRight]
  by_cases hi : i < 8
  · have : Nat.testBit 0x0000FF00 (8 + i) = true := by
      interval_cases i <;> decide
    simp [hi, this]
  · simp [hi]

theorem toByte_mask0 (ui : Nat) : toByte (ui &&& 0x000000FF) = toByte ui := by
  apply Fin.ext
  show (ui &&& 0x000000FF) % 256 = ui % 256
  have : ui &&& 0x000000FF = ui % 2 ^ 8 := Nat.and_pow_two_sub_one_eq_mod ui 8
  rw [this]
  norm_num

/-- The four bytes `WriteUInt32` and `CRCCalculator::Append(MiniPNG_UInt32)`
form are the big-endian bytes of the value. -/
theorem maskBytes_eq (ui : Nat) :
    [toByte ((ui &&& 0xFF000000) >>> 24), toByte ((ui &&& 0x00FF0000) >>> 16),
      toByte ((ui &&& 0x0000FF00) >>> 8), toByte (ui &&& 0x000000FF)] = bigEndian32 ui := by
  rw [toByte_mask24, toByte_mask16, toByte_mask8, toByte_mask0]; rfl

theorem WriteUInt32_good (stm : OStream) (ui : Nat) (h : stm.good = true) :
    WriteUInt32 stm ui = .ok ⟨stm.bytes ++ bigEndian32 ui, true⟩ := by
  unfold WriteUInt32
  rw [WriteByte_good _ _ h]
  simp only []
  rw [WriteByte_good _ _ rfl]
  simp only []
  rw [WriteByte_good _ _ rfl]
  simp only []
  rw [WriteByte_good _ _ rfl]
  rw [← maskBytes_eq]
  simp

theorem WriteBuffer_good (stm : OStream) (buf : List Byte) (h : stm.good = true) :
    WriteBuffer stm buf = .ok ⟨stm.bytes ++ buf, true⟩ := by
  induction buf generalizing stm with
  | nil => cases stm; simp_all [WriteBuffer]
  | cons b buf ih =>
    unfold WriteBuffer
    rw [WriteByte_good _ _ h]
    simp only []
    rw [ih _ rfl]
    simp

theorem AppendUInt32_eq (crc : CRCCalculator) (ui : Nat) :
    crc.AppendUInt32 ui = crc.Append (bigEndian32 ui) := by
  unfold CRCCalculator.AppendUInt32
  rw [maskBytes_eq]

theorem Append_Append (crc : CRCCalculator) (a b : List Byte) :
    (crc.Append a).Append b = crc.Append (a ++ b) := by
  simp [CRCCalculator.Append, List.foldl_append]

theorem Append_nil (crc : CRCCalculator) : crc.Append [] = crc := rfl

/-- The value `ReadUInt32` forms from four bytes. -/
theorem uint32_of_bytes (b0 b1 b2 b3 : Byte) :
    (b0.val <<< 24) ||| (b1.val <<< 16) ||| (b2.val <<< 8) ||| b3.val =
      b0.val * 2 ^ 24 + b1.val * 2 ^ 16 + b2.val * 2 ^ 8 + b3.val := by
  have h0 := b0.isLt
  have h1 := b1.isLt
  have h2 := b2.isLt
  have h3 := b3.isLt
  rw [Nat.shiftLeft_eq, Nat.shiftLeft_eq, Nat.shiftLeft_eq]
  have e1 : b0.val * 2 ^ 24 ||| b1.val * 2 ^ 16 = 2 ^ 16 * (b0.val * 2 ^ 8 + b1.val) := by
    have := Nat.mul_add_lt_is_or (show b1.val * 2 ^ 16 < 2 ^ 24 by omega) b0.val
    rw [Nat.mul_comm (2 ^ 24)] at this
    rw [← this]; ring
  have e2 : 2 ^ 16 * (b0.val * 2 ^ 8 + b1.val) ||| b2.val * 2 ^ 8 =
      2 ^ 8 * ((b0.val * 2 ^ 8 + b1.val) * 2 ^ 8 + b2.val) := by
    have := Nat.mul_add_lt_is_or (show b2.val * 2 ^ 8 < 2 ^ 16 by omega)
      (b0.val * 2 ^ 8 + b1.val)
    rw [← this]; ring
  have e3 := Nat.mul_add_lt_is_or (show b3.val < 2 ^ 8 by omega)
      ((b0.val * 2 ^ 8 + b1.val) * 2 ^ 8 + b2.val)
  rw [e1, e2, ← e3]; ring

theorem ReadUInt32_cons (b0 b1 b2 b3 : Byte) (rest : IStream) :
    ReadUInt32 (b0 :: b1 :: b2 :: b3 :: rest) = .ok (uint32OfBytes b0 b1 b2 b3, rest) := by
  simp only [ReadUInt32, ReadByte, uint32_of_bytes, uint32OfBytes]

theorem uint32OfBytes_lt (b0 b1 b2 b3 : Byte) : uint32OfBytes b0 b1 b2 b3 < 2 ^ 32 := by
  have h0 := b0.isLt
  have h1 := b1.isLt
  have h2 := b2.isLt
  have h3 := b3.isLt
  unfold uint32OfBytes
  omega

theorem bigEndian32_of_bytes (b0 b1 b2 b3 : Byte) :
    bigEndian32 (uint32OfBytes b0 b1 b2 b3) = [b0, b1, b2, b3] := by
  have h0 := b0.isLt
  have h1 := b1.isLt
  have h2 := b2.isLt
  have h3 := b3.isLt
  unfold bigEndian32 toByte uint32OfBytes
  simp only [List.cons.injEq, and_true]
  refine ⟨Fin.ext ?_, Fin.ext ?_, Fin.ext ?_, Fin.ext ?_⟩ <;> simp only [] <;> omega

theorem ReadUInt32_bigEndian32 (v : Nat) (hv : v < 2 ^ 32) (rest : IStream) :
    ReadUInt32 (bigEndian32 v ++ rest) = .ok (v, rest) := by
  unfold bigEndian32
  simp only [List.cons_append, List.nil_append, ReadUInt32_cons, toByte, uint32OfBytes]
  congr 2
  omega

theorem bigEndian32_length (v : Nat) : (bigEndian32 v).length = 4 := rfl

theorem ReadBuffer_append (buf rest : List Byte) :
    ReadBuffer (buf ++ rest) buf.length = .ok (buf, rest) := by
  induction buf with
  | nil => rfl
  | cons b buf ih => simp [ReadBuffer, ReadByte, ih]


/-! ## Facts about the chunk writer and the chunk reader -/

theorem putItems_good (items : List ChunkItem) (w : PNGChunkWriter) (h : w.stm_.good = true) :
    w.putItems items = .ok ⟨⟨w.stm_.bytes ++ ChunkItem.payload items, true⟩, w.length_,
      w.crcCalc_.Append (ChunkItem.payload items)⟩ := by
  induction items generalizing w with
  | nil =>
    cases w with
    | mk stm len crc =>
      cases stm with
      | mk bytes good =>
        simp only at h
        subst h
        simp [PNGChunkWriter.putItems, ChunkItem.payload, Append_nil]
  | cons i items ih =>
    cases i with
    | byte b =>
      simp only [PNGChunkWriter.putItems, PNGChunkWriter.putByte, WriteByte_good _ _ h]
      rw [ih _ rfl]
      simp [ChunkItem.payload, ChunkItem.bytes, CRCCalculator.AppendByte, Append_Append]
    | uint32 ui =>
      simp only [PNGChunkWriter.putItems, PNGChunkWriter.putUInt32, WriteUInt32_good _ _ h]
      rw [ih _ rfl]
      simp [ChunkItem.payload, ChunkItem.bytes, AppendUInt32_eq, Append_Append]
    | buffer buf =>
      simp only [PNGChunkWriter.putItems, PNGChunkWriter.Write, List.take_length,
        WriteBuffer_good _ _ h]
      rw [ih _ rfl]
      simp [ChunkItem.payload, ChunkItem.bytes, Append_Append]

theorem writeChunk_good (stm : OStream) (length : Nat) (chunkType : PNGChunkType)
    (items : List ChunkItem) (h : stm.good = true) :
    PNGChunkWriter.writeChunk stm length chunkType items =
      .ok ⟨stm.bytes ++ (bigEndian32 length ++ bigEndian32 chunkType.GetValue ++
        ChunkItem.payload items ++
        bigEndian32 (crc32 (bigEndian32 chunkType.GetValue ++ ChunkItem.payload items))),
        true⟩ := by
  unfold PNGChunkWriter.writeChunk PNGChunkWriter.new
  rw [WriteUInt32_good _ _ h]
  simp only []
  rw [WriteUInt32_good _ _ rfl]
  simp only []
  rw [putItems_good _ _ rfl]
  simp only [PNGChunkWriter.End]
  rw [WriteUInt32_good _ _ rfl, AppendUInt32_eq, Append_Append, new_Append_GetCRC]
  simp

theorem PNGChunkReader_new_cons (l0 l1 l2 l3 t0 t1 t2 t3 : Byte) (rest : IStream) :
    PNGChunkReader.new (l0 :: l1 :: l2 :: l3 :: t0 :: t1 :: t2 :: t3 :: rest) =
      .ok ⟨rest, uint32OfBytes l0 l1 l2 l3, ⟨uint32OfBytes t0 t1 t2 t3⟩,
        CRCCalculator.new.Append [t0, t1, t2, t3]⟩ := by
  simp only [PNGChunkReader.new, ReadUInt32_cons, AppendUInt32_eq, bigEndian32_of_bytes]

theorem PNGChunkReader_new_bigEndian32 (length type : Nat) (hl : length < 2 ^ 32)
    (ht : type < 2 ^ 32) (rest : IStream) :
    PNGChunkReader.new (bigEndian32 length ++ (bigEndian32 type ++ rest)) =
      .ok ⟨rest, length, ⟨type⟩, CRCCalculator.new.Append (bigEndian32 type)⟩ := by
  simp only [PNGChunkReader.new, ReadUInt32_bigEndian32 _ hl, ReadUInt32_bigEndian32 _ ht,
    AppendUInt32_eq]

/-- Reading any mix of items whose sizes add up to the length of `payload`
takes exactly `payload` off the stream and appends it to the CRC. -/
theorem getItems_payload (kinds : List ChunkItemKind) (payload rest : List Byte)
    (rd : PNGChunkReader) (hs : ChunkItemKind.totalSize kinds = payload.length)
    (hstm : rd.stm_ = payload ++ rest) :
    ∃ items, rd.getItems kinds =
        .ok (items, { rd with stm_ := rest, crcCalc_ := rd.crcCalc_.Append payload }) ∧
      ChunkItem.payload items = payload ∧ items.map ChunkItem.kind = kinds := by
  induction kinds generalizing payload rd with
  | nil =>
    have : payload = [] := by
      apply List.eq_nil_of_length_eq_zero
      simpa [ChunkItemKind.totalSize] using hs.symm
    subst this
    refine ⟨[], ?_, rfl, rfl⟩
    cases rd
    simp_all [PNGChunkReader.getItems, Append_nil]
  | cons k kinds ih =>
    cases k with
    | byte =>
      rcases payload with _ | ⟨b, p⟩
      · simp [ChunkItemKind.totalSize, ChunkItemKind.size] at hs
      have hs2 : ChunkItemKind.totalSize kinds = p.length := by
        simp [ChunkItemKind.totalSize, ChunkItemKind.size] at hs; omega
      obtain ⟨items, h1, h2, h3⟩ := ih p
        { rd with stm_ := p ++ rest, crcCalc_ := rd.crcCalc_.AppendByte b } hs2 rfl
      refine ⟨.byte b :: items, ?_, ?_, ?_⟩
      · simp only [PNGChunkReader.getItems, PNGChunkReader.getByte, hstm, List.cons_append,
          ReadByte, h1]
        simp [CRCCalculator.AppendByte, Append_Append]
      · simp [ChunkItem.payload, ChunkItem.bytes, h2]
      · simp [ChunkItem.kind, h3]
    | uint32 =>
      have hlen : 4 ≤ payload.length := by
        simp [ChunkItemKind.totalSize, ChunkItemKind.size] at hs; omega
      rcases payload with _ | ⟨b0, _ | ⟨b1, _ | ⟨b2, _ | ⟨b3, p⟩⟩⟩⟩ <;>
        try (simp at hlen; done)
      have hs2 : ChunkItemKind.totalSize kinds = p.length := by
        simp [ChunkItemKind.totalSize, ChunkItemKind.size] at hs; omega
      obtain ⟨items, h1, h2, h3⟩ := ih p
        { rd with stm_ := p ++ rest,
                  crcCalc_ := rd.crcCalc_.AppendUInt32 (uint32OfBytes b0 b1 b2 b3) } hs2 rfl
      refine ⟨.uint32 (uint32OfBytes b0 b1 b2 b3) :: items, ?_, ?_, ?_⟩
      · simp only [AppendUInt32_eq, bigEndian32_of_bytes] at h1
        simp only [PNGChunkReader.getItems, PNGChunkReader.getUInt32, hstm, List.cons_append,
          ReadUInt32_cons, AppendUInt32_eq, bigEndian32_of_bytes, h1]
        simp [Append_Append]
      · simp only [ChunkItem.payload, ChunkItem.bytes, h2, bigEndian32_of_bytes]
        rfl
      · simp [ChunkItem.kind, h3]
    | buffer len =>
      have hlen : len ≤ payload.length := by
        simp [ChunkItemKind.totalSize, ChunkItemKind.size] at hs; omega
      have hs2 : ChunkItemKind.totalSize kinds = (payload.drop len).length := by
        simp [ChunkItemKind.totalSize, ChunkItemKind.size] at hs
        simp; omega
      obtain ⟨items, h1, h2, h3⟩ := ih (payload.drop len)
        { rd with stm_ := payload.drop len ++ rest,
                  crcCalc_ := rd.crcCalc_.Append (payload.take len) } hs2 rfl
      refine ⟨.buffer (payload.take len) :: items, ?_, ?_, ?_⟩
      · have hrb : ReadBuffer (payload ++ rest) len =
            .ok (payload.take len, payload.drop len ++ rest) := by
          have := ReadBuffer_append (payload.take len) (payload.drop len ++ rest)
          rw [← List.append_assoc, List.take_append_drop, List.length_take,
            Nat.min_eq_left hlen] at this
          exact this
        simp only [PNGChunkReader.getItems, PNGChunkReader.Read, hstm, hrb, h1]
        simp [Append_Append]
      · simp [ChunkItem.payload, ChunkItem.bytes, h2]
      · simp [ChunkItem.kind, h3, Nat.min_eq_left hlen]

/-- Reading back the items a writer has put returns those items. -/
theorem getItems_items (items : List ChunkItem) (rest : List Byte) (rd : PNGChunkReader)
    (hf : ∀ i ∈ items, i.Fits) (hstm : rd.stm_ = ChunkItem.payload items ++ rest) :
    rd.getItems (items.map ChunkItem.kind) =
      .ok (items, { rd with stm_ := rest,
                            crcCalc_ := rd.crcCalc_.Append (ChunkItem.payload items) }) := by
  induction items generalizing rd with
  | nil =>
    cases rd
    simp_all [PNGChunkReader.getItems, ChunkItem.payload, Append_nil]
  | cons i items ih =>
    have hf2 : ∀ i ∈ items, i.Fits := fun j hj => hf j (List.mem_cons_of_mem _ hj)
    cases i with
    | byte b =>
      simp only [List.map_cons, ChunkItem.kind, PNGChunkReader.getItems,
        PNGChunkReader.getByte, hstm, ChunkItem.payload, ChunkItem.bytes,
        List.cons_append, List.nil_append, ReadByte]
      rw [ih _ hf2 rfl]
      simp [CRCCalculator.AppendByte, Append_Append]
    | uint32 ui =>
      have hui : ui < 2 ^ 32 := hf (.uint32 ui) (List.mem_cons_self _ _)
      simp only [List.map_cons, ChunkItem.kind, PNGChunkReader.getItems,
        PNGChunkReader.getUInt32, hstm, ChunkItem.payload, ChunkItem.bytes,
        List.append_assoc, ReadUInt32_bigEndian32 _ hui]
      rw [ih _ hf2 rfl]
      simp [AppendUInt32_eq, Append_Append]
    | buffer buf =>
      simp only [List.map_cons, ChunkItem.kind, PNGChunkReader.getItems,
        PNGChunkReader.Read, hstm, ChunkItem.payload, ChunkItem.bytes,
        List.append_assoc, ReadBuffer_append]
      rw [ih _ hf2 rfl]
      simp [Append_Append]

theorem End_cons (rd : PNGChunkReader) (c0 c1 c2 c3 : Byte) (rest : IStream)
    (hstm : rd.stm_ = c0 :: c1 :: c2 :: c3 :: rest) :
    rd.End = if uint32OfBytes c0 c1 c2 c3 ≠ rd.crcCalc_.GetCRC then .error .badCRC
      else .ok rest := by
  simp only [PNGChunkReader.End, hstm, ReadUInt32_cons]

/-! ## The CRC engine and the chunk framing (claims C2, C5, C6, C7) -/

/-- C2: for every byte sequence, a fresh `CRCCalculator` that appends the
bytes through its 256-entry table and then returns `GetCRC` yields the
bit-by-bit reflected CRC-32 (polynomial `0xEDB88320`, initial value
`0xFFFFFFFF`, final xor with `0xFFFFFFFF`); the CRC of the empty sequence is
0 and the CRC of the four bytes `IEND` is `0xAE426082`. -/
theorem CRCCalculator_GetCRC_eq_crc32 :
    (∀ bs : List Byte, (CRCCalculator.new.Append bs).GetCRC = crc32 bs) ∧
    (CRCCalculator.new.Append []).GetCRC = 0 ∧
    (CRCCalculator.new.Append [73, 69, 78, 68]).GetCRC = 0xAE426082 :=
  ⟨new_Append_GetCRC, by decide, by decide⟩

/-- C5: for every declared length, type code and payload written through a
`PNGChunkWriter` (constructor, any mix of `operator<<` and `Write`, then
`End`), the bytes emitted to the stream are exactly the length as 4
big-endian bytes, the type as 4 big-endian bytes, the payload, and the
CRC-32 of the type bytes followed by the payload as 4 big-endian bytes. -/
theorem PNGChunkWriter_emits_sealed_chunk (out : List Byte) (length : Nat)
    (chunkType : PNGChunkType) (items : List ChunkItem) :
    PNGChunkWriter.writeChunk ⟨out, true⟩ length chunkType items =
      .ok ⟨out ++ (bigEndian32 length ++ bigEndian32 chunkType.GetValue ++
        ChunkItem.payload items ++
        bigEndian32 (crc32 (bigEndian32 chunkType.GetValue ++ ChunkItem.payload items))),
        true⟩ :=
  writeChunk_good ⟨out, true⟩ length chunkType items rfl

/-- C6: for every length, type code and payload, a `PNGChunkReader`
constructed on the bytes a `PNGChunkWriter` produced for that chunk returns
the same length and type, reading the payload with the counterpart calls
returns the same items, and `End` succeeds, leaving what follows the chunk. -/
theorem PNGChunkReader_accepts_PNGChunkWriter (length : Nat) (chunkType : PNGChunkType)
    (items : List ChunkItem) (rest : List Byte) (hl : length < 2 ^ 32)
    (ht : chunkType.GetValue < 2 ^ 32) (hf : ∀ i ∈ items, i.Fits) :
    ∃ out reader reader2,
      PNGChunkWriter.writeChunk ⟨[], true⟩ length chunkType items = .ok ⟨out, true⟩ ∧
      PNGChunkReader.new (out ++ rest) = .ok reader ∧
      reader.GetLength = length ∧ reader.GetType = chunkType ∧
      reader.getItems (items.map ChunkItem.kind) = .ok (items, reader2) ∧
      reader2.End = .ok rest := by
  have hc := crc32_lt (bigEndian32 chunkType.GetValue ++ ChunkItem.payload items)
  refine ⟨bigEndian32 length ++ bigEndian32 chunkType.GetValue ++ ChunkItem.payload items ++
      bigEndian32 (crc32 (bigEndian32 chunkType.GetValue ++ ChunkItem.payload items)),
    ⟨ChunkItem.payload items ++
      (bigEndian32 (crc32 (bigEndian32 chunkType.GetValue ++ ChunkItem.payload items)) ++ rest),
      length, ⟨chunkType.GetValue⟩, CRCCalculator.new.Append (bigEndian32 chunkType.GetValue)⟩,
    ⟨bigEndian32 (crc32 (bigEndian32 chunkType.GetValue ++ ChunkItem.payload items)) ++ rest,
      length, ⟨chunkType.GetValue⟩,
      (CRCCalculator.new.Append (bigEndian32 chunkType.GetValue)).Append
        (ChunkItem.payload items)⟩, ?_, ?_, rfl, rfl, ?_, ?_⟩
  · rw [writeChunk_good ⟨[], true⟩ length chunkType items rfl]
    simp
  · simp only [List.append_assoc]
    exact PNGChunkReader_new_bigEndian32 length chunkType.GetValue hl ht _
  · exact getItems_items items _ _ hf rfl
  · simp only [PNGChunkReader.End, ReadUInt32_bigEndian32 _ hc, Append_Append,
      new_Append_GetCRC]
    simp

/-- A concrete instance of C6: a header-like chunk. -/
theorem PNGChunkReader_accepts_PNGChunkWriter_witness :
    ∃ out reader reader2,
      PNGChunkWriter.writeChunk ⟨[], true⟩ 13 IHDRChunkType
        [.uint32 2, .uint32 2, .byte 8, .buffer [3, 0, 0, 0]] = .ok ⟨out, true⟩ ∧
      PNGChunkReader.new (out ++ [1, 2, 3]) = .ok reader ∧
      reader.GetLength = 13 ∧ reader.GetType = IHDRChunkType ∧
      reader.getItems ([.uint32 2, .uint32 2, .byte 8, .buffer [3, 0, 0, 0]].map
        ChunkItem.kind) = .ok ([.uint32 2, .uint32 2, .byte 8, .buffer [3, 0, 0, 0]], reader2) ∧
      reader2.End = .ok [1, 2, 3] :=
  PNGChunkReader_accepts_PNGChunkWriter 13 IHDRChunkType
    [.uint32 2, .uint32 2, .byte 8, .buffer [3, 0, 0, 0]] [1, 2, 3] (by decide) (by decide)
    (by
      intro i hi
      simp only [List.mem_cons, List.mem_singleton, List.not_mem_nil, or_false] at hi
      rcases hi with h | h | h | h <;> subst h <;> simp [ChunkItem.Fits])

/-- C7: on a stream holding four length bytes, four type bytes, a payload
read through the reader by any mix of calls, and four more bytes, `End`
fails with the bad-CRC error if and only if the big-endian value of those
four bytes differs from the CRC-32 of the type bytes followed by the payload
bytes read; otherwise it succeeds and leaves the rest of the stream. -/
theorem PNGChunkReader_End_checks_crc32 (l0 l1 l2 l3 t0 t1 t2 t3 c0 c1 c2 c3 : Byte)
    (payload rest : List Byte) (kinds : List ChunkItemKind)
    (hk : ChunkItemKind.totalSize kinds = payload.length) :
    ∃ reader items reader2,
      PNGChunkReader.new (l0 :: l1 :: l2 :: l3 :: t0 :: t1 :: t2 :: t3 ::
        (payload ++ c0 :: c1 :: c2 :: c3 :: rest)) = .ok reader ∧
      reader.getItems kinds = .ok (items, reader2) ∧
      ChunkItem.payload items = payload ∧
      reader2.stm_ = c0 :: c1 :: c2 :: c3 :: rest ∧
      (reader2.End = .error .badCRC ↔
        uint32OfBytes c0 c1 c2 c3 ≠ crc32 ([t0, t1, t2, t3] ++ payload)) ∧
      (uint32OfBytes c0 c1 c2 c3 = crc32 ([t0, t1, t2, t3] ++ payload) →
        reader2.End = .ok rest) := by
  obtain ⟨items, h1, h2, _⟩ := getItems_payload kinds payload (c0 :: c1 :: c2 :: c3 :: rest)
    ⟨payload ++ c0 :: c1 :: c2 :: c3 :: rest, uint32OfBytes l0 l1 l2 l3,
      ⟨uint32OfBytes t0 t1 t2 t3⟩, CRCCalculator.new.Append [t0, t1, t2, t3]⟩ hk rfl
  refine ⟨_, items, _, PNGChunkReader_new_cons l0 l1 l2 l3 t0 t1 t2 t3 _, h1, h2, rfl, ?_, ?_⟩
  · rw [End_cons _ c0 c1 c2 c3 rest rfl]
    simp only [Append_Append, new_Append_GetCRC]
    split <;> simp_all
  · intro h
    rw [End_cons _ c0 c1 c2 c3 rest rfl]
    simp only [Append_Append, new_Append_GetCRC]
    simp [h]

/-- A concrete instance of C7: an empty `IEND` chunk followed by a wrong CRC. -/
theorem PNGChunkReader_End_checks_crc32_witness :
    ∃ reader items reader2,
      PNGChunkReader.new (0 :: 0 :: 0 :: 0 :: 73 :: 69 :: 78 :: 68 ::
        ([] ++ 1 :: 2 :: 3 :: 4 :: [])) = .ok reader ∧
      reader.getItems [] = .ok (items, reader2) ∧
      ChunkItem.payload items = [] ∧
      reader2.stm_ = 1 :: 2 :: 3 :: 4 :: [] ∧
      (reader2.End = .error .badCRC ↔
        uint32OfBytes 1 2 3 4 ≠ crc32 ([73, 69, 78, 68] ++ [])) ∧
      (uint32OfBytes 1 2 3 4 = crc32 ([73, 69, 78, 68] ++ []) → reader2.End = .ok []) :=
  PNGChunkReader_End_checks_crc32 0 0 0 0 73 69 78 68 1 2 3 4 [] [] [] rfl

/-! ## The order of the required chunks (claims C8, C9, C10) -/

open PNGReader

theorem IHDRChunkType_value : IHDRChunkType = ⟨0x49484452⟩ := by decide
theorem PLTEChunkType_value : PLTEChunkType = ⟨0x504C5445⟩ := by decide
theorem IDATChunkType_value : IDATChunkType = ⟨0x49444154⟩ := by decide
theorem IENDChunkType_value : IENDChunkType = ⟨0x49454E44⟩ := by decide

theorem CheckSignature_loop_append (sig rest : List Byte) :
    CheckSignature.loop sig (sig ++ rest) = .ok rest := by
  induction sig with
  | nil => rfl
  | cons s sig ih => simp [CheckSignature.loop, ReadByte, ih]

/-- An exception thrown by `ReadChunk` leaves the chunk loop. -/
theorem ReadChunks_of_ReadChunk_error {z : ZLib} (n : Nat) (r : PNGReader z) (t : Thrown)
    (hs : r.stm_ ≠ []) (h : r.ReadChunk = .error t) : ReadChunks (n + 1) r = .error t := by
  simp [ReadChunks, hs, h]

/-- An exception thrown by the chunk loop leaves `LoadPNG` through the
sentry, which reports failure to the image. -/
theorem run_of_ReadChunks_error {z : ZLib} (d : Decompressor z) (sig rest : List Byte)
    (t : Thrown) (hsig : sig = PngSignature)
    (h : ReadChunks rest.length { init d (sig ++ rest) with stm_ := rest } = .error t) :
    PNGReader.run d (sig ++ rest) = ⟨t.image_ ++ [.EndWrite false], some t.what⟩ := by
  subst hsig
  simp only [PNGReader.run, PNGReader.body, PNGReader.CheckSignature, init,
    CheckSignature_loop_append]
  simp only [init] at h
  rw [h]

/-- `ProcessChunksRead` of a required chunk other than the header, before any
chunk has been seen, throws the chunk-before-IHDR error. -/
theorem ProcessChunksRead_before_IHDR {z : ZLib} (r : PNGReader z) (curChunk : Nat)
    (hr : r.chunksRead_ = 0) (hc : curChunk = PLTEChunk ∨ curChunk = IDATChunk ∨
      curChunk = IENDChunk) :
    r.ProcessChunksRead curChunk = .error ⟨.chunkBeforeIHDR, r.image_⟩ := by
  rcases hc with h | h | h <;> subst h <;>
    simp [ProcessChunksRead, hr, PLTEChunk, IDATChunk, IENDChunk, IHDRChunk]

theorem handleChunk_IHDR {z : ZLib} (reader : PNGChunkReader) (r : PNGReader z)
    (h : reader.type_ = IHDRChunkType) :
    handleChunk reader r = r.requiredChunk IHDRChunk (ReadIHDRChunk reader) := by
  simp only [handleChunk, PNGChunkReader.GetType, h, if_true]

theorem handleChunk_PLTE {z : ZLib} (reader : PNGChunkReader) (r : PNGReader z)
    (h : reader.type_ = PLTEChunkType) :
    handleChunk reader r = r.requiredChunk PLTEChunk (ReadPLTEChunk reader) := by
  have h1 : PLTEChunkType ≠ IHDRChunkType := by decide
  simp only [handleChunk, PNGChunkReader.GetType, h, h1, if_true, if_false]

theorem handleChunk_IDAT {z : ZLib} (reader : PNGChunkReader) (r : PNGReader z)
    (h : reader.type_ = IDATChunkType) :
    handleChunk reader r = r.requiredChunk IDATChunk (ReadIDATChunk reader) := by
  have h1 : IDATChunkType ≠ IHDRChunkType := by decide
  have h2 : IDATChunkType ≠ PLTEChunkType := by decide
  simp only [handleChunk, PNGChunkReader.GetType, h, h1, h2, if_true, if_false]

theorem handleChunk_IEND {z : ZLib} (reader : PNGChunkReader) (r : PNGReader z)
    (h : reader.type_ = IENDChunkType) :
    handleChunk reader r = r.requiredChunk IENDChunk (ReadIENDChunk reader) := by
  have h1 : IENDChunkType ≠ IHDRChunkType := by decide
  have h2 : IENDChunkType ≠ PLTEChunkType := by decide
  have h3 : IENDChunkType ≠ IDATChunkType := by decide
  simp only [handleChunk, PNGChunkReader.GetType, h, h1, h2, h3, if_true, if_false]

theorem handleChunk_unknown {z : ZLib} (reader : PNGChunkReader) (r : PNGReader z)
    (h1 : reader.type_ ≠ IHDRChunkType) (h2 : reader.type_ ≠ PLTEChunkType)
    (h3 : reader.type_ ≠ IDATChunkType) (h4 : reader.type_ ≠ IENDChunkType) :
    handleChunk reader r = ReadUnknownChunk reader r := by
  simp [handleChunk, PNGChunkReader.GetType, h1, h2, h3, h4]

/-- The first chunk: a type other than `IHDR` whose ancillary bit is clear
makes `ReadChunk` throw. -/
theorem ReadChunk_first_not_IHDR {z : ZLib} (r : PNGReader z)
    (l0 l1 l2 l3 t0 t1 t2 t3 : Byte) (rest : List Byte)
    (hstm : r.stm_ = l0 :: l1 :: l2 :: l3 :: t0 :: t1 :: t2 :: t3 :: rest)
    (hr : r.chunksRead_ = 0)
    (hne : uint32OfBytes t0 t1 t2 t3 ≠ IHDRChunkType.GetValue)
    (hcrit : uint32OfBytes t0 t1 t2 t3 &&& 0x20000000 = 0) :
    r.ReadChunk = .error ⟨.chunkBeforeIHDR, r.image_⟩ ∨
      r.ReadChunk = .error ⟨.nonAncilliaryChunk, r.image_⟩ := by
  have hne2 : (⟨uint32OfBytes t0 t1 t2 t3⟩ : PNGChunkType) ≠ IHDRChunkType := by
    intro h
    apply hne
    rw [← h]
    rfl
  have hiend : (0 : Nat) &&& IENDChunk = 0 := by decide
  simp only [ReadChunk, hstm, PNGChunkReader_new_cons, hr, hiend, ne_eq, not_true_eq_false,
    if_false]
  by_cases h1 : (⟨uint32OfBytes t0 t1 t2 t3⟩ : PNGChunkType) = PLTEChunkType
  · left
    rw [handleChunk_PLTE _ _ h1, requiredChunk,
      ProcessChunksRead_before_IHDR r PLTEChunk hr (Or.inl rfl)]
  by_cases h2 : (⟨uint32OfBytes t0 t1 t2 t3⟩ : PNGChunkType) = IDATChunkType
  · left
    rw [handleChunk_IDAT _ _ h2, requiredChunk,
      ProcessChunksRead_before_IHDR r IDATChunk hr (Or.inr (Or.inl rfl))]
  by_cases h3 : (⟨uint32OfBytes t0 t1 t2 t3⟩ : PNGChunkType) = IENDChunkType
  · left
    rw [handleChunk_IEND _ _ h3, requiredChunk,
      ProcessChunksRead_before_IHDR r IENDChunk hr (Or.inr (Or.inr rfl))]
  · right
    rw [handleChunk_unknown _ _ hne2 h1 h2 h3]
    simp [ReadUnknownChunk, PNGChunkReader.IsAncilliary, PNGChunkType.GetValue, hcrit]

/-- C8, counterexample: a stream whose first chunk is not the header chunk
but an unknown ancillary chunk is decoded successfully. -/
theorem first_chunk_ancillary_decodes :
    ancillaryFirstStream.take 16 =
      PngSignature ++ [0, 0, 0, 0] ++ bigEndian32 0x74455874 ∧
    0x74455874 ≠ IHDRChunkType.GetValue ∧
    LoadPNG ZLib.stored ancillaryFirstStream =
      ⟨[.BeginWrite, .SetImageInfo ⟨1, 1⟩, .SetScanline 0 [7], .EndWrite true], none⟩ := by
  decide!

/-- C8, amended: decode fails for every stream whose first chunk after the
signature has a type code other than `IHDR` with the ancillary bit clear,
which covers `PLTE`, `IDAT`, `IEND` and every unknown critical type. -/
theorem first_chunk_must_be_IHDR (z : ZLib) (l0 l1 l2 l3 t0 t1 t2 t3 : Byte)
    (rest : List Byte) (hne : uint32OfBytes t0 t1 t2 t3 ≠ IHDRChunkType.GetValue)
    (hcrit : uint32OfBytes t0 t1 t2 t3 &&& 0x20000000 = 0) :
    ∃ e, (LoadPNG z (PngSignature ++
        l0 :: l1 :: l2 :: l3 :: t0 :: t1 :: t2 :: t3 :: rest)).thrown = some e ∧
      (e = .inflateInitFailed ∨ e = .chunkBeforeIHDR ∨ e = .nonAncilliaryChunk) := by
  unfold LoadPNG Decompressor.new
  cases z.inflateInit with
  | none => exact ⟨_, rfl, Or.inl rfl⟩
  | some s =>
    simp only []
    have h := ReadChunk_first_not_IHDR
      { init (⟨[], s⟩ : Decompressor z)
          (PngSignature ++ l0 :: l1 :: l2 :: l3 :: t0 :: t1 :: t2 :: t3 :: rest) with
        stm_ := l0 :: l1 :: l2 :: l3 :: t0 :: t1 :: t2 :: t3 :: rest }
      l0 l1 l2 l3 t0 t1 t2 t3 rest rfl rfl hne hcrit
    rcases h with h | h
    · refine ⟨_, ?_, Or.inr (Or.inl rfl)⟩
      rw [run_of_ReadChunks_error _ _ _ _ rfl
        (ReadChunks_of_ReadChunk_error _ _ _ (by simp) h)]
    · refine ⟨_, ?_, Or.inr (Or.inr rfl)⟩
      rw [run_of_ReadChunks_error _ _ _ _ rfl
        (ReadChunks_of_ReadChunk_error _ _ _ (by simp) h)]

/-- An instance of the amended C8: a stream that starts with a palette
chunk. -/
theorem first_chunk_must_be_IHDR_witness :
    ∃ e, (LoadPNG ZLib.stored (PngSignature ++
        0 :: 0 :: 0 :: 0 :: 80 :: 76 :: 84 :: 69 :: [1, 2, 3, 4])).thrown = some e ∧
      (e = .inflateInitFailed ∨ e = .chunkBeforeIHDR ∨ e = .nonAncilliaryChunk) :=
  first_chunk_must_be_IHDR ZLib.stored 0 0 0 0 80 76 84 69 [1, 2, 3, 4] (by decide) (by decide)

theorem four_le_of_and_four (x : Nat) (h : x &&& 4 ≠ 0) : 4 ≤ x := by
  by_contra hlt
  have hx : x < 4 := by omega
  interval_cases x <;> exact h (by decide)

/-- The outcome of `ReadChunk` on a palette chunk once an image-data chunk
has been read. -/
theorem ReadChunk_PLTE_after_IDAT {z : ZLib} (r : PNGReader z) (l0 l1 l2 l3 : Byte)
    (rest : List Byte) (hstm : r.stm_ = l0 :: l1 :: l2 :: l3 :: 80 :: 76 :: 84 :: 69 :: rest)
    (hidat : r.chunksRead_ &&& IDATChunk ≠ 0) :
    r.ReadChunk = .error ⟨
      if r.chunksRead_ &&& IENDChunk ≠ 0 then .chunkAfterIEND
      else if r.chunksRead_ &&& PLTEChunk ≠ 0 then .duplicateChunk
      else .outOfOrderChunk, r.image_⟩ := by
  have ht : (⟨uint32OfBytes 80 76 84 69⟩ : PNGChunkType) = PLTEChunkType := by decide
  have h4 : 4 ≤ r.chunksRead_ := four_le_of_and_four _ hidat
  simp only [ReadChunk, hstm, PNGChunkReader_new_cons]
  by_cases hend : r.chunksRead_ &&& IENDChunk ≠ 0
  · simp [hend]
  · rw [if_neg hend, if_neg hend, handleChunk_PLTE _ _ ht]
    by_cases hp : r.chunksRead_ &&& PLTEChunk ≠ 0
    · rw [requiredChunk, ProcessChunksRead]
      rw [if_pos ⟨by decide, hp⟩, if_pos hp]
    · have hsh : (PLTEChunk <<< 1) % 2 ^ 32 ≤ r.chunksRead_ := by
        have : (PLTEChunk <<< 1) % 2 ^ 32 = 4 := by decide
        omega
      rw [requiredChunk, ProcessChunksRead]
      rw [if_neg (fun h => hp h.2), if_pos hsh, if_neg hp]

/-- C9, counterexample: in the chunk sequence header, palette, image data,
palette a palette chunk appears after an image-data chunk has been read, and
decode fails with the duplicate-chunk error, not the out-of-order-chunk
error. -/
theorem palette_after_data_duplicate :
    LoadPNG ZLib.stored paletteAfterDataStream =
      ⟨[.BeginWrite, .SetImageInfo ⟨1, 1⟩, .SetScanline 0 [7], .EndWrite false],
        some .duplicateChunk⟩ := by
  decide!

/-- C9, amended: once an image-data chunk has been read, a palette chunk
makes `ReadChunk`, and with it the chunk loop of the decoder, throw a
structural-violation error without a further call on the image: the
out-of-order-chunk error of `ProcessChunksRead` when neither a palette chunk
nor the end chunk has been read before, the duplicate-chunk error when a
palette chunk has, the chunk-after-IEND error when the end chunk has. -/
theorem palette_after_data_fails (z : ZLib) (r : PNGReader z) (l0 l1 l2 l3 : Byte)
    (rest : List Byte) (n : Nat)
    (hstm : r.stm_ = l0 :: l1 :: l2 :: l3 :: 80 :: 76 :: 84 :: 69 :: rest)
    (hidat : r.chunksRead_ &&& IDATChunk ≠ 0) :
    ∃ e, ReadChunks (n + 1) r = .error ⟨e, r.image_⟩ ∧
      (e = .outOfOrderChunk ∨ e = .duplicateChunk ∨ e = .chunkAfterIEND) ∧
      (r.chunksRead_ &&& PLTEChunk = 0 → r.chunksRead_ &&& IENDChunk = 0 →
        e = .outOfOrderChunk) ∧
      (r.chunksRead_ &&& PLTEChunk ≠ 0 → r.chunksRead_ &&& IENDChunk = 0 →
        e = .duplicateChunk) ∧
      (r.chunksRead_ &&& IENDChunk ≠ 0 → e = .chunkAfterIEND) := by
  have h := ReadChunk_PLTE_after_IDAT r l0 l1 l2 l3 rest hstm hidat
  have hs : r.stm_ ≠ [] := by simp [hstm]
  refine ⟨_, ReadChunks_of_ReadChunk_error n r _ hs h, ?_, ?_, ?_, ?_⟩
  · by_cases h1 : r.chunksRead_ &&& IENDChunk ≠ 0
    · simp [h1]
    · by_cases h2 : r.chunksRead_ &&& PLTEChunk ≠ 0
      · simp [h1, h2]
      · simp [h1, h2]
  · intro h2 h1
    simp [h1, h2]
  · intro h2 h1
    simp [h1, h2]
  · intro h1
    simp [h1]

/-- An instance of the amended C9: the state after header and image data,
with a palette chunk next in the stream. -/
theorem palette_after_data_fails_witness :
    ∃ e, ReadChunks (0 + 1)
        { init (⟨[], ()⟩ : Decompressor ZLib.stored) [] with
          stm_ := 0 :: 0 :: 0 :: 0 :: 80 :: 76 :: 84 :: 69 :: [], chunksRead_ := 5 } =
        .error ⟨e, [.BeginWrite]⟩ ∧
      (e = .outOfOrderChunk ∨ e = .duplicateChunk ∨ e = .chunkAfterIEND) ∧
      ((5 : Nat) &&& PLTEChunk = 0 → (5 : Nat) &&& IENDChunk = 0 → e = .outOfOrderChunk) ∧
      ((5 : Nat) &&& PLTEChunk ≠ 0 → (5 : Nat) &&& IENDChunk = 0 → e = .duplicateChunk) ∧
      ((5 : Nat) &&& IENDChunk ≠ 0 → e = .chunkAfterIEND) :=
  palette_after_data_fails ZLib.stored
    { init (⟨[], ()⟩ : Decompressor ZLib.stored) [] with
      stm_ := 0 :: 0 :: 0 :: 0 :: 80 :: 76 :: 84 :: 69 :: [], chunksRead_ := 5 }
    0 0 0 0 [] 0 rfl (by decide)

/-- `ProcessChunksRead(IDATChunk)` once the header has been seen and the end
chunk has not. -/
theorem ProcessChunksRead_IDAT {z : ZLib} (r : PNGReader z)
    (hihdr : r.chunksRead_ &&& IHDRChunk ≠ 0) (hiend : r.chunksRead_ &&& IENDChunk = 0)
    (hbits : r.chunksRead_ ≤ AllRequiredChunks) :
    r.ProcessChunksRead IDATChunk = .ok { r with chunksRead_ := r.chunksRead_ ||| IDATChunk } ∧
      (r.chunksRead_ ||| IDATChunk) &&& IHDRChunk ≠ 0 ∧
      (r.chunksRead_ ||| IDATChunk) &&& IENDChunk = 0 ∧
      r.chunksRead_ ||| IDATChunk ≤ AllRequiredChunks := by
  have hfacts : ¬ ((IDATChunk <<< 1) % 2 ^ 32 ≤ r.chunksRead_) ∧
      (r.chunksRead_ ||| IDATChunk) &&& IHDRChunk ≠ 0 ∧
      (r.chunksRead_ ||| IDATChunk) &&& IENDChunk = 0 ∧
      r.chunksRead_ ||| IDATChunk ≤ AllRequiredChunks := by
    generalize r.chunksRead_ = c at *
    simp only [AllRequiredChunks] at hbits
    interval_cases c <;> first | exact absurd rfl hihdr | exact absurd hiend (by decide) | decide
  refine ⟨?_, hfacts.2⟩
  unfold ProcessChunksRead
  rw [if_neg (fun h => h.1 rfl), if_neg hfacts.1]
  simp only []
  rw [if_neg hfacts.2.1]

theorem foldlM_ProcessChunksRead_IDAT {z : ZLib} (m : Nat) (r : PNGReader z)
    (hihdr : r.chunksRead_ &&& IHDRChunk ≠ 0) (hiend : r.chunksRead_ &&& IENDChunk = 0)
    (hbits : r.chunksRead_ ≤ AllRequiredChunks) :
    ∃ r2 : PNGReader z,
      (List.replicate m IDATChunk).foldlM (fun r c => ProcessChunksRead r c) r = .ok r2 ∧
      r2.image_ = r.image_ ∧ r2.stm_ = r.stm_ := by
  induction m generalizing r with
  | zero => exact ⟨r, rfl, rfl, rfl⟩
  | succ m ih =>
    obtain ⟨h1, h2, h3, h4⟩ := ProcessChunksRead_IDAT r hihdr hiend hbits
    obtain ⟨r2, h5, h6, h7⟩ := ih { r with chunksRead_ := r.chunksRead_ ||| IDATChunk } h2 h3 h4
    refine ⟨r2, ?_, h6, h7⟩
    rw [List.replicate_succ, List.foldlM_cons, h1]
    exact h5

/-- The outcome of `ReadChunk` on a header, palette or end chunk when a
chunk of that type has been seen. -/
theorem ReadChunk_repeated {z : ZLib} (r : PNGReader z) (l0 l1 l2 l3 t0 t1 t2 t3 : Byte)
    (rest : List Byte) (curChunk : Nat)
    (hstm : r.stm_ = l0 :: l1 :: l2 :: l3 :: t0 :: t1 :: t2 :: t3 :: rest)
    (htype : (uint32OfBytes t0 t1 t2 t3 = IHDRChunkType.GetValue ∧ curChunk = IHDRChunk) ∨
      (uint32OfBytes t0 t1 t2 t3 = PLTEChunkType.GetValue ∧ curChunk = PLTEChunk) ∨
      (uint32OfBytes t0 t1 t2 t3 = IENDChunkType.GetValue ∧ curChunk = IENDChunk))
    (hseen : r.chunksRead_ &&& curChunk ≠ 0) :
    r.ReadChunk = .error ⟨if r.chunksRead_ &&& IENDChunk ≠ 0 then .chunkAfterIEND
      else .duplicateChunk, r.image_⟩ := by
  simp only [ReadChunk, hstm, PNGChunkReader_new_cons]
  by_cases hend : r.chunksRead_ &&& IENDChunk ≠ 0
  · simp [hend]
  · rw [if_neg hend, if_neg hend]
    rcases htype with ⟨ht, hc⟩ | ⟨ht, hc⟩ | ⟨ht, hc⟩
    · subst hc
      have ht2 : (⟨uint32OfBytes t0 t1 t2 t3⟩ : PNGChunkType) = IHDRChunkType := by
        rw [ht]; rfl
      rw [handleChunk_IHDR _ _ ht2]
      rw [requiredChunk, ProcessChunksRead]
      rw [if_pos ⟨by decide, hseen⟩]
    · subst hc
      have ht2 : (⟨uint32OfBytes t0 t1 t2 t3⟩ : PNGChunkType) = PLTEChunkType := by
        rw [ht]; rfl
      rw [handleChunk_PLTE _ _ ht2]
      rw [requiredChunk, ProcessChunksRead]
      rw [if_pos ⟨by decide, hseen⟩]
    · subst hc
      exact absurd hseen hend

/-- C10: no required chunk type may repeat except image-data.  In a state
in which a header, palette or end chunk has been seen, another chunk of that
type makes `ReadChunk`, and with it the chunk loop of the decoder, throw (the
duplicate-chunk error, or the chunk-after-IEND error once the end chunk has
been seen); whereas `ProcessChunksRead(IDATChunk)` succeeds any number `m` of
times in a row once the header has been seen and the end chunk has not. -/
theorem only_IDAT_may_repeat (z : ZLib) (r : PNGReader z)
    (l0 l1 l2 l3 t0 t1 t2 t3 : Byte) (rest : List Byte) (curChunk n m : Nat)
    (hstm : r.stm_ = l0 :: l1 :: l2 :: l3 :: t0 :: t1 :: t2 :: t3 :: rest)
    (htype : (uint32OfBytes t0 t1 t2 t3 = IHDRChunkType.GetValue ∧ curChunk = IHDRChunk) ∨
      (uint32OfBytes t0 t1 t2 t3 = PLTEChunkType.GetValue ∧ curChunk = PLTEChunk) ∨
      (uint32OfBytes t0 t1 t2 t3 = IENDChunkType.GetValue ∧ curChunk = IENDChunk))
    (hseen : r.chunksRead_ &&& curChunk ≠ 0) :
    (∃ e, ReadChunks (n + 1) r = .error ⟨e, r.image_⟩ ∧
      (e = .duplicateChunk ∨ e = .chunkAfterIEND)) ∧
    (r.chunksRead_ &&& IHDRChunk ≠ 0 → r.chunksRead_ &&& IENDChunk = 0 →
      r.chunksRead_ ≤ AllRequiredChunks →
      ∃ r2 : PNGReader z,
        (List.replicate m IDATChunk).foldlM (fun r c => ProcessChunksRead r c) r = .ok r2 ∧
        r2.image_ = r.image_ ∧ r2.stm_ = r.stm_) := by
  have h := ReadChunk_repeated r l0 l1 l2 l3 t0 t1 t2 t3 rest curChunk hstm htype hseen
  have hs : r.stm_ ≠ [] := by simp [hstm]
  refine ⟨⟨_, ReadChunks_of_ReadChunk_error n r _ hs h, ?_⟩,
    fun h1 h2 h3 => foldlM_ProcessChunksRead_IDAT m r h1 h2 h3⟩
  by_cases h1 : r.chunksRead_ &&& IENDChunk ≠ 0
  · simp [h1]
  · simp [h1]

/-- An instance of C10: after header and palette, a second palette chunk
fails, and three image-data chunks in a row pass `ProcessChunksRead`. -/
theorem only_IDAT_may_repeat_witness :
    (∃ e, ReadChunks (0 + 1)
        { init (⟨[], ()⟩ : Decompressor ZLib.stored) [] with
          stm_ := 0 :: 0 :: 0 :: 0 :: 80 :: 76 :: 84 :: 69 :: [], chunksRead_ := 3 } =
        .error ⟨e, [.BeginWrite]⟩ ∧ (e = .duplicateChunk ∨ e = .chunkAfterIEND)) ∧
    (∃ r2 : PNGReader ZLib.stored,
      (List.replicate 3 IDATChunk).foldlM (fun r c => ProcessChunksRead r c)
        { init (⟨[], ()⟩ : Decompressor ZLib.stored) [] with
          stm_ := 0 :: 0 :: 0 :: 0 :: 80 :: 76 :: 84 :: 69 :: [], chunksRead_ := 3 } = .ok r2 ∧
      r2.image_ = [.BeginWrite] ∧
      r2.stm_ = 0 :: 0 :: 0 :: 0 :: 80 :: 76 :: 84 :: 69 :: []) :=
  have h := only_IDAT_may_repeat ZLib.stored
    { init (⟨[], ()⟩ : Decompressor ZLib.stored) [] with
      stm_ := 0 :: 0 :: 0 :: 0 :: 80 :: 76 :: 84 :: 69 :: [], chunksRead_ := 3 }
    0 0 0 0 80 76 84 69 [] PLTEChunk 0 3 rfl (Or.inr (Or.inl ⟨by decide, rfl⟩)) (by decide)
  ⟨h.1, h.2 (by decide) (by decide) (by decide)⟩

/-! ## What the encoder writes -/

theorem sealedChunk_eq (type length : Nat) (payload : List Byte) (h : payload.length = length) :
    bigEndian32 length ++ bigEndian32 type ++ payload ++
      bigEndian32 (crc32 (bigEndian32 type ++ payload)) = sealedChunk type payload := by
  subst h; rfl

theorem WriteSignature_good (w : PNGWriter) (h : w.stm_.good = true) :
    w.WriteSignature = .ok { w with stm_ := ⟨w.stm_.bytes ++ PngSignature, true⟩ } := by
  simp only [PNGWriter.WriteSignature, WriteBuffer_good _ _ h]

theorem WriteIHDRChunk_good (w : PNGWriter) (h : w.stm_.good = true) :
    w.WriteIHDRChunk = .ok { w with stm_ := ⟨w.stm_.bytes ++
      sealedChunk IHDRChunkType.GetValue (IHDRPayload w.width_ w.height_), true⟩ } := by
  simp only [PNGWriter.WriteIHDRChunk, writeChunk_good _ _ _ _ h]
  rw [sealedChunk_eq _ _ _ (by rfl)]
  rfl

theorem PLTEPayload_length (palette : Nat → PaletteEntry) (n i : Nat) :
    (PLTEPayload palette n i).length = 3 * n := by
  induction n generalizing i with
  | zero => rfl
  | succ n ih => simp [PLTEPayload, ih]; omega

theorem WritePLTEChunk_loop_good (n i : Nat) (writer : PNGChunkWriter) (w : PNGWriter)
    (h : writer.stm_.good = true) :
    PNGWriter.WritePLTEChunk.loop n i writer w =
      .ok (⟨⟨writer.stm_.bytes ++ PLTEPayload w.image_.GetPaletteEntry n i, true⟩,
          writer.length_, writer.crcCalc_.Append (PLTEPayload w.image_.GetPaletteEntry n i)⟩,
        { w with calls_ := w.calls_ ++ paletteReads n i }) := by
  induction n generalizing i writer w with
  | zero =>
    cases writer with
    | mk stm len crc =>
      cases stm with
      | mk bytes good =>
        simp only at h
        subst h
        simp [PNGWriter.WritePLTEChunk.loop, PLTEPayload, paletteReads, Append_nil]
  | succ n ih =>
    simp only [PNGWriter.WritePLTEChunk.loop, putItems_good _ _ h]
    rw [ih _ _ _ rfl]
    simp [PLTEPayload, paletteReads, ChunkItem.payload, ChunkItem.bytes, Append_Append]

theorem WritePLTEChunk_good (w : PNGWriter) (h : w.stm_.good = true) :
    w.WritePLTEChunk = .ok { w with
      stm_ := ⟨w.stm_.bytes ++
        sealedChunk PLTEChunkType.GetValue (PLTEPayload w.image_.GetPaletteEntry 256 0), true⟩,
      calls_ := w.calls_ ++ paletteReads 256 0 } := by
  simp only [PNGWriter.WritePLTEChunk, PNGChunkWriter.new, WriteUInt32_good _ _ h]
  rw [WriteUInt32_good _ _ rfl]
  simp only []
  rw [WritePLTEChunk_loop_good _ _ _ _ rfl]
  simp only [PNGChunkWriter.End]
  rw [WriteUInt32_good _ _ rfl]
  simp only [AppendUInt32_eq, Append_Append, new_Append_GetCRC]
  rw [← sealedChunk_eq _ (3 * 256) _ (PLTEPayload_length _ _ _)]
  simp

theorem WriteIENDChunk_good (w : PNGWriter) (h : w.stm_.good = true) :
    w.WriteIENDChunk = .ok { w with stm_ := ⟨w.stm_.bytes ++
      sealedChunk IENDChunkType.GetValue [], true⟩ } := by
  simp only [PNGWriter.WriteIENDChunk, writeChunk_good _ _ _ _ h]
  rw [sealedChunk_eq _ _ _ (by rfl)]
  rfl

theorem PNGChunkWriter_new_good (stm : OStream) (length : Nat) (chunkType : PNGChunkType)
    (h : stm.good = true) :
    PNGChunkWriter.new stm length chunkType =
      .ok ⟨⟨stm.bytes ++ bigEndian32 length ++ bigEndian32 chunkType.GetValue, true⟩, length,
        CRCCalculator.new.Append (bigEndian32 chunkType.GetValue)⟩ := by
  simp only [PNGChunkWriter.new, WriteUInt32_good _ _ h]
  rw [WriteUInt32_good _ _ rfl]
  simp [AppendUInt32_eq]

theorem PNGChunkWriter_Write_good (writer : PNGChunkWriter) (buf : List Byte)
    (h : writer.stm_.good = true) :
    writer.Write buf buf.length = .ok ⟨⟨writer.stm_.bytes ++ buf, true⟩, writer.length_,
      writer.crcCalc_.Append buf⟩ := by
  simp only [PNGChunkWriter.Write, List.take_length, WriteBuffer_good _ _ h]

theorem PNGChunkWriter_End_good (writer : PNGChunkWriter) (h : writer.stm_.good = true) :
    writer.End = .ok ⟨writer.stm_.bytes ++ bigEndian32 writer.crcCalc_.GetCRC, true⟩ := by
  simp only [PNGChunkWriter.End, WriteUInt32_good _ _ h]

theorem flatten_map_sealed_cons (type : Nat) (p : List Byte) (ps : List (List Byte)) :
    sealedChunks ((p :: ps).map (fun q => (type, q))) =
      sealedChunk type p ++ sealedChunks (ps.map (fun q => (type, q))) := rfl

/-- The loop of `WriteIDATChunks` on a good stream: when the compressor
succeeds throughout, it writes one sealed image-data chunk per payload of
`IDATPayloads`; otherwise it throws. -/
theorem WriteIDATChunks_loop_good {z : ZLib} (n y : Nat) (compressor : Compressor z)
    (w : PNGWriter) (h : w.stm_.good = true) :
    (∀ ps, IDATPayloads w.image_ w.width_ w.height_ n y compressor = some ps →
      PNGWriter.WriteIDATChunks.loop n y compressor w = .ok { w with
        stm_ := ⟨w.stm_.bytes ++
          sealedChunks (ps.map (fun p => (IDATChunkType.GetValue, p))), true⟩,
        calls_ := w.calls_ ++ scanlineReads n y }) ∧
    (IDATPayloads w.image_ w.width_ w.height_ n y compressor = none →
      ∃ t, PNGWriter.WriteIDATChunks.loop n y compressor w = .error t) := by
  induction n generalizing y compressor w with
  | zero =>
    constructor
    · intro ps hps
      simp only [IDATPayloads, Option.some.injEq] at hps
      subst hps
      cases w with
      | mk stm image calls width height =>
        cases stm with
        | mk bytes good =>
          simp only at h
          subst h
          simp [PNGWriter.WriteIDATChunks.loop, sealedChunks, scanlineReads]
    · intro hn
      simp [IDATPayloads] at hn
  | succ n ih =>
    simp only [IDATPayloads, PNGWriter.WriteIDATChunks.loop]
    cases h1 : compressor.CompressByte 0 with
    | error e => exact ⟨fun ps hps => by simp at hps, fun _ => ⟨_, rfl⟩⟩
    | ok c1 =>
      simp only []
      cases h2 : c1.Compress (w.image_.GetScanline y) w.width_ with
      | error e => exact ⟨fun ps hps => by simp at hps, fun _ => ⟨_, rfl⟩⟩
      | ok c2 =>
        simp only []
        cases h3 : (if y = w.height_ - 1 then c2.Finish else .ok c2) with
        | error e => exact ⟨fun ps hps => by simp at hps, fun _ => ⟨_, rfl⟩⟩
        | ok c3 =>
          simp only []
          by_cases hlen : c3.GetDstLength ≠ 0
          · rw [if_pos hlen, if_pos hlen]
            have hdst : c3.GetDstPtr.take c3.GetDstLength = c3.dst := by
              simp [Compressor.GetDstPtr, Compressor.GetDstLength]
            rw [PNGChunkWriter_new_good _ _ _ h]
            simp only [Compressor.GetDstPtr, Compressor.GetDstLength] at hdst ⊢
            rw [PNGChunkWriter_Write_good _ _ rfl]
            simp only []
            rw [PNGChunkWriter_End_good _ rfl]
            simp only [Append_Append, new_Append_GetCRC]
            have hi := ih (y + 1) c3.ClearDst
              { w with
                calls_ := w.calls_ ++ [.GetScanline y],
                stm_ := ⟨w.stm_.bytes ++ bigEndian32 c3.dst.length ++
                  bigEndian32 IDATChunkType.GetValue ++ c3.dst ++
                  bigEndian32 (crc32 (bigEndian32 IDATChunkType.GetValue ++ c3.dst)), true⟩ } rfl
            simp only [] at hi
            constructor
            · intro ps hps
              cases hrec : IDATPayloads w.image_ w.width_ w.height_ n (y + 1) c3.ClearDst with
              | none => simp [hrec] at hps
              | some qs =>
                simp only [hrec, Option.map_some', Option.some.injEq, List.take_length] at hps
                subst hps
                rw [hi.1 qs hrec]
                simp [sealedChunks, sealedChunk, scanlineReads]
            · intro hn
              cases hrec : IDATPayloads w.image_ w.width_ w.height_ n (y + 1) c3.ClearDst with
              | none => exact hi.2 hrec
              | some qs => simp [hrec] at hn
          · rw [if_neg hlen, if_neg hlen]
            have hi := ih (y + 1) c3 { w with calls_ := w.calls_ ++ [.GetScanline y] } h
            simp only [] at hi
            constructor
            · intro ps hps
              rw [hi.1 ps hps]
              simp [scanlineReads]
            · intro hn
              exact hi.2 hn

theorem sealedChunks_append (a b : List (Nat × List Byte)) :
    sealedChunks (a ++ b) = sealedChunks a ++ sealedChunks b := by
  induction a with
  | nil => rfl
  | cons c a ih => simp [sealedChunks, ih]

/-- What `SavePNG` writes to a good stream for an image of non-zero width and
height: it succeeds exactly when the compressor does, and then writes the
signature and the sealed chunks of `encoderChunks`. -/
theorem SavePNG_good (z : ZLib) (image : ReadableImage) (out : List Byte)
    (hw : image.GetImageInfo.GetWidth ≠ 0) (hh : image.GetImageInfo.GetHeight ≠ 0) :
    (∀ c ps, Compressor.new z = .ok c →
      IDATPayloads image image.GetImageInfo.GetWidth image.GetImageInfo.GetHeight
        image.GetImageInfo.GetHeight 0 c = some ps →
      SavePNG z image ⟨out, true⟩ =
        ⟨⟨out ++ PngSignature ++ sealedChunks (encoderChunks image ps), true⟩,
          [.BeginRead, .GetImageInfo] ++ paletteReads 256 0 ++
            scanlineReads image.GetImageInfo.GetHeight 0 ++ [.EndRead true], none⟩) ∧
    ((SavePNG z image ⟨out, true⟩).thrown = none →
      ∃ c ps, Compressor.new z = .ok c ∧
        IDATPayloads image image.GetImageInfo.GetWidth image.GetImageInfo.GetHeight
          image.GetImageInfo.GetHeight 0 c = some ps) := by
  have hbody : ∀ w0 : PNGWriter, w0 = ⟨⟨out, true⟩, image, [.BeginRead], 0, 0⟩ →
      PNGWriter.body z w0 =
        PNGWriter.WriteIDATChunks z
          { stm_ := ⟨out ++ PngSignature ++
              sealedChunk IHDRChunkType.GetValue
                (IHDRPayload image.GetImageInfo.GetWidth image.GetImageInfo.GetHeight) ++
              sealedChunk PLTEChunkType.GetValue (PLTEPayload image.GetPaletteEntry 256 0),
              true⟩,
            image_ := image,
            calls_ := [.BeginRead, .GetImageInfo] ++ paletteReads 256 0,
            width_ := image.GetImageInfo.GetWidth,
            height_ := image.GetImageInfo.GetHeight } >>= PNGWriter.WriteIENDChunk := by
    intro w0 hw0
    subst hw0
    unfold PNGWriter.body
    dsimp only
    rw [if_neg hw, if_neg hh]
    rw [WriteSignature_good _ rfl]
    simp only []
    rw [WriteIHDRChunk_good _ rfl]
    simp only []
    rw [WritePLTEChunk_good _ rfl]
    simp only [bind, Except.bind, List.append_assoc, List.singleton_append, List.cons_append,
      List.nil_append]
    cases PNGWriter.WriteIDATChunks z _ <;> rfl
  simp only [SavePNG, PNGWriter.run, hbody _ rfl, PNGWriter.WriteIDATChunks]
  constructor
  · intro c ps hc hps
    rw [hc]
    simp only []
    have hl := (WriteIDATChunks_loop_good image.GetImageInfo.GetHeight 0 c
      { stm_ := ⟨out ++ PngSignature ++
          sealedChunk IHDRChunkType.GetValue
            (IHDRPayload image.GetImageInfo.GetWidth image.GetImageInfo.GetHeight) ++
          sealedChunk PLTEChunkType.GetValue (PLTEPayload image.GetPaletteEntry 256 0), true⟩,
        image_ := image,
        calls_ := [.BeginRead, .GetImageInfo] ++ paletteReads 256 0,
        width_ := image.GetImageInfo.GetWidth,
        height_ := image.GetImageInfo.GetHeight } rfl).1 ps hps
    rw [hl]
    simp only [bind, Except.bind]
    rw [WriteIENDChunk_good _ rfl]
    simp [encoderChunks, sealedChunks, sealedChunks_append]
  · intro hnone
    cases hc : Compressor.new z with
    | error e =>
      rw [hc] at hnone
      simp [bind, Except.bind] at hnone
    | ok c =>
      refine ⟨c, ?_⟩
      cases hps : IDATPayloads image image.GetImageInfo.GetWidth image.GetImageInfo.GetHeight
          image.GetImageInfo.GetHeight 0 c with
      | some ps => exact ⟨ps, rfl, rfl⟩
      | none =>
        exfalso
        obtain ⟨t, ht⟩ := (WriteIDATChunks_loop_good image.GetImageInfo.GetHeight 0 c
          { stm_ := ⟨out ++ PngSignature ++
              sealedChunk IHDRChunkType.GetValue
                (IHDRPayload image.GetImageInfo.GetWidth image.GetImageInfo.GetHeight) ++
              sealedChunk PLTEChunkType.GetValue (PLTEPayload image.GetPaletteEntry 256 0),
              true⟩,
            image_ := image,
            calls_ := [.BeginRead, .GetImageInfo] ++ paletteReads 256 0,
            width_ := image.GetImageInfo.GetWidth,
            height_ := image.GetImageInfo.GetHeight } rfl).2 hps
        rw [hc] at hnone
        simp only [] at hnone
        rw [ht] at hnone
        simp [bind, Except.bind] at hnone

/-! ## The chunk loop terminates: every chunk takes bytes off the stream -/

theorem ReadByte_length {stm stm2 : IStream} {b : Byte} (h : ReadByte stm = .ok (b, stm2)) :
    stm2.length + 1 = stm.length := by
  cases stm with
  | nil => simp [ReadByte] at h
  | cons c s =>
    simp only [ReadByte, Except.ok.injEq, Prod.mk.injEq] at h
    rw [← h.2]; rfl

theorem ReadUInt32_length {stm stm2 : IStream} {v : Nat} (h : ReadUInt32 stm = .ok (v, stm2)) :
    stm2.length + 4 = stm.length := by
  rcases stm with _ | ⟨b0, _ | ⟨b1, _ | ⟨b2, _ | ⟨b3, s⟩⟩⟩⟩ <;>
    simp only [ReadUInt32, ReadByte] at h
  · cases h
  · cases h
  · cases h
  · cases h
  · simp only [Except.ok.injEq, Prod.mk.injEq] at h
    rw [← h.2]; rfl

theorem ReadBuffer_length {len : Nat} {stm stm2 : IStream} {buf : List Byte}
    (h : ReadBuffer stm len = .ok (buf, stm2)) : stm2.length + len = stm.length := by
  induction len generalizing stm stm2 buf with
  | zero =>
    simp only [ReadBuffer, Except.ok.injEq, Prod.mk.injEq] at h
    rw [← h.2]; rfl
  | succ len ih =>
    simp only [ReadBuffer] at h
    cases h1 : ReadByte stm with
    | error e => simp [h1] at h
    | ok p =>
      obtain ⟨b, s⟩ := p
      simp only [h1] at h
      cases h2 : ReadBuffer s len with
      | error e => simp [h2] at h
      | ok q =>
        obtain ⟨bs, s2⟩ := q
        simp only [h2, Except.ok.injEq, Prod.mk.injEq] at h
        have := ih h2
        have := ReadByte_length h1
        rw [← h.2]
        omega

theorem getByte_length {rd rd2 : PNGChunkReader} {b : Byte} (h : rd.getByte = .ok (b, rd2)) :
    rd2.stm_.length + 1 = rd.stm_.length := by
  simp only [PNGChunkReader.getByte] at h
  cases h1 : ReadByte rd.stm_ with
  | error e => simp [h1] at h
  | ok p =>
    obtain ⟨c, s⟩ := p
    simp only [h1, Except.ok.injEq, Prod.mk.injEq] at h
    rw [← h.2]
    exact ReadByte_length h1

theorem getUInt32_length {rd rd2 : PNGChunkReader} {v : Nat}
    (h : rd.getUInt32 = .ok (v, rd2)) : rd2.stm_.length + 4 = rd.stm_.length := by
  simp only [PNGChunkReader.getUInt32] at h
  cases h1 : ReadUInt32 rd.stm_ with
  | error e => simp [h1] at h
  | ok p =>
    obtain ⟨c, s⟩ := p
    simp only [h1, Except.ok.injEq, Prod.mk.injEq] at h
    rw [← h.2]
    exact ReadUInt32_length h1

theorem Read_length {rd rd2 : PNGChunkReader} {len : Nat} {buf : List Byte}
    (h : rd.Read len = .ok (buf, rd2)) : rd2.stm_.length + len = rd.stm_.length := by
  simp only [PNGChunkReader.Read] at h
  cases h1 : ReadBuffer rd.stm_ len with
  | error e => simp [h1] at h
  | ok p =>
    obtain ⟨c, s⟩ := p
    simp only [h1, Except.ok.injEq, Prod.mk.injEq] at h
    rw [← h.2]
    exact ReadBuffer_length h1

theorem new_length {stm : IStream} {rd : PNGChunkReader} (h : PNGChunkReader.new stm = .ok rd) :
    rd.stm_.length + 8 = stm.length := by
  simp only [PNGChunkReader.new] at h
  cases h1 : ReadUInt32 stm with
  | error e => simp [h1] at h
  | ok p =>
    obtain ⟨l, s⟩ := p
    simp only [h1] at h
    cases h2 : ReadUInt32 s with
    | error e => simp [h2] at h
    | ok q =>
      obtain ⟨t, s2⟩ := q
      simp only [h2, Except.ok.injEq] at h
      have := ReadUInt32_length h1
      have := ReadUInt32_length h2
      rw [← h]
      simp only []
      omega

theorem End_length {rd : PNGChunkReader} {stm : IStream} (h : rd.End = .ok stm) :
    stm.length + 4 = rd.stm_.length := by
  simp only [PNGChunkReader.End] at h
  cases h1 : ReadUInt32 rd.stm_ with
  | error e => simp [h1] at h
  | ok p =>
    obtain ⟨c, s⟩ := p
    simp only [h1] at h
    split at h
    · cases h
    · simp only [Except.ok.injEq] at h
      rw [← h]
      exact ReadUInt32_length h1

theorem ReadIHDRChunk_finish_reader {z : ZLib} {reader rd2 : PNGChunkReader}
    {r r2 : PNGReader z} {bd ct cm ft il : Byte}
    (h : ReadIHDRChunk.finish reader r bd ct cm ft il = .ok (rd2, r2)) : rd2 = reader := by
  unfold ReadIHDRChunk.finish at h
  repeat' split at h
  all_goals first | (cases h; done) | (simp only [Except.ok.injEq, Prod.mk.injEq] at h; exact h.1.symm)

theorem ReadIHDRChunk_length {z : ZLib} {reader rd2 : PNGChunkReader} {r r2 : PNGReader z}
    (h : ReadIHDRChunk reader r = .ok (rd2, r2)) : rd2.stm_.length ≤ reader.stm_.length := by
  unfold ReadIHDRChunk at h
  cases h1 : reader.getUInt32 with
  | error e => simp [h1] at h
  | ok p1 =>
    obtain ⟨width, rd_a⟩ := p1
    simp only [h1] at h
    cases h2 : rd_a.getUInt32 with
    | error e => simp [h2] at h
    | ok p2 =>
      obtain ⟨height, rd_b⟩ := p2
      simp only [h2] at h
      split at h
      · cases h
      split at h
      · cases h
      cases h3 : rd_b.getByte with
      | error e => simp [h3] at h
      | ok p3 =>
        obtain ⟨b3, rd_c⟩ := p3
        simp only [h3] at h
        cases h4 : rd_c.getByte with
        | error e => simp [h4] at h
        | ok p4 =>
          obtain ⟨b4, rd_d⟩ := p4
          simp only [h4] at h
          cases h5 : rd_d.getByte with
          | error e => simp [h5] at h
          | ok p5 =>
            obtain ⟨b5, rd_e⟩ := p5
            simp only [h5] at h
            cases h6 : rd_e.getByte with
            | error e => simp [h6] at h
            | ok p6 =>
              obtain ⟨b6, rd_f⟩ := p6
              simp only [h6] at h
              cases h7 : rd_f.getByte with
              | error e => simp [h7] at h
              | ok p7 =>
                obtain ⟨b7, rd_g⟩ := p7
                simp only [h7] at h
                have := ReadIHDRChunk_finish_reader h
                subst this
                have := getUInt32_length h1
                have := getUInt32_length h2
                have := getByte_length h3
                have := getByte_length h4
                have := getByte_length h5
                have := getByte_length h6
                have := getByte_length h7
                omega

theorem ReadPLTEChunk_loop_length {z : ZLib} {n i : Nat} {reader rd2 : PNGChunkReader}
    {r r2 : PNGReader z} (h : ReadPLTEChunk.loop n i reader r = .ok (rd2, r2)) :
    rd2.stm_.length ≤ reader.stm_.length := by
  induction n generalizing i reader r with
  | zero =>
    simp only [ReadPLTEChunk.loop, Except.ok.injEq, Prod.mk.injEq] at h
    rw [h.1]
  | succ n ih =>
    simp only [ReadPLTEChunk.loop] at h
    cases h1 : reader.getByte with
    | error e => simp [h1] at h
    | ok p1 =>
      obtain ⟨b1, rd_a⟩ := p1
      simp only [h1] at h
      cases h2 : rd_a.getByte with
      | error e => simp [h2] at h
      | ok p2 =>
        obtain ⟨b2, rd_b⟩ := p2
        simp only [h2] at h
        cases h3 : rd_b.getByte with
        | error e => simp [h3] at h
        | ok p3 =>
          obtain ⟨b3, rd_c⟩ := p3
          simp only [h3] at h
          have := ih h
          have := getByte_length h1
          have := getByte_length h2
          have := getByte_length h3
          omega

theorem ReadPLTEChunk_length {z : ZLib} {reader rd2 : PNGChunkReader} {r r2 : PNGReader z}
    (h : ReadPLTEChunk reader r = .ok (rd2, r2)) : rd2.stm_.length ≤ reader.stm_.length := by
  unfold ReadPLTEChunk at h
  dsimp only at h
  split at h
  · cases h
  · exact ReadPLTEChunk_loop_length h

theorem ReadIDATChunk_length {z : ZLib} {reader rd2 : PNGChunkReader} {r r2 : PNGReader z}
    (h : ReadIDATChunk reader r = .ok (rd2, r2)) : rd2.stm_.length ≤ reader.stm_.length := by
  unfold ReadIDATChunk at h
  dsimp only at h
  cases h1 : reader.Read reader.GetLength with
  | error e => simp [h1] at h
  | ok p1 =>
    obtain ⟨buf, rd_a⟩ := p1
    simp only [h1] at h
    cases h2 : r.decompressor_.Decompress buf reader.GetLength with
    | error e => simp [h2] at h
    | ok d =>
      simp only [h2] at h
      split at h
      · cases h
      · simp only [Except.ok.injEq, Prod.mk.injEq] at h
        rw [← h.1]
        have := Read_length h1
        omega

theorem ReadUnknownChunk_loop_length {n : Nat} {reader rd2 : PNGChunkReader}
    (h : ReadUnknownChunk.loop n reader = .ok rd2) : rd2.stm_.length ≤ reader.stm_.length := by
  induction n generalizing reader with
  | zero =>
    simp only [ReadUnknownChunk.loop, Except.ok.injEq] at h
    rw [h]
  | succ n ih =>
    simp only [ReadUnknownChunk.loop] at h
    cases h1 : reader.getByte with
    | error e => simp [h1] at h
    | ok p1 =>
      obtain ⟨b1, rd_a⟩ := p1
      simp only [h1] at h
      have := ih h
      have := getByte_length h1
      omega

theorem ReadUnknownChunk_length {z : ZLib} {reader rd2 : PNGChunkReader} {r r2 : PNGReader z}
    (h : ReadUnknownChunk reader r = .ok (rd2, r2)) : rd2.stm_.length ≤ reader.stm_.length := by
  unfold ReadUnknownChunk at h
  split at h
  · cases h
  · cases h1 : ReadUnknownChunk.loop reader.GetLength reader with
    | error e => simp [h1] at h
    | ok rd_a =>
      simp only [h1, Except.ok.injEq, Prod.mk.injEq] at h
      rw [← h.1]
      exact ReadUnknownChunk_loop_length h1

theorem requiredChunk_length {z : ZLib} {reader rd2 : PNGChunkReader} {r r2 : PNGReader z}
    {curChunk : Nat} {handler : PNGReader z → Except Thrown (PNGChunkReader × PNGReader z)}
    (hh : ∀ r3, handler r3 = .ok (rd2, r2) → rd2.stm_.length ≤ reader.stm_.length)
    (h : r.requiredChunk curChunk handler = .ok (rd2, r2)) :
    rd2.stm_.length ≤ reader.stm_.length := by
  unfold requiredChunk at h
  cases h1 : r.ProcessChunksRead curChunk with
  | error e => simp [h1] at h
  | ok r3 =>
    simp only [h1] at h
    exact hh r3 h

theorem handleChunk_length {z : ZLib} {reader rd2 : PNGChunkReader} {r r2 : PNGReader z}
    (h : handleChunk reader r = .ok (rd2, r2)) : rd2.stm_.length ≤ reader.stm_.length := by
  unfold handleChunk at h
  split at h
  · exact requiredChunk_length (fun _ h3 => ReadIHDRChunk_length h3) h
  split at h
  · exact requiredChunk_length (fun _ h3 => ReadPLTEChunk_length h3) h
  split at h
  · exact requiredChunk_length (fun _ h3 => ReadIDATChunk_length h3) h
  split at h
  · refine requiredChunk_length (fun _ h3 => ?_) h
    simp only [ReadIENDChunk, Except.ok.injEq, Prod.mk.injEq] at h3
    rw [h3.1]
  · exact ReadUnknownChunk_length h

/-- Every chunk read takes at least twelve bytes off the stream. -/
theorem ReadChunk_length {z : ZLib} {r r2 : PNGReader z} (h : r.ReadChunk = .ok r2) :
    r2.stm_.length + 12 ≤ r.stm_.length := by
  unfold ReadChunk at h
  cases h1 : PNGChunkReader.new r.stm_ with
  | error e => simp [h1] at h
  | ok reader =>
    simp only [h1] at h
    split at h
    · cases h
    · cases h2 : handleChunk reader r with
      | error e => simp [h2] at h
      | ok p =>
        obtain ⟨rd2, r3⟩ := p
        simp only [h2] at h
        cases h3 : rd2.End with
        | error e => simp [h3] at h
        | ok stm =>
          simp only [h3, Except.ok.injEq] at h
          rw [← h]
          simp only []
          have := new_length h1
          have := handleChunk_length h2
          have := End_length h3
          omega

/-- With at least as much fuel as there are bytes in the stream, the chunk
loop only returns when the stream is exhausted. -/
theorem ReadChunks_exhausts {z : ZLib} (n : Nat) (r r2 : PNGReader z)
    (hn : r.stm_.length ≤ n) (h : ReadChunks n r = .ok r2) : r2.stm_ = [] := by
  induction n generalizing r with
  | zero =>
    simp only [ReadChunks, Except.ok.injEq] at h
    rw [← h]
    exact List.eq_nil_of_length_eq_zero (by omega)
  | succ n ih =>
    simp only [ReadChunks] at h
    split at h
    · next he =>
      simp only [Except.ok.injEq] at h
      rw [← h]; exact he
    · cases h1 : r.ReadChunk with
      | error e => simp [h1] at h
      | ok r3 =>
        simp only [h1] at h
        have := ReadChunk_length h1
        exact ih r3 (by omega) h

/-- More fuel than there are bytes in the stream changes nothing. -/
theorem ReadChunks_fuel {z : ZLib} (n : Nat) (r : PNGReader z) (hn : r.stm_.length ≤ n) :
    ReadChunks (n + 1) r = ReadChunks n r := by
  induction n generalizing r with
  | zero =>
    have : r.stm_ = [] := List.eq_nil_of_length_eq_zero (by omega)
    simp [ReadChunks, this]
  | succ n ih =>
    rw [ReadChunks]
    conv_rhs => rw [ReadChunks]
    split
    · rfl
    · cases h1 : r.ReadChunk with
      | error e => rfl
      | ok r3 =>
        simp only []
        have := ReadChunk_length h1
        exact ih r3 (by omega)

/-- One pass of the chunk loop, with enough fuel. -/
theorem ReadChunks_step {z : ZLib} (n : Nat) (r r2 : PNGReader z) (hn : r.stm_.length ≤ n)
    (hs : r.stm_ ≠ []) (h : r.ReadChunk = .ok r2) : ReadChunks n r = ReadChunks n r2 := by
  have h12 := ReadChunk_length h
  cases n with
  | zero =>
    exfalso
    apply hs
    exact List.eq_nil_of_length_eq_zero (by omega)
  | succ n =>
    rw [ReadChunks, if_neg hs, h]
    simp only []
    exact (ReadChunks_fuel n r2 (by omega)).symm

theorem ReadChunks_error {z : ZLib} (n : Nat) (r : PNGReader z) (t : Thrown)
    (hn : r.stm_.length ≤ n) (hs : r.stm_ ≠ []) (h : r.ReadChunk = .error t) :
    ReadChunks n r = .error t := by
  cases n with
  | zero =>
    exfalso
    apply hs
    exact List.eq_nil_of_length_eq_zero (by omega)
  | succ n => exact ReadChunks_of_ReadChunk_error n r t hs h

theorem ReadChunks_nil {z : ZLib} (n : Nat) (r : PNGReader z) (hs : r.stm_ = []) :
    ReadChunks n r = .ok r := by
  cases n with
  | zero => rfl
  | succ n => simp [ReadChunks, hs]

/-! ## Reading a framed chunk -/

theorem sealedChunk_eq_framedChunk (type : Nat) (payload : List Byte) :
    sealedChunk type payload =
      framedChunk type payload (crc32 (bigEndian32 type ++ payload)) := rfl

theorem getByte_cons (rd : PNGChunkReader) (b : Byte) (s : IStream) (h : rd.stm_ = b :: s) :
    rd.getByte = .ok (b, ⟨s, rd.length_, rd.type_, rd.crcCalc_.Append [b]⟩) := by
  simp only [PNGChunkReader.getByte, h, ReadByte, CRCCalculator.AppendByte]

theorem getUInt32_cons (rd : PNGChunkReader) (b0 b1 b2 b3 : Byte) (s : IStream)
    (h : rd.stm_ = b0 :: b1 :: b2 :: b3 :: s) :
    rd.getUInt32 = .ok (uint32OfBytes b0 b1 b2 b3,
      ⟨s, rd.length_, rd.type_, rd.crcCalc_.Append [b0, b1, b2, b3]⟩) := by
  simp only [PNGChunkReader.getUInt32, h, ReadUInt32_cons, AppendUInt32_eq,
    bigEndian32_of_bytes]

theorem Read_append (rd : PNGChunkReader) (buf s : List Byte) (h : rd.stm_ = buf ++ s) :
    rd.Read buf.length = .ok (buf, ⟨s, rd.length_, rd.type_, rd.crcCalc_.Append buf⟩) := by
  simp only [PNGChunkReader.Read, h, ReadBuffer_append]

theorem End_bigEndian32 (rd : PNGChunkReader) (crc : Nat) (rest : IStream)
    (hc : crc < 2 ^ 32) (h : rd.stm_ = bigEndian32 crc ++ rest) :
    rd.End = if crc ≠ rd.crcCalc_.GetCRC then .error .badCRC else .ok rest := by
  simp only [PNGChunkReader.End, h, ReadUInt32_bigEndian32 _ hc]

theorem PNGChunkReader_new_framed (type : Nat) (payload : List Byte) (crc : Nat)
    (rest : IStream) (ht : type < 2 ^ 32) (hp : payload.length < 2 ^ 32) :
    PNGChunkReader.new (framedChunk type payload crc ++ rest) =
      .ok ⟨payload ++ (bigEndian32 crc ++ rest), payload.length, ⟨type⟩,
        CRCCalculator.new.Append (bigEndian32 type)⟩ := by
  have := PNGChunkReader_new_bigEndian32 payload.length type hp ht
    (payload ++ (bigEndian32 crc ++ rest))
  simp only [framedChunk, List.append_assoc]
  exact this

/-- The shape of `ReadChunk` on a framed chunk: the handler runs on a reader
positioned at the payload, then `End` compares the CRC field with the CRC
of what the handler read. -/
theorem ReadChunk_framed {z : ZLib} (r : PNGReader z) (type : Nat) (payload : List Byte)
    (crc : Nat) (rest : IStream) (rd2 : PNGChunkReader) (r2 : PNGReader z)
    (ht : type < 2 ^ 32) (hp : payload.length < 2 ^ 32) (hc : crc < 2 ^ 32)
    (hstm : r.stm_ = framedChunk type payload crc ++ rest)
    (hend : r.chunksRead_ &&& IENDChunk = 0)
    (hh : handleChunk ⟨payload ++ (bigEndian32 crc ++ rest), payload.length, ⟨type⟩,
      CRCCalculator.new.Append (bigEndian32 type)⟩ r = .ok (rd2, r2))
    (hrd : rd2.stm_ = bigEndian32 crc ++ rest)
    (hcrc : rd2.crcCalc_ = CRCCalculator.new.Append (bigEndian32 type ++ payload)) :
    r.ReadChunk = if crc ≠ crc32 (bigEndian32 type ++ payload) then
        .error ⟨.badCRC, r2.image_⟩
      else .ok { r2 with stm_ := rest } := by
  simp only [ReadChunk, hstm, PNGChunkReader_new_framed type payload crc rest ht hp, hend,
    ne_eq, not_true_eq_false, if_false, hh, End_bigEndian32 rd2 crc rest hc hrd, hcrc,
    new_Append_GetCRC]
  by_cases hcv : crc = crc32 (bigEndian32 type ++ payload)
  · simp only [hcv, not_true_eq_false, if_false]
  · simp only [hcv, not_false_eq_true, if_true]

theorem ReadChunk_framed_error {z : ZLib} (r : PNGReader z) (type : Nat)
    (payload : List Byte) (crc : Nat) (rest : IStream) (t : Thrown)
    (ht : type < 2 ^ 32) (hp : payload.length < 2 ^ 32)
    (hstm : r.stm_ = framedChunk type payload crc ++ rest)
    (hend : r.chunksRead_ &&& IENDChunk = 0)
    (hh : handleChunk ⟨payload ++ (bigEndian32 crc ++ rest), payload.length, ⟨type⟩,
      CRCCalculator.new.Append (bigEndian32 type)⟩ r = .error t) :
    r.ReadChunk = .error t := by
  simp only [ReadChunk, hstm, PNGChunkReader_new_framed type payload crc rest ht hp, hend,
    ne_eq, not_true_eq_false, if_false, hh]

theorem ReadUnknownChunk_loop_append (payload s : List Byte) (rd : PNGChunkReader)
    (h : rd.stm_ = payload ++ s) :
    ReadUnknownChunk.loop payload.length rd =
      .ok ⟨s, rd.length_, rd.type_, rd.crcCalc_.Append payload⟩ := by
  induction payload generalizing rd with
  | nil =>
    cases rd
    simp_all [ReadUnknownChunk.loop, Append_nil]
  | cons b p ih =>
    simp only [List.length_cons, ReadUnknownChunk.loop, getByte_cons rd b (p ++ s) h]
    rw [ih _ rfl]
    simp [Append_Append]

/-- `ReadChunk` on a framed chunk of a type other than the four required
ones, before the end chunk. -/
theorem ReadChunk_unknown {z : ZLib} (r : PNGReader z) (type : Nat) (payload : List Byte)
    (crc : Nat) (rest : IStream)
    (ht : type < 2 ^ 32) (hp : payload.length < 2 ^ 32) (hc : crc < 2 ^ 32)
    (hstm : r.stm_ = framedChunk type payload crc ++ rest)
    (hend : r.chunksRead_ &&& IENDChunk = 0)
    (h1 : type ≠ IHDRChunkType.GetValue) (h2 : type ≠ PLTEChunkType.GetValue)
    (h3 : type ≠ IDATChunkType.GetValue) (h4 : type ≠ IENDChunkType.GetValue) :
    r.ReadChunk =
      if type &&& 0x20000000 = 0 then .error ⟨.nonAncilliaryChunk, r.image_⟩
      else if crc ≠ crc32 (bigEndian32 type ++ payload) then .error ⟨.badCRC, r.image_⟩
      else .ok { r with stm_ := rest } := by
  have hne : ∀ t : PNGChunkType, type ≠ t.GetValue → (⟨type⟩ : PNGChunkType) ≠ t := by
    intro t h he
    apply h
    rw [← he]
    rfl
  have hh := handleChunk_unknown (z := z)
    ⟨payload ++ (bigEndian32 crc ++ rest), payload.length, ⟨type⟩,
      CRCCalculator.new.Append (bigEndian32 type)⟩ r
    (hne _ h1) (hne _ h2) (hne _ h3) (hne _ h4)
  by_cases hcrit : type &&& 0x20000000 = 0
  · rw [if_pos hcrit]
    apply ReadChunk_framed_error r type payload crc rest _ ht hp hstm hend
    rw [hh]
    simp [ReadUnknownChunk, PNGChunkReader.IsAncilliary, PNGChunkType.GetValue, hcrit]
  · rw [if_neg hcrit]
    have hanc : (0x20000000 == (type &&& 0x20000000)) = true := by
      have h29 : (0x20000000 : Nat) = 2 ^ 29 := by norm_num
      rw [h29] at hcrit ⊢
      rw [Nat.and_two_pow] at hcrit ⊢
      cases hb : type.testBit 29 <;> simp_all
    have hu : ReadUnknownChunk (z := z) ⟨payload ++ (bigEndian32 crc ++ rest), payload.length,
        ⟨type⟩, CRCCalculator.new.Append (bigEndian32 type)⟩ r =
        .ok (⟨bigEndian32 crc ++ rest, payload.length, ⟨type⟩,
          (CRCCalculator.new.Append (bigEndian32 type)).Append payload⟩, r) := by
      simp only [ReadUnknownChunk, PNGChunkReader.IsAncilliary, PNGChunkType.GetValue, hanc,
        PNGChunkReader.GetLength, Bool.not_true, Bool.false_eq_true, if_false]
      rw [ReadUnknownChunk_loop_append payload _ _ rfl]
    rw [← hh] at hu
    exact ReadChunk_framed r type payload crc rest _ r ht hp hc hstm hend hu rfl
      (by simp [Append_Append])

theorem ProcessChunksRead_of_eq {z : ZLib} (r : PNGReader z) (curChunk before after : Nat)
    (hr : r.chunksRead_ = before)
    (hcases : (curChunk = IHDRChunk ∧ before = 0 ∧ after = 1) ∨
      (curChunk = PLTEChunk ∧ before = 1 ∧ after = 3) ∨
      (curChunk = IDATChunk ∧ before = 3 ∧ after = 7) ∨
      (curChunk = IDATChunk ∧ before = 7 ∧ after = 7) ∨
      (curChunk = IENDChunk ∧ before = 7 ∧ after = 15)) :
    r.ProcessChunksRead curChunk = .ok { r with chunksRead_ := after } := by
  have h78 : (7 : Nat) &&& 8 = 0 := by decide
  rcases hcases with ⟨h1, h2, h3⟩ | ⟨h1, h2, h3⟩ | ⟨h1, h2, h3⟩ | ⟨h1, h2, h3⟩ | ⟨h1, h2, h3⟩ <;>
    subst h1 <;> subst h2 <;> subst h3 <;>
    simp [ProcessChunksRead, hr, IHDRChunk, PLTEChunk, IDATChunk, IENDChunk, h78]

/-- `ReadIHDRChunk` on a reader positioned at thirteen payload bytes. -/
theorem ReadIHDRChunk_cons {z : ZLib} (r : PNGReader z) (length : Nat) (type : PNGChunkType)
    (crcCalc : CRCCalculator)
    (w0 w1 w2 w3 h0 h1 h2 h3 bd ct cm ft il : Byte) (tail : IStream) :
    ReadIHDRChunk ⟨w0 :: w1 :: w2 :: w3 :: h0 :: h1 :: h2 :: h3 :: bd :: ct :: cm :: ft ::
        il :: tail, length, type, crcCalc⟩ r =
      if uint32OfBytes w0 w1 w2 w3 = 0 then .error ⟨.zeroWidth, r.image_⟩
      else if uint32OfBytes h0 h1 h2 h3 = 0 then .error ⟨.zeroHeight, r.image_⟩
      else ReadIHDRChunk.finish
        ⟨tail, length, type, crcCalc.Append
          [w0, w1, w2, w3, h0, h1, h2, h3, bd, ct, cm, ft, il]⟩
        { r with width_ := uint32OfBytes w0 w1 w2 w3, height_ := uint32OfBytes h0 h1 h2 h3 }
        bd ct cm ft il := by
  unfold ReadIHDRChunk
  rw [getUInt32_cons _ w0 w1 w2 w3 _ rfl]
  simp only []
  rw [getUInt32_cons _ h0 h1 h2 h3 _ rfl]
  simp only []
  split
  · rfl
  split
  · rfl
  rw [getByte_cons _ bd _ rfl]
  simp only []
  rw [getByte_cons _ ct _ rfl]
  simp only []
  rw [getByte_cons _ cm _ rfl]
  simp only []
  rw [getByte_cons _ ft _ rfl]
  simp only []
  rw [getByte_cons _ il _ rfl]
  simp only [Append_Append, List.cons_append, List.nil_append]

theorem ReadIHDRChunk_finish_cases {z : ZLib} (rd : PNGChunkReader) (r : PNGReader z)
    (bd ct cm ft il : Byte) :
    (∃ e, ReadIHDRChunk.finish rd r bd ct cm ft il = .error ⟨e, r.image_⟩ ∧ e ∈ headerErrors) ∨
    (bd = BitDepth ∧ ct = ColorType ∧ cm = CompressionType ∧ ft = FilterType ∧
      il = InterlaceType ∧
      ReadIHDRChunk.finish rd r bd ct cm ft il = .ok (rd, { r with
        image_ := r.image_ ++ [.SetImageInfo ⟨r.width_, r.height_⟩],
        rawScanline_ := resize r.rawScanline_ r.width_,
        rawPriorScanline_ := resize r.rawPriorScanline_ r.width_,
        curRaw_ := 0, endRaw_ := 0 })) := by
  unfold ReadIHDRChunk.finish
  by_cases h1 : bd ≠ BitDepth
  · left; exact ⟨_, by rw [if_pos h1], by simp [headerErrors]⟩
  rw [if_neg h1]
  by_cases h2 : ct ≠ ColorType
  · left; exact ⟨_, by rw [if_pos h2], by simp [headerErrors]⟩
  rw [if_neg h2]
  by_cases h3 : cm ≠ CompressionType
  · left; exact ⟨_, by rw [if_pos h3], by simp [headerErrors]⟩
  rw [if_neg h3]
  by_cases h4 : ft ≠ FilterType
  · left; exact ⟨_, by rw [if_pos h4], by simp [headerErrors]⟩
  rw [if_neg h4]
  by_cases h5 : il ≠ InterlaceType
  · left; exact ⟨_, by rw [if_pos h5], by simp [headerErrors]⟩
  rw [if_neg h5]
  right
  simp only [ne_eq, not_not] at h1 h2 h3 h4 h5
  exact ⟨h1, h2, h3, h4, h5, rfl⟩

theorem ReadIHDRChunk_finish_valid {z : ZLib} (rd : PNGChunkReader) (r : PNGReader z) :
    ReadIHDRChunk.finish rd r BitDepth ColorType CompressionType FilterType InterlaceType =
      .ok (rd, { r with
        image_ := r.image_ ++ [.SetImageInfo ⟨r.width_, r.height_⟩],
        rawScanline_ := resize r.rawScanline_ r.width_,
        rawPriorScanline_ := resize r.rawPriorScanline_ r.width_,
        curRaw_ := 0, endRaw_ := 0 }) := by
  unfold ReadIHDRChunk.finish
  simp only [ne_eq, not_true_eq_false, if_false]

theorem uint32OfBytes_toByte (v : Nat) (hv : v < 2 ^ 32) :
    uint32OfBytes (toByte (v / 2 ^ 24)) (toByte (v / 2 ^ 16)) (toByte (v / 2 ^ 8)) (toByte v) =
      v := by
  simp only [uint32OfBytes, toByte]
  omega

theorem handleChunk_IHDR_first {z : ZLib} (r : PNGReader z) (rd : PNGChunkReader)
    (ht : rd.type_ = IHDRChunkType) (hr : r.chunksRead_ = 0) :
    handleChunk rd r = ReadIHDRChunk rd { r with chunksRead_ := 1 } := by
  rw [handleChunk_IHDR rd r ht, requiredChunk,
    ProcessChunksRead_of_eq r IHDRChunk 0 1 hr (Or.inl ⟨rfl, rfl, rfl⟩)]

/-- `ReadChunk` on the sealed header chunk of a `width` x `height` image,
as the first chunk. -/
theorem ReadChunk_IHDR_sealed {z : ZLib} (r : PNGReader z) (width height : Nat)
    (rest : IStream) (hw : width ≠ 0) (hh : height ≠ 0) (hw32 : width < 2 ^ 32)
    (hh32 : height < 2 ^ 32) (hr : r.chunksRead_ = 0)
    (hstm : r.stm_ = sealedChunk IHDRChunkType.GetValue (IHDRPayload width height) ++ rest) :
    r.ReadChunk = .ok { r with
      stm_ := rest, chunksRead_ := 1, width_ := width, height_ := height,
      image_ := r.image_ ++ [.SetImageInfo ⟨width, height⟩],
      rawScanline_ := resize r.rawScanline_ width,
      rawPriorScanline_ := resize r.rawPriorScanline_ width,
      curRaw_ := 0, endRaw_ := 0 } := by
  have hend : r.chunksRead_ &&& IENDChunk = 0 := by rw [hr]; decide
  have hcons := ReadIHDRChunk_cons (z := z) { r with chunksRead_ := 1 }
    (IHDRPayload width height).length ⟨IHDRChunkType.GetValue⟩
    (CRCCalculator.new.Append (bigEndian32 IHDRChunkType.GetValue))
    (toByte (width / 2 ^ 24)) (toByte (width / 2 ^ 16)) (toByte (width / 2 ^ 8)) (toByte width)
    (toByte (height / 2 ^ 24)) (toByte (height / 2 ^ 16)) (toByte (height / 2 ^ 8))
    (toByte height) BitDepth ColorType CompressionType FilterType InterlaceType
    (bigEndian32 (crc32 (bigEndian32 IHDRChunkType.GetValue ++ IHDRPayload width height)) ++
      rest)
  rw [uint32OfBytes_toByte width hw32, uint32OfBytes_toByte height hh32, if_neg hw,
    if_neg hh, ReadIHDRChunk_finish_valid, ← handleChunk_IHDR_first r _ rfl hr] at hcons
  have := ReadChunk_framed r IHDRChunkType.GetValue (IHDRPayload width height)
    (crc32 (bigEndian32 IHDRChunkType.GetValue ++ IHDRPayload width height)) rest _ _
    (by decide) (by simp [IHDRPayload, bigEndian32]) (crc32_lt _) hstm hend hcons rfl
    (by simp only [Append_Append]; rfl)
  rw [this, if_neg (by simp)]

/-- `ReadChunk` on a header chunk, as the first chunk, whose CRC field does
not match its thirteen payload bytes: an error of the header checks or the
bad-CRC error. -/
theorem ReadChunk_IHDR_mismatch {z : ZLib} (r : PNGReader z) (payload : List Byte)
    (crc : Nat) (rest : IStream) (hp : payload.length = 13) (hc : crc < 2 ^ 32)
    (hne : crc ≠ crc32 (bigEndian32 IHDRChunkType.GetValue ++ payload))
    (hr : r.chunksRead_ = 0)
    (hstm : r.stm_ = framedChunk IHDRChunkType.GetValue payload crc ++ rest) :
    ∃ e image, r.ReadChunk = .error ⟨e, image⟩ ∧ e ∈ headerErrors := by
  have hend : r.chunksRead_ &&& IENDChunk = 0 := by rw [hr]; decide
  rcases payload with _ | ⟨w0, _ | ⟨w1, _ | ⟨w2, _ | ⟨w3, _ | ⟨h0, _ | ⟨h1, _ | ⟨h2, _ |
    ⟨h3, _ | ⟨bd, _ | ⟨ct, _ | ⟨cm, _ | ⟨ft, _ | ⟨il, _ | ⟨x, xs⟩⟩⟩⟩⟩⟩⟩⟩⟩⟩⟩⟩⟩⟩ <;>
    simp only [List.length_cons, List.length_nil] at hp <;> try omega
  have hcons := ReadIHDRChunk_cons (z := z) { r with chunksRead_ := 1 } 13
    ⟨IHDRChunkType.GetValue⟩ (CRCCalculator.new.Append (bigEndian32 IHDRChunkType.GetValue))
    w0 w1 w2 w3 h0 h1 h2 h3 bd ct cm ft il (bigEndian32 crc ++ rest)
  rw [← handleChunk_IHDR_first r _ rfl hr] at hcons
  by_cases hw : uint32OfBytes w0 w1 w2 w3 = 0
  · rw [if_pos hw] at hcons
    exact ⟨_, _, ReadChunk_framed_error r _ _ crc rest _ (by decide) (by simp) hstm hend hcons,
      by simp [headerErrors]⟩
  rw [if_neg hw] at hcons
  by_cases hh : uint32OfBytes h0 h1 h2 h3 = 0
  · rw [if_pos hh] at hcons
    exact ⟨_, _, ReadChunk_framed_error r _ _ crc rest _ (by decide) (by simp) hstm hend hcons,
      by simp [headerErrors]⟩
  rw [if_neg hh] at hcons
  rcases ReadIHDRChunk_finish_cases (z := z)
    ⟨bigEndian32 crc ++ rest, 13, ⟨IHDRChunkType.GetValue⟩,
      (CRCCalculator.new.Append (bigEndian32 IHDRChunkType.GetValue)).Append
        [w0, w1, w2, w3, h0, h1, h2, h3, bd, ct, cm, ft, il]⟩
    { r with chunksRead_ := 1, width_ := uint32OfBytes w0 w1 w2 w3,
             height_ := uint32OfBytes h0 h1 h2 h3 } bd ct cm ft il with
    ⟨e, he, hmem⟩ | ⟨_, _, _, _, _, hok⟩
  · rw [he] at hcons
    exact ⟨_, _, ReadChunk_framed_error r _ _ crc rest _ (by decide) (by simp) hstm hend hcons,
      hmem⟩
  · rw [hok] at hcons
    have := ReadChunk_framed r IHDRChunkType.GetValue
      [w0, w1, w2, w3, h0, h1, h2, h3, bd, ct, cm, ft, il] crc rest _ _
      (by decide) (by simp) hc hstm hend hcons rfl (by simp only [Append_Append])
    rw [this, if_pos hne]
    exact ⟨_, _, rfl, by simp [headerErrors]⟩

theorem getByte_mk (b : Byte) (s : IStream) (length : Nat) (type : PNGChunkType)
    (crcCalc : CRCCalculator) :
    PNGChunkReader.getByte ⟨b :: s, length, type, crcCalc⟩ =
      .ok (b, ⟨s, length, type, crcCalc.Append [b]⟩) :=
  getByte_cons _ b s rfl

theorem Read_mk (buf s : List Byte) (length : Nat) (type : PNGChunkType)
    (crcCalc : CRCCalculator) :
    PNGChunkReader.Read ⟨buf ++ s, length, type, crcCalc⟩ buf.length =
      .ok (buf, ⟨s, length, type, crcCalc.Append buf⟩) :=
  Read_append _ buf s rfl

theorem ReadPLTEChunk_loop_append {z : ZLib} (n i : Nat) (r : PNGReader z) (length : Nat)
    (type : PNGChunkType) (crcCalc : CRCCalculator) (payload tail : List Byte)
    (hp : payload.length = 3 * n) :
    ReadPLTEChunk.loop n i ⟨payload ++ tail, length, type, crcCalc⟩ r =
      .ok (⟨tail, length, type, crcCalc.Append payload⟩,
        { r with image_ := r.image_ ++ paletteWrites i payload }) := by
  induction n generalizing i r crcCalc payload with
  | zero =>
    have : payload = [] := List.eq_nil_of_length_eq_zero (by omega)
    subst this
    simp [ReadPLTEChunk.loop, paletteWrites, Append_nil]
  | succ n ih =>
    rcases payload with _ | ⟨red, _ | ⟨green, _ | ⟨blue, p⟩⟩⟩ <;>
      simp only [List.length_cons, List.length_nil] at hp <;> try omega
    have hp2 : p.length = 3 * n := by omega
    simp only [ReadPLTEChunk.loop, List.cons_append, getByte_mk]
    rw [ih _ _ _ _ hp2]
    simp [paletteWrites, Append_Append]

/-- `ReadChunk` on a framed palette chunk right after the header chunk. -/
theorem ReadChunk_PLTE_framed {z : ZLib} (r : PNGReader z) (payload : List Byte) (crc : Nat)
    (rest : IStream) (hp3 : payload.length % 3 = 0) (hp : payload.length < 2 ^ 32)
    (hc : crc < 2 ^ 32) (hr : r.chunksRead_ = 1)
    (hstm : r.stm_ = framedChunk PLTEChunkType.GetValue payload crc ++ rest) :
    r.ReadChunk =
      if crc ≠ crc32 (bigEndian32 PLTEChunkType.GetValue ++ payload) then
        .error ⟨.badCRC, r.image_ ++ paletteWrites 0 payload⟩
      else .ok { r with stm_ := rest, chunksRead_ := 3,
                        image_ := r.image_ ++ paletteWrites 0 payload } := by
  have hend : r.chunksRead_ &&& IENDChunk = 0 := by rw [hr]; decide
  have hh : handleChunk (z := z) ⟨payload ++ (bigEndian32 crc ++ rest), payload.length,
      ⟨PLTEChunkType.GetValue⟩,
      CRCCalculator.new.Append (bigEndian32 PLTEChunkType.GetValue)⟩ r =
      .ok (⟨bigEndian32 crc ++ rest, payload.length, ⟨PLTEChunkType.GetValue⟩,
        (CRCCalculator.new.Append (bigEndian32 PLTEChunkType.GetValue)).Append payload⟩,
        { r with chunksRead_ := 3, image_ := r.image_ ++ paletteWrites 0 payload }) := by
    rw [handleChunk_PLTE _ _ rfl, requiredChunk,
      ProcessChunksRead_of_eq r PLTEChunk 1 3 hr (Or.inr (Or.inl ⟨rfl, rfl, rfl⟩))]
    simp only [ReadPLTEChunk, PNGChunkReader.GetLength, hp3, ne_eq, not_true_eq_false,
      if_false]
    rw [ReadPLTEChunk_loop_append _ _ _ _ _ _ _ _ (by omega)]
  exact ReadChunk_framed r PLTEChunkType.GetValue payload crc rest _ _ (by decide) hp hc hstm
    hend hh rfl (by simp only [Append_Append])

/-- `ReadChunk` on a framed, empty end chunk after header, palette and image
data. -/
theorem ReadChunk_IEND_framed {z : ZLib} (r : PNGReader z) (crc : Nat) (rest : IStream)
    (hc : crc < 2 ^ 32) (hr : r.chunksRead_ = 7)
    (hstm : r.stm_ = framedChunk IENDChunkType.GetValue [] crc ++ rest) :
    r.ReadChunk =
      if crc ≠ crc32 (bigEndian32 IENDChunkType.GetValue ++ []) then
        .error ⟨.badCRC, r.image_⟩
      else .ok { r with stm_ := rest, chunksRead_ := 15 } := by
  have hend : r.chunksRead_ &&& IENDChunk = 0 := by rw [hr]; decide
  have hh : handleChunk (z := z) ⟨[] ++ (bigEndian32 crc ++ rest), ([] : List Byte).length,
      ⟨IENDChunkType.GetValue⟩,
      CRCCalculator.new.Append (bigEndian32 IENDChunkType.GetValue)⟩ r =
      .ok (⟨[] ++ (bigEndian32 crc ++ rest), ([] : List Byte).length,
        ⟨IENDChunkType.GetValue⟩,
        CRCCalculator.new.Append (bigEndian32 IENDChunkType.GetValue)⟩,
        { r with chunksRead_ := 15 }) := by
    rw [handleChunk_IEND _ _ rfl, requiredChunk,
      ProcessChunksRead_of_eq r IENDChunk 7 15 hr
        (Or.inr (Or.inr (Or.inr (Or.inr ⟨rfl, rfl, rfl⟩))))]
    rfl
  exact ReadChunk_framed r IENDChunkType.GetValue [] crc rest _ _ (by decide) (by decide) hc
    hstm hend hh rfl (by simp)

/-- The handler of an image-data chunk after header and palette:
`ReadIDATChunk` with the image-data bit set. -/
theorem handleChunk_IDAT_after_PLTE {z : ZLib} (r : PNGReader z) (rd : PNGChunkReader)
    (ht : rd.type_ = IDATChunkType) (hr : r.chunksRead_ = 3 ∨ r.chunksRead_ = 7) :
    handleChunk rd r = ReadIDATChunk rd { r with chunksRead_ := 7 } := by
  rw [handleChunk_IDAT rd r ht, requiredChunk]
  rcases hr with hr | hr
  · rw [ProcessChunksRead_of_eq r IDATChunk 3 7 hr (Or.inr (Or.inr (Or.inl ⟨rfl, rfl, rfl⟩)))]
  · rw [ProcessChunksRead_of_eq r IDATChunk 7 7 hr
      (Or.inr (Or.inr (Or.inr (Or.inl ⟨rfl, rfl, rfl⟩))))]

/-- `ReadChunk` on a framed image-data chunk whose payload the decompressor
rejects. -/
theorem ReadChunk_IDAT_inflate_none {z : ZLib} (r : PNGReader z) (payload : List Byte)
    (crc : Nat) (rest : IStream) (hp : payload.length < 2 ^ 32)
    (hr : r.chunksRead_ = 3 ∨ r.chunksRead_ = 7)
    (hstm : r.stm_ = framedChunk IDATChunkType.GetValue payload crc ++ rest)
    (hz : z.inflate r.decompressor_.zStm_ payload = none) :
    r.ReadChunk = .error ⟨.inflateFailedDecompress, r.image_⟩ := by
  have hend : r.chunksRead_ &&& IENDChunk = 0 := by
    rcases hr with hr | hr <;> rw [hr] <;> decide
  apply ReadChunk_framed_error r IDATChunkType.GetValue payload crc rest _ (by decide) hp hstm
    hend
  rw [handleChunk_IDAT_after_PLTE r _ rfl hr]
  simp only [ReadIDATChunk, PNGChunkReader.GetLength, Read_mk,
    Decompressor.Decompress, List.take_length, hz]

/-- `ReadChunk` on a framed image-data chunk whose decompressed bytes make
the scanline loop throw. -/
theorem ReadChunk_IDAT_loop_error {z : ZLib} (r : PNGReader z) (payload : List Byte)
    (crc : Nat) (rest : IStream) (s : z.InflateState) (out : List Byte) (t : Thrown)
    (hp : payload.length < 2 ^ 32)
    (hr : r.chunksRead_ = 3 ∨ r.chunksRead_ = 7)
    (hstm : r.stm_ = framedChunk IDATChunkType.GetValue payload crc ++ rest)
    (hz : z.inflate r.decompressor_.zStm_ payload = some (s, out))
    (hu : unfilterLoop
        { r with
          chunksRead_ := 7, compBuffer_ := payload,
          decompressor_ := ⟨r.decompressor_.dst ++ out, s⟩ } (r.decompressor_.dst ++ out) =
        .error t) :
    r.ReadChunk = .error t := by
  have hend : r.chunksRead_ &&& IENDChunk = 0 := by
    rcases hr with hr | hr <;> rw [hr] <;> decide
  apply ReadChunk_framed_error r IDATChunkType.GetValue payload crc rest _ (by decide) hp hstm
    hend
  rw [handleChunk_IDAT_after_PLTE r _ rfl hr]
  simp only [ReadIDATChunk, PNGChunkReader.GetLength, Read_mk,
    Decompressor.Decompress, List.take_length, hz, Decompressor.GetDstPtr,
    Decompressor.GetDstLength, hu]

/-- `ReadChunk` on a framed image-data chunk whose decompressed bytes the
scanline loop accepts. -/
theorem ReadChunk_IDAT_loop_ok {z : ZLib} (r r2 : PNGReader z) (payload : List Byte)
    (crc : Nat) (rest : IStream) (s : z.InflateState) (out : List Byte)
    (hp : payload.length < 2 ^ 32) (hc : crc < 2 ^ 32)
    (hr : r.chunksRead_ = 3 ∨ r.chunksRead_ = 7)
    (hstm : r.stm_ = framedChunk IDATChunkType.GetValue payload crc ++ rest)
    (hz : z.inflate r.decompressor_.zStm_ payload = some (s, out))
    (hu : unfilterLoop
        { r with
          chunksRead_ := 7, compBuffer_ := payload,
          decompressor_ := ⟨r.decompressor_.dst ++ out, s⟩ } (r.decompressor_.dst ++ out) =
        .ok r2) :
    r.ReadChunk =
      if crc ≠ crc32 (bigEndian32 IDATChunkType.GetValue ++ payload) then
        .error ⟨.badCRC, r2.finalScanline.image_⟩
      else .ok { r2.finalScanline with
                 decompressor_ := r2.decompressor_.ClearDst, stm_ := rest } := by
  have hend : r.chunksRead_ &&& IENDChunk = 0 := by
    rcases hr with hr | hr <;> rw [hr] <;> decide
  have hh : handleChunk (z := z) ⟨payload ++ (bigEndian32 crc ++ rest), payload.length,
      ⟨IDATChunkType.GetValue⟩,
      CRCCalculator.new.Append (bigEndian32 IDATChunkType.GetValue)⟩ r =
      .ok (⟨bigEndian32 crc ++ rest, payload.length, ⟨IDATChunkType.GetValue⟩,
        (CRCCalculator.new.Append (bigEndian32 IDATChunkType.GetValue)).Append payload⟩,
        { r2.finalScanline with decompressor_ := r2.decompressor_.ClearDst }) := by
    rw [handleChunk_IDAT_after_PLTE r _ rfl hr]
    simp only [ReadIDATChunk, PNGChunkReader.GetLength, Read_mk,
      Decompressor.Decompress, List.take_length, hz, Decompressor.GetDstPtr,
      Decompressor.GetDstLength, hu]
  exact ReadChunk_framed r IDATChunkType.GetValue payload crc rest _ _ (by decide) hp hc hstm
    hend hh rfl (by simp only [Append_Append])

/-! ## The scanline loop: what it leaves alone and how it can fail -/

theorem curFilterBeginScanline_cases {z : ZLib} (r : PNGReader z) (prior : Option (List Byte)) :
    r.curFilterBeginScanline prior = .error ⟨.uninitialisedFilter, r.image_⟩ ∨
      ∃ r2, r.curFilterBeginScanline prior = .ok r2 ∧ SameOutside r r2 := by
  unfold curFilterBeginScanline
  cases r.curFilter_ with
  | none => left; rfl
  | some k =>
    right
    cases k <;> exact ⟨_, rfl, rfl, rfl, rfl, rfl, rfl, rfl, rfl⟩

theorem curFilterUnfilter_cases {z : ZLib} (r : PNGReader z) (filtered : Byte) :
    r.curFilterUnfilter filtered = .error ⟨.uninitialisedFilter, r.image_⟩ ∨
      ∃ raw r2, r.curFilterUnfilter filtered = .ok (raw, r2) ∧ SameOutside r r2 ∧
        r2.rawScanline_ = r.rawScanline_ ∧ r2.curRaw_ = r.curRaw_ := by
  unfold curFilterUnfilter
  cases r.curFilter_ with
  | none => left; rfl
  | some k =>
    right
    cases k <;> exact ⟨_, _, rfl, ⟨rfl, rfl, rfl, rfl, rfl, rfl, rfl⟩, rfl, rfl⟩

theorem unfilterByte_cases {z : ZLib} (r : PNGReader z) (cur : Byte) :
    (∃ e image, r.unfilterByte cur = .error ⟨e, image⟩ ∧ e ∈ imageDataErrors) ∨
      ∃ r2, r.unfilterByte cur = .ok r2 ∧ SameOutside r r2 := by
  unfold unfilterByte
  split
  · dsimp only
    split
    · left; exact ⟨_, _, rfl, by simp [imageDataErrors]⟩
    · unfold beginScanline
      dsimp only
      split
      · rcases curFilterBeginScanline_cases _ _ with h | ⟨r2, h, hs⟩
        · left; exact ⟨_, _, h, by simp [imageDataErrors]⟩
        · right; exact ⟨r2, h, hs⟩
      · rcases curFilterBeginScanline_cases _ _ with h | ⟨r2, h, hs⟩
        · left; exact ⟨_, _, h, by simp [imageDataErrors]⟩
        · right; exact ⟨r2, h, hs⟩
  · rcases curFilterUnfilter_cases r cur with h | ⟨raw, r2, h, hs, _, _⟩
    · left
      rw [h]
      exact ⟨_, _, rfl, by simp [imageDataErrors]⟩
    · right
      rw [h]
      exact ⟨_, rfl, hs⟩

theorem unfilterLoop_cases {z : ZLib} (bytes : List Byte) (r : PNGReader z) :
    (∃ e image, r.unfilterLoop bytes = .error ⟨e, image⟩ ∧ e ∈ imageDataErrors) ∨
      ∃ r2, r.unfilterLoop bytes = .ok r2 ∧ SameOutside r r2 := by
  induction bytes generalizing r with
  | nil => right; exact ⟨r, rfl, rfl, rfl, rfl, rfl, rfl, rfl, rfl⟩
  | cons b bytes ih =>
    rw [unfilterLoop]
    rcases unfilterByte_cases r b with ⟨e, image, h, he⟩ | ⟨r2, h, hs⟩
    · left; rw [h]; exact ⟨e, image, rfl, he⟩
    · rw [h]
      dsimp only
      rcases ih r2 with ⟨e, image, h2, he⟩ | ⟨r3, h2, hs2⟩
      · left; exact ⟨e, image, h2, he⟩
      · right
        refine ⟨r3, h2, ?_⟩
        obtain ⟨a1, a2, a3, a4, a5, a6, a7⟩ := hs
        obtain ⟨b1, b2, b3, b4, b5, b6, b7⟩ := hs2
        exact ⟨b1.trans a1, b2.trans a2, b3.trans a3, b4.trans a4, b5.trans a5, b6.trans a6,
          b7.trans a7⟩

theorem finalScanline_chunksRead {z : ZLib} (r : PNGReader z) :
    r.finalScanline.chunksRead_ = r.chunksRead_ := by
  unfold finalScanline
  split <;> rfl

/-- `ReadChunk` on a framed image-data chunk after header and palette: an
error of the image-data handler, the bad-CRC error, or, when the CRC field
matches, success with the stream advanced past the chunk. -/
theorem ReadChunk_IDAT_framed {z : ZLib} (r : PNGReader z) (payload : List Byte)
    (crc : Nat) (rest : IStream) (hp : payload.length < 2 ^ 32) (hc : crc < 2 ^ 32)
    (hr : r.chunksRead_ = 3 ∨ r.chunksRead_ = 7)
    (hstm : r.stm_ = framedChunk IDATChunkType.GetValue payload crc ++ rest) :
    (∃ e image, r.ReadChunk = .error ⟨e, image⟩ ∧ (e ∈ imageDataErrors ∨ e = .badCRC)) ∨
      (crc = crc32 (bigEndian32 IDATChunkType.GetValue ++ payload) ∧
        ∃ r2, r.ReadChunk = .ok r2 ∧ r2.stm_ = rest ∧ r2.chunksRead_ = 7) := by
  cases hz : z.inflate r.decompressor_.zStm_ payload with
  | none =>
    left
    exact ⟨_, _, ReadChunk_IDAT_inflate_none r payload crc rest hp hr hstm hz,
      Or.inl (by simp [imageDataErrors])⟩
  | some p =>
    obtain ⟨s, out⟩ := p
    rcases unfilterLoop_cases (r.decompressor_.dst ++ out)
      { r with
        chunksRead_ := 7, compBuffer_ := payload,
        decompressor_ := ⟨r.decompressor_.dst ++ out, s⟩ } with ⟨e, image, hu, he⟩ | ⟨r2, hu, hs⟩
    · left
      exact ⟨_, _, ReadChunk_IDAT_loop_error r payload crc rest s out _ hp hr hstm hz hu,
        Or.inl he⟩
    · have := ReadChunk_IDAT_loop_ok r r2 payload crc rest s out hp hc hr hstm hz hu
      by_cases hcv : crc = crc32 (bigEndian32 IDATChunkType.GetValue ++ payload)
      · right
        rw [if_neg (by simpa using hcv)] at this
        refine ⟨hcv, _, this, rfl, ?_⟩
        show r2.finalScanline.chunksRead_ = 7
        rw [finalScanline_chunksRead]
        exact hs.2.1
      · left
        rw [if_pos hcv] at this
        exact ⟨_, _, this, Or.inr rfl⟩

/-! ## Flipping one bit -/

theorem flipBit_length (bs : List Byte) (i : Nat) : (flipBit bs i).length = bs.length := by
  induction bs generalizing i with
  | nil => rfl
  | cons b bs ih =>
    rw [flipBit]
    split
    · rfl
    · simp [ih]

theorem flipBit_append_right (a b : List Byte) (i : Nat) :
    flipBit (a ++ b) (8 * a.length + i) = a ++ flipBit b i := by
  induction a with
  | nil => simp
  | cons x a ih =>
    rw [List.cons_append, flipBit, if_neg (by simp only [List.length_cons]; omega)]
    have : 8 * (x :: a).length + i - 8 = 8 * a.length + i := by
      simp only [List.length_cons]; omega
    rw [this, ih]
    rfl

theorem flipBit_append_left (a b : List Byte) (i : Nat) (h : i < 8 * a.length) :
    flipBit (a ++ b) i = flipBit a i ++ b := by
  induction a generalizing i with
  | nil => simp at h
  | cons x a ih =>
    rw [List.cons_append, flipBit, flipBit]
    split
    · rfl
    · rw [ih (i - 8) (by simp only [List.length_cons] at h; omega)]
      rfl

theorem toByte_xor_ne (b : Byte) (i : Nat) (h : i < 8) : toByte (b.val ^^^ (1 <<< i)) ≠ b := by
  intro he
  have hb := b.isLt
  have hlt : b.val ^^^ (1 <<< i) < 2 ^ 8 := by
    apply Nat.xor_lt_two_pow (by omega)
    rw [Nat.shiftLeft_eq, Nat.one_mul]
    exact Nat.pow_lt_pow_right (by decide) h
  have hv : (toByte (b.val ^^^ (1 <<< i))).val = b.val ^^^ (1 <<< i) := by
    simp only [toByte]
    exact Nat.mod_eq_of_lt hlt
  have h2 : b.val ^^^ (1 <<< i) = b.val := by rw [← hv, he]
  have h3 : b.val ^^^ (1 <<< i) = b.val ^^^ 0 := by rw [h2, Nat.xor_zero]
  have h4 := Nat.xor_right_injective h3
  rw [Nat.shiftLeft_eq, Nat.one_mul] at h4
  exact absurd h4 (by positivity)

/-- Flipping a bit changes exactly one byte. -/
theorem flipBit_one_byte (bs : List Byte) (i : Nat) (h : i < 8 * bs.length) :
    ∃ pre b d suf, bs = pre ++ b :: suf ∧ flipBit bs i = pre ++ d :: suf ∧ d ≠ b := by
  induction bs generalizing i with
  | nil => simp at h
  | cons x bs ih =>
    rw [flipBit]
    split
    · next hi => exact ⟨[], x, _, bs, rfl, rfl, toByte_xor_ne x i hi⟩
    · obtain ⟨pre, b, d, suf, h1, h2, h3⟩ := ih (i - 8)
        (by simp only [List.length_cons] at h; omega)
      exact ⟨x :: pre, b, d, suf, by rw [h1]; rfl, by rw [h2]; rfl, h3⟩

/-- Two byte sequences that differ in exactly one bit have different CRC-32
values. -/
theorem crc32_flipBit_ne (bs : List Byte) (i : Nat) (h : i < 8 * bs.length) :
    crc32 (flipBit bs i) ≠ crc32 bs := by
  obtain ⟨pre, b, d, suf, h1, h2, h3⟩ := flipBit_one_byte bs i h
  rw [h2, h1]
  exact crc32_ne_of_one_byte pre suf d b h3

theorem bigEndian32_uint32OfBytes_of_length (l : List Byte) (h : l.length = 4) :
    ∃ t, t < 2 ^ 32 ∧ bigEndian32 t = l := by
  rcases l with _ | ⟨b0, _ | ⟨b1, _ | ⟨b2, _ | ⟨b3, _ | ⟨x, xs⟩⟩⟩⟩⟩ <;>
    simp only [List.length_cons, List.length_nil] at h <;> try omega
  exact ⟨uint32OfBytes b0 b1 b2 b3, uint32OfBytes_lt _ _ _ _, bigEndian32_of_bytes _ _ _ _⟩

theorem bigEndian32_injective (a b : Nat) (ha : a < 2 ^ 32) (hb : b < 2 ^ 32)
    (h : bigEndian32 a = bigEndian32 b) : a = b := by
  have h1 := ReadUInt32_bigEndian32 a ha []
  have h2 := ReadUInt32_bigEndian32 b hb []
  rw [h, h2] at h1
  simp only [Except.ok.injEq, Prod.mk.injEq, and_true] at h1
  exact h1.symm

/-- A required chunk type with one bit flipped is none of the four required
chunk types. -/
theorem flipped_required_type :
    ∀ t ∈ [IHDRChunkType.GetValue, PLTEChunkType.GetValue, IDATChunkType.GetValue,
        IENDChunkType.GetValue],
      ∀ i, i < 32 →
        ∀ u ∈ [IHDRChunkType.GetValue, PLTEChunkType.GetValue, IDATChunkType.GetValue,
          IENDChunkType.GetValue],
          flipBit (bigEndian32 t) i ≠ bigEndian32 u := by
  decide

/-- A sealed chunk with bit `i` of its type code and payload flipped is a
framed chunk with the old CRC field, a payload of the old length, and either
the old type or the old payload; the CRC field no longer matches. -/
theorem flipped_sealedChunk (type : Nat) (payload : List Byte) (i : Nat)
    (hi : i < 8 * (4 + payload.length)) :
    ∃ type2 payload2,
      bigEndian32 payload.length ++ flipBit (bigEndian32 type ++ payload) i ++
        bigEndian32 (crc32 (bigEndian32 type ++ payload)) =
        framedChunk type2 payload2 (crc32 (bigEndian32 type ++ payload)) ∧
      type2 < 2 ^ 32 ∧ payload2.length = payload.length ∧
      crc32 (bigEndian32 type ++ payload) ≠ crc32 (bigEndian32 type2 ++ payload2) ∧
      ((i < 32 ∧ bigEndian32 type2 = flipBit (bigEndian32 type) i) ∨
        bigEndian32 type2 = bigEndian32 type) := by
  have hne := crc32_flipBit_ne (bigEndian32 type ++ payload) i
    (by simp only [List.length_append, bigEndian32_length]; omega)
  by_cases h32 : i < 32
  · have hl : flipBit (bigEndian32 type ++ payload) i = flipBit (bigEndian32 type) i ++ payload :=
      flipBit_append_left _ _ _ (by rw [bigEndian32_length]; omega)
    obtain ⟨t2, ht2, hbe⟩ := bigEndian32_uint32OfBytes_of_length (flipBit (bigEndian32 type) i)
      (by rw [flipBit_length, bigEndian32_length])
    refine ⟨t2, payload, ?_, ht2, rfl, ?_, Or.inl ⟨h32, hbe⟩⟩
    · rw [hl, ← hbe]
      simp [framedChunk]
    · rw [hbe, ← hl]
      exact fun h => hne h.symm
  · have hr : flipBit (bigEndian32 type ++ payload) i =
        bigEndian32 type ++ flipBit payload (i - 32) := by
      have := flipBit_append_right (bigEndian32 type) payload (i - 32)
      rw [bigEndian32_length] at this
      rw [← this]
      congr 1
      omega
    obtain ⟨t2, ht2, hbe⟩ := bigEndian32_uint32OfBytes_of_length (bigEndian32 type)
      (bigEndian32_length _)
    refine ⟨t2, flipBit payload (i - 32), ?_, ht2, flipBit_length _ _, ?_, Or.inr hbe⟩
    · rw [hr]
      simp [framedChunk, flipBit_length, hbe]
    · rw [hbe, ← hr]
      exact fun h => hne h.symm

/-! ## Decoding a stream with one bit flipped -/

theorem required_type_lt :
    ∀ t ∈ [IHDRChunkType.GetValue, PLTEChunkType.GetValue, IDATChunkType.GetValue,
        IENDChunkType.GetValue], t < 2 ^ 32 := by
  decide

/-- `ReadChunk` on a required chunk, due at this point of the stream, that
has one bit of its type code or payload flipped: an error. -/
theorem ReadChunk_flipped {z : ZLib} (r : PNGReader z) (type : Nat) (payload : List Byte)
    (i : Nat) (rest : IStream) (hp : payload.length < 2 ^ 32)
    (hi : i < 8 * (4 + payload.length))
    (hstage :
      (type = IHDRChunkType.GetValue ∧ r.chunksRead_ = 0 ∧ payload.length = 13) ∨
      (type = PLTEChunkType.GetValue ∧ r.chunksRead_ = 1 ∧ payload.length % 3 = 0) ∨
      (type = IDATChunkType.GetValue ∧ (r.chunksRead_ = 3 ∨ r.chunksRead_ = 7)) ∨
      (type = IENDChunkType.GetValue ∧ (r.chunksRead_ = 3 ∨ r.chunksRead_ = 7) ∧
        payload = []))
    (hstm : r.stm_ = bigEndian32 payload.length ++ flipBit (bigEndian32 type ++ payload) i ++
      bigEndian32 (crc32 (bigEndian32 type ++ payload)) ++ rest) :
    ∃ e image, r.ReadChunk = .error ⟨e, image⟩ ∧ e ∈ flipErrors := by
  obtain ⟨t2, p2, hfr, ht2, hlen, hcrc, hty⟩ := flipped_sealedChunk type payload i hi
  rw [hfr] at hstm
  have hmem : type ∈ [IHDRChunkType.GetValue, PLTEChunkType.GetValue, IDATChunkType.GetValue,
      IENDChunkType.GetValue] := by
    rcases hstage with h | h | h | h <;> simp [h.1]
  have hend : r.chunksRead_ &&& IENDChunk = 0 := by
    rcases hstage with h | h | h | h
    · rw [h.2.1]; decide
    · rw [h.2.1]; decide
    · rcases h.2 with h | h <;> rw [h] <;> decide
    · rcases h.2.1 with h | h <;> rw [h] <;> decide
  have hp2 : p2.length < 2 ^ 32 := by rw [hlen]; exact hp
  rcases hty with ⟨h32, hbe⟩ | hbe
  · have hne : ∀ u ∈ [IHDRChunkType.GetValue, PLTEChunkType.GetValue, IDATChunkType.GetValue,
        IENDChunkType.GetValue], t2 ≠ u := by
      intro u hu he
      apply flipped_required_type type hmem i h32 u hu
      rw [← hbe, he]
    have hun := ReadChunk_unknown r t2 p2 (crc32 (bigEndian32 type ++ payload)) rest ht2 hp2
      (crc32_lt _) hstm hend (hne _ (by simp)) (hne _ (by simp)) (hne _ (by simp))
      (hne _ (by simp))
    rw [hun]
    by_cases ha : t2 &&& 0x20000000 = 0
    · rw [if_pos ha]
      exact ⟨_, _, rfl, by decide⟩
    · rw [if_neg ha, if_pos hcrc]
      exact ⟨_, _, rfl, by decide⟩
  · have hty : t2 = type :=
      bigEndian32_injective t2 type ht2 (required_type_lt type hmem) hbe
    subst hty
    rcases hstage with ⟨hT, hr, hl⟩ | ⟨hT, hr, hl⟩ | ⟨hT, hr⟩ | ⟨hT, hr, hl⟩
    · subst hT
      obtain ⟨e, image, he, hm⟩ := ReadChunk_IHDR_mismatch r p2 _ rest (by rw [hlen, hl])
        (crc32_lt _) hcrc hr hstm
      refine ⟨e, image, he, ?_⟩
      simp only [flipErrors, List.mem_append]
      exact Or.inl (Or.inr hm)
    · subst hT
      rw [ReadChunk_PLTE_framed r p2 _ rest (by rw [hlen, hl]) hp2 (crc32_lt _) hr hstm,
        if_pos hcrc]
      exact ⟨_, _, rfl, by decide⟩
    · subst hT
      rcases ReadChunk_IDAT_framed r p2 _ rest hp2 (crc32_lt _) hr hstm with
        ⟨e, image, he, hm⟩ | ⟨heq, _⟩
      · refine ⟨e, image, he, ?_⟩
        rcases hm with hm | hm
        · simp only [flipErrors, List.mem_append]
          exact Or.inr hm
        · rw [hm]; decide
      · exact absurd heq hcrc
    · exfalso
      subst hl
      have : p2 = [] := List.eq_nil_of_length_eq_zero (by rw [hlen]; rfl)
      subst this
      exact hcrc rfl

theorem sealedChunk_ne_nil (type : Nat) (payload : List Byte) (rest : List Byte) :
    sealedChunk type payload ++ rest ≠ [] := by
  simp [sealedChunk, bigEndian32]

theorem flipBit_sealedChunks (pre post : List (Nat × List Byte)) (c : Nat × List Byte)
    (i : Nat) (hi : i < 8 * (4 + c.2.length)) :
    flipBit (sealedChunks (pre ++ c :: post)) (8 * ((sealedChunks pre).length + 4) + i) =
      sealedChunks pre ++ (bigEndian32 c.2.length ++ flipBit (bigEndian32 c.1 ++ c.2) i ++
        bigEndian32 (crc32 (bigEndian32 c.1 ++ c.2)) ++ sealedChunks post) := by
  rw [sealedChunks_append, Nat.mul_add, Nat.add_assoc, flipBit_append_right]
  congr 1
  simp only [sealedChunks, sealedChunk, List.append_assoc]
  have h4 : 8 * 4 = 8 * (bigEndian32 c.2.length).length := by rw [bigEndian32_length]
  rw [h4, flipBit_append_right]
  congr 1
  rw [← List.append_assoc (bigEndian32 c.1), flipBit_append_left _ _ _
    (by simp only [List.length_append, bigEndian32_length]; omega)]

theorem flipped_ne_nil (len : Nat) (a b c : List Byte) :
    bigEndian32 len ++ a ++ b ++ c ≠ [] := by
  simp [bigEndian32]

/-- The chunk loop on the image-data chunks and the end chunk of an encoded
stream, one of them with a bit of its type code or payload flipped: an
error. -/
theorem ReadChunks_flipped_tail {z : ZLib} (ps : List (List Byte)) (c : Nat × List Byte)
    (post : List (Nat × List Byte)) (i : Nat) (n : Nat) (hi : i < 8 * (4 + c.2.length)) :
    ∀ (pre : List (Nat × List Byte)) (r : PNGReader z),
      ps.map (fun p => (IDATChunkType.GetValue, p)) ++ [(IENDChunkType.GetValue, [])] =
        pre ++ c :: post →
      (∀ p ∈ ps, p.length < 2 ^ 32) → (r.chunksRead_ = 3 ∨ r.chunksRead_ = 7) →
      r.stm_ = sealedChunks pre ++ (bigEndian32 c.2.length ++
        flipBit (bigEndian32 c.1 ++ c.2) i ++ bigEndian32 (crc32 (bigEndian32 c.1 ++ c.2)) ++
        sealedChunks post) →
      r.stm_.length ≤ n →
      ∃ e image, ReadChunks n r = .error ⟨e, image⟩ ∧ e ∈ flipErrors := by
  induction ps with
  | nil =>
    intro pre r hcs _ hr hstm hn
    rcases pre with _ | ⟨a, pre⟩
    · simp only [List.map_nil, List.nil_append, List.cons.injEq] at hcs
      obtain ⟨hc, hpost⟩ := hcs
      subst hc
      simp only [sealedChunks, List.nil_append] at hstm
      obtain ⟨e, image, he, hm⟩ := ReadChunk_flipped r _ _ i _ (by decide) hi
        (Or.inr (Or.inr (Or.inr ⟨rfl, hr, rfl⟩))) hstm
      exact ⟨e, image, ReadChunks_error n r _ hn (by rw [hstm]; exact flipped_ne_nil _ _ _ _) he,
        hm⟩
    · simp at hcs
  | cons p ps ih =>
    intro pre r hcs hps hr hstm hn
    rcases pre with _ | ⟨a, pre⟩
    · simp only [List.map_cons, List.cons_append, List.nil_append, List.cons.injEq] at hcs
      obtain ⟨hc, hpost⟩ := hcs
      subst hc
      simp only [sealedChunks, List.nil_append] at hstm
      obtain ⟨e, image, he, hm⟩ := ReadChunk_flipped r _ _ i _
        (hps p (List.mem_cons_self _ _)) hi (Or.inr (Or.inr (Or.inl ⟨rfl, hr⟩))) hstm
      exact ⟨e, image, ReadChunks_error n r _ hn (by rw [hstm]; exact flipped_ne_nil _ _ _ _) he,
        hm⟩
    · simp only [List.map_cons, List.cons_append, List.cons.injEq] at hcs
      obtain ⟨ha, htail⟩ := hcs
      subst ha
      simp only [sealedChunks, List.append_assoc] at hstm
      have hs : r.stm_ ≠ [] := by rw [hstm]; exact sealedChunk_ne_nil _ _ _
      rcases ReadChunk_IDAT_framed r p _ _ (hps p (List.mem_cons_self _ _)) (crc32_lt _) hr
          (by rw [hstm, sealedChunk_eq_framedChunk]) with
        ⟨e, image, he, hm⟩ | ⟨_, r2, h2, hs2, hc2⟩
      · refine ⟨e, image, ReadChunks_error n r _ hn hs he, ?_⟩
        rcases hm with hm | hm
        · simp only [flipErrors, List.mem_append]
          exact Or.inr hm
        · rw [hm]; decide
      · have hlen := ReadChunk_length h2
        rw [ReadChunks_step n r r2 hn hs h2]
        exact ih pre r2 htail (fun q hq => hps q (List.mem_cons_of_mem _ hq)) (Or.inr hc2)
          (by rw [hs2]; simp only [List.append_assoc]) (by omega)

/-- The chunk loop on the chunks of an encoded stream, one of them with a
bit of its type code or payload flipped: an error. -/
theorem ReadChunks_flipped {z : ZLib} (width height : Nat) (palette : List Byte)
    (ps : List (List Byte)) (pre post : List (Nat × List Byte)) (c : Nat × List Byte)
    (i n : Nat) (r : PNGReader z)
    (hw : width ≠ 0) (hh : height ≠ 0) (hw32 : width < 2 ^ 32) (hh32 : height < 2 ^ 32)
    (hpal3 : palette.length % 3 = 0) (hpal : palette.length < 2 ^ 32)
    (hps : ∀ p ∈ ps, p.length < 2 ^ 32)
    (hcs : (IHDRChunkType.GetValue, IHDRPayload width height) ::
      (PLTEChunkType.GetValue, palette) ::
      (ps.map (fun p => (IDATChunkType.GetValue, p)) ++ [(IENDChunkType.GetValue, [])]) =
        pre ++ c :: post)
    (hi : i < 8 * (4 + c.2.length)) (hr : r.chunksRead_ = 0)
    (hstm : r.stm_ = sealedChunks pre ++ (bigEndian32 c.2.length ++
      flipBit (bigEndian32 c.1 ++ c.2) i ++ bigEndian32 (crc32 (bigEndian32 c.1 ++ c.2)) ++
      sealedChunks post))
    (hn : r.stm_.length ≤ n) :
    ∃ e image, ReadChunks n r = .error ⟨e, image⟩ ∧ e ∈ flipErrors := by
  rcases pre with _ | ⟨a, pre⟩
  · simp only [List.nil_append, List.cons.injEq] at hcs
    obtain ⟨hc, hpost⟩ := hcs
    subst hc
    simp only [sealedChunks, List.nil_append] at hstm
    obtain ⟨e, image, he, hm⟩ := ReadChunk_flipped r _ _ i _
      (by simp [IHDRPayload, bigEndian32]) hi
      (Or.inl ⟨rfl, hr, by simp [IHDRPayload, bigEndian32]⟩) hstm
    exact ⟨e, image, ReadChunks_error n r _ hn (by rw [hstm]; exact flipped_ne_nil _ _ _ _) he,
      hm⟩
  · simp only [List.cons_append, List.cons.injEq] at hcs
    obtain ⟨ha, hcs⟩ := hcs
    subst ha
    simp only [sealedChunks, List.append_assoc] at hstm
    have hs : r.stm_ ≠ [] := by rw [hstm]; exact sealedChunk_ne_nil _ _ _
    obtain ⟨r1, h1, hs1, hc1⟩ : ∃ r1 : PNGReader z, r.ReadChunk = .ok r1 ∧
        r1.stm_ = sealedChunks pre ++ (bigEndian32 c.2.length ++
          (flipBit (bigEndian32 c.1 ++ c.2) i ++
            (bigEndian32 (crc32 (bigEndian32 c.1 ++ c.2)) ++ sealedChunks post))) ∧
        r1.chunksRead_ = 1 :=
      ⟨_, ReadChunk_IHDR_sealed r width height _ hw hh hw32 hh32 hr hstm, rfl, rfl⟩
    have hlen := ReadChunk_length h1
    rw [ReadChunks_step n r r1 hn hs h1]
    rcases pre with _ | ⟨b, pre⟩
    · simp only [List.nil_append, List.cons.injEq] at hcs
      obtain ⟨hc, hpost⟩ := hcs
      subst hc
      simp only [sealedChunks, List.nil_append, ← List.append_assoc] at hs1
      obtain ⟨e, image, he, hm⟩ := ReadChunk_flipped r1 _ _ i _ hpal hi
        (Or.inr (Or.inl ⟨rfl, hc1, hpal3⟩)) hs1
      exact ⟨e, image, ReadChunks_error n r1 _ (by omega)
        (by rw [hs1]; exact flipped_ne_nil _ _ _ _) he, hm⟩
    · simp only [List.cons_append, List.cons.injEq] at hcs
      obtain ⟨hb, hcs⟩ := hcs
      subst hb
      simp only [sealedChunks, List.append_assoc] at hs1
      have h2 := ReadChunk_PLTE_framed r1 palette
        (crc32 (bigEndian32 PLTEChunkType.GetValue ++ palette)) _ hpal3 hpal (crc32_lt _) hc1
        (by rw [hs1, sealedChunk_eq_framedChunk])
      rw [if_neg (by simp)] at h2
      have hlen2 := ReadChunk_length h2
      rw [ReadChunks_step n r1 _ (by omega) (by rw [hs1]; exact sealedChunk_ne_nil _ _ _) h2]
      exact ReadChunks_flipped_tail ps c post i n hi pre _ hcs hps (Or.inl rfl)
        (by simp only [List.append_assoc]) (by simp only [] at hlen2 ⊢; omega)

theorem Decompressor_new_error (z : ZLib) (e : error) (h : Decompressor.new z = .error e) :
    e = .inflateInitFailed := by
  unfold Decompressor.new at h
  cases hz : z.inflateInit with
  | none =>
    rw [hz] at h
    simp only [Except.error.injEq] at h
    exact h.symm
  | some s =>
    rw [hz] at h
    simp at h

/-- `LoadPNG` on the signature and the sealed chunks of an encoded image,
with one bit of the type code or payload of one chunk flipped: an error. -/
theorem LoadPNG_flipped (z : ZLib) (width height : Nat) (palette : List Byte)
    (ps : List (List Byte)) (pre post : List (Nat × List Byte)) (c : Nat × List Byte)
    (i : Nat)
    (hw : width ≠ 0) (hh : height ≠ 0) (hw32 : width < 2 ^ 32) (hh32 : height < 2 ^ 32)
    (hpal3 : palette.length % 3 = 0) (hpal : palette.length < 2 ^ 32)
    (hps : ∀ p ∈ ps, p.length < 2 ^ 32)
    (hcs : (IHDRChunkType.GetValue, IHDRPayload width height) ::
      (PLTEChunkType.GetValue, palette) ::
      (ps.map (fun p => (IDATChunkType.GetValue, p)) ++ [(IENDChunkType.GetValue, [])]) =
        pre ++ c :: post)
    (hi : i < 8 * (4 + c.2.length)) :
    ∃ e, e ∈ flipErrors ∧
      (LoadPNG z (flipBit (PngSignature ++ sealedChunks (pre ++ c :: post))
        (8 * (8 + (sealedChunks pre).length + 4) + i))).thrown = some e := by
  have hpos : 8 * (8 + (sealedChunks pre).length + 4) + i =
      8 * PngSignature.length + (8 * ((sealedChunks pre).length + 4) + i) := by
    have : PngSignature.length = 8 := rfl
    rw [this]
    omega
  rw [hpos, flipBit_append_right, flipBit_sealedChunks pre post c i hi]
  unfold LoadPNG
  cases hd : Decompressor.new z with
  | error e =>
    refine ⟨e, ?_, rfl⟩
    rw [Decompressor_new_error z e hd]
    decide
  | ok d =>
    simp only []
    obtain ⟨e, image, he, hm⟩ := ReadChunks_flipped width height palette ps pre post c i
      (sealedChunks pre ++ (bigEndian32 c.2.length ++ flipBit (bigEndian32 c.1 ++ c.2) i ++
        bigEndian32 (crc32 (bigEndian32 c.1 ++ c.2)) ++ sealedChunks post)).length
      { init d (PngSignature ++ (sealedChunks pre ++ (bigEndian32 c.2.length ++
          flipBit (bigEndian32 c.1 ++ c.2) i ++
          bigEndian32 (crc32 (bigEndian32 c.1 ++ c.2)) ++ sealedChunks post))) with
        stm_ := sealedChunks pre ++ (bigEndian32 c.2.length ++
          flipBit (bigEndian32 c.1 ++ c.2) i ++
          bigEndian32 (crc32 (bigEndian32 c.1 ++ c.2)) ++ sealedChunks post) }
      hw hh hw32 hh32 hpal3 hpal hps hcs hi rfl rfl (le_refl _)
    rw [run_of_ReadChunks_error d _ _ _ rfl he]
    exact ⟨e, hm, rfl⟩

theorem sealedChunks_length_le (cs : List (Nat × List Byte)) (c : Nat × List Byte)
    (h : c ∈ cs) : c.2.length ≤ (sealedChunks cs).length := by
  induction cs with
  | nil => simp at h
  | cons a cs ih =>
    simp only [sealedChunks, List.length_append]
    rcases List.mem_cons.mp h with h | h
    · subst h
      simp only [sealedChunk, List.length_append]
      omega
    · have := ih h
      omega

theorem SavePNG_thrown_none (z : ZLib) (image : ReadableImage) (out : List Byte)
    (h : (SavePNG z image ⟨out, true⟩).thrown = none) :
    image.GetImageInfo.GetWidth ≠ 0 ∧ image.GetImageInfo.GetHeight ≠ 0 := by
  by_cases hw : image.GetImageInfo.GetWidth = 0
  · exfalso
    simp [SavePNG, PNGWriter.run, PNGWriter.body, hw] at h
  · by_cases hh : image.GetImageInfo.GetHeight = 0
    · exfalso
      simp [SavePNG, PNGWriter.run, PNGWriter.body, hw, hh] at h
    · exact ⟨hw, hh⟩

/-- A successful `SavePNG` to an empty stream writes the signature and the
sealed chunks of `encoderChunks`, for the payloads the compressor produced. -/
theorem SavePNG_stream (z : ZLib) (image : ReadableImage)
    (h : (SavePNG z image ⟨[], true⟩).thrown = none) :
    ∃ c ps, Compressor.new z = .ok c ∧
      IDATPayloads image image.GetImageInfo.GetWidth image.GetImageInfo.GetHeight
        image.GetImageInfo.GetHeight 0 c = some ps ∧
      (SavePNG z image ⟨[], true⟩).stm.bytes =
        PngSignature ++ sealedChunks (encoderChunks image ps) := by
  obtain ⟨hw, hh⟩ := SavePNG_thrown_none z image [] h
  obtain ⟨c, ps, hc, hps⟩ := (SavePNG_good z image [] hw hh).2 h
  refine ⟨c, ps, hc, hps, ?_⟩
  rw [(SavePNG_good z image [] hw hh).1 c ps hc hps]
  rfl

/-- Decoding an encoded stream in which one bit of a chunk's type code or
payload has been flipped ends with one of the errors of `flipErrors`. -/
theorem SavePNG_flipped_LoadPNG (z : ZLib) (image : ReadableImage)
    (hsave : (SavePNG z image ⟨[], true⟩).thrown = none)
    (hw32 : image.GetImageInfo.GetWidth < 2 ^ 32)
    (hh32 : image.GetImageInfo.GetHeight < 2 ^ 32)
    (hlen : (SavePNG z image ⟨[], true⟩).stm.bytes.length < 2 ^ 32) :
    ∃ ps, (SavePNG z image ⟨[], true⟩).stm.bytes =
        PngSignature ++ sealedChunks (encoderChunks image ps) ∧
      ∀ pre c post i, encoderChunks image ps = pre ++ c :: post →
        i < 8 * (4 + c.2.length) →
        ∃ e, e ∈ flipErrors ∧
          (LoadPNG z (flipBit (SavePNG z image ⟨[], true⟩).stm.bytes
            (8 * (8 + (sealedChunks pre).length + 4) + i))).thrown = some e := by
  obtain ⟨hw, hh⟩ := SavePNG_thrown_none z image [] hsave
  obtain ⟨c, ps, _, _, hstm⟩ := SavePNG_stream z image hsave
  refine ⟨ps, hstm, ?_⟩
  intro pre c post i hcs hi
  rw [hstm] at hlen ⊢
  rw [hcs]
  refine LoadPNG_flipped z _ _ (PLTEPayload image.GetPaletteEntry 256 0) ps pre post c i hw hh
    hw32 hh32 (by rw [PLTEPayload_length]) (by rw [PLTEPayload_length]; decide) ?_
    (by rw [← hcs]; rfl) hi
  intro p hp
  have hmem : (IDATChunkType.GetValue, p) ∈ encoderChunks image ps := by
    simp only [encoderChunks, List.mem_cons, List.mem_append, List.mem_map]
    exact Or.inr (Or.inr (Or.inl ⟨p, hp, rfl⟩))
  have := sealedChunks_length_le _ _ hmem
  simp only [List.length_append] at hlen
  simp only [] at this
  omega

/-! ## One flipped bit (claims C3, C4) -/

/-- What `SavePNG` writes for the 2 x 2 checker image with the stored
stand-in for zlib: one image-data chunk with the six unfiltered bytes. -/
theorem checkerImage_saved :
    SavePNG ZLib.stored checkerImage ⟨[], true⟩ =
      ⟨⟨PngSignature ++ sealedChunks (encoderChunks checkerImage [[0, 0, 1, 0, 1, 0]]), true⟩,
        [.BeginRead, .GetImageInfo] ++ paletteReads 256 0 ++ scanlineReads 2 0 ++
          [.EndRead true], none⟩ := by
  have h := (SavePNG_good ZLib.stored checkerImage [] (by decide) (by decide)).1 ⟨[], []⟩
    [[0, 0, 1, 0, 1, 0]] rfl (by decide)
  rw [h]
  rfl

/-- C3 as stated does not hold: in the stream the encoder writes for the
2 x 2 checker image, byte 24 is the bit-depth byte of the header chunk's
payload, and with its lowest bit flipped decode fails with the
unsupported-bit-depth error of `ReadIHDRChunk`, which is thrown before
`PNGChunkReader::End` compares the CRC. -/
theorem flipped_bit_depth_fails_before_crc :
    (SavePNG ZLib.stored checkerImage ⟨[], true⟩).thrown = none ∧
    (SavePNG ZLib.stored checkerImage ⟨[], true⟩).stm.bytes.take 25 =
      PngSignature ++ bigEndian32 13 ++ bigEndian32 IHDRChunkType.GetValue ++
        [0, 0, 0, 2, 0, 0, 0, 2, 8] ∧
    (LoadPNG ZLib.stored
      (flipBit (SavePNG ZLib.stored checkerImage ⟨[], true⟩).stm.bytes (8 * 24))).thrown =
      some .unsupportedBitDepth := by
  rw [checkerImage_saved]
  decide!

/-- C3, amended: for every stream the encoder writes (width, height and
stream length below `2 ^ 32`), the stream is the signature followed by the
sealed chunks of `encoderChunks`, and flipping any single bit inside the type
code or payload of any of these chunks makes decode fail with one of the
errors of `flipErrors`: the bad-CRC error of `PNGChunkReader::End`, or an
error thrown before the CRC is compared (unknown critical chunk, a header
check, the decompressor, too many pixels, the unset filter pointer). -/
theorem flipped_bit_fails_decode (z : ZLib) (image : ReadableImage)
    (hsave : (SavePNG z image ⟨[], true⟩).thrown = none)
    (hw32 : image.GetImageInfo.GetWidth < 2 ^ 32)
    (hh32 : image.GetImageInfo.GetHeight < 2 ^ 32)
    (hlen : (SavePNG z image ⟨[], true⟩).stm.bytes.length < 2 ^ 32) :
    ∃ ps, (SavePNG z image ⟨[], true⟩).stm.bytes =
        PngSignature ++ sealedChunks (encoderChunks image ps) ∧
      ∀ pre c post i, encoderChunks image ps = pre ++ c :: post →
        i < 8 * (4 + c.2.length) →
        ∃ e, e ∈ flipErrors ∧
          (LoadPNG z (flipBit (SavePNG z image ⟨[], true⟩).stm.bytes
            (8 * (8 + (sealedChunks pre).length + 4) + i))).thrown = some e :=
  SavePNG_flipped_LoadPNG z image hsave hw32 hh32 hlen

/-- An instance of the amended C3: the 2 x 2 checker image, with the stored
stand-in for zlib. -/
theorem flipped_bit_fails_decode_witness :
    ∃ ps, (SavePNG ZLib.stored checkerImage ⟨[], true⟩).stm.bytes =
        PngSignature ++ sealedChunks (encoderChunks checkerImage ps) ∧
      ∀ pre c post i, encoderChunks checkerImage ps = pre ++ c :: post →
        i < 8 * (4 + c.2.length) →
        ∃ e, e ∈ flipErrors ∧
          (LoadPNG ZLib.stored (flipBit (SavePNG ZLib.stored checkerImage ⟨[], true⟩).stm.bytes
            (8 * (8 + (sealedChunks pre).length + 4) + i))).thrown = some e :=
  flipped_bit_fails_decode ZLib.stored checkerImage (by rw [checkerImage_saved])
    (by decide) (by decide) (by rw [checkerImage_saved]; decide!)

/-- C4: two byte sequences of equal length that differ in exactly one bit
have different CRC-32 values; and for every stream the encoder writes (width,
height and stream length below `2 ^ 32`) and every single-bit flip inside the
type code or payload of one of its chunks, the CRC-32 of the modified type
code and payload differs from the stored CRC and decode of the modified stream
ends with an error, never with success. -/
theorem flipped_bit_never_decodes (z : ZLib) (image : ReadableImage)
    (hsave : (SavePNG z image ⟨[], true⟩).thrown = none)
    (hw32 : image.GetImageInfo.GetWidth < 2 ^ 32)
    (hh32 : image.GetImageInfo.GetHeight < 2 ^ 32)
    (hlen : (SavePNG z image ⟨[], true⟩).stm.bytes.length < 2 ^ 32) :
    (∀ (bs : List Byte) (i : Nat), i < 8 * bs.length →
      (flipBit bs i).length = bs.length ∧ flipBit bs i ≠ bs ∧
        crc32 (flipBit bs i) ≠ crc32 bs) ∧
    ∃ ps, (SavePNG z image ⟨[], true⟩).stm.bytes =
        PngSignature ++ sealedChunks (encoderChunks image ps) ∧
      ∀ pre c post i, encoderChunks image ps = pre ++ c :: post →
        i < 8 * (4 + c.2.length) →
        crc32 (flipBit (bigEndian32 c.1 ++ c.2) i) ≠ crc32 (bigEndian32 c.1 ++ c.2) ∧
        (LoadPNG z (flipBit (SavePNG z image ⟨[], true⟩).stm.bytes
          (8 * (8 + (sealedChunks pre).length + 4) + i))).thrown ≠ none := by
  constructor
  · intro bs i hi
    refine ⟨flipBit_length bs i, ?_, crc32_flipBit_ne bs i hi⟩
    intro h
    exact crc32_flipBit_ne bs i hi (by rw [h])
  · obtain ⟨ps, hstm, hall⟩ := SavePNG_flipped_LoadPNG z image hsave hw32 hh32 hlen
    refine ⟨ps, hstm, ?_⟩
    intro pre c post i hcs hi
    obtain ⟨e, _, he⟩ := hall pre c post i hcs hi
    refine ⟨crc32_flipBit_ne _ i
      (by simp only [List.length_append, bigEndian32_length]; omega), ?_⟩
    rw [he]
    simp

/-- An instance of C4: the 2 x 2 checker image, with the stored stand-in for
zlib. -/
theorem flipped_bit_never_decodes_witness :
    (∀ (bs : List Byte) (i : Nat), i < 8 * bs.length →
      (flipBit bs i).length = bs.length ∧ flipBit bs i ≠ bs ∧
        crc32 (flipBit bs i) ≠ crc32 bs) ∧
    ∃ ps, (SavePNG ZLib.stored checkerImage ⟨[], true⟩).stm.bytes =
        PngSignature ++ sealedChunks (encoderChunks checkerImage ps) ∧
      ∀ pre c post i, encoderChunks checkerImage ps = pre ++ c :: post →
        i < 8 * (4 + c.2.length) →
        crc32 (flipBit (bigEndian32 c.1 ++ c.2) i) ≠ crc32 (bigEndian32 c.1 ++ c.2) ∧
        (LoadPNG ZLib.stored (flipBit (SavePNG ZLib.stored checkerImage ⟨[], true⟩).stm.bytes
          (8 * (8 + (sealedChunks pre).length + 4) + i))).thrown ≠ none :=
  flipped_bit_never_decodes ZLib.stored checkerImage (by rw [checkerImage_saved])
    (by decide) (by decide) (by rw [checkerImage_saved]; decide!)

/-! ## The payloads of the image-data chunks -/

theorem compressAll_cons_some (z : ZLib) (s s2 : z.DeflateState) (b out : List Byte)
    (bs : List (List Byte)) (h : z.deflate s b = some (s2, out)) :
    z.compressAll s (b :: bs) = (z.compressAll s2 bs).map (fun rest => out ++ rest) := by
  rw [ZLib.compressAll, h]

theorem compressAll_cons_none (z : ZLib) (s : z.DeflateState) (b : List Byte)
    (bs : List (List Byte)) (h : z.deflate s b = none) :
    z.compressAll s (b :: bs) = none := by
  rw [ZLib.compressAll, h]

/-- With an empty output buffer at the start, the passes of the loop of
`WriteIDATChunks` for the last `n + 1` scanlines succeed when the compressor
does on their blocks, and the payloads written are, end to end, what the
compressor emits. -/
theorem IDATPayloads_flatten {z : ZLib} (image : ReadableImage) (width height : Nat) (n : Nat) :
    ∀ (y : Nat) (c : Compressor z) (comp : List Byte),
      c.dst = [] → y + (n + 1) = height →
      z.compressAll c.zStm_ (rawBlocks image width (n + 1) y) = some comp →
      ∃ ps, IDATPayloads image width height (n + 1) y c = some ps ∧ ps.flatten = comp := by
  induction n with
  | zero =>
    intro y c comp hdst hy hcomp
    have hlast : y = height - 1 := by omega
    simp only [rawBlocks, ZLib.compressAll] at hcomp
    cases h1 : z.deflate c.zStm_ [0] with
    | none => simp [h1] at hcomp
    | some a1 =>
      obtain ⟨s1, o1⟩ := a1
      simp only [h1] at hcomp
      cases h2 : z.deflate s1 ((image.GetScanline y).take width) with
      | none => simp [h2] at hcomp
      | some a2 =>
        obtain ⟨s2, o2⟩ := a2
        simp only [h2] at hcomp
        cases h3 : z.deflateFinish s2 with
        | none => simp [h3] at hcomp
        | some a3 =>
          obtain ⟨s3, o3⟩ := a3
          simp only [h3, Option.map_some', Option.some.injEq] at hcomp
          simp only [IDATPayloads, Compressor.CompressByte, Compressor.Compress,
            List.take_succ_cons, List.take_zero, h1, h2, if_pos hlast, Compressor.Finish, h3,
            hdst, List.nil_append, Compressor.GetDstLength, Compressor.GetDstPtr,
            List.take_length]
          by_cases hl : (o1 ++ o2 ++ o3).length ≠ 0
          · rw [if_pos hl]
            exact ⟨_, rfl, by simp [← hcomp]⟩
          · rw [if_neg hl]
            refine ⟨_, rfl, ?_⟩
            have : o1 ++ o2 ++ o3 = [] := List.eq_nil_of_length_eq_zero (by simpa using hl)
            rw [← hcomp]
            simp only [List.append_assoc] at this
            simp [this]
  | succ n ih =>
    intro y c comp hdst hy hcomp
    have hlast : y ≠ height - 1 := by omega
    rw [rawBlocks] at hcomp
    cases h1 : z.deflate c.zStm_ [0] with
    | none => simp [compressAll_cons_none z _ _ _ h1] at hcomp
    | some a1 =>
      obtain ⟨s1, o1⟩ := a1
      rw [compressAll_cons_some z _ _ _ _ _ h1] at hcomp
      cases h2 : z.deflate s1 ((image.GetScanline y).take width) with
      | none => simp [compressAll_cons_none z _ _ _ h2] at hcomp
      | some a2 =>
        obtain ⟨s2, o2⟩ := a2
        rw [compressAll_cons_some z _ _ _ _ _ h2] at hcomp
        cases h3 : z.compressAll s2 (rawBlocks image width (n + 1) (y + 1)) with
        | none => simp [h3] at hcomp
        | some comp2 =>
          simp only [h3, Option.map_some', Option.some.injEq] at hcomp
          rw [IDATPayloads]
          simp only [Compressor.CompressByte, Compressor.Compress,
            List.take_succ_cons, List.take_zero, h1, h2, if_neg hlast,
            hdst, List.nil_append, Compressor.GetDstLength, Compressor.GetDstPtr,
            List.take_length]
          by_cases hl : (o1 ++ o2).length ≠ 0
          · rw [if_pos hl]
            obtain ⟨ps, hps, hfl⟩ := ih (y + 1) (Compressor.ClearDst ⟨o1 ++ o2, s2⟩) comp2 rfl
              (by omega) h3
            rw [hps]
            exact ⟨_, rfl, by simp [hfl, ← hcomp]⟩
          · rw [if_neg hl]
            have hnil : o1 ++ o2 = [] := List.eq_nil_of_length_eq_zero (by simpa using hl)
            obtain ⟨ps, hps, hfl⟩ := ih (y + 1) ⟨o1 ++ o2, s2⟩ comp2 hnil (by omega) h3
            refine ⟨ps, hps, ?_⟩
            rw [hfl, ← hcomp]
            simp only [List.append_eq_nil] at hnil
            simp [hnil.1, hnil.2]

/-! ## The scanline loop on unfiltered image data -/

theorem scanlineWrites_succ (rows : Nat → List Byte) (n : Nat) :
    scanlineWrites rows (n + 1) = scanlineWrites rows n ++ [.SetScanline n (rows n)] := by
  simp [scanlineWrites, List.range_succ]

theorem rawBlocks_flatten (image : ReadableImage) (width : Nat) (n y : Nat) :
    (rawBlocks image width n y).flatten =
      filteredRows (fun y => (image.GetScanline y).take width) n y := by
  induction n generalizing y with
  | zero => rfl
  | succ n ih => simp [rawBlocks, filteredRows, ih]

/-- The first byte of the image data: the filter-type byte of row 0. -/
theorem unfilterByte_start {z : ZLib} (rows : Nat → List Byte) (w h : Nat)
    (base : List WritableImageCall) (r : PNGReader z) (hs : Scan rows w h base 0 0 r)
    (h0 : h ≠ 0) (h32 : h < 2 ^ 32) :
    ∃ r2, r.unfilterByte 0 = .ok r2 ∧ Scan rows w h base 1 0 r2 := by
  obtain ⟨_, hend, hy⟩ := hs.start rfl
  have hh : (0 : Nat) ≠ h % 2 ^ 32 := by rw [Nat.mod_eq_of_lt h32]; exact fun e => h0 e.symm
  refine ⟨{ r with
    curY_ := 0, rawScanline_ := r.rawPriorScanline_, rawPriorScanline_ := r.rawScanline_,
    curRaw_ := 0, endRaw_ := r.rawPriorScanline_.length, curFilter_ := some .passThru }, ?_, ?_⟩
  · simp only [unfilterByte, hs.curRaw, hend, if_true, hy, hs.height]
    rw [if_neg (by simpa using hh)]
    simp only [beginScanline, hy]
    rw [if_neg (by decide)]
    simp only [curFilterBeginScanline, selectFilter, PassThruFilterCode]
    rfl
  · exact {
      height := hs.height
      prior := hs.cur
      cur := hs.prior
      image := hs.image
      curRaw := rfl
      start := fun e => absurd e (by decide)
      row := fun _ => ⟨Nat.zero_le _, hs.prior, rfl, rfl, by simp⟩ }

/-- The filter-type byte of a further row: the row before it is handed to the
image. -/
theorem unfilterByte_next {z : ZLib} (rows : Nat → List Byte) (w h : Nat)
    (base : List WritableImageCall) (k : Nat) (r : PNGReader z)
    (hs : Scan rows w h base k w r) (hk : k ≠ 0) (hkh : k < h) (h32 : h < 2 ^ 32)
    (hrow : (rows (k - 1)).length = w) :
    ∃ r2, r.unfilterByte 0 = .ok r2 ∧ Scan rows w h base (k + 1) 0 r2 := by
  obtain ⟨_, hend, hy, hf, htake⟩ := hs.row hk
  have hcur : r.rawScanline_ = rows (k - 1) := by
    have h1 := List.take_of_length_le (show r.rawScanline_.length ≤ w by rw [hs.cur])
    have h2 := List.take_of_length_le (show (rows (k - 1)).length ≤ w by rw [hrow])
    rw [← h1, htake, h2]
  have hy1 : (k - 1 + 1) % 2 ^ 32 = k := by
    rw [Nat.sub_add_cancel (Nat.one_le_iff_ne_zero.mpr hk)]
    exact Nat.mod_eq_of_lt (by omega)
  have hy2 : (k + 2 ^ 32 - 1) % 2 ^ 32 = k - 1 := by
    have : k + 2 ^ 32 - 1 = (k - 1) + 2 ^ 32 := by omega
    rw [this, Nat.add_mod_right]
    exact Nat.mod_eq_of_lt (by omega)
  refine ⟨{ r with
    curY_ := k, rawScanline_ := r.rawPriorScanline_, rawPriorScanline_ := r.rawScanline_,
    curRaw_ := 0, endRaw_ := r.rawPriorScanline_.length, curFilter_ := some .passThru,
    image_ := r.image_ ++ [.SetScanline (k - 1) r.rawScanline_] }, ?_, ?_⟩
  · simp only [unfilterByte, hs.curRaw, hend, if_true, hy, hs.height, hy1]
    rw [if_neg (by rw [Nat.mod_eq_of_lt h32]; omega)]
    simp only [beginScanline, hy1]
    rw [if_pos hk]
    simp only [curFilterBeginScanline, selectFilter, PassThruFilterCode, hy2]
    rfl
  · exact {
      height := hs.height
      prior := hs.cur
      cur := hs.prior
      image := by
        show r.image_ ++ _ = _
        rw [hs.image, hcur, Nat.add_sub_cancel]
        have := scanlineWrites_succ rows (k - 1)
        rw [Nat.sub_add_cancel (Nat.one_le_iff_ne_zero.mpr hk)] at this
        rw [this, List.append_assoc]
      curRaw := rfl
      start := fun e => absurd e (by omega)
      row := fun _ => ⟨Nat.zero_le _, hs.prior, rfl, rfl, by simp⟩ }

/-- A byte of a row: it is stored in the scanline buffer. -/
theorem unfilterByte_pixel {z : ZLib} (rows : Nat → List Byte) (w h : Nat)
    (base : List WritableImageCall) (k x : Nat) (r : PNGReader z) (b : Byte)
    (tl : List Byte) (hs : Scan rows w h base k x r) (hk : k ≠ 0)
    (hb : (rows (k - 1)).drop x = b :: tl) (hrow : (rows (k - 1)).length = w) :
    ∃ r2, r.unfilterByte b = .ok r2 ∧ Scan rows w h base k (x + 1) r2 := by
  obtain ⟨_, hend, hy, hf, htake⟩ := hs.row hk
  have hx : x < w := by
    by_contra hge
    rw [List.drop_eq_nil_of_le (by omega)] at hb
    exact absurd hb (by simp)
  refine ⟨{ r with rawScanline_ := r.rawScanline_.set x b, curRaw_ := x + 1 }, ?_, ?_⟩
  · simp only [unfilterByte, hs.curRaw, hend]
    rw [if_neg (by omega)]
    simp only [curFilterUnfilter, hf, hs.curRaw]
    simp only [hend]
  · exact {
      height := hs.height
      prior := hs.prior
      cur := by simp [hs.cur]
      image := hs.image
      curRaw := rfl
      start := fun e => absurd e hk
      row := fun _ => by
        refine ⟨hx, hend, hy, hf, ?_⟩
        show (r.rawScanline_.set x b).take (x + 1) = _
        have h1 : (rows (k - 1)).take (x + 1) = (rows (k - 1)).take x ++ [b] := by
          have := List.take_append_drop x (rows (k - 1))
          rw [hb] at this
          rw [← this, List.take_append_eq_append_take, List.take_append_eq_append_take]
          have hl : ((rows (k - 1)).take x).length = x := by
            rw [List.length_take]; omega
          simp [hl]
        rw [h1, ← htake]
        apply List.ext_getElem
        · simp [hs.cur]; omega
        · intro i hi1 hi2
          simp only [List.getElem_take, List.getElem_set]
          have hl : (r.rawScanline_.take x).length = x := by
            rw [List.length_take, hs.cur]; omega
          by_cases hix : x = i
          · subst hix
            rw [if_pos rfl, List.getElem_append_right (by omega)]
            simp [hl]
          · rw [if_neg hix]
            have : i < x := by
              simp only [List.length_take, List.length_set] at hi1
              omega
            rw [List.getElem_append_left (by simp [hs.cur]; omega)]
            simp }

theorem filteredRows_succ (rows : Nat → List Byte) (n y : Nat) :
    filteredRows rows (n + 1) y = 0 :: rows y ++ filteredRows rows n (y + 1) := rfl

/-- The scanline loop on a stretch of the image data still to come: it
succeeds and leaves the state of the point reached. -/
theorem unfilterLoop_scan {z : ZLib} (rows : Nat → List Byte) (w h : Nat)
    (base : List WritableImageCall) (h32 : h < 2 ^ 32)
    (hrows : ∀ y, y < h → (rows y).length = w) (bytes : List Byte) :
    ∀ (k x : Nat) (r : PNGReader z) (rest : List Byte),
      Scan rows w h base k x r → k ≤ h → remainingData rows h k x = bytes ++ rest →
      ∃ k2 x2 r2, r.unfilterLoop bytes = .ok r2 ∧ Scan rows w h base k2 x2 r2 ∧ k2 ≤ h ∧
        remainingData rows h k2 x2 = rest := by
  induction bytes with
  | nil =>
    intro k x r rest hs hk hrem
    exact ⟨k, x, r, rfl, hs, hk, hrem⟩
  | cons b bytes ih =>
    intro k x r rest hs hk hrem
    rw [unfilterLoop]
    by_cases hk0 : k = 0
    · subst hk0
      obtain ⟨hx, _, _⟩ := hs.start rfl
      subst hx
      have h0 : h ≠ 0 := by
        intro e
        subst e
        simp [remainingData, filteredRows] at hrem
      obtain ⟨n, hn⟩ := Nat.exists_eq_succ_of_ne_zero h0
      simp only [remainingData, if_true, List.nil_append, Nat.sub_zero] at hrem
      rw [hn, Nat.succ_eq_add_one, filteredRows_succ] at hrem
      simp only [List.cons_append, List.cons.injEq] at hrem
      obtain ⟨hb, htl⟩ := hrem
      subst hb
      obtain ⟨r2, h2, hs2⟩ := unfilterByte_start rows w h base r hs h0 h32
      rw [h2]
      refine ih 1 0 r2 rest hs2 (by omega) ?_
      simp only [remainingData, if_neg (Nat.succ_ne_zero 0), Nat.sub_self, List.drop_zero]
      rw [← htl]
      congr 2
      omega
    · obtain ⟨hxw, _, _, _, _⟩ := hs.row hk0
      have hrow : (rows (k - 1)).length = w := hrows (k - 1) (by omega)
      by_cases hx : x = w
      · subst hx
        simp only [remainingData, if_neg hk0] at hrem
        rw [List.drop_eq_nil_of_le (by omega), List.nil_append] at hrem
        have hkh : k < h := by
          by_contra hge
          have : h - k = 0 := by omega
          rw [this] at hrem
          simp [filteredRows] at hrem
        obtain ⟨n, hn⟩ := Nat.exists_eq_succ_of_ne_zero (show h - k ≠ 0 by omega)
        rw [hn, Nat.succ_eq_add_one, filteredRows_succ] at hrem
        simp only [List.cons_append, List.cons.injEq] at hrem
        obtain ⟨hb, htl⟩ := hrem
        subst hb
        obtain ⟨r2, h2, hs2⟩ := unfilterByte_next rows x h base k r hs hk0 hkh h32 hrow
        rw [h2]
        refine ih (k + 1) 0 r2 rest hs2 (by omega) ?_
        simp only [remainingData, if_neg (Nat.succ_ne_zero k), Nat.add_sub_cancel,
          List.drop_zero]
        rw [← htl]
        congr 2
        omega
      · have hlt : x < (rows (k - 1)).length := by omega
        have hdrop : (rows (k - 1)).drop x =
            (rows (k - 1))[x] :: (rows (k - 1)).drop (x + 1) :=
          List.drop_eq_getElem_cons hlt
        simp only [remainingData, if_neg hk0] at hrem
        rw [hdrop] at hrem
        simp only [List.cons_append, List.cons.injEq] at hrem
        obtain ⟨hb, htl⟩ := hrem
        obtain ⟨r2, h2, hs2⟩ := unfilterByte_pixel rows w h base k x r b _ hs hk0
          (by rw [hdrop, hb]) hrow
        rw [h2]
        refine ih k (x + 1) r2 rest hs2 hk ?_
        simp only [remainingData, if_neg hk0]
        exact htl

/-- Where the image data is complete: all rows begun and the last one
full. -/
theorem remainingData_eq_nil (rows : Nat → List Byte) (w h k x : Nat) (h0 : h ≠ 0)
    (hk : k ≤ h) (hx : k ≠ 0 → x ≤ w) (hrows : ∀ y, y < h → (rows y).length = w) :
    remainingData rows h k x = [] ↔ k = h ∧ x = w := by
  constructor
  · intro hrem
    simp only [remainingData, List.append_eq_nil] at hrem
    obtain ⟨h1, h2⟩ := hrem
    have hkh : k = h := by
      by_contra hne
      obtain ⟨n, hn⟩ := Nat.exists_eq_succ_of_ne_zero (show h - k ≠ 0 by omega)
      rw [hn, Nat.succ_eq_add_one, filteredRows_succ] at h2
      simp at h2
    refine ⟨hkh, ?_⟩
    have hk0 : k ≠ 0 := by omega
    rw [if_neg hk0] at h1
    have := hrows (k - 1) (by omega)
    have h3 := List.drop_eq_nil_iff.mp h1
    have := hx hk0
    omega
  · rintro ⟨hk1, hx1⟩
    subst hk1
    subst hx1
    simp only [remainingData, if_neg h0, Nat.sub_self, filteredRows, List.append_nil]
    exact List.drop_eq_nil_of_le (by rw [hrows (k - 1) (by omega)])

/-- The end of `ReadIDATChunk` when image data is still to come: nothing is
written. -/
theorem finalScanline_scan {z : ZLib} (rows : Nat → List Byte) (w h : Nat)
    (base : List WritableImageCall) (k x : Nat) (r : PNGReader z)
    (hs : Scan rows w h base k x r) (h0 : h ≠ 0) (h32 : h < 2 ^ 32) (hk : k ≤ h)
    (hrows : ∀ y, y < h → (rows y).length = w)
    (hrem : remainingData rows h k x ≠ []) : r.finalScanline = r := by
  unfold finalScanline
  rw [if_neg]
  rintro ⟨h1, h2⟩
  rw [hs.height] at h2
  have hm : (h + 2 ^ 32 - 1) % 2 ^ 32 = h - 1 := by
    have : h + 2 ^ 32 - 1 = (h - 1) + 2 ^ 32 := by omega
    rw [this, Nat.add_mod_right]
    exact Nat.mod_eq_of_lt (by omega)
  rw [hm] at h2
  by_cases hk0 : k = 0
  · obtain ⟨_, _, hy⟩ := hs.start hk0
    rw [hy] at h2
    omega
  · obtain ⟨hxw, hend, hy, _, _⟩ := hs.row hk0
    apply hrem
    rw [remainingData_eq_nil rows w h k x h0 hk (fun _ => hxw) hrows]
    rw [hs.curRaw, hend] at h1
    rw [hy] at h2
    exact ⟨by omega, h1⟩

/-- The end of `ReadIDATChunk` when the image data is complete: the last row
is handed to the image. -/
theorem finalScanline_complete {z : ZLib} (rows : Nat → List Byte) (w h : Nat)
    (base : List WritableImageCall) (k x : Nat) (r : PNGReader z)
    (hs : Scan rows w h base k x r) (h0 : h ≠ 0) (h32 : h < 2 ^ 32) (hk : k ≤ h)
    (hrows : ∀ y, y < h → (rows y).length = w)
    (hrem : remainingData rows h k x = []) :
    ScanDone rows h base 0 r.finalScanline := by
  have hx : k ≠ 0 → x ≤ w := fun hk0 => (hs.row hk0).1
  obtain ⟨hkh, hxw⟩ := (remainingData_eq_nil rows w h k x h0 hk hx hrows).mp hrem
  subst hkh
  subst hxw
  obtain ⟨_, hend, hy, _, htake⟩ := hs.row h0
  have hrow := hrows (k - 1) (by omega)
  have hcur : r.rawScanline_ = rows (k - 1) := by
    have h1 := List.take_of_length_le (show r.rawScanline_.length ≤ x by rw [hs.cur])
    have h2 := List.take_of_length_le (show (rows (k - 1)).length ≤ x by rw [hrow])
    rw [← h1, htake, h2]
  have hm : (k + 2 ^ 32 - 1) % 2 ^ 32 = k - 1 := by
    have : k + 2 ^ 32 - 1 = (k - 1) + 2 ^ 32 := by omega
    rw [this, Nat.add_mod_right]
    exact Nat.mod_eq_of_lt (by omega)
  have hfin : r.finalScanline = { r with
      image_ := r.image_ ++ [.SetScanline r.curY_ r.rawScanline_], imageDone_ := true } := by
    unfold finalScanline
    rw [if_pos]
    rw [hs.curRaw, hend, hy, hs.height, hm]
    exact ⟨hrow.symm ▸ rfl, rfl⟩
  rw [hfin]
  exact {
    height := hs.height
    curRaw := by show r.curRaw_ = r.endRaw_; rw [hs.curRaw, hend]
    curY := hy
    cur := hcur
    done := rfl
    image := by
      show r.image_ ++ _ = _
      rw [hs.image, hy, hcur]
      have := scanlineWrites_succ rows (k - 1)
      rw [Nat.sub_add_cancel (Nat.one_le_iff_ne_zero.mpr h0)] at this
      rw [this]
      simp }

/-- The end of `ReadIDATChunk` on a further chunk after the image data is
complete: the last row is handed to the image again. -/
theorem finalScanline_done {z : ZLib} (rows : Nat → List Byte) (h : Nat)
    (base : List WritableImageCall) (c : Nat) (r : PNGReader z)
    (hs : ScanDone rows h base c r) (h0 : h ≠ 0) (h32 : h < 2 ^ 32) :
    ScanDone rows h base (c + 1) r.finalScanline := by
  have hm : (h + 2 ^ 32 - 1) % 2 ^ 32 = h - 1 := by
    have : h + 2 ^ 32 - 1 = (h - 1) + 2 ^ 32 := by omega
    rw [this, Nat.add_mod_right]
    exact Nat.mod_eq_of_lt (by omega)
  have hfin : r.finalScanline = { r with
      image_ := r.image_ ++ [.SetScanline r.curY_ r.rawScanline_], imageDone_ := true } := by
    unfold finalScanline
    rw [if_pos]
    rw [hs.height, hm]
    exact ⟨hs.curRaw, hs.curY⟩
  rw [hfin]
  exact {
    height := hs.height
    curRaw := hs.curRaw
    curY := hs.curY
    cur := hs.cur
    done := rfl
    image := by
      show r.image_ ++ _ = _
      rw [hs.image, hs.curY, hs.cur, List.replicate_succ', List.append_assoc] }

theorem Scan_congr {z : ZLib} {rows : Nat → List Byte} {w h : Nat}
    {base : List WritableImageCall} {k x : Nat} {r r2 : PNGReader z}
    (hs : Scan rows w h base k x r) (h1 : r2.height_ = r.height_)
    (h2 : r2.rawPriorScanline_ = r.rawPriorScanline_) (h3 : r2.rawScanline_ = r.rawScanline_)
    (h4 : r2.image_ = r.image_) (h5 : r2.curRaw_ = r.curRaw_) (h6 : r2.endRaw_ = r.endRaw_)
    (h7 : r2.curY_ = r.curY_) (h8 : r2.curFilter_ = r.curFilter_) :
    Scan rows w h base k x r2 where
  height := by rw [h1]; exact hs.height
  prior := by rw [h2]; exact hs.prior
  cur := by rw [h3]; exact hs.cur
  image := by rw [h4]; exact hs.image
  curRaw := by rw [h5]; exact hs.curRaw
  start := by rw [h6, h7]; exact hs.start
  row := by rw [h6, h7, h8, h3]; exact hs.row

theorem ScanDone_congr {z : ZLib} {rows : Nat → List Byte} {h : Nat}
    {base : List WritableImageCall} {c : Nat} {r r2 : PNGReader z}
    (hs : ScanDone rows h base c r) (h1 : r2.height_ = r.height_)
    (h3 : r2.rawScanline_ = r.rawScanline_) (h4 : r2.image_ = r.image_)
    (h5 : r2.curRaw_ = r.curRaw_) (h6 : r2.endRaw_ = r.endRaw_) (h7 : r2.curY_ = r.curY_)
    (h8 : r2.imageDone_ = r.imageDone_) :
    ScanDone rows h base c r2 where
  height := by rw [h1]; exact hs.height
  curRaw := by rw [h5, h6]; exact hs.curRaw
  curY := by rw [h7]; exact hs.curY
  cur := by rw [h3]; exact hs.cur
  done := by rw [h8]; exact hs.done
  image := by rw [h4]; exact hs.image

theorem decompressAll_cons (z : ZLib) (s : z.InflateState) (p : List Byte)
    (ps outs : List (List Byte)) (h : z.decompressAll s (p :: ps) = some outs) :
    ∃ s2 out outs2, z.inflate s p = some (s2, out) ∧ z.decompressAll s2 ps = some outs2 ∧
      outs = out :: outs2 := by
  rw [ZLib.decompressAll] at h
  cases hz : z.inflate s p with
  | none => simp [hz] at h
  | some a =>
    obtain ⟨s2, out⟩ := a
    simp only [hz] at h
    cases hd : z.decompressAll s2 ps with
    | none => simp [hd] at h
    | some outs2 =>
      simp only [hd, Option.map_some', Option.some.injEq] at h
      exact ⟨s2, out, outs2, rfl, hd, h.symm⟩

/-- The chunk loop over the sealed image-data chunks of an image whose
decompressed data is the unfiltered rows: it reaches the chunk after them
with all rows handed to the image. -/
theorem ReadChunks_IDAT_scan {z : ZLib} (rows : Nat → List Byte) (w h : Nat)
    (base : List WritableImageCall) (h0 : h ≠ 0) (h32 : h < 2 ^ 32)
    (hrows : ∀ y, y < h → (rows y).length = w) (ps : List (List Byte)) :
    ∀ (outs : List (List Byte)) (r : PNGReader z) (rest : IStream) (n : Nat),
      z.decompressAll r.decompressor_.zStm_ ps = some outs →
      r.decompressor_.dst = [] →
      (∀ p ∈ ps, p.length < 2 ^ 32) →
      r.stm_ = sealedChunks (ps.map (fun p => (IDATChunkType.GetValue, p))) ++ rest →
      r.stm_.length ≤ n →
      (((r.chunksRead_ = 3 ∨ r.chunksRead_ = 7) ∧ ∃ k x, Scan rows w h base k x r ∧ k ≤ h ∧
          remainingData rows h k x = outs.flatten ∧ remainingData rows h k x ≠ []) ∨
        (r.chunksRead_ = 7 ∧ outs.flatten = [] ∧ ∃ c, ScanDone rows h base c r)) →
      ∃ r2 c, ReadChunks n r = ReadChunks n r2 ∧ r2.stm_ = rest ∧ r2.chunksRead_ = 7 ∧
        ScanDone rows h base c r2 ∧ r2.stm_.length ≤ n := by
  induction ps with
  | nil =>
    intro outs r rest n hd _ _ hstm hn hinv
    simp only [ZLib.decompressAll, Option.some.injEq] at hd
    subst hd
    rcases hinv with ⟨_, k, x, _, _, he, hne⟩ | ⟨hc, _, c, hdone⟩
    · exact absurd he hne
    · exact ⟨r, c, rfl, by simpa [sealedChunks] using hstm, hc, hdone, hn⟩
  | cons p ps ih =>
    intro outs r rest n hd hdst hps hstm hn hinv
    obtain ⟨s2, out, outs2, hz, hd2, houts⟩ := decompressAll_cons z _ p ps outs hd
    subst houts
    simp only [List.map_cons, sealedChunks, List.append_assoc] at hstm
    have hs : r.stm_ ≠ [] := by rw [hstm]; exact sealedChunk_ne_nil _ _ _
    have hp := hps p (List.mem_cons_self _ _)
    have hr37 : r.chunksRead_ = 3 ∨ r.chunksRead_ = 7 := by
      rcases hinv with ⟨h, _⟩ | ⟨h, _⟩
      · exact h
      · exact Or.inr h
    have key : ∀ r2 : PNGReader z,
        unfilterLoop { r with
          chunksRead_ := 7, compBuffer_ := p,
          decompressor_ := ⟨r.decompressor_.dst ++ out, s2⟩ } (r.decompressor_.dst ++ out) =
          .ok r2 →
        ((∃ k x, Scan rows w h base k x r2.finalScanline ∧ k ≤ h ∧
              remainingData rows h k x = outs2.flatten ∧ remainingData rows h k x ≠ []) ∨
          (outs2.flatten = [] ∧ ∃ c, ScanDone rows h base c r2.finalScanline)) →
        ∃ r3 c, ReadChunks n r = ReadChunks n r3 ∧ r3.stm_ = rest ∧ r3.chunksRead_ = 7 ∧
          ScanDone rows h base c r3 ∧ r3.stm_.length ≤ n := by
      intro r2 hu hinv2
      have hso : SameOutside { r with
          chunksRead_ := 7, compBuffer_ := p,
          decompressor_ := ⟨r.decompressor_.dst ++ out, s2⟩ } r2 := by
        rcases unfilterLoop_cases (r.decompressor_.dst ++ out) { r with
          chunksRead_ := 7, compBuffer_ := p,
          decompressor_ := ⟨r.decompressor_.dst ++ out, s2⟩ } with ⟨e, image, he, _⟩ | ⟨r3, h3, hs3⟩
        · rw [hu] at he
          exact absurd he (by simp)
        · rw [hu] at h3
          simp only [Except.ok.injEq] at h3
          rw [h3]
          exact hs3
      have hc7 : r2.finalScanline.chunksRead_ = 7 := by
        rw [finalScanline_chunksRead]
        exact hso.2.1
      have hrc := ReadChunk_IDAT_loop_ok r r2 p _ _ s2 out hp (crc32_lt _) hr37
        (by rw [hstm, sealedChunk_eq_framedChunk]) hz hu
      rw [if_neg (by simp)] at hrc
      have hlen := ReadChunk_length hrc
      rw [ReadChunks_step n r _ hn hs hrc]
      have hdec : r2.decompressor_ = ⟨r.decompressor_.dst ++ out, s2⟩ := hso.2.2.2.2.1
      refine ih outs2 _ rest n (by simp only [Decompressor.ClearDst, hdec]; exact hd2)
        rfl (fun q hq => hps q (List.mem_cons_of_mem _ hq)) rfl (by simp only [] at hlen ⊢; omega)
        ?_
      rcases hinv2 with ⟨k, x, hsc, hk, hrem, hne⟩ | ⟨hfl, c, hdone⟩
      · exact Or.inl ⟨Or.inr hc7, k, x, Scan_congr hsc rfl rfl rfl rfl rfl rfl rfl rfl, hk,
          hrem, hne⟩
      · exact Or.inr ⟨hc7, hfl, c, ScanDone_congr hdone rfl rfl rfl rfl rfl rfl rfl⟩
    rcases hinv with ⟨_, k, x, hsc, hk, hrem, hne⟩ | ⟨_, hfl, c, hdone⟩
    · simp only [List.flatten_cons] at hrem
      obtain ⟨k2, x2, r2, hu, hsc2, hk2, hrem2⟩ := unfilterLoop_scan rows w h base h32 hrows
        (r.decompressor_.dst ++ out) k x { r with
          chunksRead_ := 7, compBuffer_ := p,
          decompressor_ := ⟨r.decompressor_.dst ++ out, s2⟩ } outs2.flatten
        (Scan_congr hsc rfl rfl rfl rfl rfl rfl rfl rfl) hk
        (by rw [hdst, List.nil_append]; exact hrem)
      apply key r2 hu
      by_cases he : remainingData rows h k2 x2 = []
      · right
        refine ⟨by rw [← hrem2, he], 0, ?_⟩
        exact finalScanline_complete rows w h base k2 x2 r2 hsc2 h0 h32 hk2 hrows he
      · left
        rw [finalScanline_scan rows w h base k2 x2 r2 hsc2 h0 h32 hk2 hrows he]
        exact ⟨k2, x2, hsc2, hk2, hrem2, he⟩
    · simp only [List.flatten_cons, List.append_eq_nil] at hfl
      obtain ⟨hout, hfl2⟩ := hfl
      subst hout
      apply key { r with
          chunksRead_ := 7, compBuffer_ := p,
          decompressor_ := ⟨r.decompressor_.dst ++ [], s2⟩ }
        (by rw [show r.decompressor_.dst ++ ([] : List Byte) = [] by rw [hdst]; rfl]; rfl)
      right
      refine ⟨hfl2, c + 1, ?_⟩
      exact finalScanline_done rows h base c _
        (ScanDone_congr hdone rfl rfl rfl rfl rfl rfl rfl) h0 h32

/-! ## Encoding, then decoding -/

theorem paletteWrites_PLTEPayload (palette : Nat → PaletteEntry) (n i : Nat) :
    paletteWrites i (PLTEPayload palette n i) =
      (List.range' i n).map (fun j => .SetPaletteEntry j (palette j)) := by
  induction n generalizing i with
  | zero => simp [PLTEPayload, paletteWrites]
  | succ n ih => simp [PLTEPayload, paletteWrites, ih, List.range'_succ]

theorem resize_length (v : List Byte) (n : Nat) : (resize v n).length = n := by
  simp only [resize, List.length_append, List.length_take, List.length_replicate]
  omega

theorem length_le_flatten_length (ps : List (List Byte)) (p : List Byte) (h : p ∈ ps) :
    p.length ≤ ps.flatten.length := by
  induction ps with
  | nil => simp at h
  | cons q ps ih =>
    simp only [List.flatten_cons, List.length_append]
    rcases List.mem_cons.mp h with h | h
    · subst h; omega
    · have := ih h; omega

/-- A chunk loop that ends with all four required chunks read and the image
data complete lets `LoadPNG` return through the sentry, which reports success
to the image. -/
theorem run_of_ReadChunks_ok {z : ZLib} (d : Decompressor z) (sig rest : List Byte)
    (r : PNGReader z) (hsig : sig = PngSignature)
    (h : ReadChunks rest.length { init d (sig ++ rest) with stm_ := rest } = .ok r)
    (hall : r.chunksRead_ = AllRequiredChunks) (hdone : r.imageDone_ = true) :
    PNGReader.run d (sig ++ rest) = ⟨r.image_ ++ [.EndWrite true], none⟩ := by
  subst hsig
  simp only [PNGReader.run, PNGReader.body, PNGReader.CheckSignature, init,
    CheckSignature_loop_append]
  simp only [init] at h
  rw [h]
  simp [hall, hdone]

/-- The chunk loop on the chunks of an encoded image whose image-data
payloads decompress to the unfiltered rows. -/
theorem ReadChunks_encoded {z : ZLib} (rows : Nat → List Byte) (w h : Nat)
    (palette : Nat → PaletteEntry) (ps outs : List (List Byte)) (r : PNGReader z) (n : Nat)
    (hw : w ≠ 0) (h0 : h ≠ 0) (hw32 : w < 2 ^ 32) (h32 : h < 2 ^ 32)
    (hrows : ∀ y, y < h → (rows y).length = w)
    (hps : ∀ p ∈ ps, p.length < 2 ^ 32)
    (hd : z.decompressAll r.decompressor_.zStm_ ps = some outs)
    (houts : outs.flatten = filteredRows rows h 0)
    (hdst : r.decompressor_.dst = []) (hr : r.chunksRead_ = 0)
    (hy : r.curY_ = 2 ^ 32 - 1)
    (hstm : r.stm_ = sealedChunks ((IHDRChunkType.GetValue, IHDRPayload w h) ::
      (PLTEChunkType.GetValue, PLTEPayload palette 256 0) ::
      (ps.map (fun p => (IDATChunkType.GetValue, p)) ++ [(IENDChunkType.GetValue, [])])))
    (hn : r.stm_.length ≤ n) :
    ∃ r2 c, ReadChunks n r = .ok r2 ∧ r2.chunksRead_ = AllRequiredChunks ∧
      r2.imageDone_ = true ∧
      r2.image_ = r.image_ ++ [.SetImageInfo ⟨w, h⟩] ++
        (List.range 256).map (fun i => .SetPaletteEntry i (palette i)) ++
        scanlineWrites rows h ++ List.replicate c (.SetScanline (h - 1) (rows (h - 1))) := by
  simp only [sealedChunks, sealedChunks_append, List.append_nil] at hstm
  have hs : r.stm_ ≠ [] := by rw [hstm]; exact sealedChunk_ne_nil _ _ _
  obtain ⟨r1, h1, hs1, hc1, hi1, hh1, hp1, hx1, hraw1, hend1, hy1, hd1⟩ :
      ∃ r1 : PNGReader z, r.ReadChunk = .ok r1 ∧
        r1.stm_ = sealedChunk PLTEChunkType.GetValue (PLTEPayload palette 256 0) ++
          (sealedChunks (ps.map (fun p => (IDATChunkType.GetValue, p))) ++
            sealedChunk IENDChunkType.GetValue []) ∧
        r1.chunksRead_ = 1 ∧ r1.image_ = r.image_ ++ [.SetImageInfo ⟨w, h⟩] ∧
        r1.height_ = h ∧ r1.rawPriorScanline_.length = w ∧ r1.rawScanline_.length = w ∧
        r1.curRaw_ = 0 ∧ r1.endRaw_ = 0 ∧ r1.curY_ = 2 ^ 32 - 1 ∧
        r1.decompressor_ = r.decompressor_ :=
    ⟨_, ReadChunk_IHDR_sealed r w h _ hw h0 hw32 h32 hr hstm, rfl, rfl, rfl, rfl,
      resize_length _ _, resize_length _ _, rfl, rfl, hy, rfl⟩
  have hlen1 := ReadChunk_length h1
  rw [ReadChunks_step n r r1 hn hs h1]
  have h2 := ReadChunk_PLTE_framed r1 (PLTEPayload palette 256 0)
    (crc32 (bigEndian32 PLTEChunkType.GetValue ++ PLTEPayload palette 256 0)) _
    (by rw [PLTEPayload_length]) (by rw [PLTEPayload_length]; decide) (crc32_lt _) hc1
    (by rw [hs1, sealedChunk_eq_framedChunk])
  rw [if_neg (by simp)] at h2
  have hlen2 := ReadChunk_length h2
  rw [ReadChunks_step n r1 _ (by omega) (by rw [hs1]; exact sealedChunk_ne_nil _ _ _) h2]
  obtain ⟨r3, c, h3, hs3, hc3, hdone3, hlen3⟩ := ReadChunks_IDAT_scan rows w h
    (r.image_ ++ [.SetImageInfo ⟨w, h⟩] ++
      (List.range 256).map (fun i => .SetPaletteEntry i (palette i))) h0 h32 hrows ps outs
    { r1 with
      stm_ := sealedChunks (ps.map (fun p => (IDATChunkType.GetValue, p))) ++
        sealedChunk IENDChunkType.GetValue [],
      chunksRead_ := 3,
      image_ := r1.image_ ++ paletteWrites 0 (PLTEPayload palette 256 0) }
    (sealedChunk IENDChunkType.GetValue []) n
    (by rw [hd1]; exact hd) (by rw [hd1]; exact hdst) hps rfl
    (by simp only [] at hlen2 ⊢; omega)
    (Or.inl ⟨Or.inl rfl, 0, 0, {
        height := hh1
        prior := hp1
        cur := hx1
        image := by
          show r1.image_ ++ _ = _
          rw [hi1, paletteWrites_PLTEPayload, List.range_eq_range']
          simp [scanlineWrites]
        curRaw := hraw1
        start := fun _ => ⟨rfl, hend1, hy1⟩
        row := fun e => absurd rfl e },
      Nat.zero_le _, by simp [remainingData, houts], by
        obtain ⟨m, hm⟩ := Nat.exists_eq_succ_of_ne_zero h0
        simp [remainingData, hm, filteredRows]⟩)
  rw [h3]
  have h4 := ReadChunk_IEND_framed r3 (crc32 (bigEndian32 IENDChunkType.GetValue ++ [])) []
    (crc32_lt _) hc3 (by rw [hs3, sealedChunk_eq_framedChunk]; simp)
  rw [if_neg (by simp)] at h4
  rw [ReadChunks_step n r3 _ hlen3 (by rw [hs3]; exact sealedChunk_ne_nil _ _ []) h4,
    ReadChunks_nil n _ rfl]
  exact ⟨_, c, rfl, rfl, hdone3.done, hdone3.image⟩

theorem Decompressor_new_of_inflateInit (z : ZLib) (d : z.InflateState)
    (h : z.inflateInit = some d) : Decompressor.new z = .ok ⟨[], d⟩ := by
  simp [Decompressor.new, h]

theorem Compressor_new_of_deflateInit (z : ZLib) (s : z.DeflateState)
    (h : z.deflateInit = some s) : Compressor.new z = .ok ⟨[], s⟩ := by
  simp [Compressor.new, h]

/-- Encoding an image and decoding the stream: the encoder succeeds, and the
decoder hands the image information, the palette and the rows to the image
and succeeds. -/
theorem SavePNG_LoadPNG (z : ZLib) (image : ReadableImage)
    (hw : image.GetImageInfo.GetWidth ≠ 0) (hh : image.GetImageInfo.GetHeight ≠ 0)
    (hw32 : image.GetImageInfo.GetWidth < 2 ^ 32)
    (hh32 : image.GetImageInfo.GetHeight < 2 ^ 32)
    (hrows : ∀ y, y < image.GetImageInfo.GetHeight →
      (image.GetScanline y).length = image.GetImageInfo.GetWidth)
    (hz : z.Inverts (rawBlocks image image.GetImageInfo.GetWidth
      image.GetImageInfo.GetHeight 0)) :
    (SavePNG z image ⟨[], true⟩).thrown = none ∧
    ∃ c, LoadPNG z (SavePNG z image ⟨[], true⟩).stm.bytes =
      ⟨[.BeginWrite, .SetImageInfo image.GetImageInfo] ++
        (List.range 256).map (fun i => .SetPaletteEntry i (image.GetPaletteEntry i)) ++
        (List.range image.GetImageInfo.GetHeight).map
          (fun y => .SetScanline y (image.GetScanline y)) ++
        List.replicate c (.SetScanline (image.GetImageInfo.GetHeight - 1)
          (image.GetScanline (image.GetImageInfo.GetHeight - 1))) ++
        [.EndWrite true], none⟩ := by
  obtain ⟨s, d, comp, hs, hd, hcomp, hlen, hinv⟩ := hz
  obtain ⟨m, hm⟩ := Nat.exists_eq_succ_of_ne_zero hh
  have hcomp2 := hcomp
  rw [hm] at hcomp2
  obtain ⟨ps, hps, hfl⟩ := IDATPayloads_flatten (z := z) image image.GetImageInfo.GetWidth
    image.GetImageInfo.GetHeight m 0 ⟨[], s⟩ comp rfl (by omega) hcomp2
  rw [← Nat.succ_eq_add_one, ← hm] at hps
  have hsave := (SavePNG_good z image [] hw hh).1 ⟨[], s⟩ ps
    (Compressor_new_of_deflateInit z s hs) hps
  obtain ⟨outs, hdec, houts⟩ := hinv ps hfl
  rw [rawBlocks_flatten] at houts
  rw [hsave]
  refine ⟨rfl, ?_⟩
  simp only [List.nil_append, LoadPNG, Decompressor_new_of_inflateInit z d hd]
  obtain ⟨r2, c, hrc, hall, hdone, himg⟩ := ReadChunks_encoded
    (fun y => (image.GetScanline y).take image.GetImageInfo.GetWidth)
    image.GetImageInfo.GetWidth image.GetImageInfo.GetHeight image.GetPaletteEntry ps outs
    { init (⟨[], d⟩ : Decompressor z) (PngSignature ++ sealedChunks (encoderChunks image ps)) with
      stm_ := sealedChunks (encoderChunks image ps) }
    (sealedChunks (encoderChunks image ps)).length hw hh hw32 hh32
    (fun y hy => by rw [List.length_take, hrows y hy, Nat.min_self])
    (fun p hp => by
      have := length_le_flatten_length ps p hp
      rw [hfl] at this
      omega)
    hdec houts rfl rfl rfl rfl (le_refl _)
  rw [run_of_ReadChunks_ok _ _ _ r2 rfl hrc hall hdone, himg]
  refine ⟨c, ?_⟩
  have htake : ∀ y, y < image.GetImageInfo.GetHeight →
      (image.GetScanline y).take image.GetImageInfo.GetWidth = image.GetScanline y :=
    fun y hy => List.take_of_length_le (by rw [hrows y hy])
  have hwr : scanlineWrites
      (fun y => (image.GetScanline y).take image.GetImageInfo.GetWidth)
      image.GetImageInfo.GetHeight =
      (List.range image.GetImageInfo.GetHeight).map
        (fun y => .SetScanline y (image.GetScanline y)) := by
    unfold scanlineWrites
    apply List.map_congr_left
    intro y hy
    show WritableImageCall.SetScanline y
      ((image.GetScanline y).take image.GetImageInfo.GetWidth) = _
    rw [htake y (List.mem_range.mp hy)]
  rw [hwr]
  simp only [htake (image.GetImageInfo.GetHeight - 1) (by omega)]
  rfl

/-- The stored stand-in for zlib inverts itself on every run of blocks of
fewer than `2 ^ 32` bytes in all. -/
theorem stored_Inverts (blocks : List (List Byte)) (h : blocks.flatten.length < 2 ^ 32) :
    ZLib.stored.Inverts blocks := by
  have hc : ∀ (bs : List (List Byte)) (s : List Byte),
      ZLib.stored.compressAll s bs = some (s ++ bs.flatten) := by
    intro bs
    induction bs with
    | nil => intro s; simp [ZLib.compressAll, ZLib.stored]
    | cons b bs ih =>
      intro s
      rw [compressAll_cons_some ZLib.stored s (s ++ b) b [] bs rfl, ih]
      simp
  have hd : ∀ (cs : List (List Byte)), ZLib.stored.decompressAll () cs = some cs := by
    intro cs
    induction cs with
    | nil => rfl
    | cons c cs ih =>
      rw [ZLib.decompressAll]
      simp only [ZLib.stored]
      exact (congrArg (Option.map (fun rest => c :: rest)) ih)
  refine ⟨[], (), blocks.flatten, rfl, rfl, ?_, h, ?_⟩
  · rw [hc]; rfl
  · intro chunks hch
    exact ⟨chunks, hd chunks, hch⟩

/-! ## The round trip (claim C1) -/

/-- C1: for every image of width and height at least 1 (and below `2 ^ 32`)
whose scanlines have width bytes, if the decompressor inverts the compressor
on the image data, then `SavePNG` succeeds, and `LoadPNG` of the bytes it
wrote succeeds and hands to the image, in this order, the same width and
height, the same 256 palette entries and the same scanlines; the last scanline
is handed over `c` more times with the same bytes, once for every image-data
chunk that follows the one completing the data. -/
theorem SavePNG_LoadPNG_round_trip (z : ZLib) (image : ReadableImage)
    (hw : 1 ≤ image.GetImageInfo.GetWidth) (hh : 1 ≤ image.GetImageInfo.GetHeight)
    (hw32 : image.GetImageInfo.GetWidth < 2 ^ 32)
    (hh32 : image.GetImageInfo.GetHeight < 2 ^ 32)
    (hrows : ∀ y, y < image.GetImageInfo.GetHeight →
      (image.GetScanline y).length = image.GetImageInfo.GetWidth)
    (hz : z.Inverts (rawBlocks image image.GetImageInfo.GetWidth
      image.GetImageInfo.GetHeight 0)) :
    (SavePNG z image ⟨[], true⟩).thrown = none ∧
    ∃ c, LoadPNG z (SavePNG z image ⟨[], true⟩).stm.bytes =
      ⟨[.BeginWrite, .SetImageInfo image.GetImageInfo] ++
        (List.range 256).map (fun i => .SetPaletteEntry i (image.GetPaletteEntry i)) ++
        (List.range image.GetImageInfo.GetHeight).map
          (fun y => .SetScanline y (image.GetScanline y)) ++
        List.replicate c (.SetScanline (image.GetImageInfo.GetHeight - 1)
          (image.GetScanline (image.GetImageInfo.GetHeight - 1))) ++
        [.EndWrite true], none⟩ :=
  SavePNG_LoadPNG z image (by omega) (by omega) hw32 hh32 hrows hz

/-- An instance of C1, the 2 x 2 checker image with the stored stand-in for
zlib: the decoder hands over image information 2 x 2, the 256 palette
entries, with entry 0 black and entry 1 white, and the scanlines `[0, 1]` and
`[1, 0]`. -/
theorem SavePNG_LoadPNG_round_trip_witness :
    ((SavePNG ZLib.stored checkerImage ⟨[], true⟩).thrown = none ∧
      ∃ c, LoadPNG ZLib.stored (SavePNG ZLib.stored checkerImage ⟨[], true⟩).stm.bytes =
        ⟨[.BeginWrite, .SetImageInfo checkerImage.GetImageInfo] ++
          (List.range 256).map (fun i => .SetPaletteEntry i (checkerImage.GetPaletteEntry i)) ++
          (List.range checkerImage.GetImageInfo.GetHeight).map
            (fun y => .SetScanline y (checkerImage.GetScanline y)) ++
          List.replicate c (.SetScanline (checkerImage.GetImageInfo.GetHeight - 1)
            (checkerImage.GetScanline (checkerImage.GetImageInfo.GetHeight - 1))) ++
          [.EndWrite true], none⟩) ∧
    checkerImage.GetImageInfo = ⟨2, 2⟩ ∧
    checkerImage.GetPaletteEntry 0 = ⟨0, 0, 0⟩ ∧
    checkerImage.GetPaletteEntry 1 = ⟨255, 255, 255⟩ ∧
    (List.range checkerImage.GetImageInfo.GetHeight).map
        (fun y => WritableImageCall.SetScanline y (checkerImage.GetScanline y)) =
      [.SetScanline 0 [0, 1], .SetScanline 1 [1, 0]] :=
  ⟨SavePNG_LoadPNG_round_trip ZLib.stored checkerImage (by decide) (by decide) (by decide)
    (by decide) (by decide) (stored_Inverts _ (by decide)), rfl, rfl, rfl, rfl⟩
/-! ## The chunk loop, chunk by chunk -/

theorem ReadUInt32_error (stm : IStream) (e : error) (h : ReadUInt32 stm = .error e) :
    e = .badStreamReadByte := by
  rcases stm with _ | ⟨b0, _ | ⟨b1, _ | ⟨b2, _ | ⟨b3, s⟩⟩⟩⟩ <;>
    simp [ReadUInt32, ReadByte] at h <;> exact h.symm

theorem PNGChunkReader_new_short (stm : IStream) (h : stm.length < 8) :
    PNGChunkReader.new stm = .error .badStreamReadByte := by
  rcases stm with _ | ⟨b0, _ | ⟨b1, _ | ⟨b2, _ | ⟨b3, _ | ⟨b4, _ | ⟨b5, _ | ⟨b6, _ | ⟨b7, s⟩⟩⟩⟩⟩⟩⟩⟩ <;>
    first
    | (simp only [List.length_cons] at h; omega)
    | simp [PNGChunkReader.new, ReadUInt32, ReadByte]

theorem exists_header_of_length (stm : IStream) (h : 8 ≤ stm.length) :
    ∃ l0 l1 l2 l3 t0 t1 t2 t3 rest,
      stm = l0 :: l1 :: l2 :: l3 :: t0 :: t1 :: t2 :: t3 :: rest := by
  rcases stm with _ | ⟨b0, _ | ⟨b1, _ | ⟨b2, _ | ⟨b3, _ | ⟨b4, _ | ⟨b5, _ | ⟨b6, _ | ⟨b7, s⟩⟩⟩⟩⟩⟩⟩⟩ <;>
    first
    | (simp only [List.length_cons, List.length_nil] at h; omega)
    | exact ⟨_, _, _, _, _, _, _, _, _, rfl⟩

theorem ReadChunk_ne_nil {z : ZLib} {r r2 : PNGReader z} (h : r.ReadChunk = .ok r2) :
    r.stm_ ≠ [] := by
  have := ReadChunk_length h
  intro e
  rw [e] at this
  simp at this

/-- The chunk loop passes through the states reached by calls of `ReadChunk`
that return. -/
theorem ReadChunks_of_chunkSteps {z : ZLib} (k : Nat) :
    ∀ (r0 r : PNGReader z) (n : Nat), chunkSteps k r0 = .ok r → r0.stm_.length ≤ n →
      ReadChunks n r0 = ReadChunks n r ∧ r.stm_.length ≤ n := by
  induction k with
  | zero =>
    intro r0 r n h hn
    simp only [chunkSteps, Except.ok.injEq] at h
    subst h
    exact ⟨rfl, hn⟩
  | succ k ih =>
    intro r0 r n h hn
    rw [chunkSteps] at h
    cases h1 : r0.ReadChunk with
    | error t => simp [h1] at h
    | ok r1 =>
      simp only [h1] at h
      have hlen := ReadChunk_length h1
      obtain ⟨h2, h3⟩ := ih r1 r n h (by omega)
      exact ⟨by rw [ReadChunks_step n r0 r1 hn (ReadChunk_ne_nil h1) h1, h2], h3⟩

/-- An exception of the chunk loop is the outcome of `LoadPNG`. -/
theorem LoadPNG_of_ReadChunks_error (z : ZLib) (d : Decompressor z) (rest : List Byte)
    (t : Thrown) (hd : Decompressor.new z = .ok d)
    (h : ReadChunks rest.length (afterSignature d rest) = .error t) :
    LoadPNG z (PngSignature ++ rest) = ⟨t.image_ ++ [.EndWrite false], some t.what⟩ := by
  simp only [LoadPNG, hd]
  exact run_of_ReadChunks_error d PngSignature rest t rfl h

/-- The outcome of `LoadPNG` when the chunk loop has run to the end of the
stream. -/
theorem LoadPNG_of_ReadChunks_ok (z : ZLib) (d : Decompressor z) (rest : List Byte)
    (r : PNGReader z) (hd : Decompressor.new z = .ok d)
    (h : ReadChunks rest.length (afterSignature d rest) = .ok r) :
    LoadPNG z (PngSignature ++ rest) =
      if r.chunksRead_ ≠ AllRequiredChunks then
        ⟨r.image_ ++ [.EndWrite false], some .missingRequiredChunk⟩
      else if r.imageDone_ = false then
        ⟨r.image_ ++ [.EndWrite false], some .incompleteImageData⟩
      else ⟨r.image_ ++ [.EndWrite true], none⟩ := by
  simp only [afterSignature, init] at h
  simp only [LoadPNG, hd, PNGReader.run, PNGReader.body, PNGReader.CheckSignature, init,
    CheckSignature_loop_append, h]
  by_cases h1 : r.chunksRead_ ≠ AllRequiredChunks
  · simp [h1]
  · by_cases h2 : r.imageDone_ = false
    · simp [h1, h2]
    · simp [h1, h2]

/-- An exception of `ReadChunk` after `k` chunks is the outcome of
`LoadPNG`. -/
theorem LoadPNG_of_chunkSteps_error (z : ZLib) (d : Decompressor z) (rest : List Byte)
    (k : Nat) (r : PNGReader z) (t : Thrown) (hd : Decompressor.new z = .ok d)
    (hk : chunkSteps k (afterSignature d rest) = .ok r) (hs : r.stm_ ≠ [])
    (ht : r.ReadChunk = .error t) :
    LoadPNG z (PngSignature ++ rest) = ⟨t.image_ ++ [.EndWrite false], some t.what⟩ := by
  obtain ⟨h1, h2⟩ := ReadChunks_of_chunkSteps k _ r rest.length hk (le_refl _)
  exact LoadPNG_of_ReadChunks_error z d rest t hd
    (by rw [h1]; exact ReadChunks_error _ r t h2 hs ht)

/-- The end of the stream after `k` chunks: the outcome of `LoadPNG` is
decided by the chunks seen and the image data. -/
theorem LoadPNG_of_chunkSteps_nil (z : ZLib) (d : Decompressor z) (rest : List Byte)
    (k : Nat) (r : PNGReader z) (hd : Decompressor.new z = .ok d)
    (hk : chunkSteps k (afterSignature d rest) = .ok r) (hs : r.stm_ = []) :
    LoadPNG z (PngSignature ++ rest) =
      if r.chunksRead_ ≠ AllRequiredChunks then
        ⟨r.image_ ++ [.EndWrite false], some .missingRequiredChunk⟩
      else if r.imageDone_ = false then
        ⟨r.image_ ++ [.EndWrite false], some .incompleteImageData⟩
      else ⟨r.image_ ++ [.EndWrite true], none⟩ := by
  obtain ⟨h1, _⟩ := ReadChunks_of_chunkSteps k _ r rest.length hk (le_refl _)
  exact LoadPNG_of_ReadChunks_ok z d rest r hd (by rw [h1]; exact ReadChunks_nil _ r hs)

/-! ## Nothing may follow the end chunk (claim C11) -/

/-- `ReadChunk` once the end chunk has been read: the chunk-after-IEND
error, unless the stream ends before the eight bytes of length and type are
read. -/
theorem ReadChunk_after_IEND {z : ZLib} (r : PNGReader z)
    (hend : r.chunksRead_ &&& IENDChunk ≠ 0) :
    r.ReadChunk = .error ⟨if r.stm_.length < 8 then .badStreamReadByte else .chunkAfterIEND,
      r.image_⟩ := by
  by_cases hl : r.stm_.length < 8
  · rw [if_pos hl]
    simp only [ReadChunk, PNGChunkReader_new_short _ hl]
  · rw [if_neg hl]
    obtain ⟨l0, l1, l2, l3, t0, t1, t2, t3, rest, hstm⟩ :=
      exists_header_of_length r.stm_ (by omega)
    simp only [ReadChunk, hstm, PNGChunkReader_new_cons]
    rw [if_pos hend]

/-- C11: the end chunk must be the last thing in the stream.  In every state
of the chunk loop in which the end chunk has been read and at least one byte
is left in the stream, the next `ReadChunk` throws without a call on the
image: the chunk-after-IEND error whatever the type of the chunk that
follows, or the read error of the stream when fewer than the eight bytes of
length and type are left.  Hence, when such a state is reached after `k`
chunks of a stream, `LoadPNG` fails with that error. -/
theorem nothing_follows_IEND (z : ZLib) (d : Decompressor z) (rest : List Byte) (k : Nat)
    (r : PNGReader z) (hd : Decompressor.new z = .ok d)
    (hk : chunkSteps k (afterSignature d rest) = .ok r)
    (hend : r.chunksRead_ &&& IENDChunk ≠ 0) (hmore : r.stm_ ≠ []) :
    r.ReadChunk = .error ⟨if r.stm_.length < 8 then .badStreamReadByte else .chunkAfterIEND,
      r.image_⟩ ∧
    LoadPNG z (PngSignature ++ rest) =
      ⟨r.image_ ++ [.EndWrite false],
        some (if r.stm_.length < 8 then .badStreamReadByte else .chunkAfterIEND)⟩ :=
  ⟨ReadChunk_after_IEND r hend,
    LoadPNG_of_chunkSteps_error z d rest k r _ hd hk hmore (ReadChunk_after_IEND r hend)⟩

set_option maxRecDepth 100000 in
/-- An instance of C11: the chunks of a 1 x 1 image with one byte after the
end chunk.  After four chunks the end chunk has been read and one byte is
left; the decoder fails reading the length of a fifth chunk. -/
theorem nothing_follows_IEND_witness :
    (onePixelRead [0]).ReadChunk =
      .error ⟨.badStreamReadByte, [.BeginWrite, .SetImageInfo ⟨1, 1⟩, .SetScanline 0 [7]]⟩ ∧
    LoadPNG ZLib.stored (PngSignature ++ (onePixelChunks ++ [0])) =
      ⟨[.BeginWrite, .SetImageInfo ⟨1, 1⟩, .SetScanline 0 [7], .EndWrite false],
        some .badStreamReadByte⟩ :=
  nothing_follows_IEND ZLib.stored ⟨[], ()⟩ (onePixelChunks ++ [0]) 4 (onePixelRead [0]) rfl rfl
    (by decide) (by decide)

/-! ## Image-data chunks and what may stand between them (claim C12) -/

theorem ProcessChunksRead_cases {z : ZLib} (r : PNGReader z) (curChunk : Nat) :
    (∃ e, r.ProcessChunksRead curChunk = .error ⟨e, r.image_⟩ ∧
        (e = .duplicateChunk ∨ e = .outOfOrderChunk ∨ e = .chunkBeforeIHDR)) ∨
      r.ProcessChunksRead curChunk =
        .ok { r with chunksRead_ := r.chunksRead_ ||| curChunk } := by
  unfold ProcessChunksRead
  split
  · exact Or.inl ⟨_, rfl, Or.inl rfl⟩
  · split
    · exact Or.inl ⟨_, rfl, Or.inr (Or.inl rfl)⟩
    · simp only []
      split
      · exact Or.inl ⟨_, rfl, Or.inr (Or.inr rfl)⟩
      · exact Or.inr rfl

theorem End_cases (rd : PNGChunkReader) :
    (∃ e, rd.End = .error e ∧ (e = .badStreamReadByte ∨ e = .badCRC)) ∨
      ∃ stm, rd.End = .ok stm ∧ stm.length + 4 = rd.stm_.length := by
  cases h : rd.End with
  | ok stm => exact Or.inr ⟨stm, rfl, End_length h⟩
  | error e =>
    left
    refine ⟨e, rfl, ?_⟩
    unfold PNGChunkReader.End at h
    cases h1 : ReadUInt32 rd.stm_ with
    | error e1 =>
      rw [h1] at h
      simp only [Except.error.injEq] at h
      rw [← h]
      exact Or.inl (ReadUInt32_error _ _ h1)
    | ok p =>
      rw [h1] at h
      simp only [] at h
      split at h
      · simp only [Except.error.injEq] at h
        exact Or.inr h.symm
      · simp at h

theorem or_eight_and_eight (x : Nat) : (x ||| 8) &&& 8 ≠ 0 := by
  intro h
  have h1 := congrArg (fun n => n.testBit 3) h
  simp only [Nat.testBit_and, Nat.testBit_or, Nat.zero_testBit] at h1
  have h8 : Nat.testBit 8 3 = true := by decide
  rw [h8] at h1
  simp at h1

theorem chunkSteps_succ {z : ZLib} (k : Nat) :
    ∀ (r0 r r2 : PNGReader z), chunkSteps k r0 = .ok r → r.ReadChunk = .ok r2 →
      chunkSteps (k + 1) r0 = .ok r2 := by
  induction k with
  | zero =>
    intro r0 r r2 h h2
    simp only [chunkSteps, Except.ok.injEq] at h
    subst h
    simp [chunkSteps, h2]
  | succ k ih =>
    intro r0 r r2 h h2
    rw [chunkSteps] at h
    cases h1 : r0.ReadChunk with
    | error t => simp [h1] at h
    | ok r1 =>
      simp only [h1] at h
      rw [chunkSteps, h1]
      exact ih r1 r r2 h h2

/-- `ReadChunk` on a chunk that is neither image data nor ancillary, once an
image-data chunk has been read: it throws without a call on the image, or the
chunk is an end chunk and the end chunk has now been read. -/
theorem ReadChunk_critical_after_IDAT {z : ZLib} (r : PNGReader z)
    (l0 l1 l2 l3 t0 t1 t2 t3 : Byte) (rest : List Byte)
    (hstm : r.stm_ = l0 :: l1 :: l2 :: l3 :: t0 :: t1 :: t2 :: t3 :: rest)
    (hidat : r.chunksRead_ &&& IDATChunk ≠ 0)
    (hne : uint32OfBytes t0 t1 t2 t3 ≠ IDATChunkType.GetValue)
    (hcrit : uint32OfBytes t0 t1 t2 t3 &&& 0x20000000 = 0) :
    (∃ e, r.ReadChunk = .error ⟨e, r.image_⟩ ∧ e ∈ interleavedErrors) ∨
      ∃ r2, r.ReadChunk = .ok r2 ∧ r2.chunksRead_ &&& IENDChunk ≠ 0 ∧
        r2.image_ = r.image_ ∧ r2.stm_.length + 4 = rest.length := by
  have hne2 : (⟨uint32OfBytes t0 t1 t2 t3⟩ : PNGChunkType) ≠ IDATChunkType := by
    intro h
    apply hne
    rw [← h]
    rfl
  have h4 : 4 ≤ r.chunksRead_ := four_le_of_and_four _ hidat
  simp only [ReadChunk, hstm, PNGChunkReader_new_cons]
  by_cases hend : r.chunksRead_ &&& IENDChunk ≠ 0
  · rw [if_pos hend]
    exact Or.inl ⟨_, rfl, by decide⟩
  rw [if_neg hend]
  by_cases h1 : (⟨uint32OfBytes t0 t1 t2 t3⟩ : PNGChunkType) = IHDRChunkType
  · left
    rw [handleChunk_IHDR _ _ h1, requiredChunk]
    rcases ProcessChunksRead_cases r IHDRChunk with ⟨e, he, hm⟩ | hok
    · rw [he]
      exact ⟨e, rfl, by rcases hm with h | h | h <;> rw [h] <;> decide⟩
    · exfalso
      unfold ProcessChunksRead at hok
      by_cases hd : IHDRChunk ≠ IDATChunk ∧ r.chunksRead_ &&& IHDRChunk ≠ 0
      · rw [if_pos hd] at hok
        simp at hok
      · rw [if_neg hd, if_pos (by
          have : (IHDRChunk <<< 1) % 2 ^ 32 = 2 := by decide
          omega)] at hok
        simp at hok
  by_cases h2 : (⟨uint32OfBytes t0 t1 t2 t3⟩ : PNGChunkType) = PLTEChunkType
  · left
    rw [handleChunk_PLTE _ _ h2, requiredChunk]
    rcases ProcessChunksRead_cases r PLTEChunk with ⟨e, he, hm⟩ | hok
    · rw [he]
      exact ⟨e, rfl, by rcases hm with h | h | h <;> rw [h] <;> decide⟩
    · exfalso
      unfold ProcessChunksRead at hok
      by_cases hd : PLTEChunk ≠ IDATChunk ∧ r.chunksRead_ &&& PLTEChunk ≠ 0
      · rw [if_pos hd] at hok
        simp at hok
      · rw [if_neg hd, if_pos (by
          have : (PLTEChunk <<< 1) % 2 ^ 32 = 4 := by decide
          omega)] at hok
        simp at hok
  by_cases h3 : (⟨uint32OfBytes t0 t1 t2 t3⟩ : PNGChunkType) = IENDChunkType
  · rw [handleChunk_IEND _ _ h3, requiredChunk]
    rcases ProcessChunksRead_cases r IENDChunk with ⟨e, he, hm⟩ | hok
    · left
      rw [he]
      exact ⟨e, rfl, by rcases hm with h | h | h <;> rw [h] <;> decide⟩
    · rw [hok]
      simp only [ReadIENDChunk]
      rcases End_cases ⟨rest, uint32OfBytes l0 l1 l2 l3, ⟨uint32OfBytes t0 t1 t2 t3⟩,
          CRCCalculator.new.Append [t0, t1, t2, t3]⟩ with ⟨e, he, hm⟩ | ⟨stm, hs, hl⟩
      · left
        rw [he]
        exact ⟨e, rfl, by rcases hm with h | h <;> rw [h] <;> decide⟩
      · right
        rw [hs]
        exact ⟨_, rfl, or_eight_and_eight _, rfl, hl⟩
  · left
    have hne1 : (⟨uint32OfBytes t0 t1 t2 t3⟩ : PNGChunkType) ≠ IHDRChunkType := h1
    rw [handleChunk_unknown _ _ h1 h2 hne2 h3]
    refine ⟨.nonAncilliaryChunk, ?_, by decide⟩
    simp [ReadUnknownChunk, PNGChunkReader.IsAncilliary, PNGChunkType.GetValue, hcrit]

/-- C12 as stated does not hold: a stream in which an unknown ancillary chunk
stands between two image-data chunks is decoded successfully. -/
theorem ancillary_between_data_decodes :
    LoadPNG ZLib.stored ancillaryBetweenDataStream =
      ⟨[.BeginWrite, .SetImageInfo ⟨1, 1⟩, .SetScanline 0 [7], .EndWrite true], none⟩ := by
  decide!

/-- C12, amended: when, after `k` chunks of a stream, an image-data chunk has
been read and the next chunk has a type code other than `IDAT` with the
ancillary bit clear (which covers `IHDR`, `PLTE`, `IEND` and every unknown
critical type), and at least one byte follows the four bytes after its type
code (as when another image-data chunk follows), decode fails with one of the
errors of `interleavedErrors`. -/
theorem critical_chunk_between_data_fails (z : ZLib) (d : Decompressor z) (rest : List Byte)
    (k : Nat) (r : PNGReader z) (l0 l1 l2 l3 t0 t1 t2 t3 c0 c1 c2 c3 : Byte) (more : List Byte)
    (hd : Decompressor.new z = .ok d)
    (hk : chunkSteps k (afterSignature d rest) = .ok r)
    (hidat : r.chunksRead_ &&& IDATChunk ≠ 0)
    (hstm : r.stm_ =
      l0 :: l1 :: l2 :: l3 :: t0 :: t1 :: t2 :: t3 :: c0 :: c1 :: c2 :: c3 :: more)
    (hmore : more ≠ [])
    (hne : uint32OfBytes t0 t1 t2 t3 ≠ IDATChunkType.GetValue)
    (hcrit : uint32OfBytes t0 t1 t2 t3 &&& 0x20000000 = 0) :
    ∃ e, e ∈ interleavedErrors ∧
      LoadPNG z (PngSignature ++ rest) = ⟨r.image_ ++ [.EndWrite false], some e⟩ := by
  rcases ReadChunk_critical_after_IDAT r l0 l1 l2 l3 t0 t1 t2 t3 _ hstm hidat hne hcrit with
    ⟨e, he, hm⟩ | ⟨r2, h2, hend, himg, hlen⟩
  · exact ⟨e, hm, LoadPNG_of_chunkSteps_error z d rest k r _ hd hk (by simp [hstm]) he⟩
  · have hs2 : r2.stm_ ≠ [] := by
      intro e
      rw [e] at hlen
      simp only [List.length_cons, List.length_nil] at hlen
      have : more.length = 0 := by omega
      exact hmore (List.eq_nil_of_length_eq_zero this)
    refine ⟨if r2.stm_.length < 8 then .badStreamReadByte else .chunkAfterIEND, ?_, ?_⟩
    · by_cases hl : r2.stm_.length < 8
      · rw [if_pos hl]; decide
      · rw [if_neg hl]; decide
    · rw [← himg]
      exact LoadPNG_of_chunkSteps_error z d rest (k + 1) r2 _ hd
        (chunkSteps_succ k _ r r2 hk h2) hs2 (ReadChunk_after_IEND r2 hend)

set_option maxRecDepth 100000 in
/-- An instance of the amended C12: a second palette chunk between the two
image-data chunks of a 1 x 1 image. -/
theorem critical_chunk_between_data_fails_witness :
    ∃ e, e ∈ interleavedErrors ∧
      LoadPNG ZLib.stored (PngSignature ++ paletteBetweenDataChunks) =
        ⟨[.BeginWrite, .SetImageInfo ⟨1, 1⟩] ++ [.EndWrite false], some e⟩ :=
  critical_chunk_between_data_fails ZLib.stored ⟨[], ()⟩ paletteBetweenDataChunks 3
    (rowBegunRead (sealedChunk PLTEChunkType.GetValue [] ++
      (sealedChunk IDATChunkType.GetValue [7] ++ sealedChunk IENDChunkType.GetValue [])))
    0 0 0 0 80 76 84 69 75 168 137 85
    (sealedChunk IDATChunkType.GetValue [7] ++ sealedChunk IENDChunkType.GetValue [])
    rfl rfl (by decide) (by decide!) (by decide!) (by decide) (by decide)

/-! ## A stream that ends too early (claim C13) -/

/-- C13: `LoadPNG` is a total function, and when the chunk loop finds the
stream exhausted after `k` chunks without all four required chunk types
seen, it fails with the missing-required-chunk error; in particular on the
signature followed by only a valid header chunk, after the one call on the
image for the header.  (The decompressor is taken to initialise.) -/
theorem exhausted_stream_missing_chunk (z : ZLib) (d : Decompressor z)
    (hd : Decompressor.new z = .ok d) :
    (∀ (rest : List Byte) (k : Nat) (r : PNGReader z),
      chunkSteps k (afterSignature d rest) = .ok r → r.stm_ = [] →
      r.chunksRead_ ≠ AllRequiredChunks →
      LoadPNG z (PngSignature ++ rest) =
        ⟨r.image_ ++ [.EndWrite false], some .missingRequiredChunk⟩) ∧
    (∀ width height : Nat, width ≠ 0 → height ≠ 0 → width < 2 ^ 32 → height < 2 ^ 32 →
      LoadPNG z (PngSignature ++
          sealedChunk IHDRChunkType.GetValue (IHDRPayload width height)) =
        ⟨[.BeginWrite, .SetImageInfo ⟨width, height⟩, .EndWrite false],
          some .missingRequiredChunk⟩) := by
  have h1 : ∀ (rest : List Byte) (k : Nat) (r : PNGReader z),
      chunkSteps k (afterSignature d rest) = .ok r → r.stm_ = [] →
      r.chunksRead_ ≠ AllRequiredChunks →
      LoadPNG z (PngSignature ++ rest) =
        ⟨r.image_ ++ [.EndWrite false], some .missingRequiredChunk⟩ := by
    intro rest k r hk hs hmiss
    rw [LoadPNG_of_chunkSteps_nil z d rest k r hd hk hs, if_pos hmiss]
  refine ⟨h1, ?_⟩
  intro width height hw hh hw32 hh32
  obtain ⟨r1, hrc, hs1, hc1, hi1⟩ : ∃ r1 : PNGReader z,
      (afterSignature d
        (sealedChunk IHDRChunkType.GetValue (IHDRPayload width height))).ReadChunk = .ok r1 ∧
      r1.stm_ = [] ∧ r1.chunksRead_ = 1 ∧
      r1.image_ = [.BeginWrite, .SetImageInfo ⟨width, height⟩] :=
    ⟨_, ReadChunk_IHDR_sealed
      (afterSignature d (sealedChunk IHDRChunkType.GetValue (IHDRPayload width height)))
      width height [] hw hh hw32 hh32 rfl (by simp [afterSignature]), rfl, rfl, rfl⟩
  have hk : chunkSteps 1
      (afterSignature d (sealedChunk IHDRChunkType.GetValue (IHDRPayload width height))) =
      .ok r1 := by
    rw [chunkSteps, hrc]
    rfl
  rw [h1 _ 1 r1 hk hs1 (by rw [hc1]; decide), hi1]
  rfl

/-- An instance of C13, with the stored stand-in for zlib. -/
theorem exhausted_stream_missing_chunk_witness :
    (∀ (rest : List Byte) (k : Nat) (r : PNGReader ZLib.stored),
      chunkSteps k (afterSignature ⟨[], ()⟩ rest) = .ok r → r.stm_ = [] →
      r.chunksRead_ ≠ AllRequiredChunks →
      LoadPNG ZLib.stored (PngSignature ++ rest) =
        ⟨r.image_ ++ [.EndWrite false], some .missingRequiredChunk⟩) ∧
    (∀ width height : Nat, width ≠ 0 → height ≠ 0 → width < 2 ^ 32 → height < 2 ^ 32 →
      LoadPNG ZLib.stored (PngSignature ++
          sealedChunk IHDRChunkType.GetValue (IHDRPayload width height)) =
        ⟨[.BeginWrite, .SetImageInfo ⟨width, height⟩, .EndWrite false],
          some .missingRequiredChunk⟩) :=
  exhausted_stream_missing_chunk ZLib.stored ⟨[], ()⟩ rfl

/-! ## Unknown chunks (claim C14) -/

/-- C14: a chunk, framed with `payload.length` as its declared length, whose
type code is none of `IHDR`, `PLTE`, `IDAT`, `IEND` and that is read before
the end chunk.  If bit `0x20000000` of the type code is set, `ReadChunk`
takes the declared number of payload bytes and the four CRC bytes off the
stream, makes no call on the image and changes nothing else in the reader,
and it throws the bad-CRC error when the CRC field does not match type code
and payload.  If the bit is clear, `ReadChunk` throws the non-ancillary-chunk
error, and `LoadPNG` of a stream in which the chunk is reached after `k`
chunks fails with it. -/
theorem unknown_chunk_skipped_or_rejected (z : ZLib) (d : Decompressor z)
    (rest0 : List Byte) (k : Nat) (r : PNGReader z) (type : Nat) (payload : List Byte)
    (crc : Nat) (rest : IStream)
    (hd : Decompressor.new z = .ok d)
    (hk : chunkSteps k (afterSignature d rest0) = .ok r)
    (ht : type < 2 ^ 32) (hp : payload.length < 2 ^ 32) (hc : crc < 2 ^ 32)
    (hstm : r.stm_ = framedChunk type payload crc ++ rest)
    (hend : r.chunksRead_ &&& IENDChunk = 0)
    (h1 : type ≠ IHDRChunkType.GetValue) (h2 : type ≠ PLTEChunkType.GetValue)
    (h3 : type ≠ IDATChunkType.GetValue) (h4 : type ≠ IENDChunkType.GetValue) :
    (type &&& 0x20000000 ≠ 0 →
      r.ReadChunk =
        if crc ≠ crc32 (bigEndian32 type ++ payload) then .error ⟨.badCRC, r.image_⟩
        else .ok { r with stm_ := rest }) ∧
    (type &&& 0x20000000 = 0 →
      r.ReadChunk = .error ⟨.nonAncilliaryChunk, r.image_⟩ ∧
      LoadPNG z (PngSignature ++ rest0) =
        ⟨r.image_ ++ [.EndWrite false], some .nonAncilliaryChunk⟩) := by
  have h := ReadChunk_unknown r type payload crc rest ht hp hc hstm hend h1 h2 h3 h4
  constructor
  · intro ha
    rw [h, if_neg ha]
  · intro ha
    rw [if_pos ha] at h
    refine ⟨h, ?_⟩
    exact LoadPNG_of_chunkSteps_error z d rest0 k r _ hd hk
      (by rw [hstm]; simp [framedChunk, bigEndian32]) h

/-- An instance of C14: an unknown ancillary chunk (`tEXt`) with three payload
bytes and a CRC field of 0 as the first chunk of a stream. -/
theorem unknown_chunk_skipped_or_rejected_witness :
    ((0x74455874 : Nat) &&& 0x20000000 ≠ 0 →
      (afterSignature (⟨[], ()⟩ : Decompressor ZLib.stored)
          (framedChunk 0x74455874 [1, 2, 3] 0 ++ [])).ReadChunk =
        if 0 ≠ crc32 (bigEndian32 0x74455874 ++ [1, 2, 3]) then
          .error ⟨.badCRC, (afterSignature (⟨[], ()⟩ : Decompressor ZLib.stored)
            (framedChunk 0x74455874 [1, 2, 3] 0 ++ [])).image_⟩
        else .ok { afterSignature (⟨[], ()⟩ : Decompressor ZLib.stored)
            (framedChunk 0x74455874 [1, 2, 3] 0 ++ []) with stm_ := [] }) ∧
    ((0x74455874 : Nat) &&& 0x20000000 = 0 →
      (afterSignature (⟨[], ()⟩ : Decompressor ZLib.stored)
          (framedChunk 0x74455874 [1, 2, 3] 0 ++ [])).ReadChunk =
        .error ⟨.nonAncilliaryChunk, (afterSignature (⟨[], ()⟩ : Decompressor ZLib.stored)
          (framedChunk 0x74455874 [1, 2, 3] 0 ++ [])).image_⟩ ∧
      LoadPNG ZLib.stored (PngSignature ++ (framedChunk 0x74455874 [1, 2, 3] 0 ++ [])) =
        ⟨(afterSignature (⟨[], ()⟩ : Decompressor ZLib.stored)
          (framedChunk 0x74455874 [1, 2, 3] 0 ++ [])).image_ ++ [.EndWrite false],
          some .nonAncilliaryChunk⟩) :=
  unknown_chunk_skipped_or_rejected ZLib.stored ⟨[], ()⟩
    (framedChunk 0x74455874 [1, 2, 3] 0 ++ []) 0
    (afterSignature ⟨[], ()⟩ (framedChunk 0x74455874 [1, 2, 3] 0 ++ []))
    0x74455874 [1, 2, 3] 0 [] rfl rfl (by decide) (by decide) (by decide) rfl (by decide)
    (by decide) (by decide) (by decide) (by decide)

/-! ## The checks on the header chunk (claims C15, C16) -/

theorem or_one_and_one (x : Nat) : (x ||| 1) &&& 1 ≠ 0 := by
  intro h
  have h1 := congrArg (fun n => n.testBit 0) h
  simp only [Nat.testBit_and, Nat.testBit_or, Nat.zero_testBit] at h1
  have h8 : Nat.testBit 1 0 = true := by decide
  rw [h8] at h1
  simp at h1

theorem ProcessChunksRead_IHDR_cases {z : ZLib} (r : PNGReader z) :
    (∃ e, r.ProcessChunksRead IHDRChunk = .error ⟨e, r.image_⟩ ∧
        (e = .duplicateChunk ∨ e = .outOfOrderChunk)) ∨
      r.ProcessChunksRead IHDRChunk =
        .ok { r with chunksRead_ := r.chunksRead_ ||| IHDRChunk } := by
  unfold ProcessChunksRead
  split
  · exact Or.inl ⟨_, rfl, Or.inl rfl⟩
  · split
    · exact Or.inl ⟨_, rfl, Or.inr rfl⟩
    · simp only []
      rw [if_neg (show ¬ (r.chunksRead_ ||| IHDRChunk) &&& IHDRChunk = 0 from
        or_one_and_one _)]
      exact Or.inr rfl

/-- `ReadChunk` on a chunk of type `IHDR`: an error of the order of the
chunks, or `ReadIHDRChunk` is entered and an exception of it leaves
`ReadChunk`. -/
theorem ReadChunk_IHDR_typed {z : ZLib} (r : PNGReader z) (l0 l1 l2 l3 : Byte)
    (tail : IStream)
    (hstm : r.stm_ = l0 :: l1 :: l2 :: l3 :: 73 :: 72 :: 68 :: 82 :: tail) :
    (∃ e, r.ReadChunk = .error ⟨e, r.image_⟩ ∧ e ∈ headerOrderErrors) ∨
      ∀ t, ReadIHDRChunk ⟨tail, uint32OfBytes l0 l1 l2 l3, ⟨uint32OfBytes 73 72 68 82⟩,
          CRCCalculator.new.Append [73, 72, 68, 82]⟩
          { r with chunksRead_ := r.chunksRead_ ||| IHDRChunk } = .error t →
        r.ReadChunk = .error t := by
  have ht : (⟨uint32OfBytes 73 72 68 82⟩ : PNGChunkType) = IHDRChunkType := by decide
  simp only [ReadChunk, hstm, PNGChunkReader_new_cons]
  by_cases hend : r.chunksRead_ &&& IENDChunk ≠ 0
  · rw [if_pos hend]
    exact Or.inl ⟨_, rfl, by decide⟩
  rw [if_neg hend, handleChunk_IHDR _ _ ht, requiredChunk]
  rcases ProcessChunksRead_IHDR_cases r with ⟨e, he, hm⟩ | hok
  · left
    rw [he]
    exact ⟨e, rfl, by rcases hm with h | h <;> rw [h] <;> decide⟩
  · right
    intro t hterr
    rw [hok]
    simp only [hstm]
    rw [hterr]

/-- `ReadIHDRChunk` on a header that declares a zero width or height. -/
theorem ReadIHDRChunk_zero {z : ZLib} (r : PNGReader z) (length : Nat) (type : PNGChunkType)
    (crcCalc : CRCCalculator) (w0 w1 w2 w3 h0 h1 h2 h3 : Byte) (tail : IStream)
    (hzero : uint32OfBytes w0 w1 w2 w3 = 0 ∨ uint32OfBytes h0 h1 h2 h3 = 0) :
    ReadIHDRChunk ⟨w0 :: w1 :: w2 :: w3 :: h0 :: h1 :: h2 :: h3 :: tail, length, type,
        crcCalc⟩ r =
      .error ⟨if uint32OfBytes w0 w1 w2 w3 = 0 then .zeroWidth else .zeroHeight, r.image_⟩ := by
  unfold ReadIHDRChunk
  rw [getUInt32_cons _ w0 w1 w2 w3 _ rfl]
  simp only []
  rw [getUInt32_cons _ h0 h1 h2 h3 _ rfl]
  simp only []
  by_cases hw : uint32OfBytes w0 w1 w2 w3 = 0
  · rw [if_pos hw, if_pos hw]
  · rw [if_neg hw, if_neg hw]
    rcases hzero with h | h
    · exact absurd h hw
    · rw [if_pos h]

/-- The checks of `ReadIHDRChunk` on the five one-byte fields reject every
combination of values but one. -/
theorem ReadIHDRChunk_finish_invalid {z : ZLib} (rd : PNGChunkReader) (r : PNGReader z)
    (bd ct cm ft il : Byte)
    (h : (bd, ct, cm, ft, il) ≠
      (BitDepth, ColorType, CompressionType, FilterType, InterlaceType)) :
    ∃ e, ReadIHDRChunk.finish rd r bd ct cm ft il = .error ⟨e, r.image_⟩ ∧
      e ∈ [error.unsupportedBitDepth, .unsupportedColorType, .unsupportedCompressionType,
        .unsupportedFilterType, .unsupportedInterlaceType] := by
  unfold ReadIHDRChunk.finish
  by_cases h1 : bd ≠ BitDepth
  · exact ⟨_, by rw [if_pos h1], by decide⟩
  rw [if_neg h1]
  by_cases h2 : ct ≠ ColorType
  · exact ⟨_, by rw [if_pos h2], by decide⟩
  rw [if_neg h2]
  by_cases h3 : cm ≠ CompressionType
  · exact ⟨_, by rw [if_pos h3], by decide⟩
  rw [if_neg h3]
  by_cases h4 : ft ≠ FilterType
  · exact ⟨_, by rw [if_pos h4], by decide⟩
  rw [if_neg h4]
  by_cases h5 : il ≠ InterlaceType
  · exact ⟨_, by rw [if_pos h5], by decide⟩
  exfalso
  simp only [ne_eq, not_not] at h1 h2 h3 h4 h5
  apply h
  rw [h1, h2, h3, h4, h5]

/-- `ReadIHDRChunk` on thirteen payload bytes of which the last five are not
the supported values. -/
theorem ReadIHDRChunk_invalid {z : ZLib} (r : PNGReader z) (length : Nat)
    (type : PNGChunkType) (crcCalc : CRCCalculator)
    (w0 w1 w2 w3 h0 h1 h2 h3 bd ct cm ft il : Byte) (tail : IStream)
    (h : (bd, ct, cm, ft, il) ≠
      (BitDepth, ColorType, CompressionType, FilterType, InterlaceType)) :
    ∃ e, ReadIHDRChunk ⟨w0 :: w1 :: w2 :: w3 :: h0 :: h1 :: h2 :: h3 :: bd :: ct :: cm :: ft ::
        il :: tail, length, type, crcCalc⟩ r = .error ⟨e, r.image_⟩ ∧
      e ∈ headerCheckErrors := by
  rw [ReadIHDRChunk_cons]
  by_cases hw : uint32OfBytes w0 w1 w2 w3 = 0
  · rw [if_pos hw]
    exact ⟨_, rfl, by decide⟩
  rw [if_neg hw]
  by_cases hh : uint32OfBytes h0 h1 h2 h3 = 0
  · rw [if_pos hh]
    exact ⟨_, rfl, by decide⟩
  rw [if_neg hh]
  obtain ⟨e, he, hm⟩ := ReadIHDRChunk_finish_invalid
    ⟨tail, length, type, crcCalc.Append [w0, w1, w2, w3, h0, h1, h2, h3, bd, ct, cm, ft, il]⟩
    { r with width_ := uint32OfBytes w0 w1 w2 w3, height_ := uint32OfBytes h0 h1 h2 h3 }
    bd ct cm ft il h
  refine ⟨e, he, ?_⟩
  simp only [headerCheckErrors, List.mem_cons] at hm ⊢
  tauto

/-- C15: a header chunk payload of thirteen bytes.  If its last five bytes
are not bit depth 8, colour type 3, compression 0, filter 0, interlace 0,
`ReadIHDRChunk` throws one of its errors without a call on the image, and
`LoadPNG` of a stream in which the chunk is reached after `k` chunks fails,
with that error or an error of the order of the chunks.  If they are and
width and height are not zero, `ReadIHDRChunk` returns, having handed width
and height to the image with `SetImageInfo`. -/
theorem header_fields_checked (z : ZLib) (d : Decompressor z) (rest0 : List Byte) (k : Nat)
    (r : PNGReader z) (l0 l1 l2 l3 w0 w1 w2 w3 h0 h1 h2 h3 bd ct cm ft il : Byte)
    (tail : IStream) (hd : Decompressor.new z = .ok d)
    (hk : chunkSteps k (afterSignature d rest0) = .ok r)
    (hstm : r.stm_ = l0 :: l1 :: l2 :: l3 :: 73 :: 72 :: 68 :: 82 ::
      w0 :: w1 :: w2 :: w3 :: h0 :: h1 :: h2 :: h3 :: bd :: ct :: cm :: ft :: il :: tail) :
    ((bd, ct, cm, ft, il) ≠
        (BitDepth, ColorType, CompressionType, FilterType, InterlaceType) →
      (∀ (r2 : PNGReader z) (length : Nat) (type : PNGChunkType) (crcCalc : CRCCalculator),
        ∃ e, ReadIHDRChunk ⟨w0 :: w1 :: w2 :: w3 :: h0 :: h1 :: h2 :: h3 :: bd :: ct :: cm ::
            ft :: il :: tail, length, type, crcCalc⟩ r2 = .error ⟨e, r2.image_⟩ ∧
          e ∈ headerCheckErrors) ∧
      ∃ e, e ∈ headerOrderErrors ++ headerCheckErrors ∧
        LoadPNG z (PngSignature ++ rest0) = ⟨r.image_ ++ [.EndWrite false], some e⟩) ∧
    ((bd, ct, cm, ft, il) =
        (BitDepth, ColorType, CompressionType, FilterType, InterlaceType) →
      uint32OfBytes w0 w1 w2 w3 ≠ 0 → uint32OfBytes h0 h1 h2 h3 ≠ 0 →
      ∀ (r2 : PNGReader z) (length : Nat) (type : PNGChunkType) (crcCalc : CRCCalculator),
        ReadIHDRChunk ⟨w0 :: w1 :: w2 :: w3 :: h0 :: h1 :: h2 :: h3 :: bd :: ct :: cm ::
            ft :: il :: tail, length, type, crcCalc⟩ r2 =
          .ok (⟨tail, length, type,
              crcCalc.Append [w0, w1, w2, w3, h0, h1, h2, h3, bd, ct, cm, ft, il]⟩,
            { r2 with
              width_ := uint32OfBytes w0 w1 w2 w3, height_ := uint32OfBytes h0 h1 h2 h3,
              image_ := r2.image_ ++
                [.SetImageInfo ⟨uint32OfBytes w0 w1 w2 w3, uint32OfBytes h0 h1 h2 h3⟩],
              rawScanline_ := resize r2.rawScanline_ (uint32OfBytes w0 w1 w2 w3),
              rawPriorScanline_ := resize r2.rawPriorScanline_ (uint32OfBytes w0 w1 w2 w3),
              curRaw_ := 0, endRaw_ := 0 })) := by
  constructor
  · intro hbad
    refine ⟨fun r2 length type crcCalc =>
      ReadIHDRChunk_invalid r2 length type crcCalc w0 w1 w2 w3 h0 h1 h2 h3 bd ct cm ft il tail
        hbad, ?_⟩
    have hs : r.stm_ ≠ [] := by simp [hstm]
    rcases ReadChunk_IHDR_typed r l0 l1 l2 l3 _ hstm with ⟨e, he, hm⟩ | hall
    · exact ⟨e, List.mem_append_left _ hm,
        LoadPNG_of_chunkSteps_error z d rest0 k r _ hd hk hs he⟩
    · obtain ⟨e, he, hm⟩ := ReadIHDRChunk_invalid
        { r with chunksRead_ := r.chunksRead_ ||| IHDRChunk } (uint32OfBytes l0 l1 l2 l3)
        ⟨uint32OfBytes 73 72 68 82⟩ (CRCCalculator.new.Append [73, 72, 68, 82])
        w0 w1 w2 w3 h0 h1 h2 h3 bd ct cm ft il tail hbad
      exact ⟨e, List.mem_append_right _ hm,
        LoadPNG_of_chunkSteps_error z d rest0 k r _ hd hk hs (hall _ he)⟩
  · intro hgood hw hh r2 length type crcCalc
    simp only [Prod.mk.injEq] at hgood
    obtain ⟨h1, h2, h3, h4, h5⟩ := hgood
    subst h1 h2 h3 h4 h5
    rw [ReadIHDRChunk_cons, if_neg hw, if_neg hh, ReadIHDRChunk_finish_valid]

/-- An instance of C15: a header chunk with bit depth 16 as the first chunk
of a stream. -/
theorem header_fields_checked_witness :
    (((16 : Byte), (3 : Byte), (0 : Byte), (0 : Byte), (0 : Byte)) ≠
        (BitDepth, ColorType, CompressionType, FilterType, InterlaceType) →
      (∀ (r2 : PNGReader ZLib.stored) (length : Nat) (type : PNGChunkType)
          (crcCalc : CRCCalculator),
        ∃ e, ReadIHDRChunk ⟨[0, 0, 0, 1, 0, 0, 0, 1, 16, 3, 0, 0, 0], length, type, crcCalc⟩
            r2 = .error ⟨e, r2.image_⟩ ∧
          e ∈ headerCheckErrors) ∧
      ∃ e, e ∈ headerOrderErrors ++ headerCheckErrors ∧
        LoadPNG ZLib.stored (PngSignature ++
            [0, 0, 0, 13, 73, 72, 68, 82, 0, 0, 0, 1, 0, 0, 0, 1, 16, 3, 0, 0, 0]) =
          ⟨[.BeginWrite] ++ [.EndWrite false], some e⟩) ∧
    (((16 : Byte), (3 : Byte), (0 : Byte), (0 : Byte), (0 : Byte)) =
        (BitDepth, ColorType, CompressionType, FilterType, InterlaceType) →
      uint32OfBytes 0 0 0 1 ≠ 0 → uint32OfBytes 0 0 0 1 ≠ 0 →
      ∀ (r2 : PNGReader ZLib.stored) (length : Nat) (type : PNGChunkType)
          (crcCalc : CRCCalculator),
        ReadIHDRChunk ⟨[0, 0, 0, 1, 0, 0, 0, 1, 16, 3, 0, 0, 0], length, type, crcCalc⟩ r2 =
          .ok (⟨[], length, type,
              crcCalc.Append [0, 0, 0, 1, 0, 0, 0, 1, 16, 3, 0, 0, 0]⟩,
            { r2 with
              width_ := uint32OfBytes 0 0 0 1, height_ := uint32OfBytes 0 0 0 1,
              image_ := r2.image_ ++
                [.SetImageInfo ⟨uint32OfBytes 0 0 0 1, uint32OfBytes 0 0 0 1⟩],
              rawScanline_ := resize r2.rawScanline_ (uint32OfBytes 0 0 0 1),
              rawPriorScanline_ := resize r2.rawPriorScanline_ (uint32OfBytes 0 0 0 1),
              curRaw_ := 0, endRaw_ := 0 })) :=
  header_fields_checked ZLib.stored ⟨[], ()⟩
    [0, 0, 0, 13, 73, 72, 68, 82, 0, 0, 0, 1, 0, 0, 0, 1, 16, 3, 0, 0, 0] 0
    (afterSignature ⟨[], ()⟩
      [0, 0, 0, 13, 73, 72, 68, 82, 0, 0, 0, 1, 0, 0, 0, 1, 16, 3, 0, 0, 0])
    0 0 0 13 0 0 0 1 0 0 0 1 16 3 0 0 0 [] rfl rfl rfl

/-- C16: a header chunk that declares width 0 or height 0.  `LoadPNG` of a
stream in which the chunk is reached after `k` chunks fails: with the
zero-width or the zero-height error of `ReadIHDRChunk`, always so when the
chunk is the first of the stream, or else with an error of the order of the
chunks. -/
theorem zero_size_header_fails (z : ZLib) (d : Decompressor z) (rest0 : List Byte) (k : Nat)
    (r : PNGReader z) (l0 l1 l2 l3 w0 w1 w2 w3 h0 h1 h2 h3 : Byte) (tail : IStream)
    (hd : Decompressor.new z = .ok d)
    (hk : chunkSteps k (afterSignature d rest0) = .ok r)
    (hstm : r.stm_ = l0 :: l1 :: l2 :: l3 :: 73 :: 72 :: 68 :: 82 ::
      w0 :: w1 :: w2 :: w3 :: h0 :: h1 :: h2 :: h3 :: tail)
    (hzero : uint32OfBytes w0 w1 w2 w3 = 0 ∨ uint32OfBytes h0 h1 h2 h3 = 0) :
    ∃ e, e ∈ headerOrderErrors ++ [.zeroWidth, .zeroHeight] ∧
      LoadPNG z (PngSignature ++ rest0) = ⟨r.image_ ++ [.EndWrite false], some e⟩ ∧
      (r.chunksRead_ = 0 →
        e = if uint32OfBytes w0 w1 w2 w3 = 0 then .zeroWidth else .zeroHeight) := by
  have hs : r.stm_ ≠ [] := by simp [hstm]
  have hz := ReadIHDRChunk_zero { r with chunksRead_ := r.chunksRead_ ||| IHDRChunk }
    (uint32OfBytes l0 l1 l2 l3) ⟨uint32OfBytes 73 72 68 82⟩
    (CRCCalculator.new.Append [73, 72, 68, 82]) w0 w1 w2 w3 h0 h1 h2 h3 tail hzero
  rcases ReadChunk_IHDR_typed r l0 l1 l2 l3 _ hstm with ⟨e, he, hm⟩ | hall
  · refine ⟨e, List.mem_append_left _ hm,
      LoadPNG_of_chunkSteps_error z d rest0 k r _ hd hk hs he, ?_⟩
    intro hr0
    exfalso
    have hrc : r.ReadChunk = .error ⟨if uint32OfBytes w0 w1 w2 w3 = 0 then .zeroWidth
        else .zeroHeight, r.image_⟩ := by
      have ht : (⟨uint32OfBytes 73 72 68 82⟩ : PNGChunkType) = IHDRChunkType := by decide
      have hend : r.chunksRead_ &&& IENDChunk = 0 := by rw [hr0]; decide
      simp only [ReadChunk, hstm, PNGChunkReader_new_cons]
      rw [if_neg (by rw [hend]; decide), handleChunk_IHDR_first r _ ht hr0]
      rw [ReadIHDRChunk_zero _ _ _ _ w0 w1 w2 w3 h0 h1 h2 h3 tail hzero]
    rw [hrc] at he
    simp only [Except.error.injEq, Thrown.mk.injEq, and_true] at he
    rw [← he] at hm
    by_cases hw : uint32OfBytes w0 w1 w2 w3 = 0
    · rw [if_pos hw] at hm; exact absurd hm (by decide)
    · rw [if_neg hw] at hm; exact absurd hm (by decide)
  · refine ⟨if uint32OfBytes w0 w1 w2 w3 = 0 then .zeroWidth else .zeroHeight, ?_,
      LoadPNG_of_chunkSteps_error z d rest0 k r _ hd hk hs (hall _ hz), ?_⟩
    · by_cases hw : uint32OfBytes w0 w1 w2 w3 = 0
      · rw [if_pos hw]; decide
      · rw [if_neg hw]; decide
    · intro _
      rfl

/-- An instance of C16: a header chunk with width 0 as the first chunk of a
stream. -/
theorem zero_size_header_fails_witness :
    ∃ e, e ∈ headerOrderErrors ++ [.zeroWidth, .zeroHeight] ∧
      LoadPNG ZLib.stored (PngSignature ++
          [0, 0, 0, 13, 73, 72, 68, 82, 0, 0, 0, 0, 0, 0, 0, 1, 8, 3, 0, 0, 0]) =
        ⟨[.BeginWrite] ++ [.EndWrite false], some e⟩ ∧
      ((0 : Nat) = 0 → e = if uint32OfBytes 0 0 0 0 = 0 then .zeroWidth else .zeroHeight) :=
  zero_size_header_fails ZLib.stored ⟨[], ()⟩
    [0, 0, 0, 13, 73, 72, 68, 82, 0, 0, 0, 0, 0, 0, 0, 1, 8, 3, 0, 0, 0] 0
    (afterSignature ⟨[], ()⟩
      [0, 0, 0, 13, 73, 72, 68, 82, 0, 0, 0, 0, 0, 0, 0, 1, 8, 3, 0, 0, 0])
    0 0 0 13 0 0 0 0 0 0 0 1 [8, 3, 0, 0, 0] rfl rfl rfl (Or.inl (by decide))

/-! ## Encoding an image of zero width or height (claim C17) -/

/-- C17: for an image whose width is 0 or whose height is 0, `SavePNG` fails,
with the zero-width error (checked first) or the zero-height error, after the
calls `BeginRead` and `GetImageInfo` on the image and before anything is
written: the output stream is left as it was, whatever its state. -/
theorem SavePNG_zero_size_fails (z : ZLib) (image : ReadableImage) (stm : OStream)
    (hzero : image.GetImageInfo.GetWidth = 0 ∨ image.GetImageInfo.GetHeight = 0) :
    SavePNG z image stm =
      ⟨stm, [.BeginRead, .GetImageInfo, .EndRead false],
        some (if image.GetImageInfo.GetWidth = 0 then .writerZeroWidth
          else .writerZeroHeight)⟩ := by
  by_cases hw : image.GetImageInfo.GetWidth = 0
  · simp [SavePNG, PNGWriter.run, PNGWriter.body, hw]
  · rcases hzero with h | h
    · exact absurd h hw
    · simp [SavePNG, PNGWriter.run, PNGWriter.body, hw, h]

/-- An instance of C17: an image of width 3 and height 0, saved to a stream
that holds two bytes. -/
theorem SavePNG_zero_size_fails_witness :
    SavePNG ZLib.stored ⟨⟨3, 0⟩, fun _ => ⟨0, 0, 0⟩, fun _ => []⟩ ⟨[1, 2], true⟩ =
      ⟨⟨[1, 2], true⟩, [.BeginRead, .GetImageInfo, .EndRead false],
        some (if (3 : Nat) = 0 then .writerZeroWidth else .writerZeroHeight)⟩ :=
  SavePNG_zero_size_fails ZLib.stored ⟨⟨3, 0⟩, fun _ => ⟨0, 0, 0⟩, fun _ => []⟩ ⟨[1, 2], true⟩
    (Or.inr rfl)

/-! ## The length of the palette chunk (claim C18) -/

/-- `ReadChunk` on a chunk of type `PLTE`: an error of the order of the
chunks, or `ReadPLTEChunk` is entered and an exception of it leaves
`ReadChunk`. -/
theorem ReadChunk_PLTE_typed {z : ZLib} (r : PNGReader z) (l0 l1 l2 l3 : Byte)
    (tail : IStream)
    (hstm : r.stm_ = l0 :: l1 :: l2 :: l3 :: 80 :: 76 :: 84 :: 69 :: tail) :
    (∃ e, r.ReadChunk = .error ⟨e, r.image_⟩ ∧ e ∈ paletteOrderErrors) ∨
      ∀ t, ReadPLTEChunk ⟨tail, uint32OfBytes l0 l1 l2 l3, ⟨uint32OfBytes 80 76 84 69⟩,
          CRCCalculator.new.Append [80, 76, 84, 69]⟩
          { r with chunksRead_ := r.chunksRead_ ||| PLTEChunk } = .error t →
        r.ReadChunk = .error t := by
  have ht : (⟨uint32OfBytes 80 76 84 69⟩ : PNGChunkType) = PLTEChunkType := by decide
  simp only [ReadChunk, hstm, PNGChunkReader_new_cons]
  by_cases hend : r.chunksRead_ &&& IENDChunk ≠ 0
  · rw [if_pos hend]
    exact Or.inl ⟨_, rfl, by decide⟩
  rw [if_neg hend, handleChunk_PLTE _ _ ht, requiredChunk]
  rcases ProcessChunksRead_cases r PLTEChunk with ⟨e, he, hm⟩ | hok
  · left
    rw [he]
    exact ⟨e, rfl, by rcases hm with h | h | h <;> rw [h] <;> decide⟩
  · right
    intro t hterr
    rw [hok]
    simp only [hstm]
    rw [hterr]

/-- `ReadPLTEChunk` on a chunk whose declared length is not a multiple of
3. -/
theorem ReadPLTEChunk_bad_length {z : ZLib} (reader : PNGChunkReader) (r : PNGReader z)
    (h : reader.GetLength % 3 ≠ 0) :
    ReadPLTEChunk reader r = .error ⟨.badPLTELength, r.image_⟩ := by
  unfold ReadPLTEChunk
  simp only []
  rw [if_pos h]

/-- C18: a palette chunk whose declared length is not divisible by 3.
`ReadPLTEChunk` throws the bad-length error before it reads an entry, and when
the chunk is reached after `k` chunks of a stream, `ReadChunk` throws, with
that error (always so when the chunk directly follows the header chunk) or
with an error of the order of the chunks, and `LoadPNG` fails with it; the
calls on the image are those made before the chunk, without any
`SetPaletteEntry` of this chunk. -/
theorem palette_length_checked (z : ZLib) (d : Decompressor z) (rest0 : List Byte) (k : Nat)
    (r : PNGReader z) (l0 l1 l2 l3 : Byte) (tail : IStream)
    (hd : Decompressor.new z = .ok d)
    (hk : chunkSteps k (afterSignature d rest0) = .ok r)
    (hstm : r.stm_ = l0 :: l1 :: l2 :: l3 :: 80 :: 76 :: 84 :: 69 :: tail)
    (hlen : uint32OfBytes l0 l1 l2 l3 % 3 ≠ 0) :
    (∀ (reader : PNGChunkReader) (r2 : PNGReader z), reader.GetLength % 3 ≠ 0 →
      ReadPLTEChunk reader r2 = .error ⟨.badPLTELength, r2.image_⟩) ∧
    ∃ e, e ∈ paletteOrderErrors ++ [.badPLTELength] ∧
      r.ReadChunk = .error ⟨e, r.image_⟩ ∧
      LoadPNG z (PngSignature ++ rest0) = ⟨r.image_ ++ [.EndWrite false], some e⟩ ∧
      (r.chunksRead_ = 1 → e = .badPLTELength) := by
  refine ⟨fun reader r2 h => ReadPLTEChunk_bad_length reader r2 h, ?_⟩
  have hs : r.stm_ ≠ [] := by simp [hstm]
  have hb := ReadPLTEChunk_bad_length (z := z)
    ⟨tail, uint32OfBytes l0 l1 l2 l3, ⟨uint32OfBytes 80 76 84 69⟩,
      CRCCalculator.new.Append [80, 76, 84, 69]⟩
    { r with chunksRead_ := r.chunksRead_ ||| PLTEChunk } hlen
  rcases ReadChunk_PLTE_typed r l0 l1 l2 l3 _ hstm with ⟨e, he, hm⟩ | hall
  · refine ⟨e, List.mem_append_left _ hm, he,
      LoadPNG_of_chunkSteps_error z d rest0 k r _ hd hk hs he, ?_⟩
    intro hr1
    exfalso
    have ht : (⟨uint32OfBytes 80 76 84 69⟩ : PNGChunkType) = PLTEChunkType := by decide
    have hrc : r.ReadChunk = .error ⟨.badPLTELength, r.image_⟩ := by
      simp only [ReadChunk, hstm, PNGChunkReader_new_cons]
      rw [if_neg (by rw [hr1]; decide), handleChunk_PLTE _ _ ht, requiredChunk,
        ProcessChunksRead_of_eq r PLTEChunk 1 3 hr1 (Or.inr (Or.inl ⟨rfl, rfl, rfl⟩))]
      simp only []
      rw [ReadPLTEChunk_bad_length _ _ (show (PNGChunkReader.mk tail (uint32OfBytes l0 l1 l2 l3)
        ⟨uint32OfBytes 80 76 84 69⟩ (CRCCalculator.new.Append [80, 76, 84, 69])).GetLength % 3 ≠ 0
        from hlen)]
    rw [hrc] at he
    simp only [Except.error.injEq, Thrown.mk.injEq, and_true] at he
    rw [← he] at hm
    exact absurd hm (by decide)
  · exact ⟨.badPLTELength, by decide, hall _ hb,
      LoadPNG_of_chunkSteps_error z d rest0 k r _ hd hk hs (hall _ hb), fun _ => rfl⟩

set_option maxRecDepth 100000 in
/-- An instance of C18: a palette chunk of declared length 4 after the header
chunk of a 1 x 1 image. -/
theorem palette_length_checked_witness :
    (∀ (reader : PNGChunkReader) (r2 : PNGReader ZLib.stored), reader.GetLength % 3 ≠ 0 →
      ReadPLTEChunk reader r2 = .error ⟨.badPLTELength, r2.image_⟩) ∧
    ∃ e, e ∈ paletteOrderErrors ++ [.badPLTELength] ∧
      (headerRead [0, 0, 0, 4, 80, 76, 84, 69, 1, 2, 3, 4]).ReadChunk =
        .error ⟨e, [.BeginWrite, .SetImageInfo ⟨1, 1⟩]⟩ ∧
      LoadPNG ZLib.stored (PngSignature ++
          (sealedChunk IHDRChunkType.GetValue [0, 0, 0, 1, 0, 0, 0, 1, 8, 3, 0, 0, 0] ++
            [0, 0, 0, 4, 80, 76, 84, 69, 1, 2, 3, 4])) =
        ⟨[.BeginWrite, .SetImageInfo ⟨1, 1⟩] ++ [.EndWrite false], some e⟩ ∧
      ((1 : Nat) = 1 → e = .badPLTELength) :=
  palette_length_checked ZLib.stored ⟨[], ()⟩
    (sealedChunk IHDRChunkType.GetValue [0, 0, 0, 1, 0, 0, 0, 1, 8, 3, 0, 0, 0] ++
      [0, 0, 0, 4, 80, 76, 84, 69, 1, 2, 3, 4]) 1
    (headerRead [0, 0, 0, 4, 80, 76, 84, 69, 1, 2, 3, 4]) 0 0 0 4 [1, 2, 3, 4]
    rfl rfl rfl (by decide)

/-! ## Unfiltering inverts filtering (claim C20) -/

theorem deref_drop (p : List Byte) (x : Nat) : deref (p.drop x) = p.getD x 0 := by
  unfold deref
  by_cases h : x < p.length
  · rw [List.drop_eq_getElem_cons h, List.getD_eq_getElem _ _ h]
    rfl
  · rw [List.drop_eq_nil_of_le (by omega), List.getD_eq_default _ _ (by omega)]
    rfl

theorem and_255 (n : Nat) : n &&& 0xFF = n % 256 := by
  simpa using Nat.and_pow_two_sub_one_eq_mod n 8

theorem pngPaethPredictor_mem (a b c : Int) :
    pngPaethPredictor a b c = a ∨ pngPaethPredictor a b c = b ∨
      pngPaethPredictor a b c = c := by
  unfold pngPaethPredictor
  simp only []
  split
  · exact Or.inl rfl
  · split
    · exact Or.inr (Or.inl rfl)
    · exact Or.inr (Or.inr rfl)

theorem pngPaethPredictor_range (a b c : Nat) (ha : a < 256) (hb : b < 256) (hc : c < 256) :
    0 ≤ pngPaethPredictor a b c ∧ pngPaethPredictor a b c < 256 := by
  rcases pngPaethPredictor_mem a b c with h | h | h <;> rw [h] <;> omega

theorem Filter_BeginScanline_eq (f : Filter) (prior : Option (List Byte)) (raw : List Byte) :
    f.BeginScanline prior = Filter.stateAt f.kind prior raw 0 := by
  cases f <;> cases prior <;>
    simp [Filter.BeginScanline, Filter.stateAt, Filter.kind, PassThruFilter.BeginScanline,
      SubFilter.BeginScanline, UpFilter.BeginScanline, AverageFilter.BeginScanline,
      PaethFilter.BeginScanline]

/-- One call of `Unfilter` on byte `x` of the filtered scanline returns byte
`x` of the raw scanline. -/
theorem Filter_Unfilter_stateAt (kind : FilterKind) (prior : Option (List Byte))
    (raw : List Byte) (x : Nat) :
    (Filter.stateAt kind prior raw x).Unfilter (pngFilterByte kind prior raw x) =
      (raw.getD x 0, Filter.stateAt kind prior raw (x + 1)) := by
  have hr := (raw.getD x 0).isLt
  have hl := (raw.getD (x - 1) 0).isLt
  cases kind with
  | passThru =>
    simp only [Filter.stateAt, Filter.Unfilter, PassThruFilter.Unfilter, pngFilterByte,
      pngPredictor, Prod.mk.injEq, and_true]
    apply Fin.ext
    simp only [toByte]
    omega
  | sub =>
    simp only [Filter.stateAt, Filter.Unfilter, SubFilter.Unfilter, pngFilterByte,
      pngPredictor, Prod.mk.injEq, Nat.add_sub_cancel, Nat.succ_ne_zero, if_false,
      Filter.sub.injEq, SubFilter.mk.injEq, and_self, and_255]
    apply Fin.ext
    simp only [toByte]
    by_cases h0 : x = 0
    · simp only [h0, if_true]
      simp only [h0] at hr
      simp
      omega
    · simp only [h0, if_false]
      omega
  | up =>
    cases prior with
    | none =>
      simp only [Filter.stateAt, Filter.Unfilter, UpFilter.Unfilter, pngFilterByte,
        pngPredictor, Option.map_none', Option.getD_none, List.getD_nil, Prod.mk.injEq,
        and_true]
      apply Fin.ext
      simp only [toByte]
      simp
      omega
    | some p =>
      have ha := (p.getD x 0).isLt
      simp only [Filter.stateAt, Filter.Unfilter, UpFilter.Unfilter, pngFilterByte,
        pngPredictor, Option.map_some', Option.getD_some, Prod.mk.injEq, deref_drop,
        List.tail_drop, and_true, and_255]
      apply Fin.ext
      simp only [toByte]
      omega
  | average =>
    cases prior with
    | none =>
      simp only [Filter.stateAt, Filter.Unfilter, AverageFilter.Unfilter, pngFilterByte,
        pngPredictor, Option.map_none', Option.getD_none, List.getD_nil, Prod.mk.injEq,
        Nat.add_sub_cancel, Nat.succ_ne_zero, if_false, Filter.average.injEq,
        AverageFilter.mk.injEq, true_and, and_self, Nat.and_comm 0xFF, and_255,
        Nat.shiftRight_eq_div_pow]
      apply Fin.ext
      simp only [toByte]
      by_cases h0 : x = 0
      · simp only [h0, if_true]
        simp only [h0] at hr
        simp
        omega
      · simp only [h0, if_false]
        simp
        omega
    | some p =>
      have ha := (p.getD x 0).isLt
      simp only [Filter.stateAt, Filter.Unfilter, AverageFilter.Unfilter, pngFilterByte,
        pngPredictor, Option.map_some', Option.getD_some, Prod.mk.injEq, deref_drop,
        List.tail_drop, Nat.add_sub_cancel, Nat.succ_ne_zero, if_false, Filter.average.injEq,
        AverageFilter.mk.injEq, true_and, and_self, Nat.and_comm 0xFF, and_255,
        Nat.shiftRight_eq_div_pow]
      apply Fin.ext
      simp only [toByte]
      by_cases h0 : x = 0
      · simp only [h0, if_true]
        simp only [h0] at hr ha
        simp
        omega
      · simp only [h0, if_false]
        simp
        omega
  | paeth =>
    have key : ∀ (l a c : Byte),
        toByte (((((toByte ((((raw.getD x 0).val : Int) -
            pngPaethPredictor l.val a.val c.val) % 256).toNat).val : Int) +
          PaethFilter.PaethPredictor l.val a.val c.val) % 256).toNat) = raw.getD x 0 := by
      intro l a c
      have hP := pngPaethPredictor_range l.val a.val c.val l.isLt a.isLt c.isLt
      have hPP : PaethFilter.PaethPredictor l.val a.val c.val =
          pngPaethPredictor l.val a.val c.val := rfl
      rw [hPP]
      generalize pngPaethPredictor l.val a.val c.val = P at hP
      apply Fin.ext
      simp only [toByte]
      omega
    cases prior with
    | none =>
      simp only [Filter.stateAt, Filter.Unfilter, PaethFilter.Unfilter, pngFilterByte,
        pngPredictor, Option.map_none', Option.getD_none, List.getD_nil, Prod.mk.injEq,
        Nat.add_sub_cancel, Nat.succ_ne_zero, if_false, Filter.paeth.injEq,
        PaethFilter.mk.injEq, true_and, ite_self]
      by_cases h0 : x = 0
      · simp only [h0, if_true]
        have := key 0 0 0
        simp only [h0] at this
        exact ⟨this, this⟩
      · simp only [h0, if_false]
        have := key (raw.getD (x - 1) 0) 0 0
        exact ⟨this, this⟩
    | some p =>
      simp only [Filter.stateAt, Filter.Unfilter, PaethFilter.Unfilter, pngFilterByte,
        pngPredictor, Option.map_some', Option.getD_some, Prod.mk.injEq, deref_drop,
        List.tail_drop, Nat.add_sub_cancel, Nat.succ_ne_zero, if_false, Filter.paeth.injEq,
        PaethFilter.mk.injEq, true_and]
      by_cases h0 : x = 0
      · simp only [h0, if_true]
        have := key 0 (p.getD 0 0) 0
        simp only [h0] at this
        exact ⟨this, this⟩
      · simp only [h0, if_false, deref_drop]
        have := key (raw.getD (x - 1) 0) (p.getD x 0) (p.getD (x - 1) 0)
        exact ⟨this, this⟩

theorem Filter_unfilterBytes_stateAt (kind : FilterKind) (prior : Option (List Byte))
    (raw : List Byte) (m : Nat) :
    ∀ x, Filter.unfilterBytes (Filter.stateAt kind prior raw x)
        ((List.range' x m).map (pngFilterByte kind prior raw)) =
      (List.range' x m).map (fun i => raw.getD i 0) := by
  induction m with
  | zero => intro x; rfl
  | succ m ih =>
    intro x
    rw [List.range'_succ, List.map_cons, List.map_cons, Filter.unfilterBytes,
      Filter_Unfilter_stateAt]
    simp only []
    rw [ih (x + 1)]

theorem map_getD_range (raw : List Byte) :
    (List.range' 0 raw.length).map (fun i => raw.getD i 0) = raw := by
  apply List.ext_getElem
  · simp
  · intro i h1 h2
    simp [List.getElem?_eq_getElem h2]

/-- C20: for each of the five filter objects, every prior scanline (or none)
and every raw scanline, in particular of the same width: after
`BeginScanline(prior)`, calling `Unfilter` on each byte, left to right, of the
scanline filtered with the forward filter of the PNG specification for the
type of the object returns the bytes of the raw scanline.  Bytes range over
all 256 values; the sums wrap around modulo 256. -/
theorem unfilter_inverts_filter (f : Filter) (prior : Option (List Byte)) (raw : List Byte) :
    (f.BeginScanline prior).unfilterBytes (pngFilterScanline f.kind prior raw) = raw := by
  rw [Filter_BeginScanline_eq f prior raw, pngFilterScanline, List.range_eq_range',
    Filter_unfilterBytes_stateAt, map_getD_range]

/-- An instance of C20: the Paeth filter on a scanline of three bytes with
wraparound, and the filtered bytes. -/
theorem unfilter_inverts_filter_witness :
    ((Filter.paeth ⟨none, none, 0⟩).BeginScanline (some [255, 0, 7])).unfilterBytes
        (pngFilterScanline (Filter.paeth ⟨none, none, 0⟩).kind (some [255, 0, 7])
          [0, 255, 128]) = [0, 255, 128] ∧
    pngFilterScanline .paeth (some [255, 0, 7]) [0, 255, 128] = [1, 255, 129] :=
  ⟨unfilter_inverts_filter (.paeth ⟨none, none, 0⟩) (some [255, 0, 7]) [0, 255, 128],
    by decide⟩

/-! ## Counting the decompressed bytes (claim C19) -/

theorem curFilterBeginScanline_ok {z : ZLib} (r : PNGReader z) (prior : Option (List Byte))
    (h : r.curFilter_ ≠ none) :
    ∃ r2, r.curFilterBeginScanline prior = .ok r2 ∧ SameScan r r2 := by
  unfold curFilterBeginScanline
  cases hf : r.curFilter_ with
  | none => exact absurd hf h
  | some kind =>
    cases kind <;> first
      | exact ⟨_, rfl, rfl, rfl, rfl, rfl, rfl, rfl, rfl, hf.symm, rfl⟩
      | exact ⟨_, rfl, rfl, rfl, rfl, rfl, rfl, rfl, rfl, rfl, rfl⟩

theorem curFilterUnfilter_ok {z : ZLib} (r : PNGReader z) (filtered : Byte)
    (h : r.curFilter_ ≠ none) :
    ∃ raw r2, r.curFilterUnfilter filtered = .ok (raw, r2) ∧ SameScan r r2 := by
  unfold curFilterUnfilter
  cases hf : r.curFilter_ with
  | none => exact absurd hf h
  | some kind =>
    cases kind <;> first
      | exact ⟨_, _, rfl, rfl, rfl, rfl, rfl, rfl, rfl, rfl, hf.symm, rfl⟩
      | exact ⟨_, _, rfl, rfl, rfl, rfl, rfl, rfl, rfl, rfl, rfl, rfl⟩

theorem selectFilter_ne_none (curFilter : Option FilterKind) (cur : Byte)
    (h : curFilter ≠ none ∨ cur.val ≤ 4) : selectFilter curFilter cur ≠ none := by
  unfold selectFilter
  simp only [PassThruFilterCode, SubFilterCode, UpFilterCode, AverageFilterCode,
    PaethFilterCode]
  split
  · simp
  split
  · simp
  split
  · simp
  split
  · simp
  split
  · simp
  · rcases h with h | h
    · exact h
    · omega

/-- A decompressed byte when the last row is full: the overrun error. -/
theorem unfilterByte_overrun {z : ZLib} (r : PNGReader z) (cur : Byte)
    (hraw : r.curRaw_ = r.endRaw_) (hy : (r.curY_ + 1) % 2 ^ 32 = r.height_ % 2 ^ 32) :
    r.unfilterByte cur = .error ⟨.tooManyPixels, r.image_⟩ := by
  unfold unfilterByte
  rw [if_pos hraw]
  simp only []
  rw [if_pos hy]

/-- A decompressed byte at the start of a row that is not beyond the last:
the filter-type byte. -/
theorem unfilterByte_count_row {z : ZLib} (w h k x : Nat) (r : PNGReader z) (cur : Byte)
    (hc : Count w h k x r) (hrow : k = 0 ∨ x = w) (hk : k < h) (h32 : h < 2 ^ 32)
    (hfirst : k = 0 → cur.val ≤ 4) :
    ∃ r2, r.unfilterByte cur = .ok r2 ∧ Count w h (k + 1) 0 r2 := by
  have hraw : r.curRaw_ = r.endRaw_ := by
    by_cases hk0 : k = 0
    · obtain ⟨hx, he, _⟩ := hc.start hk0
      rw [hc.curRaw, he, hx]
    · obtain ⟨_, he, _, _⟩ := hc.row hk0
      rcases hrow with h0 | hxw
      · exact absurd h0 hk0
      · rw [hc.curRaw, he, hxw]
  have hy : (r.curY_ + 1) % 2 ^ 32 = k := by
    by_cases hk0 : k = 0
    · obtain ⟨_, _, hy⟩ := hc.start hk0
      rw [hy, hk0]
      decide
    · obtain ⟨_, _, hy, _⟩ := hc.row hk0
      rw [hy, Nat.sub_add_cancel (Nat.one_le_iff_ne_zero.mpr hk0)]
      exact Nat.mod_eq_of_lt (by omega)
  have hsel : selectFilter r.curFilter_ cur ≠ none := by
    apply selectFilter_ne_none
    by_cases hk0 : k = 0
    · exact Or.inr (hfirst hk0)
    · exact Or.inl (hc.row hk0).2.2.2
  unfold unfilterByte
  rw [if_pos hraw]
  simp only [hy]
  rw [if_neg (by rw [hc.height, Nat.mod_eq_of_lt h32]; omega)]
  unfold beginScanline
  simp only []
  by_cases hk0 : k = 0
  · rw [if_neg (by simp [hk0])]
    obtain ⟨r2, h2, hs⟩ := curFilterBeginScanline_ok
      { r with
        curY_ := k, rawScanline_ := r.rawPriorScanline_, rawPriorScanline_ := r.rawScanline_,
        curRaw_ := 0, endRaw_ := r.rawPriorScanline_.length,
        curFilter_ := selectFilter r.curFilter_ cur } none hsel
    refine ⟨r2, h2, ?_⟩
    obtain ⟨s1, s2, s3, s4, s5, s6, s7, s8, s9⟩ := hs
    exact {
      height := by rw [s1]; exact hc.height
      prior := by rw [s2]; exact hc.cur
      cur := by rw [s3]; exact hc.prior
      curRaw := s4
      done := by rw [s7]; exact hc.done
      start := fun e => absurd e (Nat.succ_ne_zero k)
      row := fun _ => ⟨Nat.zero_le _, by rw [s5]; exact hc.prior, by rw [s6]; rfl,
        by rw [s8]; exact hsel⟩ }
  · rw [if_pos (by simpa using hk0)]
    obtain ⟨r2, h2, hs⟩ := curFilterBeginScanline_ok
      { r with
        curY_ := k, rawScanline_ := r.rawPriorScanline_, rawPriorScanline_ := r.rawScanline_,
        curRaw_ := 0, endRaw_ := r.rawPriorScanline_.length,
        curFilter_ := selectFilter r.curFilter_ cur,
        image_ := r.image_ ++ [.SetScanline ((k + 2 ^ 32 - 1) % 2 ^ 32) r.rawScanline_] }
      (some r.rawScanline_) hsel
    refine ⟨r2, h2, ?_⟩
    obtain ⟨s1, s2, s3, s4, s5, s6, s7, s8, s9⟩ := hs
    exact {
      height := by rw [s1]; exact hc.height
      prior := by rw [s2]; exact hc.cur
      cur := by rw [s3]; exact hc.prior
      curRaw := s4
      done := by rw [s7]; exact hc.done
      start := fun e => absurd e (Nat.succ_ne_zero k)
      row := fun _ => ⟨Nat.zero_le _, by rw [s5]; exact hc.prior, by rw [s6]; rfl,
        by rw [s8]; exact hsel⟩ }

/-- A decompressed byte inside a row: it is unfiltered and stored. -/
theorem unfilterByte_count_pixel {z : ZLib} (w h k x : Nat) (r : PNGReader z) (cur : Byte)
    (hc : Count w h k x r) (hk0 : k ≠ 0) (hx : x < w) :
    ∃ r2, r.unfilterByte cur = .ok r2 ∧ Count w h k (x + 1) r2 := by
  obtain ⟨_, he, hy, hf⟩ := hc.row hk0
  obtain ⟨raw, r1, h1, s1, s2, s3, s4, s5, s6, s7, s8, s9⟩ := curFilterUnfilter_ok r cur hf
  unfold unfilterByte
  rw [if_neg (by rw [hc.curRaw, he]; omega), h1]
  simp only []
  refine ⟨_, rfl, ?_⟩
  exact {
    height := by show r1.height_ = h; rw [s1]; exact hc.height
    prior := by show r1.rawPriorScanline_.length = w; rw [s2]; exact hc.prior
    cur := by
      show (r1.rawScanline_.set r1.curRaw_ raw).length = w
      rw [List.length_set, s3]; exact hc.cur
    curRaw := by show r1.curRaw_ + 1 = x + 1; rw [s4, hc.curRaw]
    done := by show r1.imageDone_ = false; rw [s7]; exact hc.done
    start := fun e => absurd e hk0
    row := fun _ => ⟨hx, by show r1.endRaw_ = w; rw [s5]; exact he,
      by show r1.curY_ = k - 1; rw [s6]; exact hy,
      by show r1.curFilter_ ≠ none; rw [s8]; exact hf⟩ }

theorem capacity_row (w h k x : Nat) (hrow : k = 0 ∨ x = w) (hk : k < h) :
    capacity w h (k + 1) 0 + 1 = capacity w h k x := by
  obtain ⟨n, hn⟩ : ∃ n, h - k = n + 1 := ⟨h - k - 1, by omega⟩
  have h1 : h - (k + 1) = n := by omega
  unfold capacity
  rw [if_neg (Nat.succ_ne_zero k), h1]
  by_cases hk0 : k = 0
  · rw [if_pos hk0]
    have : h = n + 1 := by omega
    rw [this, Nat.succ_mul]
    omega
  · rw [if_neg hk0, hn, Nat.succ_mul]
    rcases hrow with h0 | hx
    · exact absurd h0 hk0
    · omega

theorem capacity_pixel (w h k x : Nat) (hk0 : k ≠ 0) (hx : x < w) :
    capacity w h k (x + 1) + 1 = capacity w h k x := by
  unfold capacity
  rw [if_neg hk0, if_neg hk0]
  omega

theorem capacity_eq_zero (w h k x : Nat) (h0 : h ≠ 0) (hk : k ≤ h) (hx : k ≠ 0 → x ≤ w) :
    capacity w h k x = 0 ↔ k = h ∧ x = w := by
  unfold capacity
  by_cases hk0 : k = 0
  · rw [if_pos hk0]
    constructor
    · intro e
      rcases Nat.mul_eq_zero.mp e with e | e
      · exact absurd e h0
      · omega
    · intro ⟨e, _⟩
      omega
  · rw [if_neg hk0]
    have := hx hk0
    constructor
    · intro e
      have e1 : (h - k) * (w + 1) = 0 := by omega
      rcases Nat.mul_eq_zero.mp e1 with e2 | e2
      · omega
      · omega
    · intro ⟨e1, e2⟩
      rw [e1, e2]
      simp

theorem Count_congr {z : ZLib} {w h k x : Nat} {r r2 : PNGReader z} (hc : Count w h k x r)
    (h1 : r2.height_ = r.height_) (h2 : r2.rawPriorScanline_ = r.rawPriorScanline_)
    (h3 : r2.rawScanline_ = r.rawScanline_) (h4 : r2.curRaw_ = r.curRaw_)
    (h5 : r2.endRaw_ = r.endRaw_) (h6 : r2.curY_ = r.curY_)
    (h7 : r2.imageDone_ = r.imageDone_) (h8 : r2.curFilter_ = r.curFilter_) :
    Count w h k x r2 where
  height := by rw [h1]; exact hc.height
  prior := by rw [h2]; exact hc.prior
  cur := by rw [h3]; exact hc.cur
  curRaw := by rw [h4]; exact hc.curRaw
  done := by rw [h7]; exact hc.done
  start := by rw [h5, h6]; exact hc.start
  row := by rw [h5, h6, h8]; exact hc.row

theorem CountDone_congr {z : ZLib} {h : Nat} {r r2 : PNGReader z} (hc : CountDone h r)
    (h1 : r2.height_ = r.height_) (h4 : r2.curRaw_ = r.curRaw_)
    (h5 : r2.endRaw_ = r.endRaw_) (h6 : r2.curY_ = r.curY_)
    (h7 : r2.imageDone_ = r.imageDone_) : CountDone h r2 where
  height := by rw [h1]; exact hc.height
  curRaw := by rw [h4, h5]; exact hc.curRaw
  curY := by rw [h6]; exact hc.curY
  done := by rw [h7]; exact hc.done

/-- The scanline loop counts: it takes as many bytes as the image has room
for, and the first byte beyond raises the overrun error. -/
theorem unfilterLoop_count {z : ZLib} (w h : Nat) (h0 : h ≠ 0) (h32 : h < 2 ^ 32)
    (bytes : List Byte) :
    ∀ (k x : Nat) (r : PNGReader z), Count w h k x r → k ≤ h →
      (k = 0 → ∀ b, bytes.head? = some b → b.val ≤ 4) →
      (bytes.length ≤ capacity w h k x →
        ∃ k2 x2 r2, r.unfilterLoop bytes = .ok r2 ∧ Count w h k2 x2 r2 ∧ k2 ≤ h ∧
          capacity w h k2 x2 + bytes.length = capacity w h k x ∧
          (k ≠ 0 ∨ bytes ≠ [] → k2 ≠ 0)) ∧
      (capacity w h k x < bytes.length →
        ∃ image, r.unfilterLoop bytes = .error ⟨.tooManyPixels, image⟩) := by
  induction bytes with
  | nil =>
    intro k x r hc hk _
    refine ⟨fun _ => ⟨k, x, r, rfl, hc, hk, rfl, ?_⟩, fun hlt => absurd hlt (Nat.not_lt_zero _)⟩
    intro hor
    rcases hor with hk0 | hne
    · exact hk0
    · exact absurd rfl hne
  | cons b bytes ih =>
    intro k x r hc hk hfirst
    rw [unfilterLoop]
    simp only [List.length_cons]
    by_cases hrow : k = 0 ∨ x = w
    · by_cases hkh : k = h
      · have hk0 : k ≠ 0 := by omega
        obtain ⟨_, he, hy, _⟩ := hc.row hk0
        have hx : x = w := by
          rcases hrow with e | e
          · exact absurd e hk0
          · exact e
        have hcap : capacity w h k x = 0 :=
          (capacity_eq_zero w h k x h0 hk (fun _ => by omega)).mpr ⟨hkh, hx⟩
        rw [unfilterByte_overrun r b (by rw [hc.curRaw, he, hx])
          (by rw [hy, hc.height, Nat.sub_add_cancel (Nat.one_le_iff_ne_zero.mpr hk0), hkh])]
        rw [hcap]
        exact ⟨fun hle => absurd hle (by omega), fun _ => ⟨_, rfl⟩⟩
      · have hlt : k < h := by omega
        obtain ⟨r2, h2, hc2⟩ := unfilterByte_count_row w h k x r b hc hrow hlt h32
          (fun e => hfirst e b rfl)
        have hcap := capacity_row w h k x hrow hlt
        rw [h2]
        obtain ⟨ih1, ih2⟩ := ih (k + 1) 0 r2 hc2 (by omega) (fun e => absurd e (by omega))
        refine ⟨fun hle => ?_, fun hgt => ih2 (by omega)⟩
        obtain ⟨k2, x2, r3, h3, hc3, hk3, hcap3, hne3⟩ := ih1 (by omega)
        exact ⟨k2, x2, r3, h3, hc3, hk3, by omega, fun _ => hne3 (Or.inl (by omega))⟩
    · have hk0 : k ≠ 0 := fun e => hrow (Or.inl e)
      obtain ⟨hxw, _, _, _⟩ := hc.row hk0
      have hx : x < w := by
        have : x ≠ w := fun e => hrow (Or.inr e)
        omega
      obtain ⟨r2, h2, hc2⟩ := unfilterByte_count_pixel w h k x r b hc hk0 hx
      have hcap := capacity_pixel w h k x hk0 hx
      rw [h2]
      obtain ⟨ih1, ih2⟩ := ih k (x + 1) r2 hc2 hk (fun e => absurd e hk0)
      refine ⟨fun hle => ?_, fun hgt => ih2 (by omega)⟩
      obtain ⟨k2, x2, r3, h3, hc3, hk3, hcap3, hne3⟩ := ih1 (by omega)
      exact ⟨k2, x2, r3, h3, hc3, hk3, by omega, fun _ => hne3 (Or.inl hk0)⟩

/-- The end of an image-data chunk with room left in the image: nothing
happens. -/
theorem finalScanline_count {z : ZLib} (w h k x : Nat) (r : PNGReader z)
    (hc : Count w h k x r) (h0 : h ≠ 0) (h32 : h < 2 ^ 32) (hk : k ≤ h)
    (hcap : capacity w h k x ≠ 0) : r.finalScanline = r := by
  unfold finalScanline
  rw [if_neg]
  intro ⟨h1, h2⟩
  have hy : (r.height_ + 2 ^ 32 - 1) % 2 ^ 32 = h - 1 := by
    rw [hc.height]
    omega
  rw [hy] at h2
  by_cases hk0 : k = 0
  · obtain ⟨_, _, hy0⟩ := hc.start hk0
    omega
  · obtain ⟨hxw, he, hyk, _⟩ := hc.row hk0
    apply hcap
    rw [capacity_eq_zero w h k x h0 hk (fun _ => hxw)]
    rw [hc.curRaw, he] at h1
    exact ⟨by omega, h1⟩

/-- The end of an image-data chunk with the image full: the image data is
complete. -/
theorem finalScanline_count_full {z : ZLib} (w h k x : Nat) (r : PNGReader z)
    (hc : Count w h k x r) (h0 : h ≠ 0) (h32 : h < 2 ^ 32) (hk : k ≤ h)
    (hcap : capacity w h k x = 0) : CountDone h r.finalScanline := by
  have hk0 : k ≠ 0 := by
    intro e
    have := (capacity_eq_zero w h k x h0 hk (fun hne => absurd e hne)).mp hcap
    omega
  obtain ⟨hxw, he, hyk, _⟩ := hc.row hk0
  obtain ⟨e1, e2⟩ := (capacity_eq_zero w h k x h0 hk (fun _ => hxw)).mp hcap
  have hy : (r.height_ + 2 ^ 32 - 1) % 2 ^ 32 = h - 1 := by
    rw [hc.height]
    omega
  unfold finalScanline
  rw [if_pos ⟨by rw [hc.curRaw, he, e2], by rw [hy, hyk, e1]⟩]
  exact {
    height := hc.height
    curRaw := by show r.curRaw_ = r.endRaw_; rw [hc.curRaw, he, e2]
    curY := by show r.curY_ = h - 1; rw [hyk, e1]
    done := rfl }

/-- The end of a later image-data chunk: the image data stays complete. -/
theorem finalScanline_countDone {z : ZLib} (h : Nat) (r : PNGReader z)
    (hc : CountDone h r) : CountDone h r.finalScanline := by
  unfold finalScanline
  split
  · exact {
      height := hc.height
      curRaw := hc.curRaw
      curY := hc.curY
      done := rfl }
  · exact hc

theorem unfilterLoop_sameOutside {z : ZLib} (bytes : List Byte) (r r2 : PNGReader z)
    (h : r.unfilterLoop bytes = .ok r2) : SameOutside r r2 := by
  rcases unfilterLoop_cases bytes r with ⟨e, image, he, _⟩ | ⟨r3, h3, hs3⟩
  · rw [h] at he
    exact absurd he (by simp)
  · rw [h] at h3
    simp only [Except.ok.injEq] at h3
    rw [h3]
    exact hs3

/-- The chunk loop over sealed image-data chunks counts the decompressed
bytes: with more bytes than the image has room for (`c` of them are still
missing) it raises the overrun error, otherwise it reaches the chunk after
them, with the image data complete exactly if no byte is missing. -/
theorem ReadChunks_IDAT_count {z : ZLib} (w h : Nat) (h0 : h ≠ 0) (h32 : h < 2 ^ 32)
    (ps : List (List Byte)) :
    ∀ (outs : List (List Byte)) (r : PNGReader z) (rest : IStream) (n c : Nat),
      z.decompressAll r.decompressor_.zStm_ ps = some outs →
      r.decompressor_.dst = [] →
      (∀ p ∈ ps, p.length < 2 ^ 32) →
      r.stm_ = sealedChunks (ps.map (fun p => (IDATChunkType.GetValue, p))) ++ rest →
      r.stm_.length ≤ n →
      (r.chunksRead_ = 3 ∨ r.chunksRead_ = 7) →
      ((∃ k x, Count w h k x r ∧ k ≤ h ∧ capacity w h k x = c ∧ c ≠ 0 ∧
          (k = 0 → ∀ b, outs.flatten.head? = some b → b.val ≤ 4)) ∨
        (c = 0 ∧ CountDone h r)) →
      (c < outs.flatten.length →
        ∃ image, ReadChunks n r = .error ⟨.tooManyPixels, image⟩) ∧
      (outs.flatten.length ≤ c →
        ∃ r2, ReadChunks n r = ReadChunks n r2 ∧ r2.stm_ = rest ∧ r2.stm_.length ≤ n ∧
          (r.chunksRead_ = 7 ∨ ps ≠ [] → r2.chunksRead_ = 7) ∧
          (r2.imageDone_ = true ↔ (r.imageDone_ = true ∨ outs.flatten.length = c))) := by
  induction ps with
  | nil =>
    intro outs r rest n c hd _ _ hstm hn _ hinv
    simp only [ZLib.decompressAll, Option.some.injEq] at hd
    subst hd
    simp only [List.flatten_nil, List.length_nil]
    refine ⟨fun hlt => absurd hlt (Nat.not_lt_zero _), fun _ =>
      ⟨r, rfl, by simpa [sealedChunks] using hstm, hn, fun e => e.elim id (absurd rfl), ?_⟩⟩
    rcases hinv with ⟨k, x, hc, _, _, hne, _⟩ | ⟨hc0, hdone⟩
    · rw [hc.done]
      constructor
      · intro e
        exact absurd e (by simp)
      · intro e
        rcases e with e | e
        · exact absurd e (by simp)
        · exact absurd e.symm hne
    · rw [hdone.done]
      simp
  | cons p ps ih =>
    intro outs r rest n c hd hdst hps hstm hn hr37 hinv
    obtain ⟨s2, out, outs2, hz, hd2, houts⟩ := decompressAll_cons z _ p ps outs hd
    subst houts
    simp only [List.map_cons, sealedChunks, List.append_assoc] at hstm
    have hs : r.stm_ ≠ [] := by rw [hstm]; exact sealedChunk_ne_nil _ _ _
    have hp := hps p (List.mem_cons_self _ _)
    have hstm2 : r.stm_ = framedChunk IDATChunkType.GetValue p
        (crc32 (bigEndian32 IDATChunkType.GetValue ++ p)) ++
        (sealedChunks (ps.map (fun p => (IDATChunkType.GetValue, p))) ++ rest) := by
      rw [hstm, sealedChunk_eq_framedChunk]
    have hbytes : r.decompressor_.dst ++ out = out := by rw [hdst, List.nil_append]
    simp only [List.flatten_cons, List.length_append]
    have key : ∀ (r2 : PNGReader z) (c2 : Nat),
        unfilterLoop { r with
          chunksRead_ := 7, compBuffer_ := p,
          decompressor_ := ⟨r.decompressor_.dst ++ out, s2⟩ } (r.decompressor_.dst ++ out) =
          .ok r2 →
        ((∃ k x, Count w h k x r2.finalScanline ∧ k ≤ h ∧ capacity w h k x = c2 ∧ c2 ≠ 0 ∧
            (k = 0 → ∀ b, outs2.flatten.head? = some b → b.val ≤ 4)) ∨
          (c2 = 0 ∧ CountDone h r2.finalScanline)) →
        (c2 < outs2.flatten.length →
          ∃ image, ReadChunks n r = .error ⟨.tooManyPixels, image⟩) ∧
        (outs2.flatten.length ≤ c2 →
          ∃ r3, ReadChunks n r = ReadChunks n r3 ∧ r3.stm_ = rest ∧ r3.stm_.length ≤ n ∧
            r3.chunksRead_ = 7 ∧
            (r3.imageDone_ = true ↔
              (r2.finalScanline.imageDone_ = true ∨ outs2.flatten.length = c2))) := by
      intro r2 c2 hu hinv2
      have hso := unfilterLoop_sameOutside _ _ r2 hu
      have hc7 : r2.finalScanline.chunksRead_ = 7 := by
        rw [finalScanline_chunksRead]
        exact hso.2.1
      have hrc := ReadChunk_IDAT_loop_ok r r2 p _ _ s2 out hp (crc32_lt _) hr37 hstm2 hz hu
      rw [if_neg (by simp)] at hrc
      have hlen := ReadChunk_length hrc
      rw [ReadChunks_step n r _ hn hs hrc]
      have hdec : r2.decompressor_ = ⟨r.decompressor_.dst ++ out, s2⟩ := hso.2.2.2.2.1
      obtain ⟨i1, i2⟩ := ih outs2 { r2.finalScanline with
          decompressor_ := r2.decompressor_.ClearDst,
          stm_ := sealedChunks (ps.map (fun p => (IDATChunkType.GetValue, p))) ++ rest }
        rest n c2 (by simp only [Decompressor.ClearDst, hdec]; exact hd2)
        rfl (fun q hq => hps q (List.mem_cons_of_mem _ hq)) rfl
        (by simp only [] at hlen ⊢; omega) (Or.inr hc7)
        (by
          rcases hinv2 with ⟨k, x, hc, hk, hcap, hne, hf⟩ | ⟨hc0, hdone⟩
          · exact Or.inl ⟨k, x, Count_congr hc rfl rfl rfl rfl rfl rfl rfl rfl, hk, hcap, hne,
              hf⟩
          · exact Or.inr ⟨hc0, CountDone_congr hdone rfl rfl rfl rfl rfl⟩)
      refine ⟨i1, fun hle => ?_⟩
      obtain ⟨r3, e1, e2, e3, e4, e5⟩ := i2 hle
      exact ⟨r3, e1, e2, e3, e4 (Or.inl hc7), e5⟩
    rcases hinv with ⟨k, x, hc, hk, hcap, hne, hfirst⟩ | ⟨hc0, hdone⟩
    · have hc0 : Count w h k x { r with
          chunksRead_ := 7, compBuffer_ := p,
          decompressor_ := ⟨r.decompressor_.dst ++ out, s2⟩ } :=
        Count_congr hc rfl rfl rfl rfl rfl rfl rfl rfl
      obtain ⟨l1, l2⟩ := unfilterLoop_count w h h0 h32 (r.decompressor_.dst ++ out) k x _ hc0 hk
        (by
          intro hk0 b hb
          rw [hbytes] at hb
          apply hfirst hk0 b
          cases out with
          | nil => simp at hb
          | cons o out => simpa using hb)
      rw [hbytes] at l1 l2
      by_cases hout : out.length ≤ capacity w h k x
      · obtain ⟨k2, x2, r2, hu, hc2, hk2, hcap2, hk2ne⟩ := l1 hout
        rw [← hbytes] at hu
        by_cases hfull : capacity w h k2 x2 = 0
        · have hdone2 := finalScanline_count_full w h k2 x2 r2 hc2 h0 h32 hk2 hfull
          obtain ⟨i1, i2⟩ := key r2 0 hu (Or.inr ⟨rfl, hdone2⟩)
          refine ⟨fun hlt => i1 (by omega), fun hle => ?_⟩
          obtain ⟨r3, e1, e2, e3, e4, e5⟩ := i2 (by omega)
          refine ⟨r3, e1, e2, e3, fun _ => e4, ?_⟩
          rw [e5, hdone2.done, hc.done]
          constructor
          · intro _
            right
            omega
          · intro _
            left
            rfl
        · have hfin := finalScanline_count w h k2 x2 r2 hc2 h0 h32 hk2 hfull
          obtain ⟨i1, i2⟩ := key r2 (capacity w h k2 x2) hu (Or.inl ⟨k2, x2, by rw [hfin]; exact hc2,
            hk2, rfl, hfull, by
              intro hk20 b hb
              have hk0 : k = 0 := by
                by_contra hkne
                exact hk2ne (Or.inl hkne) hk20
              have ho : out = [] := by
                by_contra hone
                exact hk2ne (Or.inr hone) hk20
              apply hfirst hk0 b
              rw [ho]
              simpa using hb⟩)
          refine ⟨fun hlt => i1 (by omega), fun hle => ?_⟩
          obtain ⟨r3, e1, e2, e3, e4, e5⟩ := i2 (by omega)
          refine ⟨r3, e1, e2, e3, fun _ => e4, ?_⟩
          rw [e5, hfin, hc2.done, hc.done]
          constructor
          · intro e
            rcases e with e | e
            · exact absurd e (by simp)
            · right
              omega
          · intro e
            rcases e with e | e
            · exact absurd e (by simp)
            · right
              omega
      · obtain ⟨image, hu⟩ := l2 (by omega)
        rw [← hbytes] at hu
        have herr := ReadChunk_IDAT_loop_error r p _ _ s2 out _ hp hr37 hstm2 hz hu
        exact ⟨fun _ => ⟨image, ReadChunks_error n r _ hn hs herr⟩,
          fun hle => absurd hle (by omega)⟩
    · subst hc0
      cases out with
      | nil =>
        obtain ⟨i1, i2⟩ := key { r with
            chunksRead_ := 7, compBuffer_ := p,
            decompressor_ := ⟨r.decompressor_.dst ++ [], s2⟩ } 0
          (by rw [show r.decompressor_.dst ++ ([] : List Byte) = [] by rw [hdst]; rfl]; rfl)
          (Or.inr ⟨rfl, finalScanline_countDone h _
            (CountDone_congr hdone rfl rfl rfl rfl rfl)⟩)
        refine ⟨fun hlt => i1 (by simpa using hlt), fun hle => ?_⟩
        obtain ⟨r3, e1, e2, e3, e4, e5⟩ := i2 (by simpa using hle)
        refine ⟨r3, e1, e2, e3, fun _ => e4, ?_⟩
        rw [hdone.done]
        have hd3 := (finalScanline_countDone h { r with
            chunksRead_ := 7, compBuffer_ := p,
            decompressor_ := ⟨r.decompressor_.dst ++ [], s2⟩ }
            (CountDone_congr hdone rfl rfl rfl rfl rfl)).done
        rw [e5, hd3]
        simp
      | cons o out =>
        have hu : unfilterLoop { r with
            chunksRead_ := 7, compBuffer_ := p,
            decompressor_ := ⟨r.decompressor_.dst ++ o :: out, s2⟩ }
            (r.decompressor_.dst ++ o :: out) = .error ⟨.tooManyPixels, r.image_⟩ := by
          have hov := unfilterByte_overrun { r with
              chunksRead_ := 7, compBuffer_ := p,
              decompressor_ := ⟨r.decompressor_.dst ++ o :: out, s2⟩ } o hdone.curRaw
            (by
              show (r.curY_ + 1) % 2 ^ 32 = r.height_ % 2 ^ 32
              rw [hdone.curY, hdone.height]
              congr 1
              omega)
          rw [hbytes] at hov ⊢
          rw [unfilterLoop, hov]
        have herr := ReadChunk_IDAT_loop_error r p _ _ s2 (o :: out) _ hp hr37 hstm2 hz hu
        exact ⟨fun _ => ⟨_, ReadChunks_error n r _ hn hs herr⟩,
          fun hle => absurd hle (by simp)⟩

/-- `ReadChunk` on a framed, empty end chunk after header and palette when
no image-data chunk has been read. -/
theorem ReadChunk_IEND_without_IDAT {z : ZLib} (r : PNGReader z) (crc : Nat) (rest : IStream)
    (hc : crc < 2 ^ 32) (hr : r.chunksRead_ = 3)
    (hstm : r.stm_ = framedChunk IENDChunkType.GetValue [] crc ++ rest) :
    r.ReadChunk =
      if crc ≠ crc32 (bigEndian32 IENDChunkType.GetValue ++ []) then
        .error ⟨.badCRC, r.image_⟩
      else .ok { r with stm_ := rest, chunksRead_ := 11 } := by
  have hend : r.chunksRead_ &&& IENDChunk = 0 := by rw [hr]; decide
  have hh : handleChunk (z := z) ⟨[] ++ (bigEndian32 crc ++ rest), ([] : List Byte).length,
      ⟨IENDChunkType.GetValue⟩,
      CRCCalculator.new.Append (bigEndian32 IENDChunkType.GetValue)⟩ r =
      .ok (⟨[] ++ (bigEndian32 crc ++ rest), ([] : List Byte).length,
        ⟨IENDChunkType.GetValue⟩,
        CRCCalculator.new.Append (bigEndian32 IENDChunkType.GetValue)⟩,
        { r with chunksRead_ := 11 }) := by
    have hp : r.ProcessChunksRead IENDChunk = .ok { r with chunksRead_ := 11 } := by
      have h38 : (3 : Nat) &&& 8 = 0 := by decide
      simp [ProcessChunksRead, hr, IHDRChunk, PLTEChunk, IDATChunk, IENDChunk, h38]
    rw [handleChunk_IEND _ _ rfl, requiredChunk, hp]
    rfl
  exact ReadChunk_framed r IENDChunkType.GetValue [] crc rest _ _ (by decide) (by decide) hc
    hstm hend hh rfl (by simp)

/-- The chunk loop on a stream of sealed chunks: header, palette, image-data
chunks and end chunk.  It counts the decompressed bytes of the image-data
chunks against the `h * (w + 1)` bytes of the image. -/
theorem ReadChunks_counted {z : ZLib} (w h : Nat) (palette : List Byte)
    (ps outs : List (List Byte)) (r : PNGReader z) (n : Nat)
    (hw : w ≠ 0) (h0 : h ≠ 0) (hw32 : w < 2 ^ 32) (h32 : h < 2 ^ 32)
    (hp3 : palette.length % 3 = 0) (hp : palette.length < 2 ^ 32)
    (hps : ∀ p ∈ ps, p.length < 2 ^ 32)
    (hd : z.decompressAll r.decompressor_.zStm_ ps = some outs)
    (hfirst : ∀ b, outs.flatten.head? = some b → b.val ≤ 4)
    (hdst : r.decompressor_.dst = []) (hr : r.chunksRead_ = 0)
    (hy : r.curY_ = 2 ^ 32 - 1) (hdone : r.imageDone_ = false)
    (hstm : r.stm_ = sealedChunks ((IHDRChunkType.GetValue, IHDRPayload w h) ::
      (PLTEChunkType.GetValue, palette) ::
      (ps.map (fun p => (IDATChunkType.GetValue, p)) ++ [(IENDChunkType.GetValue, [])])))
    (hn : r.stm_.length ≤ n) :
    (h * (w + 1) < outs.flatten.length →
      ∃ image, ReadChunks n r = .error ⟨.tooManyPixels, image⟩) ∧
    (outs.flatten.length ≤ h * (w + 1) →
      ∃ r2, ReadChunks n r = .ok r2 ∧ (r2.chunksRead_ = AllRequiredChunks ↔ ps ≠ []) ∧
        (r2.imageDone_ = true ↔ outs.flatten.length = h * (w + 1))) := by
  simp only [sealedChunks, sealedChunks_append, List.append_nil] at hstm
  have hs : r.stm_ ≠ [] := by rw [hstm]; exact sealedChunk_ne_nil _ _ _
  obtain ⟨r1, h1, hs1, hc1, hh1, hp1, hx1, hraw1, hend1, hy1, hd1, hdn1⟩ :
      ∃ r1 : PNGReader z, r.ReadChunk = .ok r1 ∧
        r1.stm_ = sealedChunk PLTEChunkType.GetValue palette ++
          (sealedChunks (ps.map (fun p => (IDATChunkType.GetValue, p))) ++
            sealedChunk IENDChunkType.GetValue []) ∧
        r1.chunksRead_ = 1 ∧
        r1.height_ = h ∧ r1.rawPriorScanline_.length = w ∧ r1.rawScanline_.length = w ∧
        r1.curRaw_ = 0 ∧ r1.endRaw_ = 0 ∧ r1.curY_ = 2 ^ 32 - 1 ∧
        r1.decompressor_ = r.decompressor_ ∧ r1.imageDone_ = false :=
    ⟨_, ReadChunk_IHDR_sealed r w h _ hw h0 hw32 h32 hr hstm, rfl, rfl, rfl,
      resize_length _ _, resize_length _ _, rfl, rfl, hy, rfl, hdone⟩
  have hlen1 := ReadChunk_length h1
  rw [ReadChunks_step n r r1 hn hs h1]
  have h2 := ReadChunk_PLTE_framed r1 palette
    (crc32 (bigEndian32 PLTEChunkType.GetValue ++ palette)) _ hp3 hp (crc32_lt _) hc1
    (by rw [hs1, sealedChunk_eq_framedChunk])
  rw [if_neg (by simp)] at h2
  have hlen2 := ReadChunk_length h2
  rw [ReadChunks_step n r1 _ (by omega) (by rw [hs1]; exact sealedChunk_ne_nil _ _ _) h2]
  have hcap : capacity w h 0 0 = h * (w + 1) := by simp [capacity]
  have hcap0 : h * (w + 1) ≠ 0 := Nat.mul_ne_zero h0 (Nat.succ_ne_zero w)
  by_cases hps0 : ps = []
  · subst hps0
    simp only [ZLib.decompressAll, Option.some.injEq] at hd
    subst hd
    simp only [List.flatten_nil, List.length_nil]
    refine ⟨fun hlt => absurd hlt (Nat.not_lt_zero _), fun _ => ?_⟩
    have h4 := ReadChunk_IEND_without_IDAT { r1 with
        stm_ := sealedChunks (([] : List (List Byte)).map (fun p => (IDATChunkType.GetValue, p))) ++
          sealedChunk IENDChunkType.GetValue [],
        chunksRead_ := 3,
        image_ := r1.image_ ++ paletteWrites 0 palette }
      (crc32 (bigEndian32 IENDChunkType.GetValue ++ [])) [] (crc32_lt _) rfl
      (by rw [sealedChunk_eq_framedChunk]; simp [sealedChunks])
    rw [if_neg (by simp)] at h4
    rw [ReadChunks_step n _ _ (by simp only [] at hlen2 ⊢; omega)
      (by
        have := sealedChunk_ne_nil IENDChunkType.GetValue [] []
        simpa [sealedChunks] using this) h4, ReadChunks_nil n _ rfl]
    refine ⟨_, rfl, ?_, ?_⟩
    · show (11 : Nat) = AllRequiredChunks ↔ _
      simp [AllRequiredChunks]
    · show r1.imageDone_ = true ↔ _
      rw [hdn1]
      constructor
      · intro e
        exact absurd e (by simp)
      · intro e
        exact absurd e.symm hcap0
  · obtain ⟨c1, c2⟩ := ReadChunks_IDAT_count w h h0 h32 ps outs
      { r1 with
        stm_ := sealedChunks (ps.map (fun p => (IDATChunkType.GetValue, p))) ++
          sealedChunk IENDChunkType.GetValue [],
        chunksRead_ := 3,
        image_ := r1.image_ ++ paletteWrites 0 palette }
      (sealedChunk IENDChunkType.GetValue []) n (h * (w + 1))
      (by rw [hd1]; exact hd) (by rw [hd1]; exact hdst) hps rfl
      (by simp only [] at hlen2 ⊢; omega) (Or.inl rfl)
      (Or.inl ⟨0, 0, {
          height := hh1
          prior := hp1
          cur := hx1
          curRaw := hraw1
          done := hdn1
          start := fun _ => ⟨rfl, hend1, hy1⟩
          row := fun e => absurd rfl e },
        Nat.zero_le _, hcap, hcap0, fun _ => hfirst⟩)
    refine ⟨c1, fun hle => ?_⟩
    obtain ⟨r3, h3, hs3, hlen3, hc3, hdn3⟩ := c2 hle
    rw [h3]
    have h4 := ReadChunk_IEND_framed r3 (crc32 (bigEndian32 IENDChunkType.GetValue ++ [])) []
      (crc32_lt _) (hc3 (Or.inr hps0)) (by rw [hs3, sealedChunk_eq_framedChunk]; simp)
    rw [if_neg (by simp)] at h4
    rw [ReadChunks_step n r3 _ hlen3 (by rw [hs3]; exact sealedChunk_ne_nil _ _ []) h4,
      ReadChunks_nil n _ rfl]
    refine ⟨_, rfl, ?_, ?_⟩
    · show (15 : Nat) = AllRequiredChunks ↔ _
      simp [AllRequiredChunks, hps0]
    · show r3.imageDone_ = true ↔ _
      rw [hdn3]
      show (r1.imageDone_ = true ∨ _) ↔ _
      rw [hdn1]
      simp

/-- The outcome of `LoadPNG` on such a stream, by the number of decompressed
bytes. -/
theorem LoadPNG_counted (z : ZLib) (d : z.InflateState) (w h : Nat) (palette : List Byte)
    (ps outs : List (List Byte)) (hinit : z.inflateInit = some d)
    (hw : w ≠ 0) (h0 : h ≠ 0) (hw32 : w < 2 ^ 32) (h32 : h < 2 ^ 32)
    (hp3 : palette.length % 3 = 0) (hp : palette.length < 2 ^ 32)
    (hps : ∀ p ∈ ps, p.length < 2 ^ 32)
    (hd : z.decompressAll d ps = some outs)
    (hfirst : ∀ b, outs.flatten.head? = some b → b.val ≤ 4) :
    (LoadPNG z (PngSignature ++ sealedChunks ((IHDRChunkType.GetValue, IHDRPayload w h) ::
        (PLTEChunkType.GetValue, palette) ::
        (ps.map (fun p => (IDATChunkType.GetValue, p)) ++
          [(IENDChunkType.GetValue, [])])))).thrown =
      if outs.flatten.length = h * (w + 1) then none
      else if h * (w + 1) < outs.flatten.length then some .tooManyPixels
      else if ps = [] then some .missingRequiredChunk
      else some .incompleteImageData := by
  have hnew := Decompressor_new_of_inflateInit z d hinit
  generalize hrest : sealedChunks ((IHDRChunkType.GetValue, IHDRPayload w h) ::
        (PLTEChunkType.GetValue, palette) ::
        (ps.map (fun p => (IDATChunkType.GetValue, p)) ++
          [(IENDChunkType.GetValue, [])])) = rest
  obtain ⟨c1, c2⟩ := ReadChunks_counted w h palette ps outs
    (afterSignature ⟨[], d⟩ rest) rest.length hw h0 hw32 h32 hp3 hp hps hd hfirst rfl rfl rfl
    rfl hrest.symm (le_refl _)
  by_cases hgt : h * (w + 1) < outs.flatten.length
  · obtain ⟨image, he⟩ := c1 hgt
    rw [LoadPNG_of_ReadChunks_error z _ _ _ hnew he, if_neg (by omega), if_pos hgt]
  · obtain ⟨r2, hok, hall, hdn⟩ := c2 (by omega)
    rw [LoadPNG_of_ReadChunks_ok z _ _ r2 hnew hok, if_neg hgt]
    by_cases hps0 : ps = []
    · have hnall : r2.chunksRead_ ≠ AllRequiredChunks := fun e => hall.mp e hps0
      have hne : outs.flatten.length ≠ h * (w + 1) := by
        subst hps0
        simp only [ZLib.decompressAll, Option.some.injEq] at hd
        subst hd
        simp only [List.flatten_nil, List.length_nil]
        exact (Nat.mul_ne_zero h0 (Nat.succ_ne_zero w)).symm
      rw [if_pos hnall, if_neg hne, if_pos hps0]
    · have hallr : r2.chunksRead_ = AllRequiredChunks := hall.mpr hps0
      rw [if_neg (by simpa using hallr)]
      by_cases heq : outs.flatten.length = h * (w + 1)
      · have : r2.imageDone_ = true := hdn.mpr heq
        rw [if_neg (by simp [this]), if_pos heq]
      · have : r2.imageDone_ = false := by
          cases hb : r2.imageDone_ with
          | false => rfl
          | true => exact absurd (hdn.mp hb) heq
        rw [if_pos this, if_neg heq, if_neg hps0]

/-- C19: on a stream made of the signature, the header chunk of a `w` x `h`
image, a palette chunk, image-data chunks and the end chunk, where the
decompressor accepts the payloads and the first decompressed byte is a
filter type 0..4, decoding succeeds exactly if the decompressed bytes of all
image-data chunks number `h * (w + 1)`.  With more bytes it fails with the
too-many-pixels error, which any byte after the last scanline is full raises.
With fewer bytes it fails with the incomplete-image-data error, or with the
missing-required-chunk error when there is no image-data chunk at all. -/
theorem decompressed_length_decides (z : ZLib) (d : z.InflateState) (w h : Nat)
    (palette : List Byte) (ps outs : List (List Byte)) (hinit : z.inflateInit = some d)
    (hw : w ≠ 0) (h0 : h ≠ 0) (hw32 : w < 2 ^ 32) (h32 : h < 2 ^ 32)
    (hp3 : palette.length % 3 = 0) (hp : palette.length < 2 ^ 32)
    (hps : ∀ p ∈ ps, p.length < 2 ^ 32)
    (hd : z.decompressAll d ps = some outs)
    (hfirst : ∀ b, outs.flatten.head? = some b → b.val ≤ 4) :
    ((LoadPNG z (PngSignature ++ sealedChunks ((IHDRChunkType.GetValue, IHDRPayload w h) ::
        (PLTEChunkType.GetValue, palette) ::
        (ps.map (fun p => (IDATChunkType.GetValue, p)) ++
          [(IENDChunkType.GetValue, [])])))).thrown = none ↔
      outs.flatten.length = h * (w + 1)) ∧
    (h * (w + 1) < outs.flatten.length →
      (LoadPNG z (PngSignature ++ sealedChunks ((IHDRChunkType.GetValue, IHDRPayload w h) ::
        (PLTEChunkType.GetValue, palette) ::
        (ps.map (fun p => (IDATChunkType.GetValue, p)) ++
          [(IENDChunkType.GetValue, [])])))).thrown = some .tooManyPixels) ∧
    (outs.flatten.length < h * (w + 1) →
      (LoadPNG z (PngSignature ++ sealedChunks ((IHDRChunkType.GetValue, IHDRPayload w h) ::
        (PLTEChunkType.GetValue, palette) ::
        (ps.map (fun p => (IDATChunkType.GetValue, p)) ++
          [(IENDChunkType.GetValue, [])])))).thrown =
        some (if ps = [] then .missingRequiredChunk else .incompleteImageData)) ∧
    (∀ (r : PNGReader z) (cur : Byte), r.curRaw_ = r.endRaw_ →
      (r.curY_ + 1) % 2 ^ 32 = r.height_ % 2 ^ 32 →
      r.unfilterByte cur = .error ⟨.tooManyPixels, r.image_⟩) := by
  rw [LoadPNG_counted z d w h palette ps outs hinit hw h0 hw32 h32 hp3 hp hps hd hfirst]
  refine ⟨?_, ?_, ?_, fun r cur h1 h2 => unfilterByte_overrun r cur h1 h2⟩
  · by_cases heq : outs.flatten.length = h * (w + 1)
    · rw [if_pos heq]
      exact ⟨fun _ => heq, fun _ => rfl⟩
    · rw [if_neg heq]
      refine ⟨fun e => ?_, fun e => absurd e heq⟩
      exfalso
      by_cases hgt : h * (w + 1) < outs.flatten.length
      · rw [if_pos hgt] at e
        exact absurd e (by simp)
      · rw [if_neg hgt] at e
        by_cases hps0 : ps = []
        · rw [if_pos hps0] at e
          exact absurd e (by simp)
        · rw [if_neg hps0] at e
          exact absurd e (by simp)
  · intro hgt
    rw [if_neg (by omega), if_pos hgt]
  · intro hlt
    rw [if_neg (by omega), if_neg (by omega)]
    by_cases hps0 : ps = []
    · rw [if_pos hps0, if_pos hps0]
    · rw [if_neg hps0, if_neg hps0]

theorem decompressed_length_decides_witness :
    (LoadPNG ZLib.stored (PngSignature ++ sealedChunks
        ((IHDRChunkType.GetValue, IHDRPayload 1 1) :: (PLTEChunkType.GetValue, []) ::
          (([[0, 7]] : List (List Byte)).map (fun p => (IDATChunkType.GetValue, p)) ++
            [(IENDChunkType.GetValue, [])])))).thrown = none ∧
    (LoadPNG ZLib.stored (PngSignature ++ sealedChunks
        ((IHDRChunkType.GetValue, IHDRPayload 1 1) :: (PLTEChunkType.GetValue, []) ::
          (([[0, 7], [9]] : List (List Byte)).map (fun p => (IDATChunkType.GetValue, p)) ++
            [(IENDChunkType.GetValue, [])])))).thrown = some .tooManyPixels ∧
    (LoadPNG ZLib.stored (PngSignature ++ sealedChunks
        ((IHDRChunkType.GetValue, IHDRPayload 1 1) :: (PLTEChunkType.GetValue, []) ::
          (([[0]] : List (List Byte)).map (fun p => (IDATChunkType.GetValue, p)) ++
            [(IENDChunkType.GetValue, [])])))).thrown = some .incompleteImageData :=
  ⟨(decompressed_length_decides ZLib.stored () 1 1 [] [[0, 7]] [[0, 7]] rfl (by decide)
      (by decide) (by decide) (by decide) rfl (by decide) (by simp) rfl
      (by simp)).1.mpr rfl,
    (decompressed_length_decides ZLib.stored () 1 1 [] [[0, 7], [9]] [[0, 7], [9]] rfl
      (by decide) (by decide) (by decide) (by decide) rfl (by decide) (by simp) rfl
      (by simp)).2.1 (by decide),
    (decompressed_length_decides ZLib.stored () 1 1 [] [[0]] [[0]] rfl (by decide)
      (by decide) (by decide) (by decide) rfl (by decide) (by simp) rfl
      (by simp)).2.2.1 (by decide)⟩

/-! ## Raw stream I/O (claim C26) -/

theorem WriteByte_bad (stm : OStream) (b : Byte) (h : stm.good = false) :
    WriteByte stm b = .error .badStreamWriteByte := by
  simp [WriteByte, h]

theorem WriteUInt32_bad (stm : OStream) (ui : Nat) (h : stm.good = false) :
    WriteUInt32 stm ui = .error .badStreamWriteByte := by
  simp [WriteUInt32, WriteByte_bad _ _ h]

theorem ReadUInt32_short (stm : IStream) (h : stm.length < 4) :
    ReadUInt32 stm = .error .badStreamReadByte := by
  rcases stm with _ | ⟨b0, _ | ⟨b1, _ | ⟨b2, _ | ⟨b3, s⟩⟩⟩⟩ <;>
    first
    | (simp only [List.length_cons] at h; omega)
    | simp [ReadUInt32, ReadByte]

theorem ReadBuffer_short (stm : IStream) (n : Nat) (h : stm.length < n) :
    ReadBuffer stm n = .error .badStreamReadByte := by
  induction n generalizing stm with
  | zero => omega
  | succ n ih =>
    cases stm with
    | nil => simp [ReadBuffer, ReadByte]
    | cons b stm =>
      simp only [List.length_cons] at h
      simp [ReadBuffer, ReadByte, ih stm (by omega)]

theorem ReadBuffer_enough (stm : IStream) (n : Nat) (h : n ≤ stm.length) :
    ReadBuffer stm n = .ok (stm.take n, stm.drop n) := by
  have := ReadBuffer_append (stm.take n) (stm.drop n)
  rw [List.take_append_drop, List.length_take, Nat.min_eq_left h] at this
  exact this

/-- C26: for every 32-bit value `v`, `WriteUInt32` on a good stream appends
exactly the four bytes of `v`, most significant first (and throws on a stream
that is not good), and `ReadUInt32` on those bytes returns `v` and leaves
what follows them; `ReadUInt32` throws when fewer than four bytes are left,
and `ReadBuffer` of length `n` throws when fewer than `n` bytes are left,
whereas with `n` bytes or more it returns the first `n`. -/
theorem uint32_stream_round_trip (v : Nat) (hv : v < 2 ^ 32) :
    (∀ stm : OStream, stm.good = true →
      WriteUInt32 stm v = .ok ⟨stm.bytes ++
        [toByte (v / 2 ^ 24), toByte (v / 2 ^ 16), toByte (v / 2 ^ 8), toByte v], true⟩) ∧
    (∀ stm : OStream, stm.good = false → WriteUInt32 stm v = .error .badStreamWriteByte) ∧
    uint32OfBytes (toByte (v / 2 ^ 24)) (toByte (v / 2 ^ 16)) (toByte (v / 2 ^ 8)) (toByte v) =
      v ∧
    (∀ rest : IStream,
      ReadUInt32 ([toByte (v / 2 ^ 24), toByte (v / 2 ^ 16), toByte (v / 2 ^ 8), toByte v] ++
        rest) = .ok (v, rest)) ∧
    (∀ stm : IStream, stm.length < 4 → ReadUInt32 stm = .error .badStreamReadByte) ∧
    (∀ (stm : IStream) (n : Nat), stm.length < n →
      ReadBuffer stm n = .error .badStreamReadByte) ∧
    (∀ (stm : IStream) (n : Nat), n ≤ stm.length →
      ReadBuffer stm n = .ok (stm.take n, stm.drop n)) := by
  refine ⟨fun stm h => WriteUInt32_good stm v h, fun stm h => WriteUInt32_bad stm v h, ?_,
    fun rest => ReadUInt32_bigEndian32 v hv rest, ReadUInt32_short, ReadBuffer_short,
    ReadBuffer_enough⟩
  simp only [uint32OfBytes, toByte]
  omega

theorem uint32_stream_round_trip_witness :
    WriteUInt32 ⟨[], true⟩ 0x89ABCDEF = .ok ⟨[0x89, 0xAB, 0xCD, 0xEF], true⟩ ∧
    ReadUInt32 [0x89, 0xAB, 0xCD, 0xEF, 7] = .ok (0x89ABCDEF, [7]) ∧
    ReadUInt32 [1, 2, 3] = .error .badStreamReadByte ∧
    ReadBuffer [1, 2, 3] 4 = .error .badStreamReadByte :=
  ⟨(uint32_stream_round_trip 0x89ABCDEF (by decide)).1 ⟨[], true⟩ rfl,
    (uint32_stream_round_trip 0x89ABCDEF (by decide)).2.2.2.1 [7],
    (uint32_stream_round_trip 0x89ABCDEF (by decide)).2.2.2.2.1 [1, 2, 3] (by decide),
    (uint32_stream_round_trip 0x89ABCDEF (by decide)).2.2.2.2.2.1 [1, 2, 3] 4 (by decide)⟩

/-! ## The CRC of a split byte sequence (claim C27) -/

theorem foldl_Append_flatten (crc : CRCCalculator) (parts : List (List Byte)) :
    parts.foldl CRCCalculator.Append crc = crc.Append parts.flatten := by
  induction parts generalizing crc with
  | nil => rfl
  | cons a parts ih => rw [List.foldl_cons, ih, Append_Append, List.flatten_cons]

/-- C27: the running CRC depends only on the concatenation of the bytes
appended.  `Append(a)` followed by `Append(b)` leaves the calculator as
`Append(a ++ b)` does, and so does any sequence of `Append` calls as one call
on the concatenation; `Append` of a single byte is `Append` of the one-byte
buffer; `Append` of a 32-bit value is `Append` of its four bytes, most
significant first. -/
theorem CRCCalculator_Append_concatenation (crc : CRCCalculator) :
    (∀ a b : List Byte, (crc.Append a).Append b = crc.Append (a ++ b)) ∧
    (∀ parts : List (List Byte),
      parts.foldl CRCCalculator.Append crc = crc.Append parts.flatten) ∧
    (∀ val : Byte, crc.AppendByte val = crc.Append [val]) ∧
    (∀ val : Nat, crc.AppendUInt32 val =
      crc.Append [toByte (val / 2 ^ 24), toByte (val / 2 ^ 16), toByte (val / 2 ^ 8),
        toByte val]) :=
  ⟨fun a b => Append_Append crc a b, fun parts => foldl_Append_flatten crc parts,
    fun _ => rfl, fun val => AppendUInt32_eq crc val⟩

/-! ## What the chunk writer's CRC covers (claim C28) -/

/-- C28 as stated does not hold: the writer constructed for the header chunk
(declared length 13, type `IHDR`) has written length and type, but its CRC
calculator holds the CRC of the four type bytes only, which differs from the
CRC of the length bytes followed by the type bytes. -/
theorem chunk_writer_crc_leaves_out_length :
    PNGChunkWriter.new ⟨[], true⟩ 13 IHDRChunkType =
      .ok ⟨⟨[0, 0, 0, 13, 73, 72, 68, 82], true⟩, 13,
        CRCCalculator.new.Append [73, 72, 68, 82]⟩ ∧
    CRCCalculator.new.Append [73, 72, 68, 82] ≠
      CRCCalculator.new.Append [0, 0, 0, 13, 73, 72, 68, 82] :=
  ⟨by rfl, by decide!⟩

/-- C28, amended: on construction for a good stream the chunk writer writes the
declared length and then the type code, four bytes each, most significant
first, and accumulates the type code into the chunk's fresh CRC, and only the
type code; on a stream that is not good it throws. -/
theorem chunk_writer_construction (stm : OStream) (length : Nat) (chunkType : PNGChunkType) :
    (stm.good = true →
      PNGChunkWriter.new stm length chunkType =
        .ok ⟨⟨stm.bytes ++ bigEndian32 length ++ bigEndian32 chunkType.GetValue, true⟩, length,
          CRCCalculator.new.Append (bigEndian32 chunkType.GetValue)⟩) ∧
    (stm.good = false →
      PNGChunkWriter.new stm length chunkType = .error .badStreamWriteByte) := by
  constructor
  · intro h
    exact PNGChunkWriter_new_good stm length chunkType h
  · intro h
    simp only [PNGChunkWriter.new, WriteUInt32_bad _ _ h]

theorem chunk_writer_construction_witness :
    PNGChunkWriter.new ⟨[7], true⟩ 0 IENDChunkType =
      .ok ⟨⟨[7] ++ bigEndian32 0 ++ bigEndian32 IENDChunkType.GetValue, true⟩, 0,
        CRCCalculator.new.Append (bigEndian32 IENDChunkType.GetValue)⟩ :=
  (chunk_writer_construction ⟨[7], true⟩ 0 IENDChunkType).1 rfl

/-! ## The Paeth predictor (claim C29) -/

/-- C29: for `left`, `above`, `aboveLeft` in 0..255, `PaethPredictor` returns
one of the three whose distance to `p = left + above - aboveLeft` is minimal
among the three: `left` when its distance is minimal, otherwise `above` when
its distance is minimal, otherwise `aboveLeft`, so that ties go to the first
in the order left, above, aboveLeft.  The result lies in 0..255. -/
theorem PaethPredictor_nearest (left above aboveLeft : Int)
    (hl : 0 ≤ left ∧ left ≤ 255) (ha : 0 ≤ above ∧ above ≤ 255)
    (hc : 0 ≤ aboveLeft ∧ aboveLeft ≤ 255) :
    (PaethFilter.PaethPredictor left above aboveLeft = left ∨
      PaethFilter.PaethPredictor left above aboveLeft = above ∨
      PaethFilter.PaethPredictor left above aboveLeft = aboveLeft) ∧
    |left + above - aboveLeft - PaethFilter.PaethPredictor left above aboveLeft| ≤
      |left + above - aboveLeft - left| ∧
    |left + above - aboveLeft - PaethFilter.PaethPredictor left above aboveLeft| ≤
      |left + above - aboveLeft - above| ∧
    |left + above - aboveLeft - PaethFilter.PaethPredictor left above aboveLeft| ≤
      |left + above - aboveLeft - aboveLeft| ∧
    (|left + above - aboveLeft - left| ≤ |left + above - aboveLeft - above| →
      |left + above - aboveLeft - left| ≤ |left + above - aboveLeft - aboveLeft| →
      PaethFilter.PaethPredictor left above aboveLeft = left) ∧
    (|left + above - aboveLeft - above| < |left + above - aboveLeft - left| →
      |left + above - aboveLeft - above| ≤ |left + above - aboveLeft - aboveLeft| →
      PaethFilter.PaethPredictor left above aboveLeft = above) ∧
    (|left + above - aboveLeft - aboveLeft| < |left + above - aboveLeft - left| →
      |left + above - aboveLeft - aboveLeft| < |left + above - aboveLeft - above| →
      PaethFilter.PaethPredictor left above aboveLeft = aboveLeft) ∧
    0 ≤ PaethFilter.PaethPredictor left above aboveLeft ∧
    PaethFilter.PaethPredictor left above aboveLeft ≤ 255 := by
  obtain ⟨hl0, hl1⟩ := hl
  obtain ⟨ha0, ha1⟩ := ha
  obtain ⟨hc0, hc1⟩ := hc
  simp only [PaethFilter.PaethPredictor]
  rcases abs_cases (left + above - aboveLeft - left) with ⟨e1, _⟩ | ⟨e1, _⟩ <;>
  rcases abs_cases (left + above - aboveLeft - above) with ⟨e2, _⟩ | ⟨e2, _⟩ <;>
  rcases abs_cases (left + above - aboveLeft - aboveLeft) with ⟨e3, _⟩ | ⟨e3, _⟩ <;>
  split_ifs <;>
  refine ⟨?_, ?_, ?_, ?_, ?_, ?_, ?_, ?_, ?_⟩ <;>
  intros <;>
  omega

theorem PaethPredictor_nearest_witness :
    PaethFilter.PaethPredictor 10 10 10 = 10 ∧ PaethFilter.PaethPredictor 0 100 0 = 100 ∧
    PaethFilter.PaethPredictor 0 255 100 = 100 :=
  ⟨(PaethPredictor_nearest 10 10 10 (by decide) (by decide) (by decide)).2.2.2.2.1
      (by decide) (by decide),
    (PaethPredictor_nearest 0 100 0 (by decide) (by decide) (by decide)).2.2.2.2.2.1
      (by decide) (by decide),
    (PaethPredictor_nearest 0 255 100 (by decide) (by decide) (by decide)).2.2.2.2.2.2.1
      (by decide) (by decide)⟩

/-! ## The Paeth filter along a scanline (claim C30) -/

/-- One call of `PaethFilter::Unfilter` when `x` bytes of the scanline have
been unfiltered. -/
theorem PaethFilter_Unfilter_cursorsAt (prior : Option (List Byte)) (x : Nat)
    (left filtered : Byte) :
    (PaethFilter.cursorsAt prior x left).Unfilter filtered =
      (paethRawByte prior x filtered left,
        PaethFilter.cursorsAt prior (x + 1) (paethRawByte prior x filtered left)) := by
  cases prior with
  | none =>
    by_cases hx : x = 0 <;>
      simp [PaethFilter.Unfilter, PaethFilter.cursorsAt, paethRawByte, hx]
  | some p =>
    have h0 : deref p = p.getD 0 0 := by simpa using deref_drop p 0
    by_cases hx : x = 0
    · subst hx
      simp [PaethFilter.Unfilter, PaethFilter.cursorsAt, paethRawByte, h0]
    · simp [PaethFilter.Unfilter, PaethFilter.cursorsAt, paethRawByte, hx, deref_drop]

theorem PaethFilter_BeginScanline_cursorsAt (f0 : PaethFilter) (prior : Option (List Byte)) :
    f0.BeginScanline prior = PaethFilter.cursorsAt prior 0 0 := by
  cases prior <;> simp [PaethFilter.BeginScanline, PaethFilter.cursorsAt]

/-- The bytes `Unfilter` returns from the state reached after `x` bytes, for
the rest of the filtered scanline. -/
theorem PaethFilter_unfilterBytes_cursorsAt (prior : Option (List Byte)) (fs : List Byte) :
    ∀ (x : Nat) (left : Byte),
      (Filter.unfilterBytes (.paeth (PaethFilter.cursorsAt prior x left)) fs).length =
        fs.length ∧
      ∀ i, i < fs.length →
        (Filter.unfilterBytes (.paeth (PaethFilter.cursorsAt prior x left)) fs).getD i 0 =
          paethRawByte prior (x + i) (fs.getD i 0)
            (if i = 0 then left else
              (Filter.unfilterBytes (.paeth (PaethFilter.cursorsAt prior x left)) fs).getD
                (i - 1) 0) := by
  induction fs with
  | nil =>
    intro x left
    exact ⟨rfl, fun i hi => absurd hi (Nat.not_lt_zero _)⟩
  | cons b fs ih =>
    intro x left
    simp only [Filter.unfilterBytes, Filter.Unfilter, PaethFilter_Unfilter_cursorsAt]
    obtain ⟨ih1, ih2⟩ := ih (x + 1) (paethRawByte prior x b left)
    refine ⟨by simp only [List.length_cons, ih1], ?_⟩
    intro i hi
    cases i with
    | zero => simp
    | succ i =>
      simp only [List.length_cons] at hi
      simp only [List.getD_cons_succ, Nat.add_sub_cancel, Nat.succ_ne_zero, if_false]
      rw [ih2 i (by omega)]
      have e1 : x + 1 + i = x + (i + 1) := by omega
      rw [e1]
      cases i with
      | zero => simp
      | succ j => simp

/-- C30: for every filtered scanline `f` and every prior scanline (or none),
`BeginScanline(prior)` of the Paeth filter followed by `Unfilter` on the bytes
of `f`, left to right, returns `raw` of the length of `f` with
`raw[x] = (f[x] + PaethPredictor(raw[x-1], prior[x], prior[x-1])) mod 256`,
where `raw[-1]` and `prior[-1]` are 0 and `prior[x]` is 0 when there is no
prior scanline. -/
theorem PaethFilter_unfilters_scanline (f0 : PaethFilter) (prior : Option (List Byte))
    (f : List Byte) :
    (Filter.unfilterBytes (.paeth (f0.BeginScanline prior)) f).length = f.length ∧
    ∀ x, x < f.length →
      (Filter.unfilterBytes (.paeth (f0.BeginScanline prior)) f).getD x 0 =
        toByte ((((f.getD x 0).val : Int) +
          PaethFilter.PaethPredictor
            (if x = 0 then 0 else
              (((Filter.unfilterBytes (.paeth (f0.BeginScanline prior)) f).getD (x - 1) 0).val :
                Int))
            ((prior.getD []).getD x 0).val
            (if x = 0 then 0 else (((prior.getD []).getD (x - 1) 0).val : Int))) % 256).toNat := by
  rw [PaethFilter_BeginScanline_cursorsAt]
  have h := PaethFilter_unfilterBytes_cursorsAt prior f 0 0
  refine ⟨h.1, fun x hx => ?_⟩
  rw [h.2 x hx]
  simp only [Nat.zero_add, paethRawByte]
  by_cases hx0 : x = 0
  · simp [hx0]
  · simp [hx0]

/-! ## The palette entries of a palette chunk (claim C25) -/

theorem paletteWrites_eq_map (n : Nat) :
    ∀ (i : Nat) (payload : List Byte), payload.length = 3 * n →
      paletteWrites i payload =
        (List.range n).map (fun j => .SetPaletteEntry (i + j)
          ⟨payload.getD (3 * j) 0, payload.getD (3 * j + 1) 0, payload.getD (3 * j + 2) 0⟩) := by
  induction n with
  | zero =>
    intro i payload hp
    have : payload = [] := List.eq_nil_of_length_eq_zero (by omega)
    subst this
    rfl
  | succ n ih =>
    intro i payload hp
    rcases payload with _ | ⟨red, _ | ⟨green, _ | ⟨blue, p⟩⟩⟩ <;>
      simp only [List.length_cons, List.length_nil] at hp <;> try omega
    rw [paletteWrites, ih (i + 1) p (by omega), List.range_succ_eq_map, List.map_cons,
      List.map_map]
    congr 1
    apply List.map_congr_left
    intro j _
    simp only [Function.comp_apply]
    have e1 : 3 * (j + 1) = 3 * j + 1 + 1 + 1 := by omega
    have e2 : i + 1 + j = i + (j + 1) := by omega
    rw [e1, e2]
    rfl

/-- C25: for a palette chunk whose declared length is `3 * n` and whose
payload is in the stream, `ReadPLTEChunk` returns, having read the payload and
made exactly `n` calls of `SetPaletteEntry` on the image, with the indices 0,
1, ..., `n - 1` in that order, entry `i` having red, green and blue equal to
the payload bytes `3 * i`, `3 * i + 1` and `3 * i + 2`. -/
theorem ReadPLTEChunk_delivers_entries {z : ZLib} (r : PNGReader z) (n : Nat)
    (payload tail : List Byte) (type : PNGChunkType) (crcCalc : CRCCalculator)
    (hp : payload.length = 3 * n) :
    ReadPLTEChunk ⟨payload ++ tail, 3 * n, type, crcCalc⟩ r =
      .ok (⟨tail, 3 * n, type, crcCalc.Append payload⟩,
        { r with image_ := r.image_ ++ (List.range n).map (fun i => .SetPaletteEntry i
          ⟨payload.getD (3 * i) 0, payload.getD (3 * i + 1) 0, payload.getD (3 * i + 2) 0⟩) }) := by
  have h3 : 3 * n % 3 = 0 := Nat.mul_mod_right 3 n
  have hd : 3 * n / 3 = n := Nat.mul_div_cancel_left n (by decide)
  simp only [ReadPLTEChunk, PNGChunkReader.GetLength, h3, ne_eq, not_true_eq_false, if_false,
    hd]
  rw [ReadPLTEChunk_loop_append n 0 r _ _ _ payload tail hp, paletteWrites_eq_map n 0 payload hp]
  simp only [Nat.zero_add]

theorem ReadPLTEChunk_delivers_entries_witness :
    ReadPLTEChunk ⟨[1, 2, 3, 4, 5, 6] ++ [9], 3 * 2, PLTEChunkType, CRCCalculator.new⟩
        (headerRead []) =
      .ok (⟨[9], 3 * 2, PLTEChunkType, CRCCalculator.new.Append [1, 2, 3, 4, 5, 6]⟩,
        { (headerRead []) with
          image_ := [.BeginWrite, .SetImageInfo ⟨1, 1⟩, .SetPaletteEntry 0 ⟨1, 2, 3⟩,
            .SetPaletteEntry 1 ⟨4, 5, 6⟩] }) :=
  ReadPLTEChunk_delivers_entries (headerRead []) 2 [1, 2, 3, 4, 5, 6] [9] PLTEChunkType
    CRCCalculator.new rfl

/-! ## The layout of an encoded stream (claim C21) -/

theorem IDATPayloads_ne_nil {z : ZLib} (image : ReadableImage) (width height : Nat) (n : Nat) :
    ∀ (y : Nat) (c : Compressor z) (ps : List (List Byte)),
      IDATPayloads image width height n y c = some ps → ∀ p ∈ ps, p ≠ [] := by
  induction n with
  | zero =>
    intro y c ps h
    simp only [IDATPayloads, Option.some.injEq] at h
    subst h
    intro p hp
    simp at hp
  | succ n ih =>
    intro y c ps h
    rw [IDATPayloads] at h
    cases h1 : c.CompressByte 0 with
    | error e => simp [h1] at h
    | ok c1 =>
      simp only [h1] at h
      cases h2 : c1.Compress (image.GetScanline y) width with
      | error e => simp [h2] at h
      | ok c2 =>
        simp only [h2] at h
        cases h3 : (if y = height - 1 then c2.Finish else .ok c2) with
        | error e => simp [h3] at h
        | ok c3 =>
          simp only [h3] at h
          by_cases hlen : c3.GetDstLength ≠ 0
          · rw [if_pos hlen] at h
            cases h4 : IDATPayloads image width height n (y + 1) c3.ClearDst with
            | none => simp [h4] at h
            | some rest =>
              simp only [h4, Option.map_some', Option.some.injEq] at h
              subst h
              intro p hp
              rcases List.mem_cons.mp hp with hp | hp
              · subst hp
                intro e
                apply hlen
                have := congrArg List.length e
                simpa [Compressor.GetDstLength, Compressor.GetDstPtr] using this
              · exact ih _ _ _ h4 p hp
          · rw [if_neg hlen] at h
            exact ih _ _ _ h

theorem sealedChunks_map (type : Nat) (ps : List (List Byte)) :
    sealedChunks (ps.map (fun p => (type, p))) = (ps.map (sealedChunk type)).flatten := by
  induction ps with
  | nil => rfl
  | cons p ps ih => simp [sealedChunks, ih]

theorem sealedChunk_IEND :
    sealedChunk IENDChunkType.GetValue [] =
      [0, 0, 0, 0, 0x49, 0x45, 0x4E, 0x44, 0xAE, 0x42, 0x60, 0x82] := by
  decide!

theorem PLTEPayload_getD (palette : Nat → PaletteEntry) (n : Nat) :
    ∀ i j : Nat, j < n →
      (PLTEPayload palette n i).getD (3 * j) 0 = (palette (i + j)).red ∧
      (PLTEPayload palette n i).getD (3 * j + 1) 0 = (palette (i + j)).green ∧
      (PLTEPayload palette n i).getD (3 * j + 2) 0 = (palette (i + j)).blue := by
  induction n with
  | zero => intro i j hj; omega
  | succ n ih =>
    intro i j hj
    cases j with
    | zero => simp [PLTEPayload]
    | succ j =>
      have e1 : 3 * (j + 1) = 3 * j + 1 + 1 + 1 := by omega
      have e2 : i + (j + 1) = i + 1 + j := by omega
      rw [e1, e2, PLTEPayload]
      simpa using ih (i + 1) j (by omega)

/-- C21: for an image of width and height at least 1, when the compressor
initialises and compresses the image data (per scanline the filter-type byte
0 and the row) to at least one byte and fewer than `2 ^ 32` bytes, `SavePNG`
on a good stream succeeds and
appends exactly: the 8 signature bytes; the `IHDR` chunk with the 13 payload
bytes width, height (four bytes each, most significant first), 8, 3, 0, 0,
0; the `PLTE` chunk with 768 payload bytes, red, green, blue of palette entry
`i` at `3 * i`, `3 * i + 1`, `3 * i + 2`; one or more `IDAT` chunks with
non-empty payloads that are, end to end, the compressed bytes; and the empty
`IEND` chunk, `00 00 00 00 49 45 4E 44 AE 42 60 82`.  Each chunk is sealed:
declared length, type code, payload and CRC-32 of type code and payload. -/
theorem SavePNG_stream_layout (z : ZLib) (image : ReadableImage) (out : List Byte)
    (s : z.DeflateState) (comp : List Byte)
    (hw : image.GetImageInfo.GetWidth ≠ 0) (hh : image.GetImageInfo.GetHeight ≠ 0)
    (hs : z.deflateInit = some s)
    (hcomp : z.compressAll s (rawBlocks image image.GetImageInfo.GetWidth
      image.GetImageInfo.GetHeight 0) = some comp)
    (hne : comp ≠ []) (hlen : comp.length < 2 ^ 32) :
    ∃ ps : List (List Byte), ps ≠ [] ∧ (∀ p ∈ ps, p ≠ [] ∧ p.length < 2 ^ 32) ∧
      ps.flatten = comp ∧
      (SavePNG z image ⟨out, true⟩).thrown = none ∧
      (SavePNG z image ⟨out, true⟩).stm = ⟨out ++ [137, 80, 78, 71, 13, 10, 26, 10] ++
        sealedChunk IHDRChunkType.GetValue
          (bigEndian32 image.GetImageInfo.GetWidth ++ bigEndian32 image.GetImageInfo.GetHeight ++
            [8, 3, 0, 0, 0]) ++
        sealedChunk PLTEChunkType.GetValue (PLTEPayload image.GetPaletteEntry 256 0) ++
        (ps.map (sealedChunk IDATChunkType.GetValue)).flatten ++
        [0, 0, 0, 0, 0x49, 0x45, 0x4E, 0x44, 0xAE, 0x42, 0x60, 0x82], true⟩ ∧
      (bigEndian32 image.GetImageInfo.GetWidth ++ bigEndian32 image.GetImageInfo.GetHeight ++
        ([8, 3, 0, 0, 0] : List Byte)).length = 13 ∧
      (PLTEPayload image.GetPaletteEntry 256 0).length = 768 ∧
      ∀ i, i < 256 →
        (PLTEPayload image.GetPaletteEntry 256 0).getD (3 * i) 0 =
          (image.GetPaletteEntry i).red ∧
        (PLTEPayload image.GetPaletteEntry 256 0).getD (3 * i + 1) 0 =
          (image.GetPaletteEntry i).green ∧
        (PLTEPayload image.GetPaletteEntry 256 0).getD (3 * i + 2) 0 =
          (image.GetPaletteEntry i).blue := by
  obtain ⟨m, hm⟩ := Nat.exists_eq_succ_of_ne_zero hh
  have hcomp2 := hcomp
  rw [hm] at hcomp2
  obtain ⟨ps, hps, hflat⟩ := IDATPayloads_flatten image image.GetImageInfo.GetWidth
    image.GetImageInfo.GetHeight m 0 (⟨[], s⟩ : Compressor z) comp rfl (by omega) hcomp2
  rw [← Nat.succ_eq_add_one, ← hm] at hps
  have hnew := Compressor_new_of_deflateInit z s hs
  have hsave := (SavePNG_good z image out hw hh).1 _ ps hnew hps
  refine ⟨ps, ?_, fun p hp => ⟨IDATPayloads_ne_nil image _ _ _ _ _ ps hps p hp, ?_⟩, hflat,
    ?_, ?_, rfl, ?_, ?_⟩
  · intro e
    subst e
    exact hne hflat.symm
  · have := length_le_flatten_length ps p hp
    rw [hflat] at this
    omega
  · rw [hsave]
  · rw [hsave]
    simp only [encoderChunks, sealedChunks, sealedChunks_append, sealedChunks_map,
      sealedChunk_IEND, List.append_nil, List.append_assoc, IHDRPayload, PngSignature,
      BitDepth, ColorType, CompressionType, FilterType, InterlaceType]
  · rw [PLTEPayload_length]
  · intro i hi
    simpa using PLTEPayload_getD image.GetPaletteEntry 256 0 i hi
theorem SavePNG_stream_layout_witness :
    ∃ ps : List (List Byte), ps ≠ [] ∧ (∀ p ∈ ps, p ≠ [] ∧ p.length < 2 ^ 32) ∧
      ps.flatten = [0, 0, 1, 0, 1, 0] ∧
      (SavePNG ZLib.stored checkerImage ⟨[], true⟩).thrown = none ∧
      (SavePNG ZLib.stored checkerImage ⟨[], true⟩).stm = ⟨[] ++ [137, 80, 78, 71, 13, 10, 26, 10] ++
        sealedChunk IHDRChunkType.GetValue (bigEndian32 2 ++ bigEndian32 2 ++ [8, 3, 0, 0, 0]) ++
        sealedChunk PLTEChunkType.GetValue (PLTEPayload checkerImage.GetPaletteEntry 256 0) ++
        (ps.map (sealedChunk IDATChunkType.GetValue)).flatten ++
        [0, 0, 0, 0, 0x49, 0x45, 0x4E, 0x44, 0xAE, 0x42, 0x60, 0x82], true⟩ ∧
      (bigEndian32 2 ++ bigEndian32 2 ++ ([8, 3, 0, 0, 0] : List Byte)).length = 13 ∧
      (PLTEPayload checkerImage.GetPaletteEntry 256 0).length = 768 ∧
      ∀ i, i < 256 →
        (PLTEPayload checkerImage.GetPaletteEntry 256 0).getD (3 * i) 0 =
          (checkerImage.GetPaletteEntry i).red ∧
        (PLTEPayload checkerImage.GetPaletteEntry 256 0).getD (3 * i + 1) 0 =
          (checkerImage.GetPaletteEntry i).green ∧
        (PLTEPayload checkerImage.GetPaletteEntry 256 0).getD (3 * i + 2) 0 =
          (checkerImage.GetPaletteEntry i).blue :=
  SavePNG_stream_layout ZLib.stored checkerImage [] [] [0, 0, 1, 0, 1, 0] (by decide)
    (by decide) rfl rfl (by decide) (by decide)

/-! ## The notifications of the sentries (claim C22) -/

theorem CallsGrow_refl (a : List WritableImageCall) : CallsGrow a a :=
  ⟨[], by simp, by simp⟩

theorem CallsGrow_of_eq {a b : List WritableImageCall} (h : b = a) : CallsGrow a b := by
  subst h
  exact CallsGrow_refl _

theorem CallsGrow_trans {a b c : List WritableImageCall} (h1 : CallsGrow a b)
    (h2 : CallsGrow b c) : CallsGrow a c := by
  obtain ⟨m1, e1, d1⟩ := h1
  obtain ⟨m2, e2, d2⟩ := h2
  refine ⟨m1 ++ m2, by rw [e2, e1, List.append_assoc], ?_⟩
  intro x hx
  rcases List.mem_append.mp hx with hx | hx
  · exact d1 x hx
  · exact d2 x hx

theorem CallsGrow_append (a mid : List WritableImageCall) (h : ∀ c ∈ mid, c.isData = true) :
    CallsGrow a (a ++ mid) :=
  ⟨mid, rfl, h⟩

theorem CallsGrow_single (a : List WritableImageCall) (c : WritableImageCall)
    (h : c.isData = true) : CallsGrow a (a ++ [c]) :=
  CallsGrow_append a [c] (by simpa using h)

theorem ProcessChunksRead_calls {z : ZLib} (r : PNGReader z) (curChunk : Nat) :
    (∀ r2, r.ProcessChunksRead curChunk = .ok r2 → r2.image_ = r.image_) ∧
    (∀ t, r.ProcessChunksRead curChunk = .error t → t.image_ = r.image_) := by
  unfold ProcessChunksRead
  constructor
  · intro r2 h
    split at h
    · exact absurd h (by simp)
    · split at h
      · exact absurd h (by simp)
      · simp only [] at h
        split at h
        · exact absurd h (by simp)
        · simp only [Except.ok.injEq] at h
          rw [← h]
  · intro t h
    split at h
    · simp only [Except.error.injEq] at h
      rw [← h]
    · split at h
      · simp only [Except.error.injEq] at h
        rw [← h]
      · simp only [] at h
        split at h
        · simp only [Except.error.injEq] at h
          rw [← h]
        · exact absurd h (by simp)

theorem ReadIHDRChunk_finish_calls {z : ZLib} (reader : PNGChunkReader) (r : PNGReader z)
    (bd ct cm ft il : Byte) :
    (∀ p, ReadIHDRChunk.finish reader r bd ct cm ft il = .ok p →
      CallsGrow r.image_ p.2.image_) ∧
    (∀ t, ReadIHDRChunk.finish reader r bd ct cm ft il = .error t → t.image_ = r.image_) := by
  unfold ReadIHDRChunk.finish
  constructor
  · intro p h
    repeat' split at h
    all_goals first
      | contradiction
      | (cases h; exact CallsGrow_single _ _ rfl)
  · intro t h
    repeat' split at h
    all_goals first
      | contradiction
      | (cases h; rfl)

theorem ReadIHDRChunk_calls {z : ZLib} (reader : PNGChunkReader) (r : PNGReader z) :
    (∀ p, ReadIHDRChunk reader r = .ok p → CallsGrow r.image_ p.2.image_) ∧
    (∀ t, ReadIHDRChunk reader r = .error t → t.image_ = r.image_) := by
  unfold ReadIHDRChunk
  constructor
  · intro p h
    repeat' split at h
    all_goals first
      | contradiction
      | (have hf := (ReadIHDRChunk_finish_calls _ _ _ _ _ _ _).1 p h
         exact hf)
  · intro t h
    repeat' split at h
    all_goals first
      | contradiction
      | (cases h; rfl)
      | (have hf := (ReadIHDRChunk_finish_calls _ _ _ _ _ _ _).2 t h
         exact hf)

theorem ReadPLTEChunk_loop_calls {z : ZLib} (n : Nat) :
    ∀ (i : Nat) (reader : PNGChunkReader) (r : PNGReader z),
      (∀ p, ReadPLTEChunk.loop n i reader r = .ok p → CallsGrow r.image_ p.2.image_) ∧
      (∀ t, ReadPLTEChunk.loop n i reader r = .error t → CallsGrow r.image_ t.image_) := by
  induction n with
  | zero =>
    intro i reader r
    constructor
    · intro p h
      simp only [ReadPLTEChunk.loop, Except.ok.injEq] at h
      rw [← h]
      exact CallsGrow_refl _
    · intro t h
      simp [ReadPLTEChunk.loop] at h
  | succ n ih =>
    intro i reader r
    constructor
    · intro p h
      rw [ReadPLTEChunk.loop] at h
      repeat' split at h
      all_goals first
        | contradiction
        | (have hf := (ih _ _ _).1 p h
           refine CallsGrow_trans ?_ hf
           exact CallsGrow_single _ _ rfl)
    · intro t h
      rw [ReadPLTEChunk.loop] at h
      repeat' split at h
      all_goals first
        | (cases h; exact CallsGrow_refl _)
        | (have hf := (ih _ _ _).2 t h
           refine CallsGrow_trans ?_ hf
           exact CallsGrow_single _ _ rfl)

theorem ReadPLTEChunk_calls {z : ZLib} (reader : PNGChunkReader) (r : PNGReader z) :
    (∀ p, ReadPLTEChunk reader r = .ok p → CallsGrow r.image_ p.2.image_) ∧
    (∀ t, ReadPLTEChunk reader r = .error t → CallsGrow r.image_ t.image_) := by
  unfold ReadPLTEChunk
  simp only []
  constructor
  · intro p h
    split at h
    · exact absurd h (by simp)
    · have hf := (ReadPLTEChunk_loop_calls _ _ _ _).1 p h
      exact hf
  · intro t h
    split at h
    · simp only [Except.error.injEq] at h
      rw [← h]
      exact CallsGrow_refl _
    · have hf := (ReadPLTEChunk_loop_calls _ _ _ _).2 t h
      exact hf

theorem curFilterBeginScanline_calls {z : ZLib} (r : PNGReader z) (prior : Option (List Byte)) :
    (∀ r2, r.curFilterBeginScanline prior = .ok r2 → r2.image_ = r.image_) ∧
    (∀ t, r.curFilterBeginScanline prior = .error t → t.image_ = r.image_) := by
  unfold curFilterBeginScanline
  constructor
  · intro r2 h
    split at h <;> first | contradiction | (cases h; rfl)
  · intro t h
    split at h <;> first | contradiction | (cases h; rfl)

theorem curFilterUnfilter_calls {z : ZLib} (r : PNGReader z) (filtered : Byte) :
    (∀ p, r.curFilterUnfilter filtered = .ok p → p.2.image_ = r.image_) ∧
    (∀ t, r.curFilterUnfilter filtered = .error t → t.image_ = r.image_) := by
  unfold curFilterUnfilter
  constructor
  · intro p h
    split at h <;> first | contradiction | (cases h; rfl)
  · intro t h
    split at h <;> first | contradiction | (cases h; rfl)

theorem beginScanline_calls {z : ZLib} (r : PNGReader z) (cur : Byte) :
    (∀ r2, r.beginScanline cur = .ok r2 → CallsGrow r.image_ r2.image_) ∧
    (∀ t, r.beginScanline cur = .error t → CallsGrow r.image_ t.image_) := by
  unfold beginScanline
  simp only []
  constructor
  · intro r2 h
    split at h
    · have hf := (curFilterBeginScanline_calls _ _).1 r2 h
      rw [hf]
      exact CallsGrow_single _ _ rfl
    · have hf := (curFilterBeginScanline_calls _ _).1 r2 h
      exact CallsGrow_of_eq hf
  · intro t h
    split at h
    · have hf := (curFilterBeginScanline_calls _ _).2 t h
      rw [hf]
      exact CallsGrow_single _ _ rfl
    · have hf := (curFilterBeginScanline_calls _ _).2 t h
      exact CallsGrow_of_eq hf

theorem unfilterByte_calls {z : ZLib} (r : PNGReader z) (cur : Byte) :
    (∀ r2, r.unfilterByte cur = .ok r2 → CallsGrow r.image_ r2.image_) ∧
    (∀ t, r.unfilterByte cur = .error t → CallsGrow r.image_ t.image_) := by
  unfold unfilterByte
  constructor
  · intro r2 h
    split at h
    · simp only [] at h
      split at h
      · contradiction
      · have hf := (beginScanline_calls _ _).1 r2 h
        exact hf
    · split at h
      · contradiction
      · rename_i raw r1 heq
        cases h
        exact CallsGrow_of_eq ((curFilterUnfilter_calls _ _).1 _ heq)
  · intro t h
    split at h
    · simp only [] at h
      split at h
      · cases h
        exact CallsGrow_refl _
      · have hf := (beginScanline_calls _ _).2 t h
        exact hf
    · split at h
      · rename_i t1 heq
        cases h
        exact CallsGrow_of_eq ((curFilterUnfilter_calls _ _).2 _ heq)
      · contradiction

theorem unfilterLoop_calls {z : ZLib} (bytes : List Byte) :
    ∀ r : PNGReader z,
      (∀ r2, r.unfilterLoop bytes = .ok r2 → CallsGrow r.image_ r2.image_) ∧
      (∀ t, r.unfilterLoop bytes = .error t → CallsGrow r.image_ t.image_) := by
  induction bytes with
  | nil =>
    intro r
    constructor
    · intro r2 h
      cases h
      exact CallsGrow_refl _
    · intro t h
      contradiction
  | cons b bytes ih =>
    intro r
    constructor
    · intro r2 h
      rw [unfilterLoop] at h
      split at h
      · contradiction
      · rename_i r1 heq
        exact CallsGrow_trans ((unfilterByte_calls r b).1 r1 heq) ((ih r1).1 r2 h)
    · intro t h
      rw [unfilterLoop] at h
      split at h
      · rename_i t1 heq
        cases h
        exact (unfilterByte_calls r b).2 _ heq
      · rename_i r1 heq
        exact CallsGrow_trans ((unfilterByte_calls r b).1 r1 heq) ((ih r1).2 t h)

theorem finalScanline_calls {z : ZLib} (r : PNGReader z) :
    CallsGrow r.image_ r.finalScanline.image_ := by
  unfold finalScanline
  split
  · exact CallsGrow_single _ _ rfl
  · exact CallsGrow_refl _

theorem ReadIDATChunk_calls {z : ZLib} (reader : PNGChunkReader) (r : PNGReader z) :
    (∀ p, ReadIDATChunk reader r = .ok p → CallsGrow r.image_ p.2.image_) ∧
    (∀ t, ReadIDATChunk reader r = .error t → CallsGrow r.image_ t.image_) := by
  unfold ReadIDATChunk
  simp only []
  constructor
  · intro p h
    split at h
    · contradiction
    · split at h
      · contradiction
      · split at h
        · contradiction
        · rename_i r1 heq
          cases h
          have hf := (unfilterLoop_calls _ _).1 r1 heq
          exact CallsGrow_trans hf (finalScanline_calls r1)
  · intro t h
    split at h
    · cases h
      exact CallsGrow_refl _
    · split at h
      · cases h
        exact CallsGrow_refl _
      · split at h
        · rename_i t1 heq
          cases h
          have hf := (unfilterLoop_calls _ _).2 _ heq
          exact hf
        · contradiction

theorem ReadUnknownChunk_calls {z : ZLib} (reader : PNGChunkReader) (r : PNGReader z) :
    (∀ p, ReadUnknownChunk reader r = .ok p → p.2.image_ = r.image_) ∧
    (∀ t, ReadUnknownChunk reader r = .error t → t.image_ = r.image_) := by
  unfold ReadUnknownChunk
  constructor
  · intro p h
    split at h
    · contradiction
    · split at h
      · contradiction
      · cases h
        rfl
  · intro t h
    split at h
    · cases h
      rfl
    · split at h
      · cases h
        rfl
      · contradiction

theorem requiredChunk_calls {z : ZLib} (r : PNGReader z) (curChunk : Nat)
    (handler : PNGReader z → Except Thrown (PNGChunkReader × PNGReader z))
    (hh : ∀ r1 : PNGReader z,
      (∀ p, handler r1 = .ok p → CallsGrow r1.image_ p.2.image_) ∧
      (∀ t, handler r1 = .error t → CallsGrow r1.image_ t.image_)) :
    (∀ p, r.requiredChunk curChunk handler = .ok p → CallsGrow r.image_ p.2.image_) ∧
    (∀ t, r.requiredChunk curChunk handler = .error t → CallsGrow r.image_ t.image_) := by
  unfold requiredChunk
  constructor
  · intro p h
    split at h
    · contradiction
    · rename_i r1 heq
      rw [← (ProcessChunksRead_calls r curChunk).1 r1 heq]
      exact (hh r1).1 p h
  · intro t h
    split at h
    · rename_i t1 heq
      cases h
      exact CallsGrow_of_eq ((ProcessChunksRead_calls r curChunk).2 _ heq)
    · rename_i r1 heq
      rw [← (ProcessChunksRead_calls r curChunk).1 r1 heq]
      exact (hh r1).2 t h

theorem handleChunk_calls {z : ZLib} (reader : PNGChunkReader) (r : PNGReader z) :
    (∀ p, handleChunk reader r = .ok p → CallsGrow r.image_ p.2.image_) ∧
    (∀ t, handleChunk reader r = .error t → CallsGrow r.image_ t.image_) := by
  unfold handleChunk
  split
  · exact requiredChunk_calls r _ _ (fun r1 =>
      ⟨(ReadIHDRChunk_calls reader r1).1,
        fun t h => CallsGrow_of_eq ((ReadIHDRChunk_calls reader r1).2 t h)⟩)
  · split
    · exact requiredChunk_calls r _ _ (fun r1 => ReadPLTEChunk_calls reader r1)
    · split
      · exact requiredChunk_calls r _ _ (fun r1 => ReadIDATChunk_calls reader r1)
      · split
        · exact requiredChunk_calls r _ _ (fun r1 =>
            ⟨fun p h => by cases h; exact CallsGrow_refl _, fun t h => by cases h⟩)
        · exact ⟨fun p h => CallsGrow_of_eq ((ReadUnknownChunk_calls reader r).1 p h),
            fun t h => CallsGrow_of_eq ((ReadUnknownChunk_calls reader r).2 t h)⟩

theorem ReadChunk_calls {z : ZLib} (r : PNGReader z) :
    (∀ r2, r.ReadChunk = .ok r2 → CallsGrow r.image_ r2.image_) ∧
    (∀ t, r.ReadChunk = .error t → CallsGrow r.image_ t.image_) := by
  unfold ReadChunk
  constructor
  · intro r2 h
    split at h
    · contradiction
    · split at h
      · contradiction
      · split at h
        · contradiction
        · rename_i rd r1 heq
          split at h
          · contradiction
          · cases h
            exact (handleChunk_calls _ r).1 _ heq
  · intro t h
    split at h
    · cases h
      exact CallsGrow_refl _
    · split at h
      · cases h
        exact CallsGrow_refl _
      · split at h
        · rename_i t1 heq
          cases h
          exact (handleChunk_calls _ r).2 _ heq
        · rename_i rd r1 heq
          split at h
          · cases h
            exact (handleChunk_calls _ r).1 _ heq
          · contradiction

theorem ReadChunks_calls {z : ZLib} (n : Nat) :
    ∀ r : PNGReader z,
      (∀ r2, ReadChunks n r = .ok r2 → CallsGrow r.image_ r2.image_) ∧
      (∀ t, ReadChunks n r = .error t → CallsGrow r.image_ t.image_) := by
  induction n with
  | zero =>
    intro r
    exact ⟨fun r2 h => by cases h; exact CallsGrow_refl _, fun t h => by cases h⟩
  | succ n ih =>
    intro r
    constructor
    · intro r2 h
      rw [ReadChunks] at h
      split at h
      · cases h
        exact CallsGrow_refl _
      · split at h
        · contradiction
        · rename_i r1 heq
          exact CallsGrow_trans ((ReadChunk_calls r).1 r1 heq) ((ih r1).1 r2 h)
    · intro t h
      rw [ReadChunks] at h
      split at h
      · contradiction
      · split at h
        · rename_i t1 heq
          cases h
          exact (ReadChunk_calls r).2 _ heq
        · rename_i r1 heq
          exact CallsGrow_trans ((ReadChunk_calls r).1 r1 heq) ((ih r1).2 t h)

theorem body_calls {z : ZLib} (r : PNGReader z) :
    (∀ r2, r.body = .ok r2 → CallsGrow r.image_ r2.image_) ∧
    (∀ t, r.body = .error t → CallsGrow r.image_ t.image_) := by
  unfold body CheckSignature
  constructor
  · intro r2 h
    split at h
    · contradiction
    · rename_i r1 heq
      split at heq
      · contradiction
      · cases heq
        split at h
        · contradiction
        · rename_i r3 heq3
          split at h
          · contradiction
          · split at h
            · contradiction
            · cases h
              exact (by have hf := (ReadChunks_calls _ _).1 _ heq3; exact hf)
  · intro t h
    split at h
    · rename_i t1 heq
      split at heq
      · cases heq
        cases h
        exact CallsGrow_refl _
      · contradiction
    · rename_i r1 heq
      split at heq
      · contradiction
      · cases heq
        split at h
        · rename_i t3 heq3
          cases h
          exact (by have hf := (ReadChunks_calls _ _).2 _ heq3; exact hf)
        · rename_i r3 heq3
          split at h
          · cases h
            exact (by have hf := (ReadChunks_calls _ _).1 _ heq3; exact hf)
          · split at h
            · cases h
              exact (by have hf := (ReadChunks_calls _ _).1 _ heq3; exact hf)
            · contradiction

/-- The calls `operator()` of the reader makes on the image: `BeginWrite`,
calls other than the notifications, and `EndWrite` with the success flag. -/
theorem run_calls {z : ZLib} (d : Decompressor z) (stm : IStream) :
    ∃ mid, (PNGReader.run d stm).image =
        [.BeginWrite] ++ mid ++ [.EndWrite (PNGReader.run d stm).thrown.isNone] ∧
      ∀ c ∈ mid, c.isData = true := by
  unfold PNGReader.run
  cases hb : (init d stm).body with
  | error t =>
    obtain ⟨mid, e, hd⟩ := (body_calls (init d stm)).2 t hb
    exact ⟨mid, by simp only [e, init]; rfl, hd⟩
  | ok r =>
    obtain ⟨mid, e, hd⟩ := (body_calls (init d stm)).1 r hb
    exact ⟨mid, by simp only [e, init]; rfl, hd⟩

theorem ReadsGrow_refl (a : List ReadableImageCall) : ReadsGrow a a :=
  ⟨[], by simp, by simp⟩

theorem ReadsGrow_of_eq {a b : List ReadableImageCall} (h : b = a) : ReadsGrow a b := by
  subst h
  exact ReadsGrow_refl _

theorem ReadsGrow_trans {a b c : List ReadableImageCall} (h1 : ReadsGrow a b)
    (h2 : ReadsGrow b c) : ReadsGrow a c := by
  obtain ⟨m1, e1, d1⟩ := h1
  obtain ⟨m2, e2, d2⟩ := h2
  refine ⟨m1 ++ m2, by rw [e2, e1, List.append_assoc], ?_⟩
  intro x hx
  rcases List.mem_append.mp hx with hx | hx
  · exact d1 x hx
  · exact d2 x hx

theorem ReadsGrow_single (a : List ReadableImageCall) (c : ReadableImageCall)
    (h : c.isData = true) : ReadsGrow a (a ++ [c]) :=
  ⟨[c], rfl, by simpa using h⟩

theorem WriteSignature_calls (w : PNGWriter) :
    (∀ w2, w.WriteSignature = .ok w2 → w2.calls_ = w.calls_) ∧
    (∀ e w2, w.WriteSignature = .error (e, w2) → w2.calls_ = w.calls_) := by
  unfold PNGWriter.WriteSignature
  constructor
  · intro w2 h
    split at h <;> first | contradiction | (cases h; rfl)
  · intro e w2 h
    split at h <;> first | contradiction | (cases h; rfl)

theorem WriteIHDRChunk_calls (w : PNGWriter) :
    (∀ w2, w.WriteIHDRChunk = .ok w2 → w2.calls_ = w.calls_) ∧
    (∀ e w2, w.WriteIHDRChunk = .error (e, w2) → w2.calls_ = w.calls_) := by
  unfold PNGWriter.WriteIHDRChunk
  constructor
  · intro w2 h
    split at h <;> first | contradiction | (cases h; rfl)
  · intro e w2 h
    split at h <;> first | contradiction | (cases h; rfl)

theorem WriteIENDChunk_calls (w : PNGWriter) :
    (∀ w2, w.WriteIENDChunk = .ok w2 → w2.calls_ = w.calls_) ∧
    (∀ e w2, w.WriteIENDChunk = .error (e, w2) → w2.calls_ = w.calls_) := by
  unfold PNGWriter.WriteIENDChunk
  constructor
  · intro w2 h
    split at h <;> first | contradiction | (cases h; rfl)
  · intro e w2 h
    split at h <;> first | contradiction | (cases h; rfl)

theorem WritePLTEChunk_loop_calls (n : Nat) :
    ∀ (i : Nat) (writer : PNGChunkWriter) (w : PNGWriter),
      (∀ p, PNGWriter.WritePLTEChunk.loop n i writer w = .ok p →
        ReadsGrow w.calls_ p.2.calls_) ∧
      (∀ e w2, PNGWriter.WritePLTEChunk.loop n i writer w = .error (e, w2) →
        ReadsGrow w.calls_ w2.calls_) := by
  induction n with
  | zero =>
    intro i writer w
    exact ⟨fun p h => by cases h; exact ReadsGrow_refl _, fun e w2 h => by cases h⟩
  | succ n ih =>
    intro i writer w
    constructor
    · intro p h
      rw [PNGWriter.WritePLTEChunk.loop] at h
      split at h
      · contradiction
      · have hf := (ih _ _ _).1 p h
        refine ReadsGrow_trans ?_ hf
        exact ReadsGrow_single _ _ rfl
    · intro e w2 h
      rw [PNGWriter.WritePLTEChunk.loop] at h
      split at h
      · cases h
        exact ReadsGrow_single _ _ rfl
      · have hf := (ih _ _ _).2 e w2 h
        refine ReadsGrow_trans ?_ hf
        exact ReadsGrow_single _ _ rfl

theorem WritePLTEChunk_calls (w : PNGWriter) :
    (∀ w2, w.WritePLTEChunk = .ok w2 → ReadsGrow w.calls_ w2.calls_) ∧
    (∀ e w2, w.WritePLTEChunk = .error (e, w2) → ReadsGrow w.calls_ w2.calls_) := by
  unfold PNGWriter.WritePLTEChunk
  simp only []
  constructor
  · intro w2 h
    split at h
    · contradiction
    · split at h
      · contradiction
      · rename_i p heq
        split at h
        · contradiction
        · cases h
          exact (WritePLTEChunk_loop_calls _ _ _ _).1 _ heq
  · intro e w2 h
    split at h
    · cases h
      exact ReadsGrow_refl _
    · split at h
      · rename_i t heq
        cases h
        exact (WritePLTEChunk_loop_calls _ _ _ _).2 _ _ heq
      · rename_i p heq
        split at h
        · cases h
          exact (WritePLTEChunk_loop_calls _ _ _ _).1 _ heq
        · contradiction

theorem WriteIDATChunks_loop_calls {z : ZLib} (n : Nat) :
    ∀ (y : Nat) (c : Compressor z) (w : PNGWriter),
      (∀ w2, PNGWriter.WriteIDATChunks.loop n y c w = .ok w2 → ReadsGrow w.calls_ w2.calls_) ∧
      (∀ e w2, PNGWriter.WriteIDATChunks.loop n y c w = .error (e, w2) →
        ReadsGrow w.calls_ w2.calls_) := by
  induction n with
  | zero =>
    intro y c w
    exact ⟨fun w2 h => by cases h; exact ReadsGrow_refl _, fun e w2 h => by cases h⟩
  | succ n ih =>
    intro y c w
    have hg : ReadsGrow w.calls_ (w.calls_ ++ [.GetScanline y]) := ReadsGrow_single _ _ rfl
    constructor
    · intro w2 h
      rw [PNGWriter.WriteIDATChunks.loop] at h
      simp only [] at h
      repeat' split at h
      all_goals first
        | contradiction
        | (have hf := (ih _ _ _).1 w2 h
           exact ReadsGrow_trans hg hf)
    · intro e w2 h
      rw [PNGWriter.WriteIDATChunks.loop] at h
      simp only [] at h
      repeat' split at h
      all_goals first
        | contradiction
        | (cases h
           exact hg)
        | (have hf := (ih _ _ _).2 e w2 h
           exact ReadsGrow_trans hg hf)

theorem WriteIDATChunks_calls (z : ZLib) (w : PNGWriter) :
    (∀ w2, w.WriteIDATChunks z = .ok w2 → ReadsGrow w.calls_ w2.calls_) ∧
    (∀ e w2, w.WriteIDATChunks z = .error (e, w2) → ReadsGrow w.calls_ w2.calls_) := by
  unfold PNGWriter.WriteIDATChunks
  constructor
  · intro w2 h
    split at h
    · contradiction
    · exact (WriteIDATChunks_loop_calls _ _ _ _).1 w2 h
  · intro e w2 h
    split at h
    · cases h
      exact ReadsGrow_refl _
    · exact (WriteIDATChunks_loop_calls _ _ _ _).2 e w2 h

theorem PNGWriter_body_calls (z : ZLib) (w : PNGWriter) :
    (∀ w2, PNGWriter.body z w = .ok w2 → ReadsGrow w.calls_ w2.calls_) ∧
    (∀ e w2, PNGWriter.body z w = .error (e, w2) → ReadsGrow w.calls_ w2.calls_) := by
  have hg : ReadsGrow w.calls_ (w.calls_ ++ [.GetImageInfo]) := ReadsGrow_single _ _ rfl
  unfold PNGWriter.body
  simp only []
  constructor
  · intro w2 h
    split at h
    · contradiction
    · split at h
      · contradiction
      · split at h
        · contradiction
        · rename_i w3 h3
          have e3 := (WriteSignature_calls _).1 w3 h3
          split at h
          · contradiction
          · rename_i w4 h4
            have e4 := (WriteIHDRChunk_calls _).1 w4 h4
            split at h
            · contradiction
            · rename_i w5 h5
              have e5 := (WritePLTEChunk_calls _).1 w5 h5
              split at h
              · contradiction
              · rename_i w6 h6
                have e6 := (WriteIDATChunks_calls z _).1 w6 h6
                have e7 := (WriteIENDChunk_calls _).1 w2 h
                rw [e4, e3] at e5
                rw [e7]
                exact ReadsGrow_trans hg (ReadsGrow_trans e5 e6)
  · intro e w2 h
    split at h
    · cases h
      exact hg
    · split at h
      · cases h
        exact hg
      · split at h
        · rename_i t h3
          cases h
          rw [(WriteSignature_calls _).2 _ _ h3]
          exact hg
        · rename_i w3 h3
          have e3 := (WriteSignature_calls _).1 w3 h3
          split at h
          · rename_i t h4
            cases h
            rw [(WriteIHDRChunk_calls _).2 _ _ h4, e3]
            exact hg
          · rename_i w4 h4
            have e4 := (WriteIHDRChunk_calls _).1 w4 h4
            split at h
            · rename_i t h5
              cases h
              have e5 := (WritePLTEChunk_calls _).2 _ _ h5
              rw [e4, e3] at e5
              exact ReadsGrow_trans hg e5
            · rename_i w5 h5
              have e5 := (WritePLTEChunk_calls _).1 w5 h5
              rw [e4, e3] at e5
              split at h
              · rename_i t h6
                cases h
                have e6 := (WriteIDATChunks_calls z _).2 _ _ h6
                exact ReadsGrow_trans hg (ReadsGrow_trans e5 e6)
              · rename_i w6 h6
                have e6 := (WriteIDATChunks_calls z _).1 w6 h6
                have e7 := (WriteIENDChunk_calls _).2 e w2 h
                rw [e7]
                exact ReadsGrow_trans hg (ReadsGrow_trans e5 e6)

/-- The calls `operator()` of the writer makes on the image: `BeginRead`,
calls other than the notifications, and `EndRead` with the success flag. -/
theorem PNGWriter_run_calls (z : ZLib) (stm : OStream) (image : ReadableImage) :
    ∃ mid, (PNGWriter.run z stm image).image =
        [.BeginRead] ++ mid ++ [.EndRead (PNGWriter.run z stm image).thrown.isNone] ∧
      ∀ c ∈ mid, c.isData = true := by
  unfold PNGWriter.run
  cases hb : PNGWriter.body z ⟨stm, image, [.BeginRead], 0, 0⟩ with
  | error t =>
    obtain ⟨e, w⟩ := t
    obtain ⟨mid, em, hd⟩ := (PNGWriter_body_calls z _).2 e w hb
    exact ⟨mid, by simp only [em]; rfl, hd⟩
  | ok w =>
    obtain ⟨mid, em, hd⟩ := (PNGWriter_body_calls z _).1 w hb
    exact ⟨mid, by simp only [em]; rfl, hd⟩

theorem WritableImageCall_isData (c : WritableImageCall) (h : c.isData = true) :
    c ≠ .BeginWrite ∧ ∀ s, c ≠ .EndWrite s := by
  cases c <;> simp [WritableImageCall.isData] at h ⊢

theorem ReadableImageCall_isData (c : ReadableImageCall) (h : c.isData = true) :
    c ≠ .BeginRead ∧ ∀ s, c ≠ .EndRead s := by
  cases c <;> simp [ReadableImageCall.isData] at h ⊢

/-- C22 as stated does not hold: when `inflateInit` fails, the `PNGReader`
of `LoadPNG` cannot be constructed, and `LoadPNG` throws before the sentry
exists; no call is made on the image, neither `BeginWrite` nor `EndWrite`,
although the stream is a valid image. -/
theorem failed_inflateInit_no_notification :
    LoadPNG ZLib.noInflate (PngSignature ++ onePixelChunks) = ⟨[], some .inflateInitFailed⟩ := by
  decide!

/-- C22, amended: in every run of `SavePNG`, and in every run of `LoadPNG`
in which the decompressor of the reader initialises, whether the run
completes or throws, the begin notification is the first call on the image,
the end notification (`EndRead`, `EndWrite`) is made exactly once, as the
last call, and its argument is true exactly if no error was thrown.  When
`inflateInit` fails, `LoadPNG` throws without any call on the image. -/
theorem sentry_notifications (z : ZLib) :
    (∀ (image : ReadableImage) (stm : OStream),
      ∃ mid, (SavePNG z image stm).image =
          [.BeginRead] ++ mid ++ [.EndRead (SavePNG z image stm).thrown.isNone] ∧
        ∀ c ∈ mid, c ≠ .BeginRead ∧ ∀ s, c ≠ .EndRead s) ∧
    (∀ (d : z.InflateState) (stm : IStream), z.inflateInit = some d →
      ∃ mid, (LoadPNG z stm).image =
          [.BeginWrite] ++ mid ++ [.EndWrite (LoadPNG z stm).thrown.isNone] ∧
        ∀ c ∈ mid, c ≠ .BeginWrite ∧ ∀ s, c ≠ .EndWrite s) ∧
    (∀ stm : IStream, z.inflateInit = none →
      LoadPNG z stm = ⟨[], some .inflateInitFailed⟩) := by
  refine ⟨?_, ?_, ?_⟩
  · intro image stm
    obtain ⟨mid, e, hd⟩ := PNGWriter_run_calls z stm image
    exact ⟨mid, e, fun c hc => ReadableImageCall_isData c (hd c hc)⟩
  · intro d stm hd
    have hnew := Decompressor_new_of_inflateInit z d hd
    obtain ⟨mid, e, hdata⟩ := run_calls (⟨[], d⟩ : Decompressor z) stm
    refine ⟨mid, ?_, fun c hc => WritableImageCall_isData c (hdata c hc)⟩
    simp only [LoadPNG, hnew]
    exact e
  · intro stm hnone
    simp [LoadPNG, Decompressor.new, hnone]

theorem sentry_notifications_witness :
    (∃ mid, (LoadPNG ZLib.stored [137, 80, 78, 71, 0]).image =
        [.BeginWrite] ++ mid ++
          [.EndWrite (LoadPNG ZLib.stored [137, 80, 78, 71, 0]).thrown.isNone] ∧
      ∀ c ∈ mid, c ≠ .BeginWrite ∧ ∀ s, c ≠ .EndWrite s) ∧
    LoadPNG ZLib.stored [137, 80, 78, 71, 0] =
      ⟨[.BeginWrite, .EndWrite false], some .unexpectedSignature⟩ :=
  ⟨(sentry_notifications ZLib.stored).2.1 () [137, 80, 78, 71, 0] rfl, by decide!⟩

/-! ## Calls of `SetScanline` and `SetPaletteEntry` against the documentation
(claims C23, C24) -/

/-- C23 fails on the code: when an image-data chunk without decompressed
output follows the chunk that completes the image data, the decode succeeds
and `SetScanline` is called twice for the last row.  Shown for a 1 x 1 image
whose second image-data chunk holds only the end marker of the compressed
stream, and for one whose second image-data chunk is empty. -/
theorem last_scanline_set_twice :
    LoadPNG ZLib.marked trailerChunkStream =
      ⟨[.BeginWrite, .SetImageInfo ⟨1, 1⟩, .SetPaletteEntry 0 ⟨10, 20, 30⟩,
        .SetScanline 0 [0], .SetScanline 0 [0], .EndWrite true], none⟩ ∧
    LoadPNG ZLib.stored emptyDataChunkStream =
      ⟨[.BeginWrite, .SetImageInfo ⟨1, 1⟩, .SetPaletteEntry 0 ⟨10, 20, 30⟩,
        .SetScanline 0 [0], .SetScanline 0 [0], .EndWrite true], none⟩ := by
  decide!

/-- The chunk loop on header chunk, a palette chunk of any length divisible
by 3, image-data chunks that decompress to unfiltered rows, and end chunk. -/
theorem ReadChunks_unfiltered {z : ZLib} (rows : Nat → List Byte) (w h : Nat)
    (palette : List Byte) (ps outs : List (List Byte)) (r : PNGReader z) (n : Nat)
    (hw : w ≠ 0) (h0 : h ≠ 0) (hw32 : w < 2 ^ 32) (h32 : h < 2 ^ 32)
    (hrows : ∀ y, y < h → (rows y).length = w)
    (hp3 : palette.length % 3 = 0) (hp : palette.length < 2 ^ 32)
    (hps : ∀ p ∈ ps, p.length < 2 ^ 32)
    (hd : z.decompressAll r.decompressor_.zStm_ ps = some outs)
    (houts : outs.flatten = filteredRows rows h 0)
    (hdst : r.decompressor_.dst = []) (hr : r.chunksRead_ = 0)
    (hy : r.curY_ = 2 ^ 32 - 1)
    (hstm : r.stm_ = sealedChunks ((IHDRChunkType.GetValue, IHDRPayload w h) ::
      (PLTEChunkType.GetValue, palette) ::
      (ps.map (fun p => (IDATChunkType.GetValue, p)) ++ [(IENDChunkType.GetValue, [])])))
    (hn : r.stm_.length ≤ n) :
    ∃ r2 c, ReadChunks n r = .ok r2 ∧ r2.chunksRead_ = AllRequiredChunks ∧
      r2.imageDone_ = true ∧
      r2.image_ = r.image_ ++ [.SetImageInfo ⟨w, h⟩] ++ paletteWrites 0 palette ++
        scanlineWrites rows h ++ List.replicate c (.SetScanline (h - 1) (rows (h - 1))) := by
  simp only [sealedChunks, sealedChunks_append, List.append_nil] at hstm
  have hs : r.stm_ ≠ [] := by rw [hstm]; exact sealedChunk_ne_nil _ _ _
  obtain ⟨r1, h1, hs1, hc1, hi1, hh1, hp1, hx1, hraw1, hend1, hy1, hd1⟩ :
      ∃ r1 : PNGReader z, r.ReadChunk = .ok r1 ∧
        r1.stm_ = sealedChunk PLTEChunkType.GetValue palette ++
          (sealedChunks (ps.map (fun p => (IDATChunkType.GetValue, p))) ++
            sealedChunk IENDChunkType.GetValue []) ∧
        r1.chunksRead_ = 1 ∧ r1.image_ = r.image_ ++ [.SetImageInfo ⟨w, h⟩] ∧
        r1.height_ = h ∧ r1.rawPriorScanline_.length = w ∧ r1.rawScanline_.length = w ∧
        r1.curRaw_ = 0 ∧ r1.endRaw_ = 0 ∧ r1.curY_ = 2 ^ 32 - 1 ∧
        r1.decompressor_ = r.decompressor_ :=
    ⟨_, ReadChunk_IHDR_sealed r w h _ hw h0 hw32 h32 hr hstm, rfl, rfl, rfl, rfl,
      resize_length _ _, resize_length _ _, rfl, rfl, hy, rfl⟩
  have hlen1 := ReadChunk_length h1
  rw [ReadChunks_step n r r1 hn hs h1]
  have h2 := ReadChunk_PLTE_framed r1 palette
    (crc32 (bigEndian32 PLTEChunkType.GetValue ++ palette)) _ hp3 hp (crc32_lt _) hc1
    (by rw [hs1, sealedChunk_eq_framedChunk])
  rw [if_neg (by simp)] at h2
  have hlen2 := ReadChunk_length h2
  rw [ReadChunks_step n r1 _ (by omega) (by rw [hs1]; exact sealedChunk_ne_nil _ _ _) h2]
  obtain ⟨r3, c, h3, hs3, hc3, hdone3, hlen3⟩ := ReadChunks_IDAT_scan rows w h
    (r.image_ ++ [.SetImageInfo ⟨w, h⟩] ++ paletteWrites 0 palette) h0 h32 hrows ps outs
    { r1 with
      stm_ := sealedChunks (ps.map (fun p => (IDATChunkType.GetValue, p))) ++
        sealedChunk IENDChunkType.GetValue [],
      chunksRead_ := 3,
      image_ := r1.image_ ++ paletteWrites 0 palette }
    (sealedChunk IENDChunkType.GetValue []) n
    (by rw [hd1]; exact hd) (by rw [hd1]; exact hdst) hps rfl
    (by simp only [] at hlen2 ⊢; omega)
    (Or.inl ⟨Or.inl rfl, 0, 0, {
        height := hh1
        prior := hp1
        cur := hx1
        image := by
          show r1.image_ ++ _ = _
          rw [hi1]
          simp [scanlineWrites]
        curRaw := hraw1
        start := fun _ => ⟨rfl, hend1, hy1⟩
        row := fun e => absurd rfl e },
      Nat.zero_le _, by simp [remainingData, houts], by
        obtain ⟨m, hm⟩ := Nat.exists_eq_succ_of_ne_zero h0
        simp [remainingData, hm, filteredRows]⟩)
  rw [h3]
  have h4 := ReadChunk_IEND_framed r3 (crc32 (bigEndian32 IENDChunkType.GetValue ++ [])) []
    (crc32_lt _) hc3 (by rw [hs3, sealedChunk_eq_framedChunk]; simp)
  rw [if_neg (by simp)] at h4
  rw [ReadChunks_step n r3 _ hlen3 (by rw [hs3]; exact sealedChunk_ne_nil _ _ []) h4,
    ReadChunks_nil n _ rfl]
  exact ⟨_, c, rfl, rfl, hdone3.done, hdone3.image⟩

/-- Decoding a 1 x 1 image with any palette chunk of a length divisible by 3,
read with the stored stand-in for zlib: the decode succeeds with one call of
`SetPaletteEntry` per three bytes of the palette chunk. -/
theorem LoadPNG_any_palette (palette : List Byte) (hp3 : palette.length % 3 = 0)
    (hp : palette.length < 2 ^ 32) :
    ∃ c, LoadPNG ZLib.stored (PngSignature ++ sealedChunks
        [(IHDRChunkType.GetValue, IHDRPayload 1 1), (PLTEChunkType.GetValue, palette),
          (IDATChunkType.GetValue, [0, 0]), (IENDChunkType.GetValue, [])]) =
      ⟨[.BeginWrite, .SetImageInfo ⟨1, 1⟩] ++ paletteWrites 0 palette ++
        [.SetScanline 0 [0]] ++ List.replicate c (.SetScanline 0 [0]) ++ [.EndWrite true],
        none⟩ := by
  obtain ⟨r2, c, hok, hall, hdone, himg⟩ := ReadChunks_unfiltered (fun _ => [0]) 1 1 palette
    [[0, 0]] [[0, 0]]
    (afterSignature (⟨[], ()⟩ : Decompressor ZLib.stored) (sealedChunks
      [(IHDRChunkType.GetValue, IHDRPayload 1 1), (PLTEChunkType.GetValue, palette),
        (IDATChunkType.GetValue, [0, 0]), (IENDChunkType.GetValue, [])]))
    (sealedChunks
      [(IHDRChunkType.GetValue, IHDRPayload 1 1), (PLTEChunkType.GetValue, palette),
        (IDATChunkType.GetValue, [0, 0]), (IENDChunkType.GetValue, [])]).length
    (by decide) (by decide) (by decide) (by decide) (fun _ _ => rfl) hp3 hp (by simp) rfl rfl
    rfl rfl rfl rfl (le_refl _)
  refine ⟨c, ?_⟩
  rw [LoadPNG_of_ReadChunks_ok ZLib.stored ⟨[], ()⟩ _ r2 rfl hok, if_neg (by simp [hall]),
    if_neg (by simp [hdone]), himg]
  simp [afterSignature, init, scanlineWrites, List.range_succ]

theorem getD_replicate_zero (n i : Nat) : (List.replicate n (0 : Byte)).getD i 0 = 0 := by
  induction n generalizing i with
  | zero => rfl
  | succ n ih =>
    cases i with
    | zero => rfl
    | succ i => simp [List.replicate_succ, ih i]

/-- C24 fails on the code: the decoder makes as many calls of
`SetPaletteEntry` as the palette chunk has entries, with the indices 0, 1,
... .  A stream whose palette chunk has one entry is decoded successfully
with a single call, and a stream whose palette chunk has 257 entries is
decoded successfully with a call for the index 256. -/
theorem palette_calls_follow_chunk_length :
    LoadPNG ZLib.stored onePaletteEntryStream =
      ⟨[.BeginWrite, .SetImageInfo ⟨1, 1⟩, .SetPaletteEntry 0 ⟨10, 20, 30⟩,
        .SetScanline 0 [0], .EndWrite true], none⟩ ∧
    (LoadPNG ZLib.stored (PngSignature ++ sealedChunks
        [(IHDRChunkType.GetValue, IHDRPayload 1 1),
          (PLTEChunkType.GetValue, List.replicate 771 0),
          (IDATChunkType.GetValue, [0, 0]), (IENDChunkType.GetValue, [])])).thrown = none ∧
    .SetPaletteEntry 256 ⟨0, 0, 0⟩ ∈ (LoadPNG ZLib.stored (PngSignature ++ sealedChunks
        [(IHDRChunkType.GetValue, IHDRPayload 1 1),
          (PLTEChunkType.GetValue, List.replicate 771 0),
          (IDATChunkType.GetValue, [0, 0]), (IENDChunkType.GetValue, [])])).image := by
  have hlen : (List.replicate 771 (0 : Byte)).length = 3 * 257 := List.length_replicate _ _
  obtain ⟨c, h⟩ := LoadPNG_any_palette (List.replicate 771 0)
    (by rw [hlen]) (by rw [hlen]; decide)
  rw [h]
  refine ⟨by decide!, rfl, ?_⟩
  have hm : WritableImageCall.SetPaletteEntry 256 ⟨0, 0, 0⟩ ∈
      paletteWrites 0 (List.replicate 771 0) := by
    rw [paletteWrites_eq_map 257 0 _ hlen]
    refine List.mem_map.mpr ⟨256, List.mem_range.mpr (by decide), ?_⟩
    rw [getD_replicate_zero, getD_replicate_zero, getD_replicate_zero]
  simp only [List.mem_append]
  exact Or.inl (Or.inl (Or.inl (Or.inr hm)))

/-! ## The Average, Sub and Up filters along a scanline (claims C31, C32, C33) -/

/-- The bytes `Unfilter` of the Average filter returns when its cursor stands
at `prior[x]` and the byte to the left is `left`. -/
theorem AverageFilter_unfilterBytes_at (prior : Option (List Byte)) (fs : List Byte) :
    ∀ (x : Nat) (left : Byte),
      (Filter.unfilterBytes (.average ⟨prior.map (List.drop x), left⟩) fs).length = fs.length ∧
      ∀ i, i < fs.length →
        ((Filter.unfilterBytes (.average ⟨prior.map (List.drop x), left⟩) fs).getD i 0).val =
          ((fs.getD i 0).val +
            ((if i = 0 then left.val else
                ((Filter.unfilterBytes (.average ⟨prior.map (List.drop x), left⟩) fs).getD
                  (i - 1) 0).val) +
              ((prior.getD []).getD (x + i) 0).val) / 2) % 256 := by
  induction fs with
  | nil =>
    intro x left
    exact ⟨rfl, fun i hi => absurd hi (Nat.not_lt_zero _)⟩
  | cons b fs ih =>
    intro x left
    have hstep : (AverageFilter.Unfilter ⟨prior.map (List.drop x), left⟩ b).2 =
        ⟨prior.map (List.drop (x + 1)),
          (AverageFilter.Unfilter ⟨prior.map (List.drop x), left⟩ b).1⟩ := by
      cases prior <;> simp [AverageFilter.Unfilter, List.tail_drop]
    have hraw : ((AverageFilter.Unfilter ⟨prior.map (List.drop x), left⟩ b).1).val =
        (b.val + (left.val + ((prior.getD []).getD x 0).val) / 2) % 256 := by
      cases prior <;>
        simp [AverageFilter.Unfilter, toByte, deref_drop, Nat.and_comm 0xFF, and_255,
          Nat.shiftRight_eq_div_pow]
    simp only [Filter.unfilterBytes, Filter.Unfilter]
    rw [hstep]
    obtain ⟨ih1, ih2⟩ := ih (x + 1) (AverageFilter.Unfilter ⟨prior.map (List.drop x), left⟩ b).1
    refine ⟨by simp only [List.length_cons, ih1], ?_⟩
    intro i hi
    cases i with
    | zero => simpa using hraw
    | succ i =>
      simp only [List.length_cons] at hi
      simp only [List.getD_cons_succ, Nat.add_sub_cancel, Nat.succ_ne_zero, if_false]
      rw [ih2 i (by omega)]
      have e1 : x + 1 + i = x + (i + 1) := by omega
      rw [e1]
      cases i with
      | zero => simp
      | succ j => simp

/-- C31: for every filtered scanline `f` and every prior scanline (or none),
`BeginScanline(prior)` of the Average filter followed by `Unfilter` on the
bytes of `f`, left to right, returns `raw` of the length of `f` with
`raw[x] = (f[x] + floor((raw[x-1] + prior[x]) / 2)) mod 256`, where `raw[-1]`
is 0 and `prior[x]` is 0 when there is no prior scanline.  The sum
`raw[x-1] + prior[x]` is a sum of natural numbers: it is halved before
anything is reduced modulo 256. -/
theorem AverageFilter_unfilters_scanline (f0 : AverageFilter) (prior : Option (List Byte))
    (f : List Byte) :
    (Filter.unfilterBytes (.average (f0.BeginScanline prior)) f).length = f.length ∧
    ∀ x, x < f.length →
      ((Filter.unfilterBytes (.average (f0.BeginScanline prior)) f).getD x 0).val =
        ((f.getD x 0).val +
          ((if x = 0 then 0 else
              ((Filter.unfilterBytes (.average (f0.BeginScanline prior)) f).getD (x - 1) 0).val) +
            ((prior.getD []).getD x 0).val) / 2) % 256 := by
  have hb : f0.BeginScanline prior = ⟨prior.map (List.drop 0), 0⟩ := by
    cases prior <;> simp [AverageFilter.BeginScanline]
  rw [hb]
  have h := AverageFilter_unfilterBytes_at prior f 0 0
  refine ⟨h.1, fun x hx => ?_⟩
  rw [h.2 x hx]
  simp only [Nat.zero_add]
  rfl

/-- The bytes `Unfilter` of the Sub filter returns when the byte to the left
is `left`: the running sums of the filtered bytes on top of `left`. -/
theorem SubFilter_unfilterBytes_at (fs : List Byte) :
    ∀ (left : Byte),
      (Filter.unfilterBytes (.sub ⟨left⟩) fs).length = fs.length ∧
      ∀ i, i < fs.length →
        ((Filter.unfilterBytes (.sub ⟨left⟩) fs).getD i 0).val =
          ((fs.getD i 0).val +
            (if i = 0 then left.val else
              ((Filter.unfilterBytes (.sub ⟨left⟩) fs).getD (i - 1) 0).val)) % 256 ∧
        ((Filter.unfilterBytes (.sub ⟨left⟩) fs).getD i 0).val =
          (left.val + ((fs.take (i + 1)).map (fun b => b.val)).sum) % 256 := by
  induction fs with
  | nil =>
    intro left
    exact ⟨rfl, fun i hi => absurd hi (Nat.not_lt_zero _)⟩
  | cons b fs ih =>
    intro left
    have hstep : (SubFilter.Unfilter ⟨left⟩ b).2 = ⟨(SubFilter.Unfilter ⟨left⟩ b).1⟩ := rfl
    have hraw : ((SubFilter.Unfilter ⟨left⟩ b).1).val = (b.val + left.val) % 256 := by
      simp [SubFilter.Unfilter, toByte, and_255]
    simp only [Filter.unfilterBytes, Filter.Unfilter]
    rw [hstep]
    obtain ⟨ih1, ih2⟩ := ih (SubFilter.Unfilter ⟨left⟩ b).1
    refine ⟨by simp only [List.length_cons, ih1], ?_⟩
    intro i hi
    cases i with
    | zero =>
      simp only [List.getD_cons_zero, if_true, hraw, Nat.zero_add, List.take_succ_cons,
        List.take_zero, List.map_cons, List.map_nil, List.sum_cons, List.sum_nil, Nat.add_zero]
      exact ⟨trivial, by rw [Nat.add_comm]⟩
    | succ i =>
      simp only [List.length_cons] at hi
      simp only [List.getD_cons_succ, Nat.add_sub_cancel, Nat.succ_ne_zero, if_false]
      obtain ⟨a1, a2⟩ := ih2 i (by omega)
      constructor
      · rw [a1]
        cases i with
        | zero => simp
        | succ j => simp
      · rw [a2, hraw]
        simp only [List.take_succ_cons, List.map_cons, List.sum_cons]
        omega

/-- C32: for every filtered scanline `f`, `BeginScanline` of the Sub filter
followed by `Unfilter` on the bytes of `f`, left to right, returns `raw` of the
length of `f` with `raw[0] = f[0]` and `raw[x] = (f[x] + raw[x-1]) mod 256`,
that is, `raw[x]` is the sum of `f[0..x]` modulo 256; the prior scanline
handed to `BeginScanline` makes no difference. -/
theorem SubFilter_unfilters_scanline (f0 : SubFilter) (prior : Option (List Byte))
    (f : List Byte) :
    (Filter.unfilterBytes (.sub (f0.BeginScanline prior)) f).length = f.length ∧
    (∀ x, x < f.length →
      ((Filter.unfilterBytes (.sub (f0.BeginScanline prior)) f).getD x 0).val =
        ((f.getD x 0).val +
          (if x = 0 then 0 else
            ((Filter.unfilterBytes (.sub (f0.BeginScanline prior)) f).getD (x - 1) 0).val)) %
          256 ∧
      ((Filter.unfilterBytes (.sub (f0.BeginScanline prior)) f).getD x 0).val =
        ((f.take (x + 1)).map (fun b => b.val)).sum % 256) ∧
    (0 < f.length →
      (Filter.unfilterBytes (.sub (f0.BeginScanline prior)) f).getD 0 0 = f.getD 0 0) ∧
    Filter.unfilterBytes (.sub (f0.BeginScanline prior)) f =
      Filter.unfilterBytes (.sub (f0.BeginScanline none)) f := by
  have hb : f0.BeginScanline prior = ⟨0⟩ := rfl
  rw [hb]
  have h := SubFilter_unfilterBytes_at f 0
  refine ⟨h.1, fun x hx => ?_, fun h0 => ?_, rfl⟩
  · obtain ⟨a1, a2⟩ := h.2 x hx
    refine ⟨by rw [a1]; rfl, ?_⟩
    rw [a2]
    simp
  · obtain ⟨a1, _⟩ := h.2 0 h0
    apply Fin.ext
    rw [a1]
    have := (f.getD 0 0).isLt
    simp only [if_true]
    show ((f.getD 0 0).val + 0) % 256 = _
    omega

/-- The bytes `Unfilter` of the Up filter returns when its cursor stands at
`prior[x]`. -/
theorem UpFilter_unfilterBytes_at (p : List Byte) (fs : List Byte) :
    ∀ (x : Nat),
      (Filter.unfilterBytes (.up ⟨some (p.drop x)⟩) fs).length = fs.length ∧
      ∀ i, i < fs.length →
        ((Filter.unfilterBytes (.up ⟨some (p.drop x)⟩) fs).getD i 0).val =
          ((fs.getD i 0).val + (p.getD (x + i) 0).val) % 256 := by
  induction fs with
  | nil =>
    intro x
    exact ⟨rfl, fun i hi => absurd hi (Nat.not_lt_zero _)⟩
  | cons b fs ih =>
    intro x
    have hstep : (UpFilter.Unfilter ⟨some (p.drop x)⟩ b).2 = ⟨some (p.drop (x + 1))⟩ := by
      simp [UpFilter.Unfilter, List.tail_drop]
    have hraw : ((UpFilter.Unfilter ⟨some (p.drop x)⟩ b).1).val =
        (b.val + (p.getD x 0).val) % 256 := by
      simp [UpFilter.Unfilter, toByte, deref_drop, and_255]
    simp only [Filter.unfilterBytes, Filter.Unfilter]
    rw [hstep]
    obtain ⟨ih1, ih2⟩ := ih (x + 1)
    refine ⟨by simp only [List.length_cons, ih1], ?_⟩
    intro i hi
    cases i with
    | zero => simpa using hraw
    | succ i =>
      simp only [List.length_cons] at hi
      simp only [List.getD_cons_succ]
      rw [ih2 i (by omega)]
      have e1 : x + 1 + i = x + (i + 1) := by omega
      rw [e1]

/-- Without a prior scanline the Up filter returns the filtered bytes. -/
theorem UpFilter_unfilterBytes_none (fs : List Byte) :
    Filter.unfilterBytes (.up ⟨none⟩) fs = fs := by
  induction fs with
  | nil => rfl
  | cons b fs ih =>
    simp only [Filter.unfilterBytes, Filter.Unfilter, UpFilter.Unfilter]
    rw [ih]

/-- C33: for every filtered scanline `f`, `BeginScanline(prior)` of the Up
filter followed by `Unfilter` on the bytes of `f`, left to right, returns
`raw` of the length of `f` with `raw[x] = (f[x] + prior[x]) mod 256` when there
is a prior scanline (read as 0 beyond its end), and returns `f` itself when
there is none. -/
theorem UpFilter_unfilters_scanline (f0 : UpFilter) (f : List Byte) :
    (∀ prior : List Byte,
      (Filter.unfilterBytes (.up (f0.BeginScanline (some prior))) f).length = f.length ∧
      ∀ x, x < f.length →
        ((Filter.unfilterBytes (.up (f0.BeginScanline (some prior))) f).getD x 0).val =
          ((f.getD x 0).val + (prior.getD x 0).val) % 256) ∧
    Filter.unfilterBytes (.up (f0.BeginScanline none)) f = f := by
  refine ⟨fun prior => ?_, UpFilter_unfilterBytes_none f⟩
  have hb : f0.BeginScanline (some prior) = ⟨some (prior.drop 0)⟩ := rfl
  rw [hb]
  have h := UpFilter_unfilterBytes_at prior f 0
  refine ⟨h.1, fun x hx => ?_⟩
  rw [h.2 x hx]
  simp only [Nat.zero_add]

/-! ## What the encoder feeds to the compressor (claim C34) -/

theorem flatten_filter_nonempty (outs : List (List Byte)) :
    (outs.filter (fun o => !o.isEmpty)).flatten = outs.flatten := by
  induction outs with
  | nil => rfl
  | cons o outs ih =>
    cases o with
    | nil => simpa [List.filter] using ih
    | cons b o => simp [List.filter, ih]

theorem scanlineOutputs_length (z : ZLib) (image : ReadableImage) (width height : Nat)
    (n : Nat) :
    ∀ (y : Nat) (s : z.DeflateState) (outs : List (List Byte)),
      z.scanlineOutputs image width height n y s = some outs → outs.length = n := by
  induction n with
  | zero =>
    intro y s outs h
    simp only [ZLib.scanlineOutputs, Option.some.injEq] at h
    subst h
    rfl
  | succ n ih =>
    intro y s outs h
    rw [ZLib.scanlineOutputs] at h
    cases h1 : z.deflate s [0] with
    | none => simp [h1] at h
    | some a1 =>
      obtain ⟨s1, o1⟩ := a1
      simp only [h1] at h
      cases h2 : z.deflate s1 ((image.GetScanline y).take width) with
      | none => simp [h2] at h
      | some a2 =>
        obtain ⟨s2, o2⟩ := a2
        simp only [h2] at h
        cases h3 : (if y = height - 1 then z.deflateFinish s2 else some (s2, [])) with
        | none => simp [h3] at h
        | some a3 =>
          obtain ⟨s3, o3⟩ := a3
          simp only [h3] at h
          cases h4 : z.scanlineOutputs image width height n (y + 1) s3 with
          | none => simp [h4] at h
          | some rest =>
            simp only [h4, Option.map_some', Option.some.injEq] at h
            subst h
            simp [ih _ _ _ h4]

/-- The payloads the loop of `WriteIDATChunks` writes are what the compressor
emits per scanline, where that is not empty. -/
theorem IDATPayloads_eq_scanlineOutputs {z : ZLib} (image : ReadableImage)
    (width height : Nat) (n : Nat) :
    ∀ (y : Nat) (c : Compressor z), c.dst = [] →
      IDATPayloads image width height n y c =
        (z.scanlineOutputs image width height n y c.zStm_).map
          (fun outs => outs.filter (fun o => !o.isEmpty)) := by
  induction n with
  | zero =>
    intro y c _
    rfl
  | succ n ih =>
    intro y c hdst
    rw [IDATPayloads, ZLib.scanlineOutputs]
    simp only [Compressor.CompressByte, Compressor.Compress, List.take_succ_cons,
      List.take_zero, hdst, List.nil_append]
    cases h1 : z.deflate c.zStm_ [0] with
    | none => rfl
    | some a1 =>
      obtain ⟨s1, o1⟩ := a1
      simp only []
      cases h2 : z.deflate s1 ((image.GetScanline y).take width) with
      | none => rfl
      | some a2 =>
        obtain ⟨s2, o2⟩ := a2
        simp only []
        have key : ∀ (s3 : z.DeflateState) (o : List Byte),
            (if o.length ≠ 0 then
                (IDATPayloads image width height n (y + 1)
                  (Compressor.ClearDst (⟨o, s3⟩ : Compressor z))).map (fun rest => o :: rest)
              else IDATPayloads image width height n (y + 1) (⟨o, s3⟩ : Compressor z)) =
              ((z.scanlineOutputs image width height n (y + 1) s3).map
                (fun rest => o :: rest)).map (fun outs => outs.filter (fun o => !o.isEmpty)) := by
          intro s3 o
          by_cases hl : o.length ≠ 0
          · rw [if_pos hl, ih (y + 1) (Compressor.ClearDst ⟨o, s3⟩) rfl]
            have hne : o.isEmpty = false := by
              cases o with
              | nil => simp at hl
              | cons _ _ => rfl
            simp only [Compressor.ClearDst]
            cases z.scanlineOutputs image width height n (y + 1) s3 with
            | none => rfl
            | some rest => simp [List.filter, hne]
          · rw [if_neg hl]
            have hnil : o = [] := List.eq_nil_of_length_eq_zero (by simpa using hl)
            rw [ih (y + 1) ⟨o, s3⟩ hnil]
            cases z.scanlineOutputs image width height n (y + 1) s3 with
            | none => rfl
            | some rest => simp [List.filter, hnil]
        by_cases hlast : y = height - 1
        · simp only [if_pos hlast, Compressor.Finish]
          cases h3 : z.deflateFinish s2 with
          | none => rfl
          | some a3 =>
            obtain ⟨s3, o3⟩ := a3
            simp only [Compressor.GetDstLength, Compressor.GetDstPtr, List.take_length]
            exact key s3 (o1 ++ o2 ++ o3)
        · simp only [if_neg hlast]
          simp only [Compressor.GetDstLength, Compressor.GetDstPtr, List.take_length,
            List.append_nil]
          exact key s2 (o1 ++ o2)

/-- The outputs per scanline are, end to end, what the compressor emits when
it is fed the blocks of the image data one by one and finished after the
last. -/
theorem compressAll_scanlineOutputs (z : ZLib) (image : ReadableImage) (width height : Nat)
    (n : Nat) :
    ∀ (y : Nat) (s : z.DeflateState) (outs : List (List Byte)),
      y + (n + 1) = height →
      z.scanlineOutputs image width height (n + 1) y s = some outs →
      z.compressAll s (rawBlocks image width (n + 1) y) = some outs.flatten := by
  induction n with
  | zero =>
    intro y s outs hy h
    have hlast : y = height - 1 := by omega
    simp only [ZLib.scanlineOutputs, if_pos hlast] at h
    simp only [rawBlocks, ZLib.compressAll]
    cases h1 : z.deflate s [0] with
    | none => simp [h1] at h
    | some a1 =>
      obtain ⟨s1, o1⟩ := a1
      simp only [h1] at h ⊢
      cases h2 : z.deflate s1 ((image.GetScanline y).take width) with
      | none => simp [h2] at h
      | some a2 =>
        obtain ⟨s2, o2⟩ := a2
        simp only [h2] at h ⊢
        cases h3 : z.deflateFinish s2 with
        | none => simp [h3] at h
        | some a3 =>
          obtain ⟨s3, o3⟩ := a3
          simp only [h3, Option.map_some', Option.some.injEq] at h ⊢
          subst h
          simp
  | succ n ih =>
    intro y s outs hy h
    have hlast : y ≠ height - 1 := by omega
    rw [ZLib.scanlineOutputs] at h
    rw [rawBlocks]
    cases h1 : z.deflate s [0] with
    | none => simp [h1] at h
    | some a1 =>
      obtain ⟨s1, o1⟩ := a1
      simp only [h1] at h
      rw [compressAll_cons_some z _ _ _ _ _ h1]
      cases h2 : z.deflate s1 ((image.GetScanline y).take width) with
      | none => simp [h2] at h
      | some a2 =>
        obtain ⟨s2, o2⟩ := a2
        simp only [h2, if_neg hlast] at h
        rw [compressAll_cons_some z _ _ _ _ _ h2]
        cases h4 : z.scanlineOutputs image width height (n + 1) (y + 1) s2 with
        | none => simp [h4] at h
        | some rest =>
          simp only [h4, Option.map_some', Option.some.injEq] at h
          subst h
          rw [ih (y + 1) s2 rest (by omega) h4]
          simp

/-- C34: for an image of width and height at least 1 and a compressor that
initialises and accepts the image data, `SavePNG` on a good stream fetches the
scanlines 0, 1, ..., `height - 1` once each, in this order, and for each runs
the compressor on the byte 0 and then on the first `width` bytes of the
scanline as they are, finishing the compressor in the pass of scanline
`height - 1` and in no other (`scanlineOutputs`).  What the compressor emits
during the pass of a scanline is written as one image-data chunk when it is
not empty and left out when it is empty, so there are at most `height`
image-data chunks, none with an empty payload, and their payloads are, end to
end, the complete output of the compressor on the blocks `[0]`, scanline 0,
`[0]`, scanline 1, ... (`compressAll`, `rawBlocks`). -/
theorem WriteIDATChunks_feeds_scanlines (z : ZLib) (image : ReadableImage) (out : List Byte)
    (s : z.DeflateState) (outs : List (List Byte))
    (hw : image.GetImageInfo.GetWidth ≠ 0) (hh : image.GetImageInfo.GetHeight ≠ 0)
    (hs : z.deflateInit = some s)
    (houts : z.scanlineOutputs image image.GetImageInfo.GetWidth image.GetImageInfo.GetHeight
      image.GetImageInfo.GetHeight 0 s = some outs) :
    SavePNG z image ⟨out, true⟩ =
      ⟨⟨out ++ PngSignature ++
          sealedChunks (encoderChunks image (outs.filter (fun o => !o.isEmpty))), true⟩,
        [.BeginRead, .GetImageInfo] ++ paletteReads 256 0 ++
          scanlineReads image.GetImageInfo.GetHeight 0 ++ [.EndRead true], none⟩ ∧
    outs.length = image.GetImageInfo.GetHeight ∧
    (outs.filter (fun o => !o.isEmpty)).length ≤ image.GetImageInfo.GetHeight ∧
    (∀ p ∈ outs.filter (fun o => !o.isEmpty), p ≠ []) ∧
    (outs.filter (fun o => !o.isEmpty)).flatten = outs.flatten ∧
    z.compressAll s (rawBlocks image image.GetImageInfo.GetWidth
      image.GetImageInfo.GetHeight 0) = some outs.flatten ∧
    (rawBlocks image image.GetImageInfo.GetWidth image.GetImageInfo.GetHeight 0).flatten =
      filteredRows (fun y => (image.GetScanline y).take image.GetImageInfo.GetWidth)
        image.GetImageInfo.GetHeight 0 := by
  have hnew := Compressor_new_of_deflateInit z s hs
  have hps := IDATPayloads_eq_scanlineOutputs image image.GetImageInfo.GetWidth
    image.GetImageInfo.GetHeight image.GetImageInfo.GetHeight 0 (⟨[], s⟩ : Compressor z) rfl
  rw [houts] at hps
  have hlen := scanlineOutputs_length z image _ _ _ _ _ _ houts
  obtain ⟨m, hm⟩ := Nat.exists_eq_succ_of_ne_zero hh
  refine ⟨(SavePNG_good z image out hw hh).1 _ _ hnew hps, hlen, ?_, ?_,
    flatten_filter_nonempty outs, ?_, rawBlocks_flatten _ _ _ _⟩
  · rw [← hlen]
    exact List.length_filter_le _ _
  · intro p hp
    have := (List.mem_filter.mp hp).2
    intro e
    subst e
    simp at this
  · have key := compressAll_scanlineOutputs z image image.GetImageInfo.GetWidth
      image.GetImageInfo.GetHeight m 0 s outs (by omega)
      (by rw [← Nat.succ_eq_add_one, ← hm]; exact houts)
    rw [← Nat.succ_eq_add_one, ← hm] at key
    exact key

/-- An instance of C34: the 2 x 2 image with scanlines `[0, 1]` and `[1, 0]`
and the stand-in for zlib that writes down its calls.  The two image-data
chunks show the calls of each pass: `deflate` on `[0]`, `deflate` on the
scanline, and in the second pass the finishing run. -/
theorem WriteIDATChunks_feeds_scanlines_witness :
    SavePNG ZLib.journal checkerImage ⟨[], true⟩ =
      ⟨⟨[] ++ PngSignature ++
          sealedChunks (encoderChunks checkerImage
            ([[1, 1, 0, 1, 2, 0, 1], [1, 1, 0, 1, 2, 1, 0, 2]].filter (fun o => !o.isEmpty))),
          true⟩,
        [.BeginRead, .GetImageInfo] ++ paletteReads 256 0 ++
          scanlineReads checkerImage.GetImageInfo.GetHeight 0 ++ [.EndRead true], none⟩ ∧
    ([[1, 1, 0, 1, 2, 0, 1], [1, 1, 0, 1, 2, 1, 0, 2]] : List (List Byte)).length =
      checkerImage.GetImageInfo.GetHeight :=
  ⟨(WriteIDATChunks_feeds_scanlines ZLib.journal checkerImage [] ()
      [[1, 1, 0, 1, 2, 0, 1], [1, 1, 0, 1, 2, 1, 0, 2]] (by decide) (by decide) rfl rfl).1,
    (WriteIDATChunks_feeds_scanlines ZLib.journal checkerImage [] ()
      [[1, 1, 0, 1, 2, 0, 1], [1, 1, 0, 1, 2, 1, 0, 2]] (by decide) (by decide) rfl rfl).2.1⟩

/-! ## The scanline loop over a split sequence of bytes -/

theorem unfilterLoop_append_ok {z : ZLib} (a b : List Byte) :
    ∀ (r r1 : PNGReader z), r.unfilterLoop a = .ok r1 →
      r.unfilterLoop (a ++ b) = r1.unfilterLoop b := by
  induction a with
  | nil =>
    intro r r1 h
    simp only [unfilterLoop, Except.ok.injEq] at h
    subst h
    rfl
  | cons x a ih =>
    intro r r1 h
    rw [List.cons_append, unfilterLoop]
    rw [unfilterLoop] at h
    cases hx : r.unfilterByte x with
    | error t =>
      rw [hx] at h
      contradiction
    | ok r2 =>
      rw [hx] at h
      exact ih r2 r1 h

theorem unfilterLoop_append_error {z : ZLib} (a b : List Byte) :
    ∀ (r : PNGReader z) (t : Thrown), r.unfilterLoop a = .error t →
      r.unfilterLoop (a ++ b) = .error t := by
  induction a with
  | nil =>
    intro r t h
    simp only [unfilterLoop] at h
    contradiction
  | cons x a ih =>
    intro r t h
    rw [List.cons_append, unfilterLoop]
    rw [unfilterLoop] at h
    cases hx : r.unfilterByte x with
    | error t2 =>
      rw [hx] at h
      exact h
    | ok r2 =>
      rw [hx] at h
      exact ih r2 t h

/-- Any byte after the last scanline is full raises the overrun error. -/
theorem unfilterLoop_full {z : ZLib} (r : PNGReader z) (b : Byte) (bytes : List Byte)
    (hf : r.lastScanlineFull) :
    r.unfilterLoop (b :: bytes) = .error ⟨.tooManyPixels, r.image_⟩ := by
  rw [unfilterLoop, unfilterByte_overrun r b hf.1 (by rw [hf.2]; omega)]

theorem finalScanline_full {z : ZLib} (r : PNGReader z) (hf : r.lastScanlineFull) :
    r.finalScanline = { r with
      image_ := r.image_ ++ [.SetScanline r.curY_ r.rawScanline_], imageDone_ := true } := by
  unfold finalScanline
  exact if_pos hf

theorem finalScanline_not_full {z : ZLib} (r : PNGReader z) (hf : ¬ r.lastScanlineFull) :
    r.finalScanline = r := by
  unfold finalScanline
  exact if_neg hf

/-- After the last scanline is full, a sequence of blocks holding a byte
raises the overrun error. -/
theorem scanBlocks_full_error {z : ZLib} (blocks : List (List Byte)) :
    ∀ (r : PNGReader z), r.lastScanlineFull → blocks.flatten ≠ [] →
      ∃ image, r.scanBlocks blocks = .error ⟨.tooManyPixels, image⟩ := by
  induction blocks with
  | nil =>
    intro r _ hne
    exact absurd rfl hne
  | cons b blocks ih =>
    intro r hf hne
    rw [scanBlocks, scanBlock]
    cases b with
    | nil =>
      simp only [unfilterLoop]
      apply ih
      · rw [finalScanline_full r hf]
        exact hf
      · simpa using hne
    | cons x b =>
      rw [unfilterLoop_full r x b hf]
      exact ⟨_, rfl⟩

/-- After the last scanline is full and has been written, each empty block
writes it again and changes nothing else. -/
theorem scanBlocks_full_empty {z : ZLib} (blocks : List (List Byte)) :
    ∀ (r : PNGReader z), r.lastScanlineFull → r.imageDone_ = true →
      (∀ b ∈ blocks, b = []) →
      r.scanBlocks blocks = .ok { r with
        image_ := r.image_ ++
          List.replicate blocks.length (.SetScanline r.curY_ r.rawScanline_) } := by
  induction blocks with
  | nil =>
    intro r _ _ _
    simp [scanBlocks]
  | cons b blocks ih =>
    intro r hf hd hall
    have hb : b = [] := hall b (List.mem_cons_self _ _)
    subst hb
    rw [scanBlocks, scanBlock]
    simp only [unfilterLoop]
    rw [finalScanline_full r hf]
    have hi := ih { r with
        image_ := r.image_ ++ [.SetScanline r.curY_ r.rawScanline_], imageDone_ := true }
      hf rfl (fun b hb => hall b (List.mem_cons_of_mem _ hb))
    rw [hi]
    simp only [List.length_cons, List.replicate_succ, List.append_assoc, List.singleton_append]
    rw [← hd]

theorem storedScanline_append_replicate (pre : List WritableImageCall) (y0 : Nat)
    (src : List Byte) (c : Nat) (y : Nat) :
    storedScanline (pre ++ [.SetScanline y0 src] ++ List.replicate c (.SetScanline y0 src)) y =
      storedScanline (pre ++ [.SetScanline y0 src]) y := by
  induction c with
  | zero => simp
  | succ c ih =>
    rw [List.replicate_succ', ← List.append_assoc]
    unfold storedScanline at ih ⊢
    rw [List.foldl_append, ih]
    simp only [List.foldl_append, List.foldl_cons, List.foldl_nil]
    split <;> rfl

/-- The scanline state machine on a sequence of blocks and on their
concatenation as one block: both raise an error, with the same message, or
both return, in the same state but for the final scanline, which the split
run has written `c` more times. -/
theorem scanBlocks_cons_flatten {z : ZLib} (blocks : List (List Byte)) :
    ∀ (b : List Byte) (r : PNGReader z),
      (∃ t t2, r.scanBlocks (b :: blocks) = .error t ∧
          r.scanBlock (b :: blocks).flatten = .error t2 ∧ t.what = t2.what) ∨
        (∃ r1 c, r.scanBlock (b :: blocks).flatten = .ok r1 ∧
          r.scanBlocks (b :: blocks) = .ok { r1 with
            image_ := r1.image_ ++ List.replicate c (.SetScanline r1.curY_ r1.rawScanline_) } ∧
          c ≤ blocks.length ∧
          (c ≠ 0 → ∃ pre, r1.image_ = pre ++ [.SetScanline r1.curY_ r1.rawScanline_])) := by
  induction blocks with
  | nil =>
    intro b r
    simp only [scanBlocks, List.flatten_cons, List.flatten_nil, List.append_nil]
    cases hb : r.scanBlock b with
    | error t => exact Or.inl ⟨t, t, rfl, rfl, rfl⟩
    | ok r1 =>
      exact Or.inr ⟨r1, 0, rfl, by simp, le_refl _, fun h => absurd rfl h⟩
  | cons b2 blocks ih =>
    intro b r
    rw [scanBlocks, List.flatten_cons]
    unfold scanBlock
    cases hu : r.unfilterLoop b with
    | error t =>
      rw [unfilterLoop_append_error b _ r t hu]
      exact Or.inl ⟨t, t, rfl, rfl, rfl⟩
    | ok r0 =>
      rw [unfilterLoop_append_ok b _ r r0 hu]
      simp only []
      by_cases hf : r0.lastScanlineFull
      · by_cases hrest : (b2 :: blocks).flatten = []
        · right
          have hall : ∀ x ∈ b2 :: blocks, x = [] := List.flatten_eq_nil_iff.mp hrest
          rw [hrest]
          simp only [unfilterLoop]
          rw [finalScanline_full r0 hf]
          have he := scanBlocks_full_empty (b2 :: blocks) { r0 with
              image_ := r0.image_ ++ [.SetScanline r0.curY_ r0.rawScanline_], imageDone_ := true }
            hf rfl hall
          exact ⟨_, (b2 :: blocks).length, rfl, he, le_refl _, fun _ => ⟨r0.image_, rfl⟩⟩
        · left
          obtain ⟨image, he⟩ := scanBlocks_full_error (b2 :: blocks) r0.finalScanline
            (by rw [finalScanline_full r0 hf]; exact hf) hrest
          rw [he]
          cases hfl : (b2 :: blocks).flatten with
          | nil => exact absurd hfl hrest
          | cons x xs =>
            rw [unfilterLoop_full r0 x xs hf]
            exact ⟨_, _, rfl, rfl, rfl⟩
      · rw [finalScanline_not_full r0 hf]
        rcases ih b2 r0 with ⟨t, t2, h1, h2, h3⟩ | ⟨r1, c, h1, h2, h3, h4⟩
        · left
          unfold scanBlock at h2
          exact ⟨t, t2, h1, h2, h3⟩
        · right
          unfold scanBlock at h1
          exact ⟨r1, c, h1, h2, by simp only [List.length_cons]; omega, h4⟩

/-! ## The scanline loop and the members it neither reads nor writes -/

theorem withOutside_self {z : ZLib} (r : PNGReader z) : r.withOutside r = r := rfl

theorem withOutside_withOutside {z : ZLib} (r o o2 : PNGReader z) :
    (r.withOutside o).withOutside o2 = r.withOutside o2 := rfl

theorem curFilterBeginScanline_withOutside {z : ZLib} (r o : PNGReader z)
    (prior : Option (List Byte)) :
    (r.withOutside o).curFilterBeginScanline prior =
      (r.curFilterBeginScanline prior).map (fun r2 => r2.withOutside o) := by
  obtain ⟨_, _, _, _, _, _, _, _, _, _, _, _, _, _, _, _, _, curFilter⟩ := r
  cases curFilter with
  | none => rfl
  | some k => cases k <;> rfl

theorem curFilterUnfilter_withOutside {z : ZLib} (r o : PNGReader z) (filtered : Byte) :
    (r.withOutside o).curFilterUnfilter filtered =
      (r.curFilterUnfilter filtered).map (fun p => (p.1, p.2.withOutside o)) := by
  obtain ⟨_, _, _, _, _, _, _, _, _, _, _, _, _, _, _, _, _, curFilter⟩ := r
  cases curFilter with
  | none => rfl
  | some k => cases k <;> rfl

theorem unfilterByte_withOutside {z : ZLib} (r o : PNGReader z) (cur : Byte) :
    (r.withOutside o).unfilterByte cur =
      (r.unfilterByte cur).map (fun r2 => r2.withOutside o) := by
  unfold unfilterByte
  show (if r.curRaw_ = r.endRaw_ then _ else _) = _
  by_cases h1 : r.curRaw_ = r.endRaw_
  · rw [if_pos h1, if_pos h1]
    show (if (r.curY_ + 1) % 2 ^ 32 = r.height_ % 2 ^ 32 then _ else _) = _
    by_cases h2 : (r.curY_ + 1) % 2 ^ 32 = r.height_ % 2 ^ 32
    · simp only [h2, if_true]
      rfl
    · simp only [h2, if_false]
      unfold beginScanline
      show (if (r.curY_ + 1) % 2 ^ 32 ≠ 0 then _ else _) = _
      by_cases h3 : (r.curY_ + 1) % 2 ^ 32 ≠ 0
      · simp only [h3, if_true, ne_eq, not_false_eq_true]
        exact curFilterBeginScanline_withOutside { r with
          curY_ := (r.curY_ + 1) % 2 ^ 32, rawScanline_ := r.rawPriorScanline_,
          rawPriorScanline_ := r.rawScanline_, curRaw_ := 0,
          endRaw_ := r.rawPriorScanline_.length, curFilter_ := selectFilter r.curFilter_ cur,
          image_ := r.image_ ++
            [.SetScanline (((r.curY_ + 1) % 2 ^ 32 + 2 ^ 32 - 1) % 2 ^ 32) r.rawScanline_] }
          o (some r.rawScanline_)
      · simp only [h3, if_false, ne_eq]
        exact curFilterBeginScanline_withOutside { r with
          curY_ := (r.curY_ + 1) % 2 ^ 32, rawScanline_ := r.rawPriorScanline_,
          rawPriorScanline_ := r.rawScanline_, curRaw_ := 0,
          endRaw_ := r.rawPriorScanline_.length, curFilter_ := selectFilter r.curFilter_ cur }
          o none
  · rw [if_neg h1, if_neg h1, curFilterUnfilter_withOutside]
    cases r.curFilterUnfilter cur with
    | error t => rfl
    | ok p => rfl

theorem unfilterLoop_withOutside {z : ZLib} (bytes : List Byte) :
    ∀ (r o : PNGReader z),
      (r.withOutside o).unfilterLoop bytes =
        (r.unfilterLoop bytes).map (fun r2 => r2.withOutside o) := by
  induction bytes with
  | nil => intro r o; rfl
  | cons b bytes ih =>
    intro r o
    rw [unfilterLoop, unfilterLoop, unfilterByte_withOutside]
    cases r.unfilterByte b with
    | error t => rfl
    | ok r2 => exact ih r2 o

theorem finalScanline_withOutside {z : ZLib} (r o : PNGReader z) :
    (r.withOutside o).finalScanline = r.finalScanline.withOutside o := by
  unfold finalScanline
  show (if r.curRaw_ = r.endRaw_ ∧ r.curY_ = (r.height_ + 2 ^ 32 - 1) % 2 ^ 32 then _ else _) = _
  split <;> rfl

theorem scanBlock_withOutside {z : ZLib} (r o : PNGReader z) (block : List Byte) :
    (r.withOutside o).scanBlock block =
      (r.scanBlock block).map (fun r2 => r2.withOutside o) := by
  unfold scanBlock
  rw [unfilterLoop_withOutside]
  cases r.unfilterLoop block with
  | error t => rfl
  | ok r2 =>
    show Except.ok _ = Except.ok _
    rw [finalScanline_withOutside]

theorem scanBlocks_withOutside {z : ZLib} (blocks : List (List Byte)) :
    ∀ (r o : PNGReader z),
      (r.withOutside o).scanBlocks blocks =
        (r.scanBlocks blocks).map (fun r2 => r2.withOutside o) := by
  induction blocks with
  | nil => intro r o; rfl
  | cons b blocks ih =>
    intro r o
    rw [scanBlocks, scanBlocks, scanBlock_withOutside]
    cases r.scanBlock b with
    | error t => rfl
    | ok r2 => exact ih r2 o

/-- The chunk loop over sealed image-data chunks runs the scanline state
machine over their decompressed bytes, block by block. -/
theorem ReadChunks_IDAT_blocks {z : ZLib} (ps : List (List Byte)) :
    ∀ (outs : List (List Byte)) (r : PNGReader z) (rest : IStream) (n : Nat),
      z.decompressAll r.decompressor_.zStm_ ps = some outs →
      r.decompressor_.dst = [] →
      (∀ p ∈ ps, p.length < 2 ^ 32) →
      r.stm_ = sealedChunks (ps.map (fun p => (IDATChunkType.GetValue, p))) ++ rest →
      r.stm_.length ≤ n →
      (r.chunksRead_ = 3 ∨ r.chunksRead_ = 7) →
      (∀ t, r.scanBlocks outs = .error t → ReadChunks n r = .error t) ∧
      (∀ r2, r.scanBlocks outs = .ok r2 →
        ∃ o : PNGReader z, ReadChunks n r = ReadChunks n (r2.withOutside o) ∧ o.stm_ = rest ∧
          o.stm_.length ≤ n ∧ (o.chunksRead_ = 3 ∨ o.chunksRead_ = 7) ∧
          (r.chunksRead_ = 7 ∨ ps ≠ [] → o.chunksRead_ = 7)) := by
  induction ps with
  | nil =>
    intro outs r rest n hd _ _ hstm hn hr
    simp only [ZLib.decompressAll, Option.some.injEq] at hd
    subst hd
    refine ⟨fun t h => ?_, fun r2 h => ?_⟩
    · simp [scanBlocks] at h
    · simp only [scanBlocks, Except.ok.injEq] at h
      subst h
      exact ⟨r, rfl, by simpa [sealedChunks] using hstm, hn, hr, fun e => e.elim id (absurd rfl)⟩
  | cons p ps ih =>
    intro outs r rest n hd hdst hps hstm hn hr37
    obtain ⟨s2, out, outs2, hz, hd2, houts⟩ := decompressAll_cons z _ p ps outs hd
    subst houts
    simp only [List.map_cons, sealedChunks, List.append_assoc] at hstm
    have hs : r.stm_ ≠ [] := by rw [hstm]; exact sealedChunk_ne_nil _ _ _
    have hp := hps p (List.mem_cons_self _ _)
    have hstm2 : r.stm_ = framedChunk IDATChunkType.GetValue p
        (crc32 (bigEndian32 IDATChunkType.GetValue ++ p)) ++
        (sealedChunks (ps.map (fun p => (IDATChunkType.GetValue, p))) ++ rest) := by
      rw [hstm, sealedChunk_eq_framedChunk]
    have hbytes : r.decompressor_.dst ++ out = out := by rw [hdst, List.nil_append]
    have hloop : unfilterLoop { r with
        chunksRead_ := 7, compBuffer_ := p,
        decompressor_ := ⟨r.decompressor_.dst ++ out, s2⟩ } (r.decompressor_.dst ++ out) =
        (r.unfilterLoop out).map (fun r2 => r2.withOutside { r with
          chunksRead_ := 7, compBuffer_ := p,
          decompressor_ := ⟨r.decompressor_.dst ++ out, s2⟩ }) := by
      rw [hbytes]
      exact unfilterLoop_withOutside out r { r with
        chunksRead_ := 7, compBuffer_ := p, decompressor_ := ⟨out, s2⟩ }
    rw [scanBlocks, scanBlock]
    cases hu : r.unfilterLoop out with
    | error t =>
      rw [hu] at hloop
      have herr := ReadChunk_IDAT_loop_error r p _ _ s2 out t hp hr37 hstm2 hz hloop
      refine ⟨fun t2 h => ?_, fun r2 h => ?_⟩
      · simp only [Except.error.injEq] at h
        subst h
        exact ReadChunks_error n r _ hn hs herr
      · contradiction
    | ok r1 =>
      rw [hu] at hloop
      have hrc := ReadChunk_IDAT_loop_ok r _ p _ _ s2 out hp (crc32_lt _) hr37 hstm2 hz hloop
      rw [if_neg (by simp)] at hrc
      have hlen := ReadChunk_length hrc
      rw [ReadChunks_step n r _ hn hs hrc]
      simp only []
      have hnext : ({ (r1.withOutside { r with
            chunksRead_ := 7, compBuffer_ := p,
            decompressor_ := ⟨r.decompressor_.dst ++ out, s2⟩ }).finalScanline with
          decompressor_ := (r1.withOutside { r with
            chunksRead_ := 7, compBuffer_ := p,
            decompressor_ := ⟨r.decompressor_.dst ++ out, s2⟩ }).decompressor_.ClearDst,
          stm_ := sealedChunks (ps.map (fun p => (IDATChunkType.GetValue, p))) ++ rest } :
            PNGReader z) =
          r1.finalScanline.withOutside { r with
            chunksRead_ := 7, compBuffer_ := p, decompressor_ := ⟨[], s2⟩,
            stm_ := sealedChunks (ps.map (fun p => (IDATChunkType.GetValue, p))) ++ rest } := by
        rw [finalScanline_withOutside]
        rfl
      rw [hnext] at hlen ⊢
      obtain ⟨i1, i2⟩ := ih outs2 (r1.finalScanline.withOutside { r with
            chunksRead_ := 7, compBuffer_ := p, decompressor_ := ⟨[], s2⟩,
            stm_ := sealedChunks (ps.map (fun p => (IDATChunkType.GetValue, p))) ++ rest })
        rest n hd2 rfl (fun q hq => hps q (List.mem_cons_of_mem _ hq)) rfl
        (by
          have : (r1.finalScanline.withOutside { r with
            chunksRead_ := 7, compBuffer_ := p, decompressor_ := ⟨[], s2⟩,
            stm_ := sealedChunks (ps.map (fun p => (IDATChunkType.GetValue, p))) ++ rest }).stm_ =
              sealedChunks (ps.map (fun p => (IDATChunkType.GetValue, p))) ++ rest := rfl
          rw [this] at hlen ⊢
          omega)
        (Or.inr rfl)
      rw [scanBlocks_withOutside] at i1 i2
      refine ⟨fun t h => ?_, fun r2 h => ?_⟩
      · apply i1 t
        rw [h]
        rfl
      · obtain ⟨o, e1, e2, e3, e4, e5⟩ := i2 (r2.withOutside _) (by rw [h]; rfl)
        rw [withOutside_withOutside] at e1
        exact ⟨o, e1, e2, e3, e4, fun _ => e5 (Or.inl rfl)⟩

/-! ## The scanline loop on filtered rows -/

theorem take_succ_set (l : List Byte) (v : Byte) :
    ∀ x, x < l.length → (l.set x v).take (x + 1) = l.take x ++ [v] := by
  induction l with
  | nil => intro x hx; simp at hx
  | cons a l ih =>
    intro x hx
    cases x with
    | zero => simp
    | succ x =>
      simp only [List.length_cons] at hx
      simp [ih x (by omega)]

theorem Filter_unfilterBytes_length (fs : List Byte) :
    ∀ f : Filter, (f.unfilterBytes fs).length = fs.length := by
  induction fs with
  | nil => intro f; rfl
  | cons b fs ih =>
    intro f
    simp [Filter.unfilterBytes, ih]

theorem Filter_BeginScanline_ofKind (f : Filter) (prior : Option (List Byte)) :
    f.BeginScanline prior = (Filter.ofKind f.kind).BeginScanline prior := by
  cases f <;> rfl

theorem selectFilter_some (kind : FilterKind) (code : Byte) :
    selectFilter (some kind) code = some (filterOfCode kind code) := by
  unfold filterOfCode
  cases h : selectFilter (some kind) code with
  | none => exact absurd h (selectFilter_ne_none _ _ (Or.inl (by simp)))
  | some k => rfl

theorem selectFilter_code (curFilter : Option FilterKind) (kind : FilterKind) (code : Byte)
    (h : code.val ≤ 4) : selectFilter curFilter code = some (filterOfCode kind code) := by
  rw [← selectFilter_some]
  unfold selectFilter
  simp only [PassThruFilterCode, SubFilterCode, UpFilterCode, AverageFilterCode,
    PaethFilterCode]
  split
  · rfl
  split
  · rfl
  split
  · rfl
  split
  · rfl
  split
  · rfl
  · omega

/-- A filter-type byte outside 0..4 leaves the filter type as it is. -/
theorem filterOfCode_unlisted (kind : FilterKind) (code : Byte) (h : 4 < code.val) :
    filterOfCode kind code = kind := by
  unfold filterOfCode selectFilter
  simp only [PassThruFilterCode, SubFilterCode, UpFilterCode, AverageFilterCode,
    PaethFilterCode]
  rw [if_neg (by omega), if_neg (by omega), if_neg (by omega), if_neg (by omega),
    if_neg (by omega)]
  rfl

/-- The call `curFilter_->BeginScanline(prior)` leaves the filter object in
the state `BeginScanline` gives a fresh object of its type. -/
theorem curFilterBeginScanline_object {z : ZLib} (r : PNGReader z) (prior : Option (List Byte))
    (kind : FilterKind) (h : r.curFilter_ = some kind) :
    ∃ r2, r.curFilterBeginScanline prior = .ok r2 ∧ SameScan r r2 ∧
      r2.curFilterObject = some ((Filter.ofKind kind).BeginScanline prior) := by
  obtain ⟨_, _, _, _, _, _, _, _, _, _, _, _, _, _, _, _, _, curFilter⟩ := r
  simp only at h
  subst h
  cases kind <;> exact ⟨_, rfl, ⟨rfl, rfl, rfl, rfl, rfl, rfl, rfl, rfl, rfl⟩, rfl⟩

/-- The call `curFilter_->Unfilter(filtered)` is `Unfilter` of the filter
object. -/
theorem curFilterUnfilter_object {z : ZLib} (r : PNGReader z) (filtered : Byte) (f : Filter)
    (h : r.curFilterObject = some f) :
    ∃ r2, r.curFilterUnfilter filtered = .ok ((f.Unfilter filtered).1, r2) ∧ SameScan r r2 ∧
      r2.curFilterObject = some (f.Unfilter filtered).2 := by
  obtain ⟨_, _, _, _, _, _, _, _, _, _, _, _, _, _, _, _, _, curFilter⟩ := r
  cases curFilter with
  | none => simp [curFilterObject] at h
  | some kind =>
    cases kind <;> simp only [curFilterObject, Option.some.injEq] at h <;> subst h <;>
      exact ⟨_, rfl, ⟨rfl, rfl, rfl, rfl, rfl, rfl, rfl, rfl, rfl⟩, rfl⟩

/-- The scanline loop on bytes of a row: each is unfiltered by the filter
object and stored in the scanline buffer. -/
theorem unfilterLoop_pixels {z : ZLib} (w : Nat) (fs : List Byte) :
    ∀ (x : Nat) (r : PNGReader z) (f : Filter) (rest : List Byte),
      r.curFilterObject = some f → r.curRaw_ = x → r.endRaw_ = w →
      r.rawScanline_.length = w → x + fs.length ≤ w →
      ∃ r2 : PNGReader z, r.unfilterLoop (fs ++ rest) = r2.unfilterLoop rest ∧
        r2.height_ = r.height_ ∧ r2.rawPriorScanline_ = r.rawPriorScanline_ ∧
        r2.endRaw_ = r.endRaw_ ∧ r2.curY_ = r.curY_ ∧ r2.imageDone_ = r.imageDone_ ∧
        r2.curFilter_ = r.curFilter_ ∧ r2.image_ = r.image_ ∧
        r2.curRaw_ = x + fs.length ∧ r2.rawScanline_.length = w ∧
        r2.rawScanline_.take (x + fs.length) = r.rawScanline_.take x ++ f.unfilterBytes fs := by
  induction fs with
  | nil =>
    intro x r f rest _ hx _ hl _
    exact ⟨r, rfl, rfl, rfl, rfl, rfl, rfl, rfl, rfl, hx, hl, by simp [Filter.unfilterBytes]⟩
  | cons b fs ih =>
    intro x r f rest hf hx he hl hle
    simp only [List.length_cons] at hle
    obtain ⟨r1, h1, ⟨s1, s2, s3, s4, s5, s6, s7, s8, s9⟩, hf1⟩ :=
      curFilterUnfilter_object r b f hf
    have hstep : r.unfilterByte b = .ok { r1 with
        rawScanline_ := r1.rawScanline_.set r1.curRaw_ (f.Unfilter b).1,
        curRaw_ := r1.curRaw_ + 1 } := by
      unfold unfilterByte
      rw [if_neg (by rw [hx, he]; omega), h1]
    rw [List.cons_append, unfilterLoop, hstep]
    obtain ⟨r2, e0, e1, e2, e3, e4, e5, e6, e7, e8, e9, e10⟩ := ih (x + 1) { r1 with
        rawScanline_ := r1.rawScanline_.set r1.curRaw_ (f.Unfilter b).1,
        curRaw_ := r1.curRaw_ + 1 } (f.Unfilter b).2 rest hf1
      (by show r1.curRaw_ + 1 = x + 1; rw [s4, hx])
      (by show r1.endRaw_ = w; rw [s5, he])
      (by show (r1.rawScanline_.set _ _).length = w; rw [List.length_set, s3, hl])
      (by omega)
    refine ⟨r2, e0, e1.trans s1, e2.trans s2, e3.trans s5, e4.trans s6, e5.trans s7,
      e6.trans s8, e7.trans s9, by rw [e8, List.length_cons]; omega, e9, ?_⟩
    have hidx : x + (b :: fs).length = x + 1 + fs.length := by
      rw [List.length_cons]; omega
    rw [hidx, e10]
    show (r1.rawScanline_.set r1.curRaw_ _).take (x + 1) ++ _ = _
    rw [s3, s4, hx, take_succ_set _ _ x (by rw [hl]; omega)]
    simp [Filter.unfilterBytes]

theorem encodedRows_succ (codes : Nat → Byte) (filtered : Nat → List Byte) (n y : Nat) :
    encodedRows codes filtered (n + 1) y =
      codes y :: filtered y ++ encodedRows codes filtered n (y + 1) := rfl

theorem rawRows_length (codes : Nat → Byte) (filtered : Nat → List Byte) (y : Nat) :
    (rawRows codes filtered y).length = (filtered y).length := by
  cases y <;> simp [rawRows, Filter_unfilterBytes_length]

/-- The scanline loop on one row of image data: the filter-type byte, then
the filtered bytes. -/
theorem unfilterLoop_row {z : ZLib} (codes : Nat → Byte) (filtered : Nat → List Byte)
    (w h : Nat) (base : List WritableImageCall) (k : Nat) (r : PNGReader z) (rest : List Byte)
    (hs : RowsRead codes filtered w h base k r) (hk : k < h) (h32 : h < 2 ^ 32)
    (hfirst : (codes 0).val ≤ 4) (hrow : (filtered k).length = w) :
    ∃ r2 : PNGReader z, r.unfilterLoop (codes k :: filtered k ++ rest) = r2.unfilterLoop rest ∧
      RowsRead codes filtered w h base (k + 1) r2 ∧ r2.imageDone_ = r.imageDone_ := by
  have hy : (r.curY_ + 1) % 2 ^ 32 = k := by
    by_cases hk0 : k = 0
    · rw [hs.start hk0, hk0]
      decide
    · rw [(hs.row hk0).2.1, Nat.sub_add_cancel (Nat.one_le_iff_ne_zero.mpr hk0)]
      exact Nat.mod_eq_of_lt (by omega)
  have hsel : selectFilter r.curFilter_ (codes k) = some (rowFilter codes k) := by
    cases k with
    | zero => exact selectFilter_code _ _ _ hfirst
    | succ j =>
      rw [(hs.row (Nat.succ_ne_zero j)).2.2.1]
      exact selectFilter_some _ _
  have hprior : ∀ p0 : Option (List Byte),
      p0 = (if k = 0 then none else some r.rawScanline_) →
      ((Filter.ofKind (rowFilter codes k)).BeginScanline p0).unfilterBytes (filtered k) =
        rawRows codes filtered k := by
    intro p0 hp0
    subst hp0
    cases k with
    | zero => rfl
    | succ j =>
      rw [if_neg (Nat.succ_ne_zero j), (hs.row (Nat.succ_ne_zero j)).2.2.2]
      rfl
  have hbegin : ∃ r1 p0, r.unfilterByte (codes k) = .ok r1 ∧
      p0 = (if k = 0 then none else some r.rawScanline_) ∧
      r1.curFilterObject = some ((Filter.ofKind (rowFilter codes k)).BeginScanline p0) ∧
      r1.height_ = h ∧ r1.rawPriorScanline_ = r.rawScanline_ ∧
      r1.rawScanline_ = r.rawPriorScanline_ ∧ r1.curRaw_ = 0 ∧ r1.endRaw_ = w ∧
      r1.curY_ = k ∧ r1.imageDone_ = r.imageDone_ ∧
      r1.curFilter_ = some (rowFilter codes k) ∧
      r1.image_ = base ++ scanlineWrites (rawRows codes filtered) k := by
    unfold unfilterByte
    rw [if_pos hs.curRaw]
    simp only [hy]
    rw [if_neg (by rw [hs.height, Nat.mod_eq_of_lt h32]; omega)]
    unfold beginScanline
    simp only [hsel]
    by_cases hk0 : k = 0
    · rw [if_neg (by simp [hk0])]
      obtain ⟨r1, e1, ⟨s1, s2, s3, s4, s5, s6, s7, s8, s9⟩, ho⟩ :=
        curFilterBeginScanline_object { r with
          curY_ := k, rawScanline_ := r.rawPriorScanline_,
          rawPriorScanline_ := r.rawScanline_, curRaw_ := 0,
          endRaw_ := r.rawPriorScanline_.length, curFilter_ := some (rowFilter codes k) }
          none (rowFilter codes k) rfl
      refine ⟨r1, none, e1, by rw [if_pos hk0], ho, by rw [s1]; exact hs.height, s2, s3, s4,
        by rw [s5]; exact hs.prior, s6, s7, s8, ?_⟩
      rw [s9]
      show r.image_ = _
      rw [hs.image, hk0]
    · rw [if_pos (by simpa using hk0)]
      have hym : (k + 2 ^ 32 - 1) % 2 ^ 32 = k - 1 := by omega
      obtain ⟨r1, e1, ⟨s1, s2, s3, s4, s5, s6, s7, s8, s9⟩, ho⟩ :=
        curFilterBeginScanline_object { r with
          curY_ := k, rawScanline_ := r.rawPriorScanline_,
          rawPriorScanline_ := r.rawScanline_, curRaw_ := 0,
          endRaw_ := r.rawPriorScanline_.length, curFilter_ := some (rowFilter codes k),
          image_ := r.image_ ++ [.SetScanline ((k + 2 ^ 32 - 1) % 2 ^ 32) r.rawScanline_] }
          (some r.rawScanline_) (rowFilter codes k) rfl
      refine ⟨r1, some r.rawScanline_, e1, by rw [if_neg hk0], ho, by rw [s1]; exact hs.height,
        s2, s3, s4, by rw [s5]; exact hs.prior, s6, s7, s8, ?_⟩
      rw [s9]
      show r.image_ ++ _ = _
      rw [hs.image, hym, (hs.row hk0).2.2.2]
      have := scanlineWrites_succ (rawRows codes filtered) (k - 1)
      rw [Nat.sub_add_cancel (Nat.one_le_iff_ne_zero.mpr hk0)] at this
      rw [this, List.append_assoc]
  obtain ⟨r1, p0, e1, hp0, ho, b1, b2, b3, b4, b5, b6, b7, b8, b9⟩ := hbegin
  rw [List.cons_append, unfilterLoop, e1]
  obtain ⟨r2, c0, c1, c2, c3, c4, c5, c6, c7, c8, c9, c10⟩ :=
    unfilterLoop_pixels w (filtered k) 0 r1 _ rest ho b4 b5 (by rw [b3]; exact hs.prior)
      (by omega)
  refine ⟨r2, c0, ?_, c5.trans b7⟩
  have hfull : r2.rawScanline_ = rawRows codes filtered k := by
    rw [Nat.zero_add, hrow, List.take_zero, List.nil_append, hprior p0 hp0] at c10
    rw [← c10, List.take_of_length_le (by rw [c9])]
  exact {
    height := by rw [c1]; exact b1
    prior := by rw [c2, b2]; exact hs.cur
    cur := c9
    image := by rw [c7, b9]; rfl
    curRaw := by rw [c8, c3, b5, hrow]; omega
    start := fun e => absurd e (Nat.succ_ne_zero k)
    row := fun _ => ⟨by rw [c3]; exact b5, by rw [c4, b6]; rfl, by rw [c6, b8]; rfl,
      by rw [hfull]; rfl⟩ }

/-- The scanline loop on the image data of `n` more rows. -/
theorem unfilterLoop_rows {z : ZLib} (codes : Nat → Byte) (filtered : Nat → List Byte)
    (w h : Nat) (base : List WritableImageCall) (h32 : h < 2 ^ 32)
    (hfirst : (codes 0).val ≤ 4) (hrows : ∀ y, y < h → (filtered y).length = w) (n : Nat) :
    ∀ (k : Nat) (r : PNGReader z) (rest : List Byte),
      RowsRead codes filtered w h base k r → k + n ≤ h →
      ∃ r2 : PNGReader z, r.unfilterLoop (encodedRows codes filtered n k ++ rest) =
          r2.unfilterLoop rest ∧
        RowsRead codes filtered w h base (k + n) r2 ∧ r2.imageDone_ = r.imageDone_ := by
  induction n with
  | zero =>
    intro k r rest hs _
    exact ⟨r, rfl, hs, rfl⟩
  | succ n ih =>
    intro k r rest hs hk
    simp only [encodedRows_succ, List.cons_append, List.append_assoc]
    obtain ⟨r1, e1, hs1, d1⟩ := unfilterLoop_row codes filtered w h base k r
      (encodedRows codes filtered n (k + 1) ++ rest) hs (by omega) h32 hfirst
      (hrows k (by omega))
    rw [List.cons_append] at e1
    rw [e1]
    obtain ⟨r2, e2, hs2, d2⟩ := ih (k + 1) r1 rest hs1 (by omega)
    refine ⟨r2, e2, ?_, d2.trans d1⟩
    have : k + (n + 1) = k + 1 + n := by omega
    rw [this]
    exact hs2

/-- The scanline state machine on the whole image data as one block: the
rows are handed to the image, each unfiltered with the raw row before it as
its prior scanline. -/
theorem scanBlock_rows {z : ZLib} (codes : Nat → Byte) (filtered : Nat → List Byte)
    (w h : Nat) (base : List WritableImageCall) (r : PNGReader z)
    (h0 : h ≠ 0) (h32 : h < 2 ^ 32) (hfirst : (codes 0).val ≤ 4)
    (hrows : ∀ y, y < h → (filtered y).length = w)
    (hs : RowsRead codes filtered w h base 0 r) :
    ∃ r2, r.scanBlock (encodedRows codes filtered h 0) = .ok r2 ∧
      r2.image_ = base ++ scanlineWrites (rawRows codes filtered) h ∧
      r2.imageDone_ = true ∧ r2.curY_ = h - 1 ∧
      r2.rawScanline_ = rawRows codes filtered (h - 1) := by
  obtain ⟨r1, e1, hs1, _⟩ := unfilterLoop_rows codes filtered w h base h32 hfirst hrows h 0 r []
    hs (by omega)
  rw [List.append_nil] at e1
  simp only [unfilterLoop] at e1
  rw [Nat.zero_add] at hs1
  obtain ⟨a1, a2, a3, a4⟩ := hs1.row h0
  have hfull : r1.lastScanlineFull := by
    refine ⟨hs1.curRaw, ?_⟩
    rw [a2, hs1.height]
    omega
  unfold scanBlock
  rw [e1]
  simp only []
  rw [finalScanline_full r1 hfull]
  refine ⟨_, rfl, ?_, rfl, a2, a4⟩
  show r1.image_ ++ _ = _
  rw [hs1.image, a2, a4]
  have := scanlineWrites_succ (rawRows codes filtered) (h - 1)
  rw [Nat.sub_add_cancel (Nat.one_le_iff_ne_zero.mpr h0)] at this
  rw [this, List.append_assoc]

/-! ## Decoding a stream of sealed chunks through the scanline state machine -/

/-- The outcome of `LoadPNG` on a stream of sealed chunks, header, palette,
image data and end, from the run of the scanline state machine over the
decompressed bytes of the image-data chunks. -/
theorem LoadPNG_framedImage (z : ZLib) (d : z.InflateState) (w h : Nat) (palette : List Byte)
    (ps outs : List (List Byte)) (hinit : z.inflateInit = some d)
    (hw : w ≠ 0) (h0 : h ≠ 0) (hw32 : w < 2 ^ 32) (h32 : h < 2 ^ 32)
    (hp3 : palette.length % 3 = 0) (hp : palette.length < 2 ^ 32)
    (hps : ∀ p ∈ ps, p.length < 2 ^ 32) (hne : ps ≠ [])
    (hd : z.decompressAll d ps = some outs) :
    (∀ t, (imageDataStart (⟨[], d⟩ : Decompressor z) w h palette).scanBlocks outs = .error t →
      LoadPNG z (framedImage w h palette ps) = ⟨t.image_ ++ [.EndWrite false], some t.what⟩) ∧
    (∀ r2, (imageDataStart (⟨[], d⟩ : Decompressor z) w h palette).scanBlocks outs = .ok r2 →
      LoadPNG z (framedImage w h palette ps) =
        if r2.imageDone_ = false then
          ⟨r2.image_ ++ [.EndWrite false], some .incompleteImageData⟩
        else ⟨r2.image_ ++ [.EndWrite true], none⟩) := by
  have hnew := Decompressor_new_of_inflateInit z d hinit
  unfold framedImage
  generalize hrest : sealedChunks ((IHDRChunkType.GetValue, IHDRPayload w h) ::
        (PLTEChunkType.GetValue, palette) ::
        (ps.map (fun p => (IDATChunkType.GetValue, p)) ++
          [(IENDChunkType.GetValue, [])])) = rest
  have hstm : (afterSignature (⟨[], d⟩ : Decompressor z) rest).stm_ = rest := rfl
  have hstm0 := hrest.symm
  simp only [sealedChunks, sealedChunks_append, List.append_nil] at hstm0
  have hs : (afterSignature (⟨[], d⟩ : Decompressor z) rest).stm_ ≠ [] := by
    rw [hstm, hstm0]; exact sealedChunk_ne_nil _ _ _
  have h1 := ReadChunk_IHDR_sealed (afterSignature (⟨[], d⟩ : Decompressor z) rest) w h _
    hw h0 hw32 h32 rfl (hstm.trans hstm0)
  have hlen1 := ReadChunk_length h1
  have h2 := ReadChunk_PLTE_framed { afterSignature (⟨[], d⟩ : Decompressor z) rest with
      stm_ := sealedChunk PLTEChunkType.GetValue palette ++
        (sealedChunks (ps.map (fun p => (IDATChunkType.GetValue, p))) ++
          sealedChunk IENDChunkType.GetValue []),
      chunksRead_ := 1, width_ := w, height_ := h,
      image_ := (afterSignature (⟨[], d⟩ : Decompressor z) rest).image_ ++
        [.SetImageInfo ⟨w, h⟩],
      rawScanline_ := resize (afterSignature (⟨[], d⟩ : Decompressor z) rest).rawScanline_ w,
      rawPriorScanline_ :=
        resize (afterSignature (⟨[], d⟩ : Decompressor z) rest).rawPriorScanline_ w,
      curRaw_ := 0, endRaw_ := 0 } palette
    (crc32 (bigEndian32 PLTEChunkType.GetValue ++ palette)) _ hp3 hp (crc32_lt _) rfl
    (by rw [sealedChunk_eq_framedChunk])
  rw [if_neg (by simp)] at h2
  have hlen2 := ReadChunk_length h2
  have hchain : ReadChunks rest.length (afterSignature (⟨[], d⟩ : Decompressor z) rest) =
      ReadChunks rest.length ((imageDataStart (⟨[], d⟩ : Decompressor z) w h palette).withOutside
        { imageDataStart (⟨[], d⟩ : Decompressor z) w h palette with
          stm_ := sealedChunks (ps.map (fun p => (IDATChunkType.GetValue, p))) ++
            sealedChunk IENDChunkType.GetValue [] }) := by
    rw [ReadChunks_step rest.length _ _ (by rw [hstm]) hs h1,
      ReadChunks_step rest.length _ _ (by rw [hstm] at hlen1; simp only [] at hlen1 ⊢; omega)
        (by exact sealedChunk_ne_nil _ _ _) h2]
    rfl
  have hlen3 : ((imageDataStart (⟨[], d⟩ : Decompressor z) w h palette).withOutside
        { imageDataStart (⟨[], d⟩ : Decompressor z) w h palette with
          stm_ := sealedChunks (ps.map (fun p => (IDATChunkType.GetValue, p))) ++
            sealedChunk IENDChunkType.GetValue [] }).stm_.length ≤ rest.length := by
    rw [hstm] at hlen1
    simp only [] at hlen1 hlen2
    show (sealedChunks (ps.map (fun p => (IDATChunkType.GetValue, p))) ++
            sealedChunk IENDChunkType.GetValue []).length ≤ rest.length
    omega
  obtain ⟨b1, b2⟩ := ReadChunks_IDAT_blocks ps outs
    ((imageDataStart (⟨[], d⟩ : Decompressor z) w h palette).withOutside
        { imageDataStart (⟨[], d⟩ : Decompressor z) w h palette with
          stm_ := sealedChunks (ps.map (fun p => (IDATChunkType.GetValue, p))) ++
            sealedChunk IENDChunkType.GetValue [] })
    (sealedChunk IENDChunkType.GetValue []) rest.length hd rfl hps rfl hlen3 (Or.inl rfl)
  rw [scanBlocks_withOutside] at b1 b2
  constructor
  · intro t ht
    have he := b1 t (by rw [ht]; rfl)
    rw [← hchain] at he
    exact LoadPNG_of_ReadChunks_error z _ rest t hnew he
  · intro r2 h2ok
    obtain ⟨o, e1, e2, e3, _, e5⟩ := b2 (r2.withOutside _) (by rw [h2ok]; rfl)
    rw [withOutside_withOutside] at e1
    have h4 := ReadChunk_IEND_framed (r2.withOutside o)
      (crc32 (bigEndian32 IENDChunkType.GetValue ++ [])) [] (crc32_lt _) (e5 (Or.inr hne))
      (by show o.stm_ = _; rw [e2, sealedChunk_eq_framedChunk]; simp)
    rw [if_neg (by simp)] at h4
    have hfin : ReadChunks rest.length (r2.withOutside o) =
        .ok { r2.withOutside o with stm_ := [], chunksRead_ := 15 } := by
      rw [ReadChunks_step rest.length (r2.withOutside o) _
        (show (r2.withOutside o).stm_.length ≤ rest.length from e3)
        (by show o.stm_ ≠ []; rw [e2]; exact sealedChunk_ne_nil _ _ []) h4]
      exact ReadChunks_nil _ _ rfl
    rw [hfin, ← hchain] at e1
    rw [LoadPNG_of_ReadChunks_ok z _ rest _ hnew e1]
    rw [if_neg (by simp [AllRequiredChunks])]
    rfl

/-- Decoding a stream of sealed chunks whose image-data chunks decompress,
in all, to filter-type byte and filtered bytes of each row: every row is
handed to the image as it is unfiltered with the raw row before it as its
prior scanline. -/
theorem LoadPNG_rows (z : ZLib) (d : z.InflateState) (w h : Nat) (palette : List Byte)
    (ps outs : List (List Byte)) (codes : Nat → Byte) (filtered : Nat → List Byte)
    (hinit : z.inflateInit = some d)
    (hw : w ≠ 0) (h0 : h ≠ 0) (hw32 : w < 2 ^ 32) (h32 : h < 2 ^ 32)
    (hp3 : palette.length % 3 = 0) (hp : palette.length < 2 ^ 32)
    (hps : ∀ p ∈ ps, p.length < 2 ^ 32)
    (hd : z.decompressAll d ps = some outs)
    (houts : outs.flatten = encodedRows codes filtered h 0)
    (hrows : ∀ y, y < h → (filtered y).length = w) (hfirst : (codes 0).val ≤ 4) :
    ∃ c, LoadPNG z (framedImage w h palette ps) =
      ⟨[.BeginWrite, .SetImageInfo ⟨w, h⟩] ++ paletteWrites 0 palette ++
        scanlineWrites (rawRows codes filtered) h ++
        List.replicate c (.SetScanline (h - 1) (rawRows codes filtered (h - 1))) ++
        [.EndWrite true], none⟩ := by
  obtain ⟨m, hm⟩ := Nat.exists_eq_succ_of_ne_zero h0
  have hdata : outs.flatten ≠ [] := by
    rw [houts, hm]
    simp [encodedRows]
  have hne : ps ≠ [] := by
    intro e
    subst e
    simp only [ZLib.decompressAll, Option.some.injEq] at hd
    subst hd
    exact hdata rfl
  obtain ⟨b, blocks, hb⟩ : ∃ b blocks, outs = b :: blocks := by
    cases outs with
    | nil => exact absurd rfl hdata
    | cons b blocks => exact ⟨b, blocks, rfl⟩
  obtain ⟨r1, e1, i1, i2, i3, i4⟩ := scanBlock_rows codes filtered w h
    ([.BeginWrite, .SetImageInfo ⟨w, h⟩] ++ paletteWrites 0 palette)
    (imageDataStart (⟨[], d⟩ : Decompressor z) w h palette) h0 h32 hfirst hrows
    { height := rfl
      prior := resize_length _ _
      cur := resize_length _ _
      image := by simp [imageDataStart, scanlineWrites]
      curRaw := rfl
      start := fun _ => rfl
      row := fun e => absurd rfl e }
  have hload := (LoadPNG_framedImage z d w h palette ps outs hinit hw h0 hw32 h32 hp3 hp hps
    hne hd).2
  rw [← houts, hb] at e1
  rcases scanBlocks_cons_flatten blocks b
    (imageDataStart (⟨[], d⟩ : Decompressor z) w h palette) with
    ⟨t, t2, _, h2, _⟩ | ⟨r2, c, h1, h2, _, _⟩
  · rw [e1] at h2
    contradiction
  · rw [e1] at h1
    simp only [Except.ok.injEq] at h1
    subst h1
    rw [← hb] at h2
    refine ⟨c, ?_⟩
    rw [hload _ h2]
    simp only [i2, Bool.true_eq_false, if_false, i1, i3, i4]

/-! ## The prior scanline of each row (claim C35) -/

/-- C35: on a stream of sealed chunks (header of a `w` x `h` image, palette,
image-data chunks cut anywhere, end) whose image-data chunks decompress, in
all, to the filter-type byte and the `w` filtered bytes of each row, the
first filter-type byte being one of 0..4, decoding succeeds and hands the
image the rows `rawRows`: row 0 unfiltered by its filter after
`BeginScanline` without a prior scanline, and every row `y + 1` unfiltered by
its filter after `BeginScanline` with the raw bytes of row `y`, as
reconstructed before, as the prior scanline.  `c` counts further calls for
the last row, made when an image-data chunk without decompressed bytes
follows the complete image data. -/
theorem prior_scanline_is_previous_raw_row (z : ZLib) (d : z.InflateState) (w h : Nat)
    (palette : List Byte) (ps outs : List (List Byte)) (codes : Nat → Byte)
    (filtered : Nat → List Byte) (hinit : z.inflateInit = some d)
    (hw : w ≠ 0) (h0 : h ≠ 0) (hw32 : w < 2 ^ 32) (h32 : h < 2 ^ 32)
    (hp3 : palette.length % 3 = 0) (hp : palette.length < 2 ^ 32)
    (hps : ∀ p ∈ ps, p.length < 2 ^ 32)
    (hd : z.decompressAll d ps = some outs)
    (houts : outs.flatten = encodedRows codes filtered h 0)
    (hrows : ∀ y, y < h → (filtered y).length = w) (hfirst : (codes 0).val ≤ 4) :
    (∃ c, LoadPNG z (framedImage w h palette ps) =
      ⟨[.BeginWrite, .SetImageInfo ⟨w, h⟩] ++ paletteWrites 0 palette ++
        (List.range h).map (fun y => .SetScanline y (rawRows codes filtered y)) ++
        List.replicate c (.SetScanline (h - 1) (rawRows codes filtered (h - 1))) ++
        [.EndWrite true], none⟩) ∧
    rawRows codes filtered 0 =
      ((Filter.ofKind (rowFilter codes 0)).BeginScanline none).unfilterBytes (filtered 0) ∧
    ∀ y, rawRows codes filtered (y + 1) =
      ((Filter.ofKind (rowFilter codes (y + 1))).BeginScanline
        (some (rawRows codes filtered y))).unfilterBytes (filtered (y + 1)) :=
  ⟨LoadPNG_rows z d w h palette ps outs codes filtered hinit hw h0 hw32 h32 hp3 hp hps hd houts
    hrows hfirst, rfl, fun _ => rfl⟩

/-- An instance of C35: a 1 x 3 image whose rows are all filtered with the Up
filter, the filtered bytes being 10, 20, 30, in two image-data chunks with
the boundary inside row 1, read with the stored stand-in for zlib.  The raw
rows are 10, 30 = 20 + 10 and 60 = 30 + 30. -/
theorem prior_scanline_is_previous_raw_row_witness :
    (∃ c, LoadPNG ZLib.stored (framedImage 1 3 [] [[2, 10, 2], [20, 2, 30]]) =
      ⟨[.BeginWrite, .SetImageInfo ⟨1, 3⟩] ++ paletteWrites 0 [] ++
        (List.range 3).map (fun y => .SetScanline y
          (rawRows (fun _ => 2) (fun y => [toByte (10 * (y + 1))]) y)) ++
        List.replicate c (.SetScanline (3 - 1)
          (rawRows (fun _ => 2) (fun y => [toByte (10 * (y + 1))]) (3 - 1))) ++
        [.EndWrite true], none⟩) ∧
    (List.range 3).map (fun y => WritableImageCall.SetScanline y
        (rawRows (fun _ => 2) (fun y => [toByte (10 * (y + 1))]) y)) =
      [.SetScanline 0 [10], .SetScanline 1 [30], .SetScanline 2 [60]] :=
  ⟨(prior_scanline_is_previous_raw_row ZLib.stored () 1 3 [] [[2, 10, 2], [20, 2, 30]]
      [[2, 10, 2], [20, 2, 30]] (fun _ => 2) (fun y => [toByte (10 * (y + 1))]) rfl
      (by decide) (by decide) (by decide) (by decide) rfl (by decide) (by simp) rfl
      (by decide) (fun _ _ => rfl) (by decide)).1, by decide⟩

/-! ## A filter-type byte outside 0..4 (claim C36) -/

/-- The start of a scanline after the first whose filter-type byte is none of
0..4: no error is raised, `curFilter_` stays as it is, and `BeginScanline` of
the filter it points to is called with the row just completed as the prior
scanline. -/
theorem unfilterByte_unlisted {z : ZLib} (r : PNGReader z) (kind : FilterKind) (cur : Byte)
    (hf : r.curFilter_ = some kind) (hcur : 4 < cur.val) (hraw : r.curRaw_ = r.endRaw_)
    (hh : (r.curY_ + 1) % 2 ^ 32 ≠ r.height_ % 2 ^ 32) (hy : (r.curY_ + 1) % 2 ^ 32 ≠ 0) :
    ∃ r2, r.unfilterByte cur = .ok r2 ∧ r2.curFilter_ = some kind ∧
      r2.curFilterObject = some ((Filter.ofKind kind).BeginScanline (some r.rawScanline_)) ∧
      r2.rawPriorScanline_ = r.rawScanline_ ∧
      r2.image_ = r.image_ ++
        [.SetScanline (((r.curY_ + 1) % 2 ^ 32 + 2 ^ 32 - 1) % 2 ^ 32) r.rawScanline_] := by
  have hsel : selectFilter r.curFilter_ cur = some kind := by
    rw [hf, selectFilter_some, filterOfCode_unlisted kind cur hcur]
  unfold unfilterByte
  rw [if_pos hraw]
  simp only []
  rw [if_neg hh]
  unfold beginScanline
  simp only [hsel]
  rw [if_pos hy]
  obtain ⟨r1, e1, ⟨s1, s2, s3, s4, s5, s6, s7, s8, s9⟩, ho⟩ :=
    curFilterBeginScanline_object { r with
      curY_ := (r.curY_ + 1) % 2 ^ 32, rawScanline_ := r.rawPriorScanline_,
      rawPriorScanline_ := r.rawScanline_, curRaw_ := 0,
      endRaw_ := r.rawPriorScanline_.length, curFilter_ := some kind,
      image_ := r.image_ ++
        [.SetScanline (((r.curY_ + 1) % 2 ^ 32 + 2 ^ 32 - 1) % 2 ^ 32) r.rawScanline_] }
      (some r.rawScanline_) kind rfl
  exact ⟨r1, e1, s8, ho, s2, s9⟩

/-- C36: on a stream of sealed chunks as in C35, where the filter-type bytes
of the rows after the first are arbitrary, decoding raises no error, and a
row `y + 1` whose filter-type byte is none of 0..4 is unfiltered with the
filter of row `y`, after `BeginScanline` with the raw bytes of row `y` as the
prior scanline.  In the scanline loop, such a byte at the start of a scanline
after the first leaves `curFilter_` as it is and calls `BeginScanline` of the
filter it points to with the row just completed. -/
theorem unlisted_filter_byte_keeps_filter (z : ZLib) (d : z.InflateState) (w h : Nat)
    (palette : List Byte) (ps outs : List (List Byte)) (codes : Nat → Byte)
    (filtered : Nat → List Byte) (hinit : z.inflateInit = some d)
    (hw : w ≠ 0) (h0 : h ≠ 0) (hw32 : w < 2 ^ 32) (h32 : h < 2 ^ 32)
    (hp3 : palette.length % 3 = 0) (hp : palette.length < 2 ^ 32)
    (hps : ∀ p ∈ ps, p.length < 2 ^ 32)
    (hd : z.decompressAll d ps = some outs)
    (houts : outs.flatten = encodedRows codes filtered h 0)
    (hrows : ∀ y, y < h → (filtered y).length = w) (hfirst : (codes 0).val ≤ 4) :
    (∃ c, LoadPNG z (framedImage w h palette ps) =
      ⟨[.BeginWrite, .SetImageInfo ⟨w, h⟩] ++ paletteWrites 0 palette ++
        (List.range h).map (fun y => .SetScanline y (rawRows codes filtered y)) ++
        List.replicate c (.SetScanline (h - 1) (rawRows codes filtered (h - 1))) ++
        [.EndWrite true], none⟩) ∧
    (∀ y, 4 < (codes (y + 1)).val →
      rowFilter codes (y + 1) = rowFilter codes y ∧
      rawRows codes filtered (y + 1) =
        ((Filter.ofKind (rowFilter codes y)).BeginScanline
          (some (rawRows codes filtered y))).unfilterBytes (filtered (y + 1))) ∧
    (∀ (r : PNGReader z) (kind : FilterKind) (cur : Byte),
      r.curFilter_ = some kind → 4 < cur.val → r.curRaw_ = r.endRaw_ →
      (r.curY_ + 1) % 2 ^ 32 ≠ r.height_ % 2 ^ 32 → (r.curY_ + 1) % 2 ^ 32 ≠ 0 →
      ∃ r2, r.unfilterByte cur = .ok r2 ∧ r2.curFilter_ = some kind ∧
        r2.curFilterObject =
          some ((Filter.ofKind kind).BeginScanline (some r.rawScanline_))) := by
  refine ⟨LoadPNG_rows z d w h palette ps outs codes filtered hinit hw h0 hw32 h32 hp3 hp hps hd
    houts hrows hfirst, fun y hy => ?_, fun r kind cur hf hcur hraw hh hy => ?_⟩
  · have hk : rowFilter codes (y + 1) = rowFilter codes y :=
      filterOfCode_unlisted _ _ hy
    refine ⟨hk, ?_⟩
    rw [rawRows, hk]
  · obtain ⟨r2, e1, e2, e3, _, _⟩ := unfilterByte_unlisted r kind cur hf hcur hraw hh hy
    exact ⟨r2, e1, e2, e3⟩

/-- An instance of C36: a 2 x 2 image whose row 0 has the filter-type byte 1
(Sub) and whose row 1 has the filter-type byte 9, read with the stored
stand-in for zlib.  Row 1, filtered bytes 3 and 4, comes out as 3 and
7 = 4 + 3: it is unfiltered with the Sub filter. -/
theorem unlisted_filter_byte_keeps_filter_witness :
    (∃ c, LoadPNG ZLib.stored (framedImage 2 2 [] [[1, 7, 1, 9, 3, 4]]) =
      ⟨[.BeginWrite, .SetImageInfo ⟨2, 2⟩] ++ paletteWrites 0 [] ++
        (List.range 2).map (fun y => .SetScanline y
          (rawRows (fun y => if y = 0 then 1 else 9)
            (fun y => if y = 0 then [7, 1] else [3, 4]) y)) ++
        List.replicate c (.SetScanline (2 - 1)
          (rawRows (fun y => if y = 0 then 1 else 9)
            (fun y => if y = 0 then [7, 1] else [3, 4]) (2 - 1))) ++
        [.EndWrite true], none⟩) ∧
    (List.range 2).map (fun y => WritableImageCall.SetScanline y
        (rawRows (fun y => if y = 0 then 1 else 9)
          (fun y => if y = 0 then [7, 1] else [3, 4]) y)) =
      [.SetScanline 0 [7, 8], .SetScanline 1 [3, 7]] :=
  ⟨(unlisted_filter_byte_keeps_filter ZLib.stored () 2 2 [] [[1, 7, 1, 9, 3, 4]]
      [[1, 7, 1, 9, 3, 4]] (fun y => if y = 0 then 1 else 9)
      (fun y => if y = 0 then [7, 1] else [3, 4]) rfl
      (by decide) (by decide) (by decide) (by decide) rfl (by decide) (by simp) rfl
      (by decide) (fun y _ => by by_cases hy : y = 0 <;> simp [hy]) (by decide)).1, by decide⟩

/-! ## Where the image-data chunks are cut (claim C39) -/

theorem storedScanline_append_EndWrite (calls : List WritableImageCall) (s : Bool) (y : Nat) :
    storedScanline (calls ++ [.EndWrite s]) y = storedScanline calls y := by
  unfold storedScanline
  rw [List.foldl_append]
  rfl

/-- Further calls for the scanline written last do not change what the image
holds. -/
theorem storedScanline_repeat (calls : List WritableImageCall) (y0 : Nat) (src : List Byte)
    (c : Nat) (hc : c ≠ 0 → ∃ pre, calls = pre ++ [.SetScanline y0 src]) (y : Nat) :
    storedScanline (calls ++ List.replicate c (.SetScanline y0 src)) y =
      storedScanline calls y := by
  by_cases h0 : c = 0
  · subst h0
    simp
  · obtain ⟨pre, hpre⟩ := hc h0
    rw [hpre]
    exact storedScanline_append_replicate pre y0 src c y

theorem decompressAll_ne_nil (z : ZLib) (s : z.InflateState) (ps outs : List (List Byte))
    (hd : z.decompressAll s ps = some outs) (hne : ps ≠ []) :
    ∃ b blocks, outs = b :: blocks := by
  cases ps with
  | nil => exact absurd rfl hne
  | cons p ps =>
    obtain ⟨_, out, outs2, _, _, h⟩ := decompressAll_cons z s p ps outs hd
    exact ⟨out, outs2, h⟩

/-- Two streams of sealed chunks that differ only in how the compressed
image data is cut into image-data chunks, the chunks of both decompressing,
in all, to the same bytes: the decodes end alike. -/
theorem LoadPNG_split (z : ZLib) (d : z.InflateState) (w h : Nat) (palette : List Byte)
    (ps ps2 outs outs2 : List (List Byte)) (hinit : z.inflateInit = some d)
    (hw : w ≠ 0) (h0 : h ≠ 0) (hw32 : w < 2 ^ 32) (h32 : h < 2 ^ 32)
    (hp3 : palette.length % 3 = 0) (hp : palette.length < 2 ^ 32)
    (hps : ∀ p ∈ ps, p.length < 2 ^ 32) (hps2 : ∀ p ∈ ps2, p.length < 2 ^ 32)
    (hne : ps ≠ []) (hne2 : ps2 ≠ [])
    (hd : z.decompressAll d ps = some outs) (hd2 : z.decompressAll d ps2 = some outs2)
    (hflat : outs.flatten = outs2.flatten) :
    (LoadPNG z (framedImage w h palette ps)).thrown =
      (LoadPNG z (framedImage w h palette ps2)).thrown ∧
    ((LoadPNG z (framedImage w h palette ps)).thrown = none →
      ∃ calls c c2 y0 src,
        (LoadPNG z (framedImage w h palette ps)).image =
          calls ++ List.replicate c (.SetScanline y0 src) ++ [.EndWrite true] ∧
        (LoadPNG z (framedImage w h palette ps2)).image =
          calls ++ List.replicate c2 (.SetScanline y0 src) ++ [.EndWrite true] ∧
        (c ≠ 0 ∨ c2 ≠ 0 → ∃ pre, calls = pre ++ [.SetScanline y0 src])) ∧
    ((LoadPNG z (framedImage w h palette ps)).thrown = none →
      ∀ y, storedScanline (LoadPNG z (framedImage w h palette ps)).image y =
        storedScanline (LoadPNG z (framedImage w h palette ps2)).image y) := by
  obtain ⟨b, blocks, hb⟩ := decompressAll_ne_nil z d ps outs hd hne
  obtain ⟨b2, blocks2, hb2⟩ := decompressAll_ne_nil z d ps2 outs2 hd2 hne2
  obtain ⟨la, lb⟩ := LoadPNG_framedImage z d w h palette ps outs hinit hw h0 hw32 h32 hp3 hp hps
    hne hd
  obtain ⟨la2, lb2⟩ := LoadPNG_framedImage z d w h palette ps2 outs2 hinit hw h0 hw32 h32 hp3 hp
    hps2 hne2 hd2
  have m1 := scanBlocks_cons_flatten blocks b
    (imageDataStart (⟨[], d⟩ : Decompressor z) w h palette)
  have m2 := scanBlocks_cons_flatten blocks2 b2
    (imageDataStart (⟨[], d⟩ : Decompressor z) w h palette)
  rw [← hb] at m1
  rw [← hb2, ← hflat] at m2
  rcases m1 with ⟨t, t2, a1, a2, a3⟩ | ⟨r1, c, a1, a2, _, a4⟩
  · rcases m2 with ⟨u, u2, b1, b2, b3⟩ | ⟨r1, c2, b1, _, _, _⟩
    · rw [a2] at b2
      simp only [Except.error.injEq] at b2
      subst b2
      rw [la t a1, la2 u b1]
      refine ⟨by simp only [a3, b3], fun e => ?_, fun e => ?_⟩
      · simp at e
      · simp at e
    · rw [a2] at b1
      contradiction
  · rcases m2 with ⟨u, u2, _, b2, _⟩ | ⟨r2, c2, b1, b2, _, b4⟩
    · rw [a1] at b2
      contradiction
    · rw [a1] at b1
      simp only [Except.ok.injEq] at b1
      subst b1
      rw [lb _ a2, lb2 _ b2]
      simp only []
      cases hdone : r1.imageDone_ with
      | true =>
        simp only [Bool.true_eq_false, if_false, true_and, forall_const]
        refine ⟨⟨r1.image_, c, c2, r1.curY_, r1.rawScanline_, rfl, rfl, fun hc => ?_⟩,
          fun y => ?_⟩
        · rcases hc with hc | hc
          · exact a4 hc
          · exact b4 hc
        · rw [storedScanline_append_EndWrite, storedScanline_append_EndWrite,
            storedScanline_repeat _ _ _ c a4, storedScanline_repeat _ _ _ c2 b4]
      | false =>
        simp

/-- C39: the scanline state machine of `ReadIDATChunk` (the scanline loop
over the decompressed bytes of a chunk, then the test for the final scanline),
started in any state and run over any non-empty sequence of byte blocks, empty
blocks included, ends as when it is run once over their concatenation: both
raise an error with the same message, or both return, in the same state
except that the split run has called `SetScanline` for the final scanline `c`
further times with the same bytes, so that an image which stores what it is
handed holds the same scanlines.  For two streams of sealed chunks with the
same header and palette whose image-data chunks decompress, in all, to the
same bytes, `LoadPNG` hence fails with the same error or succeeds on both,
then with the same calls on the image up to such repeated calls for the final
scanline. -/
theorem image_data_split_irrelevant (z : ZLib) (d : z.InflateState) (w h : Nat)
    (palette : List Byte) (ps ps2 outs outs2 : List (List Byte))
    (hinit : z.inflateInit = some d)
    (hw : w ≠ 0) (h0 : h ≠ 0) (hw32 : w < 2 ^ 32) (h32 : h < 2 ^ 32)
    (hp3 : palette.length % 3 = 0) (hp : palette.length < 2 ^ 32)
    (hps : ∀ p ∈ ps, p.length < 2 ^ 32) (hps2 : ∀ p ∈ ps2, p.length < 2 ^ 32)
    (hne : ps ≠ []) (hne2 : ps2 ≠ [])
    (hd : z.decompressAll d ps = some outs) (hd2 : z.decompressAll d ps2 = some outs2)
    (hflat : outs.flatten = outs2.flatten) :
    (∀ (r : PNGReader z) (b : List Byte) (blocks : List (List Byte)),
      (∃ t t2, r.scanBlocks (b :: blocks) = .error t ∧
          r.scanBlock (b :: blocks).flatten = .error t2 ∧ t.what = t2.what) ∨
        (∃ r1 c, r.scanBlock (b :: blocks).flatten = .ok r1 ∧
          r.scanBlocks (b :: blocks) = .ok { r1 with
            image_ := r1.image_ ++ List.replicate c (.SetScanline r1.curY_ r1.rawScanline_) } ∧
          ∀ y, storedScanline
              (r1.image_ ++ List.replicate c (.SetScanline r1.curY_ r1.rawScanline_)) y =
            storedScanline r1.image_ y)) ∧
    (LoadPNG z (framedImage w h palette ps)).thrown =
      (LoadPNG z (framedImage w h palette ps2)).thrown ∧
    ((LoadPNG z (framedImage w h palette ps)).thrown = none →
      ∃ calls c c2 y0 src,
        (LoadPNG z (framedImage w h palette ps)).image =
          calls ++ List.replicate c (.SetScanline y0 src) ++ [.EndWrite true] ∧
        (LoadPNG z (framedImage w h palette ps2)).image =
          calls ++ List.replicate c2 (.SetScanline y0 src) ++ [.EndWrite true] ∧
        (c ≠ 0 ∨ c2 ≠ 0 → ∃ pre, calls = pre ++ [.SetScanline y0 src])) ∧
    ((LoadPNG z (framedImage w h palette ps)).thrown = none →
      ∀ y, storedScanline (LoadPNG z (framedImage w h palette ps)).image y =
        storedScanline (LoadPNG z (framedImage w h palette ps2)).image y) := by
  refine ⟨fun r b blocks => ?_, LoadPNG_split z d w h palette ps ps2 outs outs2 hinit hw h0 hw32
    h32 hp3 hp hps hps2 hne hne2 hd hd2 hflat⟩
  rcases scanBlocks_cons_flatten blocks b r with h | ⟨r1, c, a1, a2, _, a4⟩
  · exact Or.inl h
  · exact Or.inr ⟨r1, c, a1, a2, fun y => storedScanline_repeat _ _ _ c a4 y⟩

/-- An instance of C39: the image data `0, 7` of a 1 x 1 image in one
image-data chunk, and cut into the chunks `0`, `7` and an empty one, read with
the stored stand-in for zlib. -/
theorem image_data_split_irrelevant_witness :
    (LoadPNG ZLib.stored (framedImage 1 1 [] [[0, 7]])).thrown =
      (LoadPNG ZLib.stored (framedImage 1 1 [] [[0], [7], []])).thrown ∧
    ((LoadPNG ZLib.stored (framedImage 1 1 [] [[0, 7]])).thrown = none →
      ∀ y, storedScanline (LoadPNG ZLib.stored (framedImage 1 1 [] [[0, 7]])).image y =
        storedScanline (LoadPNG ZLib.stored (framedImage 1 1 [] [[0], [7], []])).image y) :=
  ⟨(image_data_split_irrelevant ZLib.stored () 1 1 [] [[0, 7]] [[0], [7], []] [[0, 7]]
      [[0], [7], []] rfl (by decide) (by decide) (by decide) (by decide) rfl (by decide)
      (by simp) (by simp) (by simp) (by simp) rfl rfl rfl).2.1,
    (image_data_split_irrelevant ZLib.stored () 1 1 [] [[0, 7]] [[0], [7], []] [[0, 7]]
      [[0], [7], []] rfl (by decide) (by decide) (by decide) (by decide) rfl (by decide)
      (by simp) (by simp) (by simp) (by simp) rfl rfl rfl).2.2.2⟩

/-! ## Reading is sequential: a read that returns depends on the bytes it took only -/

theorem ReadByte_local {stm rest : IStream} {b : Byte} (h : ReadByte stm = .ok (b, rest)) :
    stm = b :: rest := by
  cases stm with
  | nil => cases h
  | cons c s =>
    simp only [ReadByte, Except.ok.injEq, Prod.mk.injEq] at h
    rw [h.1, h.2]

theorem ReadUInt32_local {stm rest : IStream} {ui : Nat} (h : ReadUInt32 stm = .ok (ui, rest)) :
    ∃ b0 b1 b2 b3 : Byte, stm = b0 :: b1 :: b2 :: b3 :: rest ∧
      ui = uint32OfBytes b0 b1 b2 b3 := by
  rcases stm with _ | ⟨b0, _ | ⟨b1, _ | ⟨b2, _ | ⟨b3, s⟩⟩⟩⟩
  · simp [ReadUInt32, ReadByte] at h
  · simp [ReadUInt32, ReadByte] at h
  · simp [ReadUInt32, ReadByte] at h
  · simp [ReadUInt32, ReadByte] at h
  · rw [ReadUInt32_cons] at h
    simp only [Except.ok.injEq, Prod.mk.injEq] at h
    exact ⟨b0, b1, b2, b3, by rw [h.2], h.1.symm⟩

theorem ReadBuffer_local {n : Nat} :
    ∀ {stm rest : IStream} {buf : List Byte}, ReadBuffer stm n = .ok (buf, rest) →
      stm = buf ++ rest ∧ buf.length = n := by
  induction n with
  | zero =>
    intro stm rest buf h
    simp only [ReadBuffer, Except.ok.injEq, Prod.mk.injEq] at h
    rw [← h.1, ← h.2]
    exact ⟨rfl, rfl⟩
  | succ n ih =>
    intro stm rest buf h
    rw [ReadBuffer] at h
    cases h1 : ReadByte stm with
    | error e => simp [h1] at h
    | ok p =>
      obtain ⟨b, s1⟩ := p
      simp only [h1] at h
      cases h2 : ReadBuffer s1 n with
      | error e => simp [h2] at h
      | ok q =>
        obtain ⟨buf1, s2⟩ := q
        simp only [h2, Except.ok.injEq, Prod.mk.injEq] at h
        obtain ⟨e1, e2⟩ := ih h2
        rw [ReadByte_local h1, e1, ← h.1, ← h.2]
        exact ⟨rfl, by simp only [List.length_cons, e2]⟩

theorem PNGChunkReader_new_local {stm : IStream} {rd : PNGChunkReader}
    (h : PNGChunkReader.new stm = .ok rd) :
    ∃ c : List Byte, stm = c ++ rd.stm_ ∧
      ∀ s, PNGChunkReader.new (c ++ s) = .ok { rd with stm_ := s } := by
  unfold PNGChunkReader.new at h
  cases h1 : ReadUInt32 stm with
  | error e => simp [h1] at h
  | ok p =>
    obtain ⟨length, s1⟩ := p
    simp only [h1] at h
    cases h2 : ReadUInt32 s1 with
    | error e => simp [h2] at h
    | ok q =>
      obtain ⟨type, s2⟩ := q
      simp only [h2, Except.ok.injEq] at h
      obtain ⟨l0, l1, l2, l3, e1, v1⟩ := ReadUInt32_local h1
      obtain ⟨t0, t1, t2, t3, e2, v2⟩ := ReadUInt32_local h2
      subst h
      refine ⟨[l0, l1, l2, l3, t0, t1, t2, t3], ?_, ?_⟩
      · rw [e1, e2]
        rfl
      · intro s
        show PNGChunkReader.new (l0 :: l1 :: l2 :: l3 :: t0 :: t1 :: t2 :: t3 :: s) = _
        simp only [PNGChunkReader.new, ReadUInt32_cons, v1, v2]

theorem getByte_local {rd rd2 : PNGChunkReader} {b : Byte} (h : rd.getByte = .ok (b, rd2)) :
    rd.stm_ = b :: rd2.stm_ ∧
      ∀ s, PNGChunkReader.getByte { rd with stm_ := b :: s } = .ok (b, { rd2 with stm_ := s }) := by
  unfold PNGChunkReader.getByte at h
  cases h1 : ReadByte rd.stm_ with
  | error e => simp [h1] at h
  | ok p =>
    obtain ⟨c, s1⟩ := p
    simp only [h1, Except.ok.injEq, Prod.mk.injEq] at h
    obtain ⟨hb, hr⟩ := h
    subst hb
    subst hr
    exact ⟨ReadByte_local h1, fun s => rfl⟩

theorem getUInt32_local {rd rd2 : PNGChunkReader} {ui : Nat}
    (h : rd.getUInt32 = .ok (ui, rd2)) :
    ∃ b0 b1 b2 b3 : Byte, rd.stm_ = b0 :: b1 :: b2 :: b3 :: rd2.stm_ ∧
      ui = uint32OfBytes b0 b1 b2 b3 ∧
      ∀ s, PNGChunkReader.getUInt32 { rd with stm_ := b0 :: b1 :: b2 :: b3 :: s } =
        .ok (ui, { rd2 with stm_ := s }) := by
  unfold PNGChunkReader.getUInt32 at h
  cases h1 : ReadUInt32 rd.stm_ with
  | error e => simp [h1] at h
  | ok p =>
    obtain ⟨c, s1⟩ := p
    simp only [h1, Except.ok.injEq, Prod.mk.injEq] at h
    obtain ⟨hb, hr⟩ := h
    subst hb
    subst hr
    obtain ⟨b0, b1, b2, b3, e1, v1⟩ := ReadUInt32_local h1
    refine ⟨b0, b1, b2, b3, e1, v1, ?_⟩
    intro s
    simp only [PNGChunkReader.getUInt32, ReadUInt32_cons, v1]

theorem Read_local {rd rd2 : PNGChunkReader} {n : Nat} {buf : List Byte}
    (h : rd.Read n = .ok (buf, rd2)) :
    rd.stm_ = buf ++ rd2.stm_ ∧
      ∀ s, PNGChunkReader.Read { rd with stm_ := buf ++ s } n = .ok (buf, { rd2 with stm_ := s }) := by
  unfold PNGChunkReader.Read at h
  cases h1 : ReadBuffer rd.stm_ n with
  | error e => simp [h1] at h
  | ok p =>
    obtain ⟨c, s1⟩ := p
    simp only [h1, Except.ok.injEq, Prod.mk.injEq] at h
    obtain ⟨hb, hr⟩ := h
    subst hb
    subst hr
    obtain ⟨e1, e2⟩ := ReadBuffer_local h1
    refine ⟨e1, ?_⟩
    intro s
    simp only [PNGChunkReader.Read, ← e2, ReadBuffer_append]

theorem End_local {rd : PNGChunkReader} {stm : IStream} (h : rd.End = .ok stm) :
    ∃ c : List Byte, rd.stm_ = c ++ stm ∧
      ∀ s, PNGChunkReader.End { rd with stm_ := c ++ s } = .ok s := by
  unfold PNGChunkReader.End at h
  cases h1 : ReadUInt32 rd.stm_ with
  | error e => simp [h1] at h
  | ok p =>
    obtain ⟨crc, s1⟩ := p
    simp only [h1] at h
    obtain ⟨b0, b1, b2, b3, e1, v1⟩ := ReadUInt32_local h1
    by_cases hc : crc ≠ rd.crcCalc_.GetCRC
    · rw [if_pos hc] at h
      cases h
    · rw [if_neg hc, Except.ok.injEq] at h
      subst h
      refine ⟨[b0, b1, b2, b3], e1, ?_⟩
      intro s
      show PNGChunkReader.End { rd with stm_ := b0 :: b1 :: b2 :: b3 :: s } = _
      simp only [PNGChunkReader.End, ReadUInt32_cons, ← v1, if_neg hc]

theorem ReadIHDRChunk_finish_local {z : ZLib} {reader rd2 : PNGChunkReader}
    {r r2 : PNGReader z} {bd ct cm ft il : Byte}
    (h : ReadIHDRChunk.finish reader r bd ct cm ft il = .ok (rd2, r2)) (s x : IStream) :
    ReadIHDRChunk.finish { reader with stm_ := s } { r with stm_ := x } bd ct cm ft il =
      .ok ({ rd2 with stm_ := s }, { r2 with stm_ := x }) := by
  unfold ReadIHDRChunk.finish at h ⊢
  by_cases h1 : bd ≠ BitDepth
  · rw [if_pos h1] at h
    cases h
  · rw [if_neg h1] at h ⊢
    by_cases h2 : ct ≠ ColorType
    · rw [if_pos h2] at h
      cases h
    · rw [if_neg h2] at h ⊢
      by_cases h3 : cm ≠ CompressionType
      · rw [if_pos h3] at h
        cases h
      · rw [if_neg h3] at h ⊢
        by_cases h4 : ft ≠ FilterType
        · rw [if_pos h4] at h
          cases h
        · rw [if_neg h4] at h ⊢
          by_cases h5 : il ≠ InterlaceType
          · rw [if_pos h5] at h
            cases h
          · rw [if_neg h5] at h ⊢
            simp only [Except.ok.injEq, Prod.mk.injEq] at h
            obtain ⟨e1, e2⟩ := h
            subst e1
            subst e2
            rfl

/-- A call of `ReadIHDRChunk` that returns has taken thirteen bytes off the
stream, and returns the same on any stream that starts with them. -/
theorem ReadIHDRChunk_local {z : ZLib} {reader rd2 : PNGChunkReader} {r r2 : PNGReader z}
    (h : ReadIHDRChunk reader r = .ok (rd2, r2)) :
    ∃ c : List Byte, c.length = 13 ∧ reader.stm_ = c ++ rd2.stm_ ∧
      ∀ s x, ReadIHDRChunk { reader with stm_ := c ++ s } { r with stm_ := x } =
        .ok ({ rd2 with stm_ := s }, { r2 with stm_ := x }) := by
  unfold ReadIHDRChunk at h
  cases h1 : reader.getUInt32 with
  | error e => simp [h1] at h
  | ok p1 =>
    obtain ⟨width, rd_a⟩ := p1
    simp only [h1] at h
    cases h2 : rd_a.getUInt32 with
    | error e => simp [h2] at h
    | ok p2 =>
      obtain ⟨height, rd_b⟩ := p2
      simp only [h2] at h
      by_cases hw : width = 0
      · rw [if_pos hw] at h
        cases h
      rw [if_neg hw] at h
      by_cases hh : height = 0
      · rw [if_pos hh] at h
        cases h
      rw [if_neg hh] at h
      cases h3 : rd_b.getByte with
      | error e => simp [h3] at h
      | ok p3 =>
        obtain ⟨bd, rd_c⟩ := p3
        simp only [h3] at h
        cases h4 : rd_c.getByte with
        | error e => simp [h4] at h
        | ok p4 =>
          obtain ⟨ct, rd_d⟩ := p4
          simp only [h4] at h
          cases h5 : rd_d.getByte with
          | error e => simp [h5] at h
          | ok p5 =>
            obtain ⟨cm, rd_e⟩ := p5
            simp only [h5] at h
            cases h6 : rd_e.getByte with
            | error e => simp [h6] at h
            | ok p6 =>
              obtain ⟨ft, rd_f⟩ := p6
              simp only [h6] at h
              cases h7 : rd_f.getByte with
              | error e => simp [h7] at h
              | ok p7 =>
                obtain ⟨il, rd_g⟩ := p7
                simp only [h7] at h
                obtain ⟨w0, w1, w2, w3, e1, _, l1⟩ := getUInt32_local h1
                obtain ⟨g0, g1, g2, g3, e2, _, l2⟩ := getUInt32_local h2
                obtain ⟨e3, l3⟩ := getByte_local h3
                obtain ⟨e4, l4⟩ := getByte_local h4
                obtain ⟨e5, l5⟩ := getByte_local h5
                obtain ⟨e6, l6⟩ := getByte_local h6
                obtain ⟨e7, l7⟩ := getByte_local h7
                have hr := ReadIHDRChunk_finish_reader h
                refine ⟨[w0, w1, w2, w3, g0, g1, g2, g3, bd, ct, cm, ft, il], rfl, ?_, ?_⟩
                · rw [e1, e2, e3, e4, e5, e6, e7, hr]
                  rfl
                · intro s x
                  show ReadIHDRChunk { reader with stm_ := w0 :: w1 :: w2 :: w3 :: g0 :: g1 ::
                    g2 :: g3 :: bd :: ct :: cm :: ft :: il :: s } { r with stm_ := x } = _
                  unfold ReadIHDRChunk
                  simp only [l1, l2, l3, l4, l5, l6, l7, if_neg hw, if_neg hh]
                  exact ReadIHDRChunk_finish_local h s x

theorem ReadPLTEChunk_loop_local {z : ZLib} (n : Nat) :
    ∀ (i : Nat) (reader rd2 : PNGChunkReader) (r r2 : PNGReader z),
      ReadPLTEChunk.loop n i reader r = .ok (rd2, r2) →
      ∃ c : List Byte, reader.stm_ = c ++ rd2.stm_ ∧
        ∀ s x, ReadPLTEChunk.loop n i { reader with stm_ := c ++ s } { r with stm_ := x } =
          .ok ({ rd2 with stm_ := s }, { r2 with stm_ := x }) := by
  induction n with
  | zero =>
    intro i reader rd2 r r2 h
    simp only [ReadPLTEChunk.loop, Except.ok.injEq, Prod.mk.injEq] at h
    obtain ⟨e1, e2⟩ := h
    subst e1
    subst e2
    exact ⟨[], rfl, fun s x => rfl⟩
  | succ n ih =>
    intro i reader rd2 r r2 h
    rw [ReadPLTEChunk.loop] at h
    cases h1 : reader.getByte with
    | error e => simp [h1] at h
    | ok p1 =>
      obtain ⟨red, rd_a⟩ := p1
      simp only [h1] at h
      cases h2 : rd_a.getByte with
      | error e => simp [h2] at h
      | ok p2 =>
        obtain ⟨green, rd_b⟩ := p2
        simp only [h2] at h
        cases h3 : rd_b.getByte with
        | error e => simp [h3] at h
        | ok p3 =>
          obtain ⟨blue, rd_c⟩ := p3
          simp only [h3] at h
          obtain ⟨e1, l1⟩ := getByte_local h1
          obtain ⟨e2, l2⟩ := getByte_local h2
          obtain ⟨e3, l3⟩ := getByte_local h3
          obtain ⟨c, ec, lc⟩ := ih _ _ _ _ _ h
          refine ⟨red :: green :: blue :: c, ?_, ?_⟩
          · rw [e1, e2, e3, ec]
            rfl
          · intro s x
            show ReadPLTEChunk.loop (n + 1) i
              { reader with stm_ := red :: green :: blue :: (c ++ s) } { r with stm_ := x } = _
            rw [ReadPLTEChunk.loop]
            simp only [l1, l2, l3]
            exact lc s x

theorem ReadPLTEChunk_local {z : ZLib} {reader rd2 : PNGChunkReader} {r r2 : PNGReader z}
    (h : ReadPLTEChunk reader r = .ok (rd2, r2)) :
    ∃ c : List Byte, reader.stm_ = c ++ rd2.stm_ ∧
      ∀ s x, ReadPLTEChunk { reader with stm_ := c ++ s } { r with stm_ := x } =
        .ok ({ rd2 with stm_ := s }, { r2 with stm_ := x }) := by
  unfold ReadPLTEChunk at h
  simp only [PNGChunkReader.GetLength] at h
  by_cases hl : reader.length_ % 3 ≠ 0
  · rw [if_pos hl] at h
    cases h
  · rw [if_neg hl] at h
    obtain ⟨c, ec, lc⟩ := ReadPLTEChunk_loop_local _ _ _ _ _ _ h
    refine ⟨c, ec, ?_⟩
    intro s x
    unfold ReadPLTEChunk
    simp only [PNGChunkReader.GetLength]
    rw [if_neg hl]
    exact lc s x

theorem ReadUnknownChunk_loop_local (n : Nat) :
    ∀ (reader rd2 : PNGChunkReader), ReadUnknownChunk.loop n reader = .ok rd2 →
      ∃ c : List Byte, reader.stm_ = c ++ rd2.stm_ ∧
        ∀ s, ReadUnknownChunk.loop n { reader with stm_ := c ++ s } =
          .ok { rd2 with stm_ := s } := by
  induction n with
  | zero =>
    intro reader rd2 h
    simp only [ReadUnknownChunk.loop, Except.ok.injEq] at h
    subst h
    exact ⟨[], rfl, fun s => rfl⟩
  | succ n ih =>
    intro reader rd2 h
    rw [ReadUnknownChunk.loop] at h
    cases h1 : reader.getByte with
    | error e => simp [h1] at h
    | ok p1 =>
      obtain ⟨b, rd_a⟩ := p1
      simp only [h1] at h
      obtain ⟨e1, l1⟩ := getByte_local h1
      obtain ⟨c, ec, lc⟩ := ih _ _ h
      refine ⟨b :: c, ?_, ?_⟩
      · rw [e1, ec]
        rfl
      · intro s
        show ReadUnknownChunk.loop (n + 1) { reader with stm_ := b :: (c ++ s) } = _
        rw [ReadUnknownChunk.loop]
        simp only [l1]
        exact lc s

theorem ReadUnknownChunk_local {z : ZLib} {reader rd2 : PNGChunkReader} {r r2 : PNGReader z}
    (h : ReadUnknownChunk reader r = .ok (rd2, r2)) :
    ∃ c : List Byte, reader.stm_ = c ++ rd2.stm_ ∧
      ∀ s x, ReadUnknownChunk { reader with stm_ := c ++ s } { r with stm_ := x } =
        .ok ({ rd2 with stm_ := s }, { r2 with stm_ := x }) := by
  unfold ReadUnknownChunk at h
  by_cases ha : (!reader.IsAncilliary) = true
  · rw [if_pos ha] at h
    cases h
  · rw [if_neg ha] at h
    simp only [PNGChunkReader.GetLength] at h
    cases h1 : ReadUnknownChunk.loop reader.length_ reader with
    | error e => simp [h1] at h
    | ok rd3 =>
      simp only [h1, Except.ok.injEq, Prod.mk.injEq] at h
      obtain ⟨e1, e2⟩ := h
      subst e1
      subst e2
      obtain ⟨c, ec, lc⟩ := ReadUnknownChunk_loop_local _ _ _ h1
      refine ⟨c, ec, ?_⟩
      intro s x
      unfold ReadUnknownChunk
      have ha2 : ¬ (!PNGChunkReader.IsAncilliary { reader with stm_ := c ++ s }) = true := ha
      rw [if_neg ha2]
      simp only [PNGChunkReader.GetLength, lc]

/-- The scanline loop neither reads nor writes the stream member. -/
theorem unfilterLoop_stm {z : ZLib} {r r2 : PNGReader z} {bytes : List Byte}
    (h : r.unfilterLoop bytes = .ok r2) (x : IStream) :
    PNGReader.unfilterLoop { r with stm_ := x } bytes = .ok { r2 with stm_ := x } := by
  have h0 := unfilterLoop_withOutside bytes r r
  rw [withOutside_self, h] at h0
  simp only [Except.map, Except.ok.injEq] at h0
  have h1 := congrArg PNGReader.chunksRead_ h0
  have h2 := congrArg PNGReader.width_ h0
  have h3 := congrArg PNGReader.decompressor_ h0
  have h4 := congrArg PNGReader.compBuffer_ h0
  simp only [withOutside] at h1 h2 h3 h4
  have h5 := unfilterLoop_withOutside bytes r { r with stm_ := x }
  rw [h] at h5
  have e1 : r.withOutside { r with stm_ := x } = { r with stm_ := x } := rfl
  have e2 : r2.withOutside { r with stm_ := x } = { r2 with stm_ := x } := by
    simp only [withOutside]
    rw [← h1, ← h2, ← h3, ← h4]
  rw [e1] at h5
  rw [h5]
  simp only [Except.map, e2]

theorem finalScanline_stm {z : ZLib} (r : PNGReader z) (x : IStream) :
    PNGReader.finalScanline { r with stm_ := x } = { r.finalScanline with stm_ := x } := by
  unfold finalScanline
  show (if r.curRaw_ = r.endRaw_ ∧ r.curY_ = (r.height_ + 2 ^ 32 - 1) % 2 ^ 32 then _ else _) = _
  split <;> rfl

theorem ReadIDATChunk_local {z : ZLib} {reader rd2 : PNGChunkReader} {r r2 : PNGReader z}
    (h : ReadIDATChunk reader r = .ok (rd2, r2)) :
    ∃ c : List Byte, reader.stm_ = c ++ rd2.stm_ ∧
      ∀ s x, ReadIDATChunk { reader with stm_ := c ++ s } { r with stm_ := x } =
        .ok ({ rd2 with stm_ := s }, { r2 with stm_ := x }) := by
  unfold ReadIDATChunk at h
  simp only [PNGChunkReader.GetLength] at h
  cases h1 : reader.Read reader.length_ with
  | error e => simp [h1] at h
  | ok p1 =>
    obtain ⟨buf, rd_a⟩ := p1
    simp only [h1] at h
    cases h2 : r.decompressor_.Decompress buf reader.length_ with
    | error e => simp [h2] at h
    | ok d2 =>
      simp only [h2] at h
      cases h3 : unfilterLoop { r with compBuffer_ := buf, decompressor_ := d2 }
          (d2.GetDstPtr.take d2.GetDstLength) with
      | error t => simp [h3] at h
      | ok r3 =>
        simp only [h3, Except.ok.injEq, Prod.mk.injEq] at h
        obtain ⟨e1, e2⟩ := h
        subst e1
        subst e2
        obtain ⟨ec, lc⟩ := Read_local h1
        refine ⟨buf, ec, ?_⟩
        intro s x
        unfold ReadIDATChunk
        simp only [PNGChunkReader.GetLength]
        have l1 : PNGChunkReader.Read { reader with stm_ := buf ++ s } reader.length_ =
            .ok (buf, { rd_a with stm_ := s }) := lc s
        have l3 := unfilterLoop_stm h3 x
        simp only [l1, h2, l3, finalScanline_stm]

theorem ProcessChunksRead_stm {z : ZLib} (r : PNGReader z) (curChunk : Nat) (x : IStream) :
    PNGReader.ProcessChunksRead { r with stm_ := x } curChunk =
      (r.ProcessChunksRead curChunk).map (fun r2 => { r2 with stm_ := x }) := by
  unfold ProcessChunksRead
  dsimp only
  split_ifs <;> rfl

theorem requiredChunk_local {z : ZLib}
    (handler : PNGChunkReader → PNGReader z → Except Thrown (PNGChunkReader × PNGReader z))
    (hh : ∀ (reader rd2 : PNGChunkReader) (r r2 : PNGReader z),
      handler reader r = .ok (rd2, r2) →
      ∃ c : List Byte, reader.stm_ = c ++ rd2.stm_ ∧
        ∀ s x, handler { reader with stm_ := c ++ s } { r with stm_ := x } =
          .ok ({ rd2 with stm_ := s }, { r2 with stm_ := x }))
    (curChunk : Nat) {reader rd2 : PNGChunkReader} {r r2 : PNGReader z}
    (h : r.requiredChunk curChunk (handler reader) = .ok (rd2, r2)) :
    ∃ c : List Byte, reader.stm_ = c ++ rd2.stm_ ∧
      ∀ s x, PNGReader.requiredChunk { r with stm_ := x } curChunk
          (handler { reader with stm_ := c ++ s }) =
        .ok ({ rd2 with stm_ := s }, { r2 with stm_ := x }) := by
  unfold requiredChunk at h
  cases h1 : r.ProcessChunksRead curChunk with
  | error t => simp [h1] at h
  | ok r1 =>
    simp only [h1] at h
    obtain ⟨c, ec, lc⟩ := hh _ _ _ _ h
    refine ⟨c, ec, ?_⟩
    intro s x
    unfold requiredChunk
    rw [ProcessChunksRead_stm, h1]
    exact lc s x

theorem handleChunk_local {z : ZLib} {reader rd2 : PNGChunkReader} {r r2 : PNGReader z}
    (h : handleChunk reader r = .ok (rd2, r2)) :
    ∃ c : List Byte, reader.stm_ = c ++ rd2.stm_ ∧
      ∀ s x, handleChunk { reader with stm_ := c ++ s } { r with stm_ := x } =
        .ok ({ rd2 with stm_ := s }, { r2 with stm_ := x }) := by
  unfold handleChunk at h
  simp only [PNGChunkReader.GetType] at h
  by_cases t1 : reader.type_ = IHDRChunkType
  · rw [if_pos t1] at h
    obtain ⟨c, ec, lc⟩ := requiredChunk_local ReadIHDRChunk
      (fun _ _ _ _ hx => by
        obtain ⟨c, _, ec, lc⟩ := ReadIHDRChunk_local hx
        exact ⟨c, ec, lc⟩) IHDRChunk h
    refine ⟨c, ec, ?_⟩
    intro s x
    rw [handleChunk_IHDR _ _
      (show PNGChunkReader.type_ { reader with stm_ := c ++ s } = IHDRChunkType from t1)]
    exact lc s x
  rw [if_neg t1] at h
  by_cases t2 : reader.type_ = PLTEChunkType
  · rw [if_pos t2] at h
    obtain ⟨c, ec, lc⟩ := requiredChunk_local ReadPLTEChunk
      (fun _ _ _ _ hx => ReadPLTEChunk_local hx) PLTEChunk h
    refine ⟨c, ec, ?_⟩
    intro s x
    rw [handleChunk_PLTE _ _
      (show PNGChunkReader.type_ { reader with stm_ := c ++ s } = PLTEChunkType from t2)]
    exact lc s x
  rw [if_neg t2] at h
  by_cases t3 : reader.type_ = IDATChunkType
  · rw [if_pos t3] at h
    obtain ⟨c, ec, lc⟩ := requiredChunk_local ReadIDATChunk
      (fun _ _ _ _ hx => ReadIDATChunk_local hx) IDATChunk h
    refine ⟨c, ec, ?_⟩
    intro s x
    rw [handleChunk_IDAT _ _
      (show PNGChunkReader.type_ { reader with stm_ := c ++ s } = IDATChunkType from t3)]
    exact lc s x
  rw [if_neg t3] at h
  by_cases t4 : reader.type_ = IENDChunkType
  · rw [if_pos t4] at h
    obtain ⟨c, ec, lc⟩ := requiredChunk_local ReadIENDChunk
      (fun _ _ _ _ hx => by
        simp only [ReadIENDChunk, Except.ok.injEq, Prod.mk.injEq] at hx
        obtain ⟨e1, e2⟩ := hx
        subst e1
        subst e2
        exact ⟨[], rfl, fun s x => rfl⟩) IENDChunk h
    refine ⟨c, ec, ?_⟩
    intro s x
    rw [handleChunk_IEND _ _
      (show PNGChunkReader.type_ { reader with stm_ := c ++ s } = IENDChunkType from t4)]
    exact lc s x
  rw [if_neg t4] at h
  obtain ⟨c, ec, lc⟩ := ReadUnknownChunk_local h
  refine ⟨c, ec, ?_⟩
  intro s x
  unfold handleChunk
  simp only [PNGChunkReader.GetType]
  rw [if_neg t1, if_neg t2, if_neg t3, if_neg t4]
  exact lc s x

/-- A call of `ReadChunk` that returns depends on the bytes it took off the
stream only: it returns the same on any stream that starts with them, with
the rest of that stream left to read. -/
theorem ReadChunk_local {z : ZLib} {r r2 : PNGReader z} (h : r.ReadChunk = .ok r2) :
    ∃ c : List Byte, r.stm_ = c ++ r2.stm_ ∧
      ∀ s, PNGReader.ReadChunk { r with stm_ := c ++ s } = .ok { r2 with stm_ := s } := by
  unfold ReadChunk at h
  cases h1 : PNGChunkReader.new r.stm_ with
  | error e => simp [h1] at h
  | ok reader =>
    simp only [h1] at h
    by_cases hi : r.chunksRead_ &&& IENDChunk ≠ 0
    · rw [if_pos hi] at h
      cases h
    rw [if_neg hi] at h
    cases h2 : handleChunk reader r with
    | error t => simp [h2] at h
    | ok p =>
      obtain ⟨rd2, r3⟩ := p
      simp only [h2] at h
      cases h3 : rd2.End with
      | error e => simp [h3] at h
      | ok stm =>
        simp only [h3, Except.ok.injEq] at h
        subst h
        obtain ⟨c1, e1, l1⟩ := PNGChunkReader_new_local h1
        obtain ⟨c2, e2, l2⟩ := handleChunk_local h2
        obtain ⟨c3, e3, l3⟩ := End_local h3
        refine ⟨c1 ++ (c2 ++ c3), ?_, ?_⟩
        · show r.stm_ = (c1 ++ (c2 ++ c3)) ++ stm
          rw [e1, e2, e3]
          simp only [List.append_assoc]
        · intro s
          unfold ReadChunk
          have hs : (c1 ++ (c2 ++ c3)) ++ s = c1 ++ (c2 ++ (c3 ++ s)) := by
            simp only [List.append_assoc]
          show (match PNGChunkReader.new ((c1 ++ (c2 ++ c3)) ++ s) with
            | .error e => _
            | .ok reader => _) = _
          rw [hs, l1]
          simp only []
          have hi2 : ¬ (PNGReader.chunksRead_ { r with stm_ := c1 ++ (c2 ++ (c3 ++ s)) } &&&
            IENDChunk ≠ 0) := hi
          rw [if_neg hi2, l2 (c3 ++ s) (c1 ++ (c2 ++ (c3 ++ s)))]
          simp only []
          rw [l3 s]

theorem chunkSteps_local {z : ZLib} (k : Nat) :
    ∀ (r r2 : PNGReader z), chunkSteps k r = .ok r2 →
      ∃ c : List Byte, r.stm_ = c ++ r2.stm_ ∧
        ∀ s, chunkSteps k { r with stm_ := c ++ s } = .ok { r2 with stm_ := s } := by
  induction k with
  | zero =>
    intro r r2 h
    simp only [chunkSteps, Except.ok.injEq] at h
    subst h
    exact ⟨[], rfl, fun s => rfl⟩
  | succ k ih =>
    intro r r2 h
    rw [chunkSteps] at h
    cases h1 : r.ReadChunk with
    | error t => simp [h1] at h
    | ok r1 =>
      simp only [h1] at h
      obtain ⟨c1, e1, l1⟩ := ReadChunk_local h1
      obtain ⟨c2, e2, l2⟩ := ih _ _ h
      refine ⟨c1 ++ c2, ?_, ?_⟩
      · rw [e1, e2, List.append_assoc]
      · intro s
        rw [chunkSteps, List.append_assoc, l1 (c2 ++ s)]
        exact l2 s

/-! ## The declared length of the header chunk and of the end chunk (claim C40) -/

theorem getUInt32_declared_length (rd : PNGChunkReader) (n : Nat) :
    PNGChunkReader.getUInt32 { rd with length_ := n } =
      rd.getUInt32.map (fun p => (p.1, { p.2 with length_ := n })) := by
  unfold PNGChunkReader.getUInt32
  show (match ReadUInt32 rd.stm_ with
    | .error e => _
    | .ok (ui, stm) => _) = _
  cases ReadUInt32 rd.stm_ <;> rfl

theorem getByte_declared_length (rd : PNGChunkReader) (n : Nat) :
    PNGChunkReader.getByte { rd with length_ := n } =
      rd.getByte.map (fun p => (p.1, { p.2 with length_ := n })) := by
  unfold PNGChunkReader.getByte
  show (match ReadByte rd.stm_ with
    | .error e => _
    | .ok (byte, stm) => _) = _
  cases ReadByte rd.stm_ <;> rfl

theorem End_declared_length (rd : PNGChunkReader) (n : Nat) :
    PNGChunkReader.End { rd with length_ := n } = rd.End := rfl

theorem ReadIHDRChunk_finish_declared_length {z : ZLib} (reader : PNGChunkReader)
    (r : PNGReader z) (bd ct cm ft il : Byte) (n : Nat) (x : IStream) :
    ReadIHDRChunk.finish { reader with length_ := n } { r with stm_ := x } bd ct cm ft il =
      (ReadIHDRChunk.finish reader r bd ct cm ft il).map
        (fun p => ({ p.1 with length_ := n }, { p.2 with stm_ := x })) := by
  unfold ReadIHDRChunk.finish
  dsimp only
  split_ifs <;> rfl

/-- The header handler passes the declared length of the chunk through
without reading it, and does not read the stream member of the decoder. -/
theorem ReadIHDRChunk_declared_length {z : ZLib} (reader : PNGChunkReader) (r : PNGReader z)
    (n : Nat) (x : IStream) :
    ReadIHDRChunk { reader with length_ := n } { r with stm_ := x } =
      (ReadIHDRChunk reader r).map
        (fun p => ({ p.1 with length_ := n }, { p.2 with stm_ := x })) := by
  unfold ReadIHDRChunk
  rw [getUInt32_declared_length]
  cases reader.getUInt32 with
  | error e => rfl
  | ok p1 =>
    obtain ⟨width, rd_a⟩ := p1
    simp only [Except.map]
    rw [getUInt32_declared_length]
    cases rd_a.getUInt32 with
    | error e => rfl
    | ok p2 =>
      obtain ⟨height, rd_b⟩ := p2
      simp only [Except.map]
      by_cases hw : width = 0
      · rw [if_pos hw, if_pos hw]
      rw [if_neg hw, if_neg hw]
      by_cases hh : height = 0
      · rw [if_pos hh, if_pos hh]
      rw [if_neg hh, if_neg hh, getByte_declared_length]
      cases rd_b.getByte with
      | error e => rfl
      | ok p3 =>
        obtain ⟨bd, rd_c⟩ := p3
        simp only [Except.map]
        rw [getByte_declared_length]
        cases rd_c.getByte with
        | error e => rfl
        | ok p4 =>
          obtain ⟨ct, rd_d⟩ := p4
          simp only [Except.map]
          rw [getByte_declared_length]
          cases rd_d.getByte with
          | error e => rfl
          | ok p5 =>
            obtain ⟨cm, rd_e⟩ := p5
            simp only [Except.map]
            rw [getByte_declared_length]
            cases rd_e.getByte with
            | error e => rfl
            | ok p6 =>
              obtain ⟨ft, rd_f⟩ := p6
              simp only [Except.map]
              rw [getByte_declared_length]
              cases rd_f.getByte with
              | error e => rfl
              | ok p7 =>
                obtain ⟨il, rd_g⟩ := p7
                simp only [Except.map]
                exact ReadIHDRChunk_finish_declared_length rd_g
                  { r with width_ := width, height_ := height } bd ct cm ft il n x

/-- `ReadChunk` on a chunk of type `IHDR` or `IEND`, from any state of the
decoder: the four bytes of the declared length do not matter. -/
theorem ReadChunk_declared_length {z : ZLib} (r : PNGReader z)
    (l0 l1 l2 l3 m0 m1 m2 m3 : Byte) (type : PNGChunkType) (tail : IStream)
    (ht : type = IHDRChunkType ∨ type = IENDChunkType) :
    PNGReader.ReadChunk
        { r with stm_ := l0 :: l1 :: l2 :: l3 :: (bigEndian32 type.GetValue ++ tail) } =
      PNGReader.ReadChunk
        { r with stm_ := m0 :: m1 :: m2 :: m3 :: (bigEndian32 type.GetValue ++ tail) } := by
  have hb : ∃ t0 t1 t2 t3 : Byte, bigEndian32 type.GetValue = [t0, t1, t2, t3] ∧
      (⟨uint32OfBytes t0 t1 t2 t3⟩ : PNGChunkType) = type := by
    rcases ht with rfl | rfl
    · exact ⟨73, 72, 68, 82, rfl, by decide⟩
    · exact ⟨73, 69, 78, 68, rfl, by decide⟩
  obtain ⟨t0, t1, t2, t3, hb, hty⟩ := hb
  rw [hb]
  simp only [ReadChunk, List.cons_append, List.nil_append, PNGChunkReader_new_cons]
  by_cases hend : r.chunksRead_ &&& IENDChunk ≠ 0
  · rw [if_pos hend, if_pos hend]
  rw [if_neg hend, if_neg hend]
  rcases ht with ht | ht
  · rw [handleChunk_IHDR _ _ (hty.trans ht), handleChunk_IHDR _ _ (hty.trans ht)]
    unfold requiredChunk
    rw [ProcessChunksRead_stm r IHDRChunk (l0 :: l1 :: l2 :: l3 :: t0 :: t1 :: t2 :: t3 :: tail),
      ProcessChunksRead_stm r IHDRChunk (m0 :: m1 :: m2 :: m3 :: t0 :: t1 :: t2 :: t3 :: tail)]
    cases r.ProcessChunksRead IHDRChunk with
    | error t => simp only [Except.map]
    | ok r1 =>
      simp only [Except.map]
      have e1 := ReadIHDRChunk_declared_length
        ⟨tail, 0, ⟨uint32OfBytes t0 t1 t2 t3⟩, CRCCalculator.new.Append [t0, t1, t2, t3]⟩ r1
        (uint32OfBytes l0 l1 l2 l3) (l0 :: l1 :: l2 :: l3 :: t0 :: t1 :: t2 :: t3 :: tail)
      have e2 := ReadIHDRChunk_declared_length
        ⟨tail, 0, ⟨uint32OfBytes t0 t1 t2 t3⟩, CRCCalculator.new.Append [t0, t1, t2, t3]⟩ r1
        (uint32OfBytes m0 m1 m2 m3) (m0 :: m1 :: m2 :: m3 :: t0 :: t1 :: t2 :: t3 :: tail)
      simp only [] at e1 e2
      rw [e1, e2]
      cases ReadIHDRChunk
        ⟨tail, 0, ⟨uint32OfBytes t0 t1 t2 t3⟩, CRCCalculator.new.Append [t0, t1, t2, t3]⟩ r1 with
      | error t => rfl
      | ok p =>
        simp only [Except.map, End_declared_length]
  · rw [handleChunk_IEND _ _ (hty.trans ht), handleChunk_IEND _ _ (hty.trans ht)]
    unfold requiredChunk
    rw [ProcessChunksRead_stm r IENDChunk (l0 :: l1 :: l2 :: l3 :: t0 :: t1 :: t2 :: t3 :: tail),
      ProcessChunksRead_stm r IENDChunk (m0 :: m1 :: m2 :: m3 :: t0 :: t1 :: t2 :: t3 :: tail)]
    cases r.ProcessChunksRead IENDChunk with
    | error t => simp only [Except.map]
    | ok r1 =>
      simp only [Except.map, ReadIENDChunk, PNGChunkReader.End]

/-- The chunk loop from a state in which the next chunk is of type `IHDR` or
`IEND`: the declared length of that chunk does not matter. -/
theorem ReadChunks_declared_length {z : ZLib} (n : Nat) (r : PNGReader z)
    (l0 l1 l2 l3 m0 m1 m2 m3 : Byte) (type : PNGChunkType) (tail : IStream)
    (ht : type = IHDRChunkType ∨ type = IENDChunkType) :
    ReadChunks (n + 1)
        { r with stm_ := l0 :: l1 :: l2 :: l3 :: (bigEndian32 type.GetValue ++ tail) } =
      ReadChunks (n + 1)
        { r with stm_ := m0 :: m1 :: m2 :: m3 :: (bigEndian32 type.GetValue ++ tail) } := by
  rw [ReadChunks, ReadChunks, ReadChunk_declared_length r l0 l1 l2 l3 m0 m1 m2 m3 type tail ht]
  rw [if_neg (List.cons_ne_nil _ _), if_neg (List.cons_ne_nil _ _)]

theorem LoadPNG_declared_length (z : ZLib) (pre tail : List Byte)
    (l0 l1 l2 l3 m0 m1 m2 m3 : Byte) (type : PNGChunkType)
    (ht : type = IHDRChunkType ∨ type = IENDChunkType)
    (hpre : ∀ d, Decompressor.new z = .ok d → ∃ (k : Nat) (r : PNGReader z),
      chunkSteps k (afterSignature d
        (pre ++ l0 :: l1 :: l2 :: l3 :: (bigEndian32 type.GetValue ++ tail))) = .ok r ∧
      r.stm_ = l0 :: l1 :: l2 :: l3 :: (bigEndian32 type.GetValue ++ tail)) :
    LoadPNG z (PngSignature ++
        (pre ++ l0 :: l1 :: l2 :: l3 :: (bigEndian32 type.GetValue ++ tail))) =
      LoadPNG z (PngSignature ++
        (pre ++ m0 :: m1 :: m2 :: m3 :: (bigEndian32 type.GetValue ++ tail))) := by
  cases hd : Decompressor.new z with
  | error e => simp only [LoadPNG, hd]
  | ok d =>
    obtain ⟨k, r, hk, hstm⟩ := hpre d hd
    obtain ⟨c, ec, lc⟩ := chunkSteps_local k _ _ hk
    have ec2 : pre ++ l0 :: l1 :: l2 :: l3 :: (bigEndian32 type.GetValue ++ tail) =
        c ++ l0 :: l1 :: l2 :: l3 :: (bigEndian32 type.GetValue ++ tail) := by
      rw [hstm] at ec
      exact ec
    have hc : pre = c := List.append_cancel_right ec2
    subst hc
    have hk2 : chunkSteps k (afterSignature d
        (pre ++ m0 :: m1 :: m2 :: m3 :: (bigEndian32 type.GetValue ++ tail))) =
        .ok { r with stm_ := m0 :: m1 :: m2 :: m3 :: (bigEndian32 type.GetValue ++ tail) } :=
      lc _
    have hr : r = { r with
        stm_ := l0 :: l1 :: l2 :: l3 :: (bigEndian32 type.GetValue ++ tail) } := by
      rw [← hstm]
    have hlen : (pre ++ m0 :: m1 :: m2 :: m3 :: (bigEndian32 type.GetValue ++ tail)).length =
        (pre ++ l0 :: l1 :: l2 :: l3 :: (bigEndian32 type.GetValue ++ tail)).length := by
      simp only [List.length_append, List.length_cons]
    obtain ⟨n, hn⟩ : ∃ n,
        (pre ++ l0 :: l1 :: l2 :: l3 :: (bigEndian32 type.GetValue ++ tail)).length = n + 1 :=
      ⟨pre.length + (3 + (bigEndian32 type.GetValue ++ tail).length), by
        simp only [List.length_append, List.length_cons]
        omega⟩
    have s1 := (ReadChunks_of_chunkSteps k _ _ (n + 1) hk (by
      show (pre ++ l0 :: l1 :: l2 :: l3 :: (bigEndian32 type.GetValue ++ tail)).length ≤ n + 1
      omega)).1
    have s2 := (ReadChunks_of_chunkSteps k _ _ (n + 1) hk2 (by
      show (pre ++ m0 :: m1 :: m2 :: m3 :: (bigEndian32 type.GetValue ++ tail)).length ≤ n + 1
      omega)).1
    rw [hr, ReadChunks_declared_length n r l0 l1 l2 l3 m0 m1 m2 m3 type tail ht, ← s2] at s1
    rw [← hn] at s1
    cases hR : ReadChunks
        (pre ++ l0 :: l1 :: l2 :: l3 :: (bigEndian32 type.GetValue ++ tail)).length
        (afterSignature d
          (pre ++ l0 :: l1 :: l2 :: l3 :: (bigEndian32 type.GetValue ++ tail))) with
    | error t =>
      rw [LoadPNG_of_ReadChunks_error z d _ t hd hR]
      rw [s1, ← hlen] at hR
      rw [LoadPNG_of_ReadChunks_error z d _ t hd hR]
    | ok r3 =>
      rw [LoadPNG_of_ReadChunks_ok z d _ r3 hd hR]
      rw [s1, ← hlen] at hR
      rw [LoadPNG_of_ReadChunks_ok z d _ r3 hd hR]

/-- C40: the decoder does not read the declared length of the header chunk
or of the end chunk.  Take a stream in which, after the signature and the
bytes `pre`, the decoder is at the start of a chunk of type `IHDR` or `IEND`
whose length field holds the bytes `l0 l1 l2 l3`, and the stream that has
`m0 m1 m2 m3` there instead and is the same elsewhere.  `LoadPNG` has the
same outcome on both: the same calls on the image and the same error or
success.  From any state of the decoder, `ReadChunk` on such a chunk returns
or throws the same whatever the four bytes are.  A call of `ReadIHDRChunk`
that returns has taken exactly thirteen bytes off the stream, and returns
the same for every declared length; `ReadIENDChunk` returns at once without
reading from the stream. -/
theorem declared_length_of_IHDR_and_IEND_unread (z : ZLib) (pre tail : List Byte)
    (l0 l1 l2 l3 m0 m1 m2 m3 : Byte) (type : PNGChunkType)
    (ht : type = IHDRChunkType ∨ type = IENDChunkType)
    (hpre : ∀ d, Decompressor.new z = .ok d → ∃ (k : Nat) (r : PNGReader z),
      chunkSteps k (afterSignature d
        (pre ++ l0 :: l1 :: l2 :: l3 :: (bigEndian32 type.GetValue ++ tail))) = .ok r ∧
      r.stm_ = l0 :: l1 :: l2 :: l3 :: (bigEndian32 type.GetValue ++ tail)) :
    LoadPNG z (PngSignature ++
        (pre ++ l0 :: l1 :: l2 :: l3 :: (bigEndian32 type.GetValue ++ tail))) =
      LoadPNG z (PngSignature ++
        (pre ++ m0 :: m1 :: m2 :: m3 :: (bigEndian32 type.GetValue ++ tail))) ∧
    (∀ r : PNGReader z,
      PNGReader.ReadChunk
          { r with stm_ := l0 :: l1 :: l2 :: l3 :: (bigEndian32 type.GetValue ++ tail) } =
        PNGReader.ReadChunk
          { r with stm_ := m0 :: m1 :: m2 :: m3 :: (bigEndian32 type.GetValue ++ tail) }) ∧
    (∀ (reader rd2 : PNGChunkReader) (r r2 : PNGReader z),
      ReadIHDRChunk reader r = .ok (rd2, r2) →
      (∃ c : List Byte, c.length = 13 ∧ reader.stm_ = c ++ rd2.stm_) ∧
      ∀ n, ReadIHDRChunk { reader with length_ := n } r =
        .ok ({ rd2 with length_ := n }, r2)) ∧
    (∀ (reader : PNGChunkReader) (r : PNGReader z),
      ReadIENDChunk reader r = .ok (reader, r)) := by
  refine ⟨LoadPNG_declared_length z pre tail l0 l1 l2 l3 m0 m1 m2 m3 type ht hpre,
    fun r => ReadChunk_declared_length r l0 l1 l2 l3 m0 m1 m2 m3 type tail ht, ?_,
    fun _ _ => rfl⟩
  intro reader rd2 r r2 h
  obtain ⟨c, hc, ec, lc⟩ := ReadIHDRChunk_local h
  refine ⟨⟨c, hc, ec⟩, ?_⟩
  intro n
  have h2 := lc rd2.stm_ r.stm_
  rw [← ec] at h2
  have h3 : Except.ok (rd2, r2) =
      (Except.ok ({ rd2 with stm_ := rd2.stm_ }, { r2 with stm_ := r.stm_ }) :
        Except Thrown (PNGChunkReader × PNGReader z)) := h.symm.trans h2
  simp only [Except.ok.injEq, Prod.mk.injEq] at h3
  have e := ReadIHDRChunk_declared_length reader r n r.stm_
  rw [h] at e
  simp only [Except.map] at e
  rw [← h3.2] at e
  exact e

set_option maxRecDepth 100000 in
/-- An instance of C40: the stream of a 1 x 1 image whose end chunk declares
the length 0, and the same stream with the declared length 9 there; the end
chunk is reached after three chunks. -/
theorem declared_length_of_IHDR_and_IEND_unread_witness :
    LoadPNG ZLib.stored (PngSignature ++ (onePixelData ++
        0 :: 0 :: 0 :: 0 :: (bigEndian32 IENDChunkType.GetValue ++ [174, 66, 96, 130]))) =
      LoadPNG ZLib.stored (PngSignature ++ (onePixelData ++
        0 :: 0 :: 0 :: 9 :: (bigEndian32 IENDChunkType.GetValue ++ [174, 66, 96, 130]))) :=
  (declared_length_of_IHDR_and_IEND_unread ZLib.stored onePixelData [174, 66, 96, 130]
    0 0 0 0 0 0 0 9 IENDChunkType (Or.inr rfl)
    (fun d hd => by
      cases hd
      exact ⟨3, { onePixelRead (0 :: 0 :: 0 :: 0 ::
        (bigEndian32 IENDChunkType.GetValue ++ [174, 66, 96, 130])) with chunksRead_ := 7 },
        rfl, rfl⟩)).1

/-! ## The output buffer of BufferedZLibStream (claims C37, C38) -/

namespace BufferedZLibStream

theorem writeAt_length (buffer : List Byte) (offset : Nat) (bytes : List Byte) :
    (writeAt buffer offset bytes).length = buffer.length := by
  simp only [writeAt, List.length_append, List.length_take, List.length_drop]
  omega

theorem call_log {c : ZCodec} (f : c.State → ZFlush → List Byte → Nat → ZCall c.State)
    (flush : ZFlush) (s : BufferedZLibStream c) :
    (call f flush s).2.availOutLog = s.availOutLog ++ [s.zStm_.avail_out] := rfl

theorem call_length {c : ZCodec} (f : c.State → ZFlush → List Byte → Nat → ZCall c.State)
    (flush : ZFlush) (s : BufferedZLibStream c) :
    (call f flush s).2.dstBuffer_.length = s.dstBuffer_.length :=
  writeAt_length _ _ _

/-- A call of zlib keeps the invariant of the output buffer and the size of
the buffer, and moves `writeOffset_` up by the number of bytes written. -/
theorem call_fits {c : ZCodec} (f : c.State → ZFlush → List Byte → Nat → ZCall c.State)
    (flush : ZFlush) (s : BufferedZLibStream c) (hf : s.Fits)
    (h32 : s.dstBuffer_.length < 2 ^ 32) :
    (call f flush s).2.Fits ∧ s.writeOffset_ ≤ (call f flush s).2.writeOffset_ ∧
      (call f flush s).2.writeOffset_ ≤ s.dstBuffer_.length := by
  unfold Fits at hf ⊢
  rw [call_length]
  have hk := List.length_take_le s.zStm_.avail_out
    (f s.zStm_.state flush (s.zStm_.next_in.take s.zStm_.avail_in) s.zStm_.avail_out).written
  show (s.writeOffset_ + (s.zStm_.total_out + (List.take s.zStm_.avail_out
      (f s.zStm_.state flush (s.zStm_.next_in.take s.zStm_.avail_in)
        s.zStm_.avail_out).written).length - s.zStm_.total_out)) % 2 ^ 32 +
      (s.zStm_.avail_out - (List.take s.zStm_.avail_out
      (f s.zStm_.state flush (s.zStm_.next_in.take s.zStm_.avail_in)
        s.zStm_.avail_out).written).length) = s.dstBuffer_.length ∧
    s.writeOffset_ ≤ (s.writeOffset_ + (s.zStm_.total_out + (List.take s.zStm_.avail_out
      (f s.zStm_.state flush (s.zStm_.next_in.take s.zStm_.avail_in)
        s.zStm_.avail_out).written).length - s.zStm_.total_out)) % 2 ^ 32 ∧
    (s.writeOffset_ + (s.zStm_.total_out + (List.take s.zStm_.avail_out
      (f s.zStm_.state flush (s.zStm_.next_in.take s.zStm_.avail_in)
        s.zStm_.avail_out).written).length - s.zStm_.total_out)) % 2 ^ 32 ≤ s.dstBuffer_.length
  generalize (List.take s.zStm_.avail_out
      (f s.zStm_.state flush (s.zStm_.next_in.take s.zStm_.avail_in)
        s.zStm_.avail_out).written).length = k at hk ⊢
  have e : s.zStm_.total_out + k - s.zStm_.total_out = k := by omega
  rw [e, Nat.mod_eq_of_lt (by omega)]
  omega

theorem GrowDstBuffer_length {c : ZCodec} (s : BufferedZLibStream c) :
    s.GrowDstBuffer.dstBuffer_.length = (s.dstBuffer_.length % 2 ^ 32 * 2) % 2 ^ 32 :=
  resize_length _ _

/-- `GrowDstBuffer` on a buffer of fewer than 2^31 bytes: the size doubles
and the invariant of the output buffer is kept. -/
theorem GrowDstBuffer_fits {c : ZCodec} (s : BufferedZLibStream c) (hf : s.Fits)
    (h31 : s.dstBuffer_.length < 2 ^ 31) :
    s.GrowDstBuffer.Fits ∧ s.GrowDstBuffer.dstBuffer_.length = 2 * s.dstBuffer_.length ∧
      s.GrowDstBuffer.writeOffset_ = s.writeOffset_ := by
  unfold Fits at hf ⊢
  rw [GrowDstBuffer_length]
  show s.writeOffset_ + (s.zStm_.avail_out + s.dstBuffer_.length % 2 ^ 32) % 2 ^ 32 = _ ∧ _
  rw [Nat.mod_eq_of_lt (show s.dstBuffer_.length < 2 ^ 32 by omega),
    Nat.mod_eq_of_lt (show s.dstBuffer_.length * 2 < 2 ^ 32 by omega),
    Nat.mod_eq_of_lt (show s.zStm_.avail_out + s.dstBuffer_.length < 2 ^ 32 by omega)]
  exact ⟨by omega, by omega, rfl⟩

/-- `PrepareStream` sets up the invariant of the output buffer. -/
theorem PrepareStream_fits {c : ZCodec} (s : BufferedZLibStream c) (src : List Byte)
    (len : Nat) (hw : s.writeOffset_ ≤ s.dstBuffer_.length)
    (h32 : s.dstBuffer_.length < 2 ^ 32) :
    (s.PrepareStream src len).Fits ∧
      (s.PrepareStream src len).dstBuffer_ = s.dstBuffer_ ∧
      (s.PrepareStream src len).writeOffset_ = s.writeOffset_ := by
  refine ⟨?_, rfl, rfl⟩
  show s.writeOffset_ + (s.dstBuffer_.length + 2 ^ 32 - s.writeOffset_) % 2 ^ 32 =
    s.dstBuffer_.length
  have e : s.dstBuffer_.length + 2 ^ 32 - s.writeOffset_ =
      s.dstBuffer_.length - s.writeOffset_ + 2 ^ 32 := by omega
  rw [e, Nat.add_mod_right, Nat.mod_eq_of_lt (by omega)]
  omega

/-- The size of the buffer after `n` calls of `GrowDstBuffer`, in 32-bit
arithmetic. -/
theorem GrowDstBuffer_iterate_length {c : ZCodec} (n : Nat) (s : BufferedZLibStream c) :
    (GrowDstBuffer^[n] s).dstBuffer_.length =
      if n = 0 then s.dstBuffer_.length else (s.dstBuffer_.length * 2 ^ n) % 2 ^ 32 := by
  induction n generalizing s with
  | zero => rfl
  | succ n ih =>
    rw [Function.iterate_succ_apply, ih, if_neg (Nat.succ_ne_zero n), GrowDstBuffer_length]
    by_cases hn : n = 0
    · subst hn
      rw [if_pos rfl, Nat.mod_mul_mod, Nat.zero_add, Nat.pow_one]
    · rw [if_neg hn, Nat.mod_mul_mod, Nat.mul_assoc, ← Nat.pow_succ', Nat.mul_mod, Nat.mod_mod,
        ← Nat.mul_mod]

/-- The size of the buffer of a fresh stream after `n` calls of
`GrowDstBuffer`, up to 21 calls: 1024 * 2 ^ n. -/
theorem GrowDstBuffer_iterate_new (c : ZCodec) (state : c.State) (n : Nat) (hn : n ≤ 21) :
    (GrowDstBuffer^[n] (new c state)).dstBuffer_.length = 1024 * 2 ^ n := by
  rw [GrowDstBuffer_iterate_length]
  have hl : (new c state).dstBuffer_.length = 1024 := List.length_replicate _ _
  rw [hl]
  by_cases h0 : n = 0
  · subst h0
    rfl
  · rw [if_neg h0]
    apply Nat.mod_eq_of_lt
    calc 1024 * 2 ^ n ≤ 1024 * 2 ^ 21 :=
          Nat.mul_le_mul_left _ (Nat.pow_le_pow_right (by decide) hn)
      _ < 2 ^ 32 := by decide

/-- The pass of the loops of `Compress` and `Decompress`: the call of zlib
is made with `avail_out` as it stands, or with the old size of the buffer
when `GrowDstBuffer` was called. -/
theorem feed_log {c : ZCodec} (f : c.State → ZFlush → List Byte → Nat → ZCall c.State)
    (s : BufferedZLibStream c) :
    (feed f s).2.availOutLog = s.availOutLog ++
      [if s.zStm_.avail_out = 0 then s.dstBuffer_.length % 2 ^ 32 else s.zStm_.avail_out] := by
  unfold feed
  rw [call_log]
  by_cases h : s.zStm_.avail_out = 0
  · rw [if_pos h, if_pos h]
    show s.availOutLog ++ [(s.zStm_.avail_out + s.dstBuffer_.length % 2 ^ 32) % 2 ^ 32] = _
    rw [h, Nat.zero_add, Nat.mod_mod]
  · rw [if_neg h, if_neg h]

/-- A pass of the loops of `Compress` and `Decompress` keeps the invariant
of the output buffer as long as the buffer has fewer than 2^31 bytes. -/
theorem feed_fits {c : ZCodec} (f : c.State → ZFlush → List Byte → Nat → ZCall c.State)
    (s : BufferedZLibStream c) (hf : s.Fits) (h31 : s.dstBuffer_.length < 2 ^ 31) :
    (feed f s).2.Fits ∧ (feed f s).2.dstBuffer_.length < 2 ^ 32 := by
  unfold feed
  by_cases h : s.zStm_.avail_out = 0
  · rw [if_pos h]
    obtain ⟨g1, g2, _⟩ := GrowDstBuffer_fits s hf h31
    have g32 : s.GrowDstBuffer.dstBuffer_.length < 2 ^ 32 := by omega
    exact ⟨(call_fits f _ _ g1 g32).1, by rw [call_length]; exact g32⟩
  · rw [if_neg h]
    have g32 : s.dstBuffer_.length < 2 ^ 32 := by omega
    exact ⟨(call_fits f _ _ hf g32).1, by rw [call_length]; exact g32⟩

end BufferedZLibStream

namespace BufferedZLibStream

/-- A pass of the loops of `Compress` and `Decompress` calls zlib with
output space, unless the size of the buffer is 0 in 32-bit arithmetic. -/
theorem feed_has_output_space {c : ZCodec}
    (f : c.State → ZFlush → List Byte → Nat → ZCall c.State) (s : BufferedZLibStream c)
    (h0 : s.dstBuffer_.length % 2 ^ 32 ≠ 0) :
    ∃ a, a ≠ 0 ∧ (feed f s).2.availOutLog = s.availOutLog ++ [a] := by
  refine ⟨_, ?_, feed_log f s⟩
  by_cases h : s.zStm_.avail_out = 0
  · rw [if_pos h]
    exact h0
  · rw [if_neg h]
    exact h

theorem CompressFinish_loop_log {c : ZCodec} (n : Nat) :
    ∀ s : BufferedZLibStream c, ∃ rest,
      (CompressFinish.loop n s).object.availOutLog = s.availOutLog ++ rest := by
  induction n with
  | zero => exact fun s => ⟨[], (List.append_nil _).symm⟩
  | succ n ih =>
    intro s
    rw [CompressFinish.loop]
    by_cases h1 : (call c.deflate .Z_FINISH s).1 = .Z_STREAM_END
    · simp only [h1, if_true]
      exact ⟨[s.zStm_.avail_out], call_log _ _ _⟩
    · simp only [h1, if_false]
      by_cases h2 : (call c.deflate .Z_FINISH s).1 = .Z_OK
      · simp only [h2, if_true]
        obtain ⟨rest, hr⟩ := ih (call c.deflate .Z_FINISH s).2.GrowDstBuffer
        refine ⟨s.zStm_.avail_out :: rest, ?_⟩
        rw [hr]
        show (call c.deflate .Z_FINISH s).2.availOutLog ++ rest = _
        rw [call_log, List.append_assoc]
        rfl
      · simp only [h2, if_false]
        exact ⟨[s.zStm_.avail_out], call_log _ _ _⟩

/-- The first call of `deflate` in `CompressFinish` is made with the
`avail_out` that `PrepareStream` has set: the size of the buffer less
`writeOffset_`, whether or not that is 0. -/
theorem CompressFinish_first_call {c : ZCodec} (n : Nat) (s : BufferedZLibStream c) :
    ∃ rest, (s.CompressFinish (n + 1)).object.availOutLog =
      s.availOutLog ++ (s.dstBuffer_.length + 2 ^ 32 - s.writeOffset_) % 2 ^ 32 :: rest := by
  unfold CompressFinish
  rw [CompressFinish.loop]
  by_cases h1 : (call c.deflate .Z_FINISH (s.PrepareStream [] 0)).1 = .Z_STREAM_END
  · simp only [h1, if_true]
    exact ⟨[], call_log _ _ _⟩
  · simp only [h1, if_false]
    by_cases h2 : (call c.deflate .Z_FINISH (s.PrepareStream [] 0)).1 = .Z_OK
    · simp only [h2, if_true]
      obtain ⟨rest, hr⟩ := CompressFinish_loop_log n
        (call c.deflate .Z_FINISH (s.PrepareStream [] 0)).2.GrowDstBuffer
      refine ⟨rest, ?_⟩
      rw [hr]
      show (call c.deflate .Z_FINISH (s.PrepareStream [] 0)).2.availOutLog ++ rest = _
      rw [call_log, List.append_assoc]
      rfl
    · simp only [h2, if_false]
      exact ⟨[], call_log _ _ _⟩

end BufferedZLibStream

set_option maxRecDepth 100000 in
/-- C37, where the code departs from it: `CompressFinish` calls `deflate`
without output space when the output so far fills the buffer exactly.  With
the storing stand-in for zlib, `Compress` on 1024 bytes returns with
`writeOffset_` = 1024 = the size of the buffer, its one call of `deflate`
made with `avail_out` = 1024.  `CompressFinish` on that stream calls
`deflate` with `avail_out` = 0 and throws on the `Z_BUF_ERROR` it gets back.
For every codec and every stream whose `writeOffset_` is the size of the
buffer, the first call of `deflate` in `CompressFinish` is made with
`avail_out` = 0. -/
theorem CompressFinish_calls_deflate_without_output_space :
    (BufferedZLibStream.new ZCodec.copy ()).Compress (List.replicate 1024 7) 1024 1 =
      .returned filledStream ∧
    filledStream.writeOffset_ = 1024 ∧ filledStream.dstBuffer_.length = 1024 ∧
    filledStream.availOutLog = [1024] ∧
    (∃ s, filledStream.CompressFinish 1 = .thrown .deflateFailedCompressFinish s ∧
      s.availOutLog = [1024, 0]) ∧
    (∀ (c : ZCodec) (dst : List Byte) (zStm : z_stream c.State) (log : List Nat) (n : Nat),
      ∃ rest, (BufferedZLibStream.CompressFinish ⟨dst, dst.length, zStm, log⟩
        (n + 1)).object.availOutLog = log ++ 0 :: rest) := by
  refine ⟨rfl, rfl, rfl, rfl, ⟨_, rfl, rfl⟩, ?_⟩
  intro c dst zStm log n
  obtain ⟨rest, hr⟩ := BufferedZLibStream.CompressFinish_first_call n
    (⟨dst, dst.length, zStm, log⟩ : BufferedZLibStream c)
  refine ⟨rest, ?_⟩
  rw [hr]
  show log ++ (dst.length + 2 ^ 32 - dst.length) % 2 ^ 32 :: rest = _
  rw [Nat.add_sub_cancel_left, Nat.mod_self]

namespace BufferedZLibStream

/-- `ClearDst` sets the output length to 0 and leaves the buffer as it is. -/
theorem ClearDst_length {c : ZCodec} (s : BufferedZLibStream c) :
    s.ClearDst.GetDstLength = 0 ∧ s.ClearDst.dstBuffer_ = s.dstBuffer_ := ⟨rfl, rfl⟩

theorem GrowDstBuffer_avail_in {c : ZCodec} (s : BufferedZLibStream c) :
    s.GrowDstBuffer.zStm_.avail_in = s.zStm_.avail_in := rfl

/-- A call of `inflate` of the stand-in that expands without end. -/
theorem call_zeros (s : BufferedZLibStream ZCodec.zeros) (a : Nat)
    (ha : s.zStm_.avail_out = a) (h0 : a ≠ 0) :
    (call ZCodec.zeros.inflate .Z_NO_FLUSH s).1 = .Z_OK ∧
    (call ZCodec.zeros.inflate .Z_NO_FLUSH s).2.zStm_.avail_in = s.zStm_.avail_in ∧
    (call ZCodec.zeros.inflate .Z_NO_FLUSH s).2.zStm_.avail_out = 0 ∧
    (call ZCodec.zeros.inflate .Z_NO_FLUSH s).2.writeOffset_ = (s.writeOffset_ + a) % 2 ^ 32 := by
  subst ha
  have e : ZCodec.zeros.inflate s.zStm_.state .Z_NO_FLUSH
      (s.zStm_.next_in.take s.zStm_.avail_in) s.zStm_.avail_out =
      ⟨.Z_OK, (), 0, List.replicate s.zStm_.avail_out 0⟩ := by
    show (if s.zStm_.avail_out = 0 then _ else _) = _
    rw [if_neg h0]
  have e2 : (List.take s.zStm_.avail_out (List.replicate s.zStm_.avail_out (0 : Byte))).length =
      s.zStm_.avail_out := by
    rw [List.length_take, List.length_replicate, Nat.min_self]
  refine ⟨?_, ?_, ?_, ?_⟩
  · show (ZCodec.zeros.inflate s.zStm_.state .Z_NO_FLUSH
      (s.zStm_.next_in.take s.zStm_.avail_in) s.zStm_.avail_out).status = _
    rw [e]
  · show s.zStm_.avail_in - min (ZCodec.zeros.inflate s.zStm_.state .Z_NO_FLUSH
      (s.zStm_.next_in.take s.zStm_.avail_in) s.zStm_.avail_out).taken s.zStm_.avail_in = _
    rw [e]
    show s.zStm_.avail_in - min 0 s.zStm_.avail_in = _
    rw [Nat.zero_min, Nat.sub_zero]
  · show s.zStm_.avail_out - (List.take s.zStm_.avail_out (ZCodec.zeros.inflate s.zStm_.state
      .Z_NO_FLUSH (s.zStm_.next_in.take s.zStm_.avail_in) s.zStm_.avail_out).written).length = _
    rw [e]
    show s.zStm_.avail_out -
      (List.take s.zStm_.avail_out (List.replicate s.zStm_.avail_out (0 : Byte))).length = _
    rw [e2, Nat.sub_self]
  · show (s.writeOffset_ + (s.zStm_.total_out + (List.take s.zStm_.avail_out
      (ZCodec.zeros.inflate s.zStm_.state .Z_NO_FLUSH (s.zStm_.next_in.take s.zStm_.avail_in)
        s.zStm_.avail_out).written).length - s.zStm_.total_out)) % 2 ^ 32 = _
    rw [e]
    show (s.writeOffset_ + (s.zStm_.total_out + (List.take s.zStm_.avail_out
      (List.replicate s.zStm_.avail_out (0 : Byte))).length - s.zStm_.total_out)) % 2 ^ 32 = _
    rw [e2, Nat.add_sub_cancel_left]

/-- A pass of the loop of `Decompress` on a full buffer of fewer than 2^31
bytes, with the stand-in that expands without end: the buffer is grown to
twice the size and filled. -/
theorem feed_zeros_full (s : BufferedZLibStream ZCodec.zeros) (size : Nat)
    (hf : Full size s) (h0 : 0 < size) (h31 : size < 2 ^ 31) :
    (feed ZCodec.zeros.inflate s).1 = .Z_OK ∧ Full (2 * size) (feed ZCodec.zeros.inflate s).2 := by
  obtain ⟨hin, hout, hw, hl⟩ := hf
  have ha : s.GrowDstBuffer.zStm_.avail_out = size := by
    show (s.zStm_.avail_out + s.dstBuffer_.length % 2 ^ 32) % 2 ^ 32 = size
    rw [hout, hl, Nat.zero_add, Nat.mod_mod, Nat.mod_eq_of_lt (by omega)]
  have hg : s.GrowDstBuffer.dstBuffer_.length = 2 * size := by
    rw [GrowDstBuffer_length, hl, Nat.mod_eq_of_lt (show size < 2 ^ 32 by omega),
      Nat.mod_eq_of_lt (by omega), Nat.mul_comm]
  obtain ⟨c1, c2, c3, c4⟩ := call_zeros s.GrowDstBuffer size ha (by omega)
  unfold feed
  rw [if_pos hout]
  refine ⟨c1, ?_, c3, ?_, ?_⟩
  · rw [c2, GrowDstBuffer_avail_in]
    exact hin
  · rw [c4]
    show (s.writeOffset_ + size) % 2 ^ 32 = 2 * size
    rw [hw, Nat.mod_eq_of_lt (by omega)]
    omega
  · rw [call_length, hg]

theorem PrepareStream_avail_out {c : ZCodec} (s : BufferedZLibStream c) (src : List Byte)
    (len : Nat) :
    (s.PrepareStream src len).zStm_.avail_out =
      (s.dstBuffer_.length + 2 ^ 32 - s.writeOffset_) % 2 ^ 32 := rfl

theorem PrepareStream_avail_in {c : ZCodec} (s : BufferedZLibStream c) (src : List Byte)
    (len : Nat) : (s.PrepareStream src len).zStm_.avail_in = len % 2 ^ 32 := rfl

theorem Decompress_loop_pass {c : ZCodec} (n : Nat) (s : BufferedZLibStream c)
    (hin : s.zStm_.avail_in ≠ 0) (hok : (feed c.inflate s).1 = .Z_OK) :
    Decompress.loop (n + 1) s = Decompress.loop n (feed c.inflate s).2 := by
  rw [Decompress.loop, if_pos hin]
  show (if (feed c.inflate s).1 = .Z_STREAM_END then _
    else if (feed c.inflate s).1 ≠ .Z_OK then _ else _) = _
  rw [hok, if_neg (by decide), if_neg (by decide)]
  rfl

theorem Decompress_loop_zeros (k : Nat) :
    ∀ (size : Nat) (s : BufferedZLibStream ZCodec.zeros) (n : Nat), Full size s → 0 < size →
      size * 2 ^ k ≤ 2 ^ 31 →
      Decompress.loop (k + n) s =
        Decompress.loop n ((fun s => (feed ZCodec.zeros.inflate s).2)^[k] s) ∧
      Full (size * 2 ^ k) ((fun s => (feed ZCodec.zeros.inflate s).2)^[k] s) := by
  induction k with
  | zero =>
    intro size s n hf _ _
    exact ⟨by rw [Nat.zero_add]; rfl, by rw [Nat.pow_zero, Nat.mul_one]; exact hf⟩
  | succ k ih =>
    intro size s n hf h0 hk
    have hp : 0 < 2 ^ k := Nat.two_pow_pos k
    have e2 : size * 2 ^ (k + 1) = 2 * size * 2 ^ k := by
      rw [Nat.pow_succ]
      ring
    have h31 : size < 2 ^ 31 := by
      have : 2 * size * 1 ≤ 2 * size * 2 ^ k := Nat.mul_le_mul_left _ hp
      omega
    obtain ⟨f1, f2⟩ := feed_zeros_full s size hf h0 h31
    obtain ⟨hs2, hf2⟩ := ih (2 * size) (feed ZCodec.zeros.inflate s).2 n f2 (by omega)
      (by rw [← e2]; exact hk)
    rw [Function.iterate_succ_apply]
    refine ⟨?_, by rw [e2]; exact hf2⟩
    rw [← hs2, show k + 1 + n = (k + n) + 1 by omega]
    exact Decompress_loop_pass (k + n) s hf.1 f1

/-- The first pass of `Decompress` on a fresh stream, with the stand-in that
expands without end: the initial buffer is filled. -/
theorem Decompress_zeros_first (n : Nat) :
    (new ZCodec.zeros ()).Decompress [0] 1 (n + 1) =
      Decompress.loop n (feed ZCodec.zeros.inflate
        ((new ZCodec.zeros ()).PrepareStream [0] 1)).2 ∧
    Full 1024 (feed ZCodec.zeros.inflate ((new ZCodec.zeros ()).PrepareStream [0] 1)).2 := by
  have hl : ((new ZCodec.zeros ()).PrepareStream [0] 1).dstBuffer_.length = 1024 :=
    List.length_replicate _ _
  have hw : ((new ZCodec.zeros ()).PrepareStream [0] 1).writeOffset_ = 0 := rfl
  have ha : ((new ZCodec.zeros ()).PrepareStream [0] 1).zStm_.avail_out = 1024 := by
    have hl2 : (new ZCodec.zeros ()).dstBuffer_.length = 1024 := List.length_replicate _ _
    have hw2 : (new ZCodec.zeros ()).writeOffset_ = 0 := rfl
    rw [PrepareStream_avail_out, hl2, hw2]
    norm_num
  have hin : ((new ZCodec.zeros ()).PrepareStream [0] 1).zStm_.avail_in ≠ 0 := by
    rw [PrepareStream_avail_in]
    norm_num
  unfold Decompress
  generalize (new ZCodec.zeros ()).PrepareStream [0] 1 = s0 at hl hw ha hin ⊢
  obtain ⟨c1, c2, c3, c4⟩ := call_zeros s0 1024 ha (by norm_num)
  have hfeed : feed ZCodec.zeros.inflate s0 = call ZCodec.zeros.inflate .Z_NO_FLUSH s0 := by
    unfold feed
    rw [if_neg (by rw [ha]; norm_num)]
  refine ⟨Decompress_loop_pass n s0 hin (by rw [hfeed]; exact c1), ?_⟩
  rw [hfeed]
  refine ⟨?_, c3, ?_, ?_⟩
  · rw [c2]
    exact hin
  · rw [c4, hw]
    norm_num
  · rw [call_length]
    exact hl

/-- On a full buffer of 2^31 bytes `GrowDstBuffer` computes the new size
2^32 in 32-bit arithmetic: the buffer is resized to 0 bytes while
`writeOffset_` stays at 2^31 and `avail_out` becomes 2^31. -/
theorem GrowDstBuffer_wraps {c : ZCodec} (s : BufferedZLibStream c)
    (hout : s.zStm_.avail_out = 0) (hl : s.dstBuffer_.length = 2 ^ 31) :
    s.GrowDstBuffer.dstBuffer_.length = 0 ∧ s.GrowDstBuffer.zStm_.avail_out = 2 ^ 31 ∧
      s.GrowDstBuffer.writeOffset_ = s.writeOffset_ ∧
      s.GrowDstBuffer.zStm_.next_out = s.writeOffset_ := by
  refine ⟨?_, ?_, rfl, rfl⟩
  · rw [GrowDstBuffer_length, hl]
    norm_num
  · show (s.zStm_.avail_out + s.dstBuffer_.length % 2 ^ 32) % 2 ^ 32 = 2 ^ 31
    rw [hout, hl]
    norm_num

end BufferedZLibStream

/-- C38, where the code departs from it: `GrowDstBuffer` computes
`oldLength * 2` in 32-bit `unsigned` arithmetic, so the 22nd call resizes
the buffer of 2^31 bytes to 0 bytes instead of doubling it.  With the
stand-in for an input that expands without end, `Decompress` on a fresh
stream is still in its loop after 22 passes, on a stream that keeps the
invariant with a full buffer of 1024 * 2^21 = 2^31 bytes.  `GrowDstBuffer`
on that stream leaves a buffer of 0 bytes with `writeOffset_` = 2^31 and
`avail_out` = 2^31: the invariant is broken, `writeOffset_` is beyond the
buffer.  The 23rd pass makes that call and then calls `inflate` with
`avail_out` = 2^31 on the empty buffer. -/
theorem GrowDstBuffer_resizes_to_zero :
    ∃ s : BufferedZLibStream ZCodec.zeros,
      (BufferedZLibStream.new ZCodec.zeros ()).Decompress [0] 1 22 = .running s ∧
      s.Fits ∧ s.dstBuffer_.length = 1024 * 2 ^ 21 ∧ s.writeOffset_ = 2 ^ 31 ∧
      s.zStm_.avail_out = 0 ∧
      s.GrowDstBuffer.dstBuffer_.length = 0 ∧ s.GrowDstBuffer.writeOffset_ = 2 ^ 31 ∧
      s.GrowDstBuffer.zStm_.avail_out = 2 ^ 31 ∧ ¬ s.GrowDstBuffer.Fits ∧
      ¬ s.GrowDstBuffer.writeOffset_ ≤ s.GrowDstBuffer.dstBuffer_.length ∧
      ∃ s2, (BufferedZLibStream.new ZCodec.zeros ()).Decompress [0] 1 23 = .running s2 ∧
        s2.availOutLog = s.availOutLog ++ [2 ^ 31] ∧ s2.dstBuffer_.length = 0 := by
  obtain ⟨h1, f1⟩ := BufferedZLibStream.Decompress_zeros_first 21
  obtain ⟨h2, f2⟩ := BufferedZLibStream.Decompress_loop_zeros 21 1024 _ 0 f1 (by norm_num)
    (by norm_num)
  obtain ⟨h3, _⟩ := BufferedZLibStream.Decompress_zeros_first 22
  obtain ⟨h4, _⟩ := BufferedZLibStream.Decompress_loop_zeros 21 1024 _ 1 f1 (by norm_num)
    (by norm_num)
  rw [h2] at h1
  rw [h4] at h3
  generalize (fun s => (BufferedZLibStream.feed ZCodec.zeros.inflate s).2)^[21]
    (BufferedZLibStream.feed ZCodec.zeros.inflate
      ((BufferedZLibStream.new ZCodec.zeros ()).PrepareStream [0] 1)).2 = s at h1 h3 f2
  obtain ⟨hin, hout, hw, hl⟩ := f2
  have e31 : 1024 * 2 ^ 21 = 2 ^ 31 := by norm_num
  obtain ⟨g1, g2, g3, _⟩ := BufferedZLibStream.GrowDstBuffer_wraps s hout (hl.trans e31)
  obtain ⟨c1, c2, _, _⟩ := BufferedZLibStream.call_zeros s.GrowDstBuffer (2 ^ 31) g2
    (by norm_num)
  have hfeed : BufferedZLibStream.feed ZCodec.zeros.inflate s =
      BufferedZLibStream.call ZCodec.zeros.inflate .Z_NO_FLUSH s.GrowDstBuffer := by
    unfold BufferedZLibStream.feed
    rw [if_pos hout]
  have hrun : ∀ t : BufferedZLibStream ZCodec.zeros, t.zStm_.avail_in ≠ 0 →
      BufferedZLibStream.Decompress.loop 0 t = .running t := by
    intro t ht
    rw [BufferedZLibStream.Decompress.loop, if_pos ht]
  refine ⟨s, ?_, ?_, hl, hw.trans e31, hout, g1, g3.trans (hw.trans e31), g2, ?_, ?_,
    (BufferedZLibStream.feed ZCodec.zeros.inflate s).2, ?_, ?_, ?_⟩
  · rw [h1]
    exact hrun s hin
  · show _ + _ = _
    rw [hout, hw, hl, Nat.add_zero]
  · show ¬ (_ + _ = _)
    rw [g1, g2, g3, hw, e31]
    norm_num
  · rw [g1, g3, hw, e31]
    norm_num
  · rw [h3, BufferedZLibStream.Decompress_loop_pass 0 s hin (by rw [hfeed]; exact c1)]
    apply hrun
    rw [hfeed, c2, BufferedZLibStream.GrowDstBuffer_avail_in]
    exact hin
  · rw [BufferedZLibStream.feed_log, if_pos hout, hl, e31]
    norm_num
  · rw [hfeed, BufferedZLibStream.call_length, g1]

end MiniPNG
